import Mathlib

/-!
# Image augmentation engine (`src/App.jsx`): embedding and verified properties

JavaScript numbers are embedded as rationals (`ℚ`).  Where a stored byte or a
reported integer is given by a formula, every operation is followed by the
binary64 rounding `toDouble` (`fadd`, `fsub`, `fmul`, `fdiv`): in `brightness`,
`contrast`, `colorJitter`, `intensity` and `edgeEnhance`, in the progress value
`progressDouble`, and in `rgbToHsvDouble`.  The canvas transforms, `erase`,
`waveNoise`, `noise`, `fancyPca`, and the colour-space functions `rgbToHsv` and
`hsvToRgb` used by `hsvJitter` and `randomHsv` are over exact rationals; what is
proved of them (ranges, frames, the sign of a remainder, sample bytes) does not
depend on rounding.  Overflow to an infinity and `NaN` are outside the
embedding.  Bytes of a pixel buffer are natural numbers, stored through the
`Uint8ClampedArray` conversion `toUint8Clamp`.
-/

namespace ImageAug

/-! ## Binary64 arithmetic -/

/-- Nearest integer, ties to the even one. -/
def roundHalfEven (t : ℚ) : ℤ :=
  if t < (⌊t⌋ : ℚ) + 1 / 2 then ⌊t⌋
  else if (⌊t⌋ : ℚ) + 1 / 2 < t then ⌊t⌋ + 1
  else if ⌊t⌋ % 2 = 0 then ⌊t⌋
  else ⌊t⌋ + 1

/-- Exponent `e` of the binade `[2 ^ e, 2 ^ (e + 1))` that holds `|x|`; `-1022`
for zero and the subnormal range. -/
def binade (x : ℚ) : ℤ := if |x| < (2 : ℚ) ^ (-1022 : ℤ) then -1022 else Int.log 2 |x|

/-- Spacing of the binary64 numbers in the binade of `x` (53-bit significand). -/
def ulp (x : ℚ) : ℚ := (2 : ℚ) ^ (binade x - 52)

/-- The binary64 number nearest to `x`, ties to the even significand
(the rounding IEEE 754 applies to the exact result of an operation). -/
def toDouble (x : ℚ) : ℚ := (roundHalfEven (x / ulp x) : ℚ) * ulp x

/-- JavaScript `x + y` on numbers. -/
def fadd (x y : ℚ) : ℚ := toDouble (x + y)

/-- JavaScript `x - y` on numbers. -/
def fsub (x y : ℚ) : ℚ := toDouble (x - y)

/-- JavaScript `x * y` on numbers. -/
def fmul (x y : ℚ) : ℚ := toDouble (x * y)

/-- JavaScript `x / y` on numbers, for `y` other than zero. -/
def fdiv (x y : ℚ) : ℚ := toDouble (x / y)

/-! ## Colour-space conversion -/

/-- Result record `{ h, s, v }` of `rgbToHsv`. -/
structure Hsv where
  h : ℚ
  s : ℚ
  v : ℚ
deriving DecidableEq

/-- Result record `{ r, g, b }` of `hsvToRgb`. -/
structure Rgb where
  r : ℚ
  g : ℚ
  b : ℚ
deriving DecidableEq

/-- `rgbToHsv` of `App.jsx`, lines 15-36, over exact rationals. -/
def rgbToHsv (r g b : ℚ) : Hsv :=
  let mn := min (min r g) b
  let mx := max (max r g) b
  let delta := mx - mn
  let v := mx
  let s := if mx = 0 then 0 else delta / mx
  let h :=
    if mx = mn then 0
    else if mx = r then (g - b) / delta + (if g < b then 6 else 0)
    else if mx = g then (b - r) / delta + 2
    else (r - g) / delta + 4
  { h := h * 60, s := s, v := v }

/-- `rgbToHsv` of `App.jsx`, lines 15-36, with every operation rounded to
binary64. -/
def rgbToHsvDouble (r g b : ℚ) : Hsv :=
  let mn := min (min r g) b
  let mx := max (max r g) b
  let delta := fsub mx mn
  let v := mx
  let s := if mx = 0 then 0 else fdiv delta mx
  let h :=
    if mx = mn then 0
    else if mx = r then fadd (fdiv (fsub g b) delta) (if g < b then 6 else 0)
    else if mx = g then fadd (fdiv (fsub b r) delta) 2
    else fadd (fdiv (fsub r g) delta) 4
  { h := fmul h 60, s := s, v := v }

/-- `hsvToRgb` of `App.jsx`, lines 39-58.  `%` is JavaScript's remainder, which
truncates towards zero (`Int.tmod`), so a negative sector index reaches the
`default` branch. -/
def hsvToRgb (h s v : ℚ) : Rgb :=
  let i := Int.tmod ⌊h / 60⌋ 6
  let f := h / 60 - (⌊h / 60⌋ : ℚ)
  let p := v * (1 - s)
  let q := v * (1 - f * s)
  let t := v * (1 - (1 - f) * s)
  if i = 0 then { r := v, g := t, b := p }
  else if i = 1 then { r := q, g := v, b := p }
  else if i = 2 then { r := p, g := v, b := t }
  else if i = 3 then { r := p, g := q, b := v }
  else if i = 4 then { r := t, g := p, b := v }
  else if i = 5 then { r := v, g := p, b := q }
  else { r := 0, g := 0, b := 0 }

/-! ## Typed arrays and loops -/

/-- Conversion applied by a `Uint8ClampedArray` when a number is stored into it:
clamp to `[0, 255]`, round to the nearest integer, ties to the even one. -/
def toUint8Clamp (x : ℚ) : Nat :=
  if x ≤ 0 then 0
  else if 255 ≤ x then 255
  else if (⌊x⌋ : ℚ) + 1 / 2 < x then (⌊x⌋ + 1).toNat
  else if x < (⌊x⌋ : ℚ) + 1 / 2 then ⌊x⌋.toNat
  else if ⌊x⌋ % 2 = 0 then ⌊x⌋.toNat
  else (⌊x⌋ + 1).toNat

/-- Read of `data[i]` as a number. -/
def rd (d : List Nat) (i : Nat) : ℚ := ((d.getD i 0 : Nat) : ℚ)

/-- Assignment `data[i] = x` into a `Uint8ClampedArray`; an index past the end
is ignored. -/
def store (d : List Nat) (i : Nat) (x : ℚ) : List Nat := d.set i (toUint8Clamp x)

/-- Loop `for (let i = 0; i < n; i++) body(i)` threading the state `s`. -/
def forRange {σ : Type} : Nat → (Nat → σ → σ) → σ → σ
  | 0, _, s => s
  | n + 1, body, s => body n (forRange n body s)

/-- Loop `for (let i = 0; i < data.length; i += 4) body(i)` over a pixel buffer. -/
def forPixels (body : Nat → List Nat → List Nat) (d : List Nat) : List Nat :=
  forRange ((d.length + 3) / 4) (fun k acc => body (4 * k) acc) d

/-- List `[f 0, ..., f (n - 1)]`. -/
def tabulate (n : Nat) (f : Nat → Nat) : List Nat := (List.range n).map f

/-- `Math.min(255, Math.max(0, x))`. -/
def clampMinMax (x : ℚ) : ℚ := min 255 (max 0 x)

/-- `Math.max(0, Math.min(255, x))`. -/
def clampMaxMin (x : ℚ) : ℚ := max 0 (min 255 x)

/-- `Math.max(0, Math.min(1, x))`. -/
def clampUnit (x : ℚ) : ℚ := max 0 (min 1 x)

/-- JavaScript `x % m` on numbers: the remainder has the sign of the dividend. -/
def jsRem (x m : ℚ) : ℚ :=
  x - m * (if 0 ≤ x / m then (⌊x / m⌋ : ℚ) else (⌈x / m⌉ : ℚ))

/-- Functions and constants of the JavaScript `Math` object that have no
rational closed form; the embedding is parametric in them. -/
structure JsMath where
  sin : ℚ → ℚ
  cos : ℚ → ℚ
  sqrt : ℚ → ℚ
  PI : ℚ

/-! ## Images and the 2D canvas

The canvas keeps straight (non-premultiplied) 8-bit RGBA, row-major, and
samples a drawn image at destination pixel centres (nearest neighbour). -/

/-- Decoded image or canvas used as a drawing source: `width`, `height` and the
RGBA buffer of length `width * height * 4`. -/
structure Image where
  width : Nat
  height : Nat
  data : List Nat
deriving DecidableEq

/-- Current transformation matrix `[a c e; b d f; 0 0 1]` of a 2D context. -/
structure Transform where
  a : ℚ
  b : ℚ
  c : ℚ
  d : ℚ
  e : ℚ
  f : ℚ
deriving DecidableEq

/-- Identity matrix. -/
def Transform.identity : Transform := { a := 1, b := 0, c := 0, d := 1, e := 0, f := 0 }

/-- Matrix product `m * n` (`n` is applied to a point first). -/
def Transform.mul (m n : Transform) : Transform :=
  { a := m.a * n.a + m.c * n.b
    b := m.b * n.a + m.d * n.b
    c := m.a * n.c + m.c * n.d
    d := m.b * n.c + m.d * n.d
    e := m.a * n.e + m.c * n.f + m.e
    f := m.b * n.e + m.d * n.f + m.f }

/-- Image of the point `(x, y)`. -/
def Transform.apply (m : Transform) (x y : ℚ) : ℚ × ℚ :=
  (m.a * x + m.c * y + m.e, m.b * x + m.d * y + m.f)

/-- Determinant of the linear part. -/
def Transform.det (m : Transform) : ℚ := m.a * m.d - m.b * m.c

/-- Inverse matrix (meaningful when the determinant is not zero). -/
def Transform.inverse (m : Transform) : Transform :=
  { a := m.d / m.det
    b := -m.b / m.det
    c := -m.c / m.det
    d := m.a / m.det
    e := (m.c * m.f - m.d * m.e) / m.det
    f := (m.b * m.e - m.a * m.f) / m.det }

/-- Matrix of a translation by `(tx, ty)`. -/
def Transform.shift (tx ty : ℚ) : Transform :=
  { a := 1, b := 0, c := 0, d := 1, e := tx, f := ty }

/-- Matrix of a scaling by `(sx, sy)`. -/
def Transform.scaling (sx sy : ℚ) : Transform :=
  { a := sx, b := 0, c := 0, d := sy, e := 0, f := 0 }

/-- Matrix of a rotation by `angle` radians. -/
def Transform.rotation (M : JsMath) (angle : ℚ) : Transform :=
  { a := M.cos angle, b := M.sin angle, c := -M.sin angle, d := M.cos angle, e := 0, f := 0 }

/-- A canvas with its 2D context: bitmap, current matrix and the stack of
matrices pushed by `save`. -/
structure Canvas where
  width : Nat
  height : Nat
  data : List Nat
  ctm : Transform
  saved : List Transform
deriving DecidableEq

/-- `document.createElement("canvas")` followed by setting `width` and `height`:
a transparent black bitmap and the identity matrix. -/
def Canvas.create (w h : Nat) : Canvas :=
  { width := w, height := h, data := List.replicate (w * h * 4) 0,
    ctm := Transform.identity, saved := [] }

/-- The canvas read as an image (a canvas is a valid `drawImage` source). -/
def Canvas.toImage (cv : Canvas) : Image :=
  { width := cv.width, height := cv.height, data := cv.data }

/-- `ctx.translate(tx, ty)`. -/
def Canvas.translate (cv : Canvas) (tx ty : ℚ) : Canvas :=
  { cv with ctm := cv.ctm.mul (Transform.shift tx ty) }

/-- `ctx.scale(sx, sy)`. -/
def Canvas.scale (cv : Canvas) (sx sy : ℚ) : Canvas :=
  { cv with ctm := cv.ctm.mul (Transform.scaling sx sy) }

/-- `ctx.rotate(angle)`. -/
def Canvas.rotate (M : JsMath) (cv : Canvas) (angle : ℚ) : Canvas :=
  { cv with ctm := cv.ctm.mul (Transform.rotation M angle) }

/-- `ctx.save()`. -/
def Canvas.save (cv : Canvas) : Canvas :=
  { cv with saved := cv.ctm :: cv.saved }

/-- `ctx.restore()`; nothing happens on an empty stack. -/
def Canvas.restore (cv : Canvas) : Canvas :=
  match cv.saved with
  | [] => cv
  | m :: rest => { cv with ctm := m, saved := rest }

/-- Source-over compositing of channel `c` (`3` is alpha) of a source pixel with
channel value `sc` and alpha `sa` onto a destination pixel with channel value
`dc` and alpha `da`. -/
def compositeChannel (sc sa dc da c : Nat) : Nat :=
  if sa = 255 ∨ da = 0 then sc
  else if c = 3 then toUint8Clamp ((sa : ℚ) + (da : ℚ) * (255 - (sa : ℚ)) / 255)
  else toUint8Clamp
    (((sc : ℚ) * (sa : ℚ) + (dc : ℚ) * (da : ℚ) * (255 - (sa : ℚ)) / 255)
      / ((sa : ℚ) + (da : ℚ) * (255 - (sa : ℚ)) / 255))

/-- `ctx.drawImage(img, sx, sy, sw, sh, dx, dy, dw, dh)`: the source rectangle is
mapped onto the destination rectangle under the current matrix; nothing is
drawn for an empty source rectangle or a singular matrix. -/
def Canvas.drawImageRect (cv : Canvas) (img : Image) (sx sy sw sh dx dy dw dh : ℚ) : Canvas :=
  if cv.ctm.det = 0 ∨ sw = 0 ∨ sh = 0 then cv
  else
    { cv with data := tabulate cv.data.length (fun k =>
        let p := k / 4
        let c := k % 4
        let l := cv.ctm.inverse.apply ((p % cv.width : Nat) + 1 / 2) ((p / cv.width : Nat) + 1 / 2)
        let qx := sx + (l.1 - dx) * sw / dw
        let qy := sy + (l.2 - dy) * sh / dh
        if dx ≤ l.1 ∧ l.1 < dx + dw ∧ dy ≤ l.2 ∧ l.2 < dy + dh ∧
            0 ≤ qx ∧ qx < img.width ∧ 0 ≤ qy ∧ qy < img.height then
          let q := ⌊qy⌋.toNat * img.width + ⌊qx⌋.toNat
          compositeChannel (img.data.getD (4 * q + c) 0) (img.data.getD (4 * q + 3) 0)
            (cv.data.getD k 0) (cv.data.getD (4 * p + 3) 0) c
        else cv.data.getD k 0) }

/-- `ctx.drawImage(img, dx, dy)`: the image at its natural size with its top
left corner at `(dx, dy)` under the current matrix. -/
def Canvas.drawImage (cv : Canvas) (img : Image) (dx dy : ℚ) : Canvas :=
  if (cv.ctm.mul (Transform.shift dx dy)).det = 0 then cv
  else
    { cv with data := tabulate cv.data.length (fun k =>
        let p := k / 4
        let c := k % 4
        let l := (cv.ctm.mul (Transform.shift dx dy)).inverse.apply
          ((p % cv.width : Nat) + 1 / 2) ((p / cv.width : Nat) + 1 / 2)
        if 0 ≤ l.1 ∧ l.1 < img.width ∧ 0 ≤ l.2 ∧ l.2 < img.height then
          let q := ⌊l.2⌋.toNat * img.width + ⌊l.1⌋.toNat
          compositeChannel (img.data.getD (4 * q + c) 0) (img.data.getD (4 * q + 3) 0)
            (cv.data.getD k 0) (cv.data.getD (4 * p + 3) 0) c
        else cv.data.getD k 0) }

/-- `ctx.fillStyle = '#000'; ctx.fillRect(x, y, w, h)`: opaque black on every
pixel whose centre falls in the rectangle. -/
def Canvas.fillRectBlack (cv : Canvas) (x y w h : ℚ) : Canvas :=
  if cv.ctm.det = 0 then cv
  else
    { cv with data := tabulate cv.data.length (fun k =>
        let p := k / 4
        let l := cv.ctm.inverse.apply ((p % cv.width : Nat) + 1 / 2) ((p / cv.width : Nat) + 1 / 2)
        if x ≤ l.1 ∧ l.1 < x + w ∧ y ≤ l.2 ∧ l.2 < y + h then
          (if k % 4 = 3 then 255 else 0)
        else cv.data.getD k 0) }

/-- `ctx.getImageData(0, 0, canvas.width, canvas.height).data`. -/
def Canvas.getImageData (cv : Canvas) : List Nat := cv.data

/-- `ctx.putImageData(imageData, 0, 0)` for image data of the canvas size. -/
def Canvas.putImageData (cv : Canvas) (d : List Nat) : Canvas := { cv with data := d }

/-! ## Operator parameters -/

/-- Configuration object `param` handed to `applyAugmentation`.  A range field
is `none` when the property is absent (reading its element then throws); the
scalar fields are finite numbers. -/
structure Param where
  angleRange : Option (ℚ × ℚ) := none
  ratio : ℚ := 0
  mode : String := ""
  factorRange : Option (ℚ × ℚ) := none
  brightness : ℚ := 0
  contrast : ℚ := 0
  saturation : ℚ := 0
  p : ℚ := 0
  sl : ℚ := 0
  sh : ℚ := 0
  r1 : ℚ := 0
  range : Option (ℚ × ℚ) := none
  amplitude : ℚ := 0
  frequency : ℚ := 0
  alphaStd : ℚ := 0
  hShift : ℚ := 0
  sScale : Option (ℚ × ℚ) := none
  vScale : Option (ℚ × ℚ) := none
  factor : Option (ℚ × ℚ) := none
  strength : ℚ := 0
  hRange : Option (ℚ × ℚ) := none
  sRange : Option (ℚ × ℚ) := none
  vRange : Option (ℚ × ℚ) := none
  gridSize : ℤ := 0

/-! ## Per-channel values written by the pixel operators -/

/-- Value `brightness` computes from channel value `v` and factor `f`. -/
def brightnessValue (v f : ℚ) : ℚ := clampMinMax (fmul v f)

/-- Value `contrast` computes from channel value `v`, factor `f` and the
precomputed `intercept`. -/
def contrastValue (v f intercept : ℚ) : ℚ := clampMinMax (fadd (fmul v f) intercept)

/-- Value the gaussian mode of `noise` computes. -/
def noiseValue (v noise : ℚ) : ℚ := clampMinMax (v + noise)

/-- Value `intensity` computes. -/
def intensityValue (v f : ℚ) : ℚ := clampMaxMin (fmul v f)

/-- Value `fancyPca` computes from channel value `v` and the channel's noise. -/
def pcaValue (v noise : ℚ) : ℚ := clampMaxMin (v + noise * 255)

/-- Value `hsvJitter` and `randomHsv` compute from a channel `x` of `hsvToRgb`. -/
def hsvValue (x : ℚ) : ℚ := clampMaxMin (x * 255)

/-- Value `edgeEnhance` computes from the original channel value `v`, the
convolution sum `conv` and `strength`. -/
def edgeValue (v : ℚ) (conv : ℤ) (strength : ℚ) : ℚ :=
  clampMaxMin (fadd v (fmul (conv : ℚ) strength))

/-! ## Bodies of the per-pixel loops -/

/-- Loop body that replaces each of the three colour bytes at offsets `i`,
`i + 1`, `i + 2` by the stored value of `g` applied to it (the shape shared by
`brightness`, `contrast` and `intensity`). -/
def mapRgbBody (g : ℚ → ℚ) (i : Nat) (d : List Nat) : List Nat :=
  let d1 := store d i (g (rd d i))
  let d2 := store d1 (i + 1) (g (rd d1 (i + 1)))
  store d2 (i + 2) (g (rd d2 (i + 2)))

/-- Body of the `brightness` loop at offset `i`. -/
def brightnessBody (f : ℚ) (i : Nat) (d : List Nat) : List Nat :=
  let d1 := store d i (brightnessValue (rd d i) f)
  let d2 := store d1 (i + 1) (brightnessValue (rd d1 (i + 1)) f)
  store d2 (i + 2) (brightnessValue (rd d2 (i + 2)) f)

/-- Body of the `contrast` loop at offset `i`. -/
def contrastBody (f intercept : ℚ) (i : Nat) (d : List Nat) : List Nat :=
  let d1 := store d i (contrastValue (rd d i) f intercept)
  let d2 := store d1 (i + 1) (contrastValue (rd d1 (i + 1)) f intercept)
  store d2 (i + 2) (contrastValue (rd d2 (i + 2)) f intercept)

/-- Body of the `noise` loop at offset `i`; in the three modes that draw, pixel
number `i / 4` consumes draw number `i / 4`. -/
def noiseBody (mode : String) (u : Nat → ℚ) (i : Nat) (d : List Nat) : List Nat :=
  if mode = "gaussian" then
    let noise := (u (i / 4) - 1 / 2) * 50
    let d1 := store d i (noiseValue (rd d i) noise)
    let d2 := store d1 (i + 1) (noiseValue (rd d1 (i + 1)) noise)
    store d2 (i + 2) (noiseValue (rd d2 (i + 2)) noise)
  else if mode = "salt" then
    if u (i / 4) > 95 / 100 then store (store (store d i 255) (i + 1) 255) (i + 2) 255
    else d
  else if mode = "pepper" then
    if u (i / 4) > 95 / 100 then store (store (store d i 0) (i + 1) 0) (i + 2) 0
    else d
  else d

/-- Body of the `colorJitter` loop at offset `i`: the brightness writes, then
the contrast writes reading the stored brightness results. -/
def colorJitterBody (jb jc intercept : ℚ) (i : Nat) (d : List Nat) : List Nat :=
  contrastBody jc intercept i (brightnessBody jb i d)

/-- Eigenvalues `eigVal` of `fancyPca`. -/
def eigVal : List ℚ := [2175 / 10000, 188 / 10000, 45 / 10000]

/-- Eigenvectors `eigVec` of `fancyPca`. -/
def eigVec : List (List ℚ) :=
  [[5 / 10, 5 / 10, 5 / 10], [3 / 10, 3 / 10, -(6 / 10)], [2 / 10, -(2 / 10), 1 / 10]]

/-- Entry `eigVec[i][j]`. -/
def eigVecAt (i j : Nat) : ℚ := (eigVec.getD i []).getD j 0

/-- Entry `noise[c]` of `fancyPca` for the coefficients `al`. -/
def pcaNoise (al : Nat → ℚ) (c : Nat) : ℚ :=
  eigVecAt 0 c * eigVal.getD 0 0 * al 0 + eigVecAt 1 c * eigVal.getD 1 0 * al 1
    + eigVecAt 2 c * eigVal.getD 2 0 * al 2

/-- Body of the `fancyPca` loop at offset `i`. -/
def pcaBody (al : Nat → ℚ) (i : Nat) (d : List Nat) : List Nat :=
  let r := rd d i
  let g := rd d (i + 1)
  let b := rd d (i + 2)
  let d1 := store d i (pcaValue r (pcaNoise al 0))
  let d2 := store d1 (i + 1) (pcaValue g (pcaNoise al 1))
  store d2 (i + 2) (pcaValue b (pcaNoise al 2))

/-- Body of the `hsvJitter` loop at offset `i`; pixel number `i / 4` consumes
the draws `2 * (i / 4)` (saturation) and `2 * (i / 4) + 1` (value). -/
def hsvJitterBody (hShift : ℚ) (sS vS : ℚ × ℚ) (u : Nat → ℚ) (i : Nat) (d : List Nat) :
    List Nat :=
  let r := rd d i / 255
  let g := rd d (i + 1) / 255
  let b := rd d (i + 2) / 255
  let hsv := rgbToHsv r g b
  let h := jsRem (hsv.h + hShift) 360
  let s := clampUnit (hsv.s * (sS.1 + u (2 * (i / 4)) * (sS.2 - sS.1)))
  let v := clampUnit (hsv.v * (vS.1 + u (2 * (i / 4) + 1) * (vS.2 - vS.1)))
  let rgb := hsvToRgb h s v
  let d1 := store d i (hsvValue rgb.r)
  let d2 := store d1 (i + 1) (hsvValue rgb.g)
  store d2 (i + 2) (hsvValue rgb.b)

/-- Body of the `intensity` loop at offset `i`. -/
def intensityBody (f : ℚ) (i : Nat) (d : List Nat) : List Nat :=
  let d1 := store d i (intensityValue (rd d i) f)
  let d2 := store d1 (i + 1) (intensityValue (rd d1 (i + 1)) f)
  store d2 (i + 2) (intensityValue (rd d2 (i + 2)) f)

/-- Body of the `randomHsv` loop at offset `i`. -/
def randomHsvBody (hScale sScale vScale : ℚ) (i : Nat) (d : List Nat) : List Nat :=
  let r := rd d i / 255
  let g := rd d (i + 1) / 255
  let b := rd d (i + 2) / 255
  let hsv := rgbToHsv r g b
  let h := jsRem (hsv.h * hScale / 180) 180
  let s := clampUnit (hsv.s * sScale)
  let v := clampUnit (hsv.v * vScale)
  let rgb := hsvToRgb h s v
  let d1 := store d i (hsvValue rgb.r)
  let d2 := store d1 (i + 1) (hsvValue rgb.g)
  store d2 (i + 2) (hsvValue rgb.b)

/-! ## Displacement, convolution and block permutation -/

/-- The two nested loops of `waveNoise`, reading the copy `temp` and writing
into `d`. -/
def waveLoop (M : JsMath) (amplitude frequency : ℚ) (w h : Nat) (temp d : List Nat) :
    List Nat :=
  forRange h (fun y acc => forRange w (fun x acc =>
    let offset_x : ℤ := ⌊amplitude * M.sin (2 * M.PI * frequency * (y : ℚ))⌋
    let offset_y : ℤ := ⌊amplitude * M.sin (2 * M.PI * frequency * (x : ℚ))⌋
    let src_x : ℤ := max 0 (min ((w : ℤ) - 1) ((x : ℤ) + offset_x))
    let src_y : ℤ := max 0 (min ((h : ℤ) - 1) ((y : ℤ) + offset_y))
    let src_idx : Nat := ((src_y * (w : ℤ) + src_x) * 4).toNat
    let dst_idx : Nat := (y * w + x) * 4
    let d1 := acc.set dst_idx (temp.getD src_idx 0)
    let d2 := d1.set (dst_idx + 1) (temp.getD (src_idx + 1) 0)
    d2.set (dst_idx + 2) (temp.getD (src_idx + 2) 0)) acc) d

/-- The Laplacian `kernel` of `edgeEnhance`. -/
def kernel : List (List ℤ) := [[0, -1, 0], [-1, 4, -1], [0, -1, 0]]

/-- Entry `kernel[ky + 1][kx + 1]` for loop counters `ky + 1`, `kx + 1` in `0..2`. -/
def kernelAt (ky kx : Nat) : ℤ := (kernel.getD ky []).getD kx 0

/-- The two inner loops of `edgeEnhance` at pixel `(x, y)` for channel offset
`c`: the sum of `temp[idx + c] * weight` over the 3 x 3 neighbourhood. -/
def convolve (w : Nat) (temp : List Nat) (x y c : Nat) : ℤ :=
  forRange 3 (fun ky acc => forRange 3 (fun kx acc =>
    let idx := ((y + ky - 1) * w + (x + kx - 1)) * 4
    acc + (temp.getD (idx + c) 0 : ℤ) * kernelAt ky kx) acc) 0

/-- The two outer loops of `edgeEnhance` (`y` in `1 .. height - 2`, `x` in
`1 .. width - 2`). -/
def edgeLoop (strength : ℚ) (w h : Nat) (temp d : List Nat) : List Nat :=
  forRange (h - 2) (fun yy acc => forRange (w - 2) (fun xx acc =>
    let y := yy + 1
    let x := xx + 1
    let r := convolve w temp x y 0
    let g := convolve w temp x y 1
    let b := convolve w temp x y 2
    let i := (y * w + x) * 4
    let d1 := store acc i (edgeValue (rd temp i) r strength)
    let d2 := store d1 (i + 1) (edgeValue (rd temp (i + 1)) g strength)
    store d2 (i + 2) (edgeValue (rd temp (i + 2)) b strength)) acc) d

/-- Element `{ patch, i, j }` of the `patches` array of `patchShuffle`; `patch`
is the list of the block's `[r, g, b, a]` pixels. -/
structure Patch where
  patch : List (List Nat)
  i : Nat
  j : Nat
deriving DecidableEq, Inhabited

/-- Pixels pushed for the block at grid position `(i, j)`. -/
def extractPatch (w h g : Nat) (temp : List Nat) (i j : Nat) : List (List Nat) :=
  forRange g (fun y acc => forRange g (fun x acc =>
    let srcY := i * g + y
    let srcX := j * g + x
    if srcY < h ∧ srcX < w then
      let idx := (srcY * w + srcX) * 4
      acc ++ [[temp.getD idx 0, temp.getD (idx + 1) 0, temp.getD (idx + 2) 0,
        temp.getD (idx + 3) 0]]
    else acc) acc) []

/-- The extraction loops of `patchShuffle`: the array `patches`, row by row. -/
def extractPatches (w h g hGrids wGrids : Nat) (temp : List Nat) : List Patch :=
  forRange hGrids (fun i acc => forRange wGrids (fun j acc =>
    acc ++ [{ patch := extractPatch w h g temp i j, i := i, j := j }]) acc) []

/-- Destructuring swap `[a[i], a[j]] = [a[j], a[i]]`. -/
def swapAt (ps : List Patch) (i j : Nat) : List Patch :=
  (ps.set i (ps.getD j default)).set j (ps.getD i default)

/-- The shuffle loop of `patchShuffle`: `i` runs from `length - 1` down to `1`,
the iteration for `i` consumes draw number `length - 1 - i`. -/
def shufflePatches (u : Nat → ℚ) (ps : List Patch) : List Patch :=
  forRange (ps.length - 1) (fun t acc =>
    let i := ps.length - 1 - t
    let j := ⌊u t * ((i : ℚ) + 1)⌋.toNat
    swapAt acc i j) ps

/-- Innermost body of the reassembly loops: pixel `(x, y)` of `patch` goes to
the grid position `(targetI, targetJ)`. -/
def writePixel (w h g : Nat) (patch : List (List Nat)) (targetI targetJ y x : Nat)
    (acc : List Nat) : List Nat :=
  let dstY := targetI * g + y
  let dstX := targetJ * g + x
  if dstY < h ∧ dstX < w ∧ (y : ℚ) < (patch.length : ℚ) / (g : ℚ) ∧ x < g then
    let pixelIdx := y * g + x
    if pixelIdx < patch.length then
      let dstIdx := (dstY * w + dstX) * 4
      let px := patch.getD pixelIdx []
      let d1 := acc.set dstIdx (px.getD 0 0)
      let d2 := d1.set (dstIdx + 1) (px.getD 1 0)
      let d3 := d2.set (dstIdx + 2) (px.getD 2 0)
      d3.set (dstIdx + 3) (px.getD 3 0)
    else acc
  else acc

/-- Loop `for (let x = 0; x < gridSize; x++)` of the reassembly for row `y`. -/
def writeRow (w h g : Nat) (patch : List (List Nat)) (targetI targetJ y : Nat)
    (acc : List Nat) : List Nat :=
  forRange g (fun x acc => writePixel w h g patch targetI targetJ y x acc) acc

/-- The two inner loops that write one patch at grid position
`(targetI, targetJ)`. -/
def writePatch (w h g : Nat) (patch : List (List Nat)) (targetI targetJ : Nat) (d : List Nat) :
    List Nat :=
  forRange g (fun y acc => writeRow w h g patch targetI targetJ y acc) d

/-- The reassembly loop of `patchShuffle`. -/
def writePatches (w h g hGrids wGrids : Nat) (ps : List Patch) (d : List Nat) : List Nat :=
  forRange ps.length (fun idx acc =>
    let targetIdx := idx % (hGrids * wGrids)
    let targetI := targetIdx / wGrids
    let targetJ := targetIdx % wGrids
    writePatch w h g (ps.getD idx default).patch targetI targetJ acc) d

/-- The block of `case "patchShuffle"` after `drawImage`, on the pixel buffer. -/
def patchShuffleData (gridSize : ℤ) (u : Nat → ℚ) (w h : Nat) (d : List Nat) :
    Option (List Nat) :=
  let g : ℤ := if gridSize = 0 then 16 else gridSize
  let hGrids : ℤ := ⌊(h : ℚ) / (g : ℚ)⌋
  let wGrids : ℤ := ⌊(w : ℚ) / (g : ℚ)⌋
  if 0 < hGrids ∧ 0 < wGrids then
    let patches := extractPatches w h g.toNat hGrids.toNat wGrids.toNat d
    some (writePatches w h g.toNat hGrids.toNat wGrids.toNat (shufflePatches u patches) d)
  else none

/-! ## `applyAugmentation` -/

/-- Result of running the `switch` of `applyAugmentation`: the canvas when the
selected case ran to its end, or the canvas as it was when an exception was
thrown. -/
inductive Outcome where
  | done (cv : Canvas)
  | thrown (cv : Canvas)

/-- The canvas carried by an outcome. -/
def Outcome.canvas : Outcome → Canvas
  | .done cv => cv
  | .thrown cv => cv

/-- `case "hflip"`. -/
def caseHflip (cv : Canvas) (img : Image) : Outcome :=
  .done (((cv.translate cv.width 0).scale (-1) 1).drawImage img 0 0)

/-- `case "vflip"`. -/
def caseVflip (cv : Canvas) (img : Image) : Outcome :=
  .done (((cv.translate 0 cv.height).scale 1 (-1)).drawImage img 0 0)

/-- `case "rotate"`; `angle` is computed before the context is touched. -/
def caseRotate (M : JsMath) (cv : Canvas) (img : Image) (param : Param) : Outcome :=
  match param.angleRange with
  | none => .thrown cv
  | some r =>
    let angle := ((r.1 + r.2) / 2) * M.PI / 180
    let c1 := cv.save.translate ((cv.width : ℚ) / 2) ((cv.height : ℚ) / 2)
    let c2 := Canvas.rotate M c1 angle
    .done (c2.drawImage img (-(img.width : ℚ) / 2) (-(img.height : ℚ) / 2)).restore

/-- `case "crop"`; `param.ratio || 0.8`. -/
def caseCrop (cv : Canvas) (img : Image) (param : Param) : Outcome :=
  let cropRatio : ℚ := if param.ratio = 0 then 8 / 10 else param.ratio
  let cropSize : ℚ := ((min img.width img.height : Nat) : ℚ) * cropRatio
  let cropX := ((img.width : ℚ) - cropSize) / 2
  let cropY := ((img.height : ℚ) - cropSize) / 2
  .done (cv.drawImageRect img cropX cropY cropSize cropSize 0 0 cv.width cv.height)

/-- `case "brightness"`. -/
def caseBrightness (cv : Canvas) (img : Image) (param : Param) : Outcome :=
  let c1 := cv.drawImage img 0 0
  match param.factorRange with
  | none => .thrown c1
  | some r =>
    let brightnessFactor := fdiv (fadd r.1 r.2) 2
    .done (c1.putImageData (forPixels (brightnessBody brightnessFactor) c1.getImageData))

/-- `case "contrast"`. -/
def caseContrast (cv : Canvas) (img : Image) (param : Param) : Outcome :=
  let c1 := cv.drawImage img 0 0
  match param.factorRange with
  | none => .thrown c1
  | some r =>
    let contrastFactor := fdiv (fadd r.1 r.2) 2
    let intercept := fmul 128 (fsub 1 contrastFactor)
    .done (c1.putImageData (forPixels (contrastBody contrastFactor intercept) c1.getImageData))

/-- `case "noise"`. -/
def caseNoise (u : Nat → ℚ) (cv : Canvas) (img : Image) (param : Param) : Outcome :=
  let c1 := cv.drawImage img 0 0
  .done (c1.putImageData (forPixels (noiseBody param.mode u) c1.getImageData))

/-- The cases that only copy the image: `scale`, `blur`, `motionBlur`, `elastic`
and `default`. -/
def caseCopy (cv : Canvas) (img : Image) : Outcome :=
  .done (cv.drawImage img 0 0)

/-- `case "colorJitter"`; the three draws are made in the order brightness,
contrast, saturation and the third is not used. -/
def caseColorJitter (u : Nat → ℚ) (cv : Canvas) (img : Image) (param : Param) : Outcome :=
  let c1 := cv.drawImage img 0 0
  let jitterBrightness := fadd 1 (fmul (fsub (fmul (u 0) 2) 1) param.brightness)
  let jitterContrast := fadd 1 (fmul (fsub (fmul (u 1) 2) 1) param.contrast)
  let jitterIntercept := fmul 128 (fsub 1 jitterContrast)
  .done (c1.putImageData
    (forPixels (colorJitterBody jitterBrightness jitterContrast jitterIntercept)
      c1.getImageData))

/-- `case "erase"`. -/
def caseErase (M : JsMath) (u : Nat → ℚ) (cv : Canvas) (img : Image) (param : Param) :
    Outcome :=
  let c1 := cv.drawImage img 0 0
  if u 0 < param.p then
    let eraseArea := (cv.width : ℚ) * (cv.height : ℚ) * (param.sl + u 1 * (param.sh - param.sl))
    let aspectRatio := param.r1 + u 2 * (1 / param.r1 - param.r1)
    let eraseHeight := M.sqrt (eraseArea * aspectRatio)
    let eraseWidth := eraseArea / eraseHeight
    if eraseHeight < cv.height ∧ eraseWidth < cv.width then
      let x := u 3 * ((cv.width : ℚ) - eraseWidth)
      let y := u 4 * ((cv.height : ℚ) - eraseHeight)
      .done (c1.fillRectBlack x y eraseWidth eraseHeight)
    else .done c1
  else .done c1

/-- `case "translate"`; `ctx.save()` comes before the range is read. -/
def caseTranslate (u : Nat → ℚ) (cv : Canvas) (img : Image) (param : Param) : Outcome :=
  match param.range with
  | none => .thrown cv.save
  | some r =>
    let dx := r.1 + u 0 * (r.2 - r.1)
    let dy := r.1 + u 1 * (r.2 - r.1)
    .done ((cv.save.translate dx dy).drawImage img 0 0).restore

/-- `case "waveNoise"`. -/
def caseWaveNoise (M : JsMath) (cv : Canvas) (img : Image) (param : Param) : Outcome :=
  let c1 := cv.drawImage img 0 0
  let waveData := c1.getImageData
  .done (c1.putImageData
    (waveLoop M param.amplitude param.frequency cv.width cv.height waveData waveData))

/-- `case "fancyPca"`. -/
def caseFancyPca (u : Nat → ℚ) (cv : Canvas) (img : Image) (param : Param) : Outcome :=
  let c1 := cv.drawImage img 0 0
  let alpha : Nat → ℚ := fun k => u k * param.alphaStd * 2 - param.alphaStd
  .done (c1.putImageData (forPixels (pcaBody alpha) c1.getImageData))

/-- `case "hsvJitter"`; the two ranges are read inside the loop, so a missing
range throws only when the buffer is not empty. -/
def caseHsvJitter (u : Nat → ℚ) (cv : Canvas) (img : Image) (param : Param) : Outcome :=
  let c1 := cv.drawImage img 0 0
  if c1.getImageData.length = 0 then .done (c1.putImageData c1.getImageData)
  else
    match param.sScale, param.vScale with
    | some sS, some vS =>
      .done (c1.putImageData (forPixels (hsvJitterBody param.hShift sS vS u) c1.getImageData))
    | _, _ => .thrown c1

/-- `case "intensity"`. -/
def caseIntensity (u : Nat → ℚ) (cv : Canvas) (img : Image) (param : Param) : Outcome :=
  let c1 := cv.drawImage img 0 0
  match param.factor with
  | none => .thrown c1
  | some r =>
    let intensityFactor := fadd r.1 (fmul (u 0) (fsub r.2 r.1))
    .done (c1.putImageData (forPixels (intensityBody intensityFactor) c1.getImageData))

/-- `case "edgeEnhance"`. -/
def caseEdgeEnhance (cv : Canvas) (img : Image) (param : Param) : Outcome :=
  let c1 := cv.drawImage img 0 0
  let edgeData := c1.getImageData
  .done (c1.putImageData (edgeLoop param.strength cv.width cv.height edgeData edgeData))

/-- `case "randomHsv"`. -/
def caseRandomHsv (u : Nat → ℚ) (cv : Canvas) (img : Image) (param : Param) : Outcome :=
  let c1 := cv.drawImage img 0 0
  match param.hRange, param.sRange, param.vRange with
  | some hR, some sR, some vR =>
    let hScale := hR.1 + u 0 * (hR.2 - hR.1)
    let sScale := sR.1 + u 1 * (sR.2 - sR.1)
    let vScale := vR.1 + u 2 * (vR.2 - vR.1)
    .done (c1.putImageData (forPixels (randomHsvBody hScale sScale vScale) c1.getImageData))
  | _, _, _ => .thrown c1

/-- `case "patchShuffle"`. -/
def casePatchShuffle (u : Nat → ℚ) (cv : Canvas) (img : Image) (param : Param) : Outcome :=
  let c1 := cv.drawImage img 0 0
  match patchShuffleData param.gridSize u cv.width cv.height c1.getImageData with
  | some d => .done (c1.putImageData d)
  | none => .done c1

/-- The `switch (augId)` of `applyAugmentation` on the new canvas `cv`.  The
calls of `Math.random()` are numbered from `0` in execution order and `u k` is
the value returned by call number `k`. -/
def runSwitch (M : JsMath) (u : Nat → ℚ) (cv : Canvas) (img : Image) (augId : String)
    (param : Param) : Outcome :=
  if augId = "hflip" then caseHflip cv img
  else if augId = "vflip" then caseVflip cv img
  else if augId = "rotate" then caseRotate M cv img param
  else if augId = "crop" then caseCrop cv img param
  else if augId = "brightness" then caseBrightness cv img param
  else if augId = "contrast" then caseContrast cv img param
  else if augId = "noise" then caseNoise u cv img param
  else if augId = "scale" then caseCopy cv img
  else if augId = "blur" then caseCopy cv img
  else if augId = "colorJitter" then caseColorJitter u cv img param
  else if augId = "motionBlur" then caseCopy cv img
  else if augId = "elastic" then caseCopy cv img
  else if augId = "erase" then caseErase M u cv img param
  else if augId = "translate" then caseTranslate u cv img param
  else if augId = "waveNoise" then caseWaveNoise M cv img param
  else if augId = "fancyPca" then caseFancyPca u cv img param
  else if augId = "hsvJitter" then caseHsvJitter u cv img param
  else if augId = "intensity" then caseIntensity u cv img param
  else if augId = "edgeEnhance" then caseEdgeEnhance cv img param
  else if augId = "randomHsv" then caseRandomHsv u cv img param
  else if augId = "patchShuffle" then casePatchShuffle u cv img param
  else caseCopy cv img

/-- `applyAugmentation(img, augId, param)`: a new canvas of the image's size, the
`switch`, and in the `catch` block one more `drawImage(img, 0, 0)`. -/
def applyAugmentation (M : JsMath) (u : Nat → ℚ) (img : Image) (augId : String)
    (param : Param) : Canvas :=
  match runSwitch M u (Canvas.create img.width img.height) img augId param with
  | .done cv => cv
  | .thrown cv => cv.drawImage img 0 0

/-- Well-formed image: the buffer has `width * height * 4` entries, all bytes. -/
def Image.WF (img : Image) : Prop :=
  img.data.length = img.width * img.height * 4 ∧ ∀ v ∈ img.data, v ≤ 255

instance (img : Image) : Decidable img.WF := by
  unfold Image.WF; infer_instance

/-- The `[r, g, b, a]` pixel in column `x` of row `y` of a buffer with rows of
`w` pixels. -/
def pixelAt (w : Nat) (d : List Nat) (x y : Nat) : List Nat :=
  [d.getD ((y * w + x) * 4) 0, d.getD ((y * w + x) * 4 + 1) 0, d.getD ((y * w + x) * 4 + 2) 0,
    d.getD ((y * w + x) * 4 + 3) 0]

/-- The block in block-row `I` and block-column `J` of an image cut into
`g` x `g` blocks: its pixels in row-major order. -/
def blockAt (img : Image) (g I J : Nat) : List (List Nat) :=
  (List.range (g * g)).map (fun m => pixelAt img.width img.data (J * g + m % g) (I * g + m / g))

/-- All full `g` x `g` blocks of an image, row by row. -/
def blocksOf (img : Image) (g : Nat) : List (List (List Nat)) :=
  (List.range ((img.height / g) * (img.width / g))).map
    (fun n => blockAt img g (n / (img.width / g)) (n % (img.width / g)))

/-- The canvas has width `w`, height `h` and a bitmap of `w * h * 4` entries. -/
def Canvas.Sized (cv : Canvas) (w h : Nat) : Prop :=
  cv.width = w ∧ cv.height = h ∧ cv.data.length = w * h * 4

/-- Every entry of the buffer is a byte. -/
def Bytes (d : List Nat) : Prop := ∀ v ∈ d, v ≤ 255

/-- Matrix under which `case "rotate"` draws the image for `angleRange = r`:
translate to the canvas centre, rotate by the midpoint of `r` in degrees, then
the offset `(-width / 2, -height / 2)` of the `drawImage` call. -/
def rotateNet (M : JsMath) (img : Image) (r : ℚ × ℚ) : Transform :=
  ((Transform.identity.mul (Transform.shift ((img.width : ℚ) / 2) ((img.height : ℚ) / 2))).mul
    (Transform.rotation M (((r.1 + r.2) / 2) * M.PI / 180))).mul
    (Transform.shift (-(img.width : ℚ) / 2) (-(img.height : ℚ) / 2))

/-- A sample `Math` object with rational values, exact at zero. -/
def sampleMath : JsMath :=
  { sin := fun x => x, cos := fun x => 1 - x * x / 2, sqrt := fun x => x, PI := 355 / 113 }

/-! ## Parameter state and its controls -/

/-- Ids of the `augmentations` catalog, in its order. -/
def catalogIds : List String :=
  ["hflip", "vflip", "rotate", "crop", "noise", "brightness", "contrast", "scale", "blur",
    "colorJitter", "motionBlur", "elastic", "erase", "translate", "waveNoise", "fancyPca",
    "hsvJitter", "intensity", "edgeEnhance", "randomHsv", "patchShuffle"]

/-- Value of a property of a configuration object: a number, a two-element
array `[lo, hi]`, or a string. -/
inductive Value where
  | num (x : ℚ)
  | range (lo hi : ℚ)
  | text (s : String)
deriving DecidableEq

/-- A configuration object `params[augId]`: property name to value, `none` for
an absent property. -/
abbrev Config := String → Option Value

/-- The `params` state: operator id to configuration object, `none` for an
absent entry. -/
abbrev ParamSet := String → Option Config

/-- The object `{}`. -/
def emptyConfig : Config := fun _ => none

/-- Object with the listed properties (a later entry for the same name wins). -/
def configOf (props : List (String × Value)) : Config :=
  fun k => (props.reverse.find? (fun e => e.1 = k)).map (fun e => e.2)

/-- Initial value of the `params` state (`useState` in `App`); the decimal
literals read by the operators that are computed in binary64 (`colorJitter`,
`intensity`) are the binary64 numbers they denote. -/
def initialParams : ParamSet := fun a =>
  if a = "rotate" then some (configOf [("angleRange", .range (-30) 30)])
  else if a = "crop" then some (configOf [("ratio", .num (8 / 10))])
  else if a = "noise" then some (configOf [("mode", .text "gaussian")])
  else if a = "brightness" then some (configOf [("factorRange", .range (5 / 10) (15 / 10))])
  else if a = "contrast" then some (configOf [("factorRange", .range (5 / 10) (15 / 10))])
  else if a = "scale" then some (configOf [("range", .range (8 / 10) (12 / 10))])
  else if a = "blur" then some (configOf [("kernelRange", .range 3 7)])
  else if a = "colorJitter" then
    some (configOf [("brightness", .num (toDouble (2 / 10))),
      ("contrast", .num (toDouble (2 / 10))), ("saturation", .num (toDouble (2 / 10)))])
  else if a = "motionBlur" then some (configOf [("size", .num 15)])
  else if a = "elastic" then some (configOf [("alpha", .num 34), ("sigma", .num 4)])
  else if a = "erase" then
    some (configOf [("p", .num (5 / 10)), ("sl", .num (2 / 100)), ("sh", .num (4 / 10)),
      ("r1", .num (3 / 10))])
  else if a = "translate" then some (configOf [("range", .range (-10) 10)])
  else if a = "waveNoise" then
    some (configOf [("amplitude", .num 5), ("frequency", .num (1 / 10))])
  else if a = "fancyPca" then some (configOf [("alphaStd", .num (1 / 10))])
  else if a = "hsvJitter" then
    some (configOf [("hShift", .num 10), ("sScale", .range (8 / 10) (12 / 10)),
      ("vScale", .range (8 / 10) (12 / 10))])
  else if a = "intensity" then
    some (configOf [("factor", .range (toDouble (7 / 10)) (toDouble (13 / 10)))])
  else if a = "edgeEnhance" then some (configOf [("strength", .num 1)])
  else if a = "randomHsv" then
    some (configOf [("hRange", .range 0 360), ("sRange", .range 0 1), ("vRange", .range 0 1)])
  else if a = "patchShuffle" then some (configOf [("gridSize", .num 16)])
  else none

/-- `updateParam(augId, paramKey, value)` as the function handed to `setParams`:
`{ ...prev, [augId]: { ...prev[augId], [paramKey]: value } }`. -/
def updateParam (prev : ParamSet) (augId paramKey : String) (value : Value) : ParamSet :=
  fun a =>
    if a = augId then
      some (fun k =>
        if k = paramKey then some value
        else match prev augId with
          | some c => c k
          | none => none)
    else prev a

/-- Property `k` of the configuration of operator `a` (`params[a]?.[k]`). -/
def fieldOf (P : ParamSet) (a k : String) : Option Value :=
  match P a with
  | some c => c k
  | none => none

/-- Numeric property read in arithmetic; absent reads as `0` here. -/
def configNum (c : Config) (k : String) : ℚ :=
  match c k with
  | some (.num x) => x
  | _ => 0

/-- Array property `[lo, hi]`; `none` when the property is absent. -/
def configRange (c : Config) (k : String) : Option (ℚ × ℚ) :=
  match c k with
  | some (.range lo hi) => some (lo, hi)
  | _ => none

/-- String property; absent reads as the empty string (equal to no mode). -/
def configText (c : Config) (k : String) : String :=
  match c k with
  | some (.text s) => s
  | _ => ""

/-- The configuration object as `applyAugmentation` reads it. -/
def toParam (c : Config) : Param :=
  { angleRange := configRange c "angleRange"
    ratio := configNum c "ratio"
    mode := configText c "mode"
    factorRange := configRange c "factorRange"
    brightness := configNum c "brightness"
    contrast := configNum c "contrast"
    saturation := configNum c "saturation"
    p := configNum c "p"
    sl := configNum c "sl"
    sh := configNum c "sh"
    r1 := configNum c "r1"
    range := configRange c "range"
    amplitude := configNum c "amplitude"
    frequency := configNum c "frequency"
    alphaStd := configNum c "alphaStd"
    hShift := configNum c "hShift"
    sScale := configRange c "sScale"
    vScale := configRange c "vScale"
    factor := configRange c "factor"
    strength := configNum c "strength"
    hRange := configRange c "hRange"
    sRange := configRange c "sRange"
    vRange := configRange c "vRange"
    gridSize := ⌊configNum c "gridSize"⌋ }

/-- JavaScript `x || d` for `x` a number or `undefined`: `undefined` and `0` are
falsy and give `d`. -/
def orDefault (x : Option ℚ) (d : ℚ) : ℚ :=
  match x with
  | some v => if v = 0 then d else v
  | none => d

/-- `param[key]?.[0]` for `param = params[augId] || {}`. -/
def lowerOf (P : ParamSet) (augId key : String) : Option ℚ :=
  (configRange ((P augId).getD emptyConfig) key).map (fun r => r.1)

/-- `param[key]?.[1]` for `param = params[augId] || {}`. -/
def upperOf (P : ParamSet) (augId key : String) : Option ℚ :=
  (configRange ((P augId).getD emptyConfig) key).map (fun r => r.2)

/-- `onChange` of a lower-bound control of the range `key` of operator `augId`:
`updateParam(augId, key, [parse(e.target.value), param[key]?.[1] || dHi])`. -/
def changeLower (augId key : String) (dHi : ℚ) (P : ParamSet) (v : ℚ) : ParamSet :=
  updateParam P augId key (.range v (orDefault (upperOf P augId key) dHi))

/-- `onChange` of an upper-bound control of the range `key` of operator `augId`:
`updateParam(augId, key, [param[key]?.[0] || dLo, parse(e.target.value)])`. -/
def changeUpper (augId key : String) (dLo : ℚ) (P : ParamSet) (v : ℚ) : ParamSet :=
  updateParam P augId key (.range (orDefault (lowerOf P augId key) dLo) v)

/-- Lower-bound controls of `rotate.angleRange` (default upper bound `30`). -/
def rotateLowerChange (P : ParamSet) (v : ℚ) : ParamSet := changeLower "rotate" "angleRange" 30 P v

/-- Upper-bound controls of `rotate.angleRange` (default lower bound `-30`). -/
def rotateUpperChange (P : ParamSet) (v : ℚ) : ParamSet :=
  changeUpper "rotate" "angleRange" (-30) P v

/-- Lower-bound controls of `translate.range` (default upper bound `10`). -/
def translateLowerChange (P : ParamSet) (v : ℚ) : ParamSet := changeLower "translate" "range" 10 P v

/-- Upper-bound controls of `translate.range` (default lower bound `-10`). -/
def translateUpperChange (P : ParamSet) (v : ℚ) : ParamSet :=
  changeUpper "translate" "range" (-10) P v

/-- Lower-bound control of `randomHsv.sRange` (default upper bound `1`). -/
def sRangeLowerChange (P : ParamSet) (v : ℚ) : ParamSet := changeLower "randomHsv" "sRange" 1 P v

/-- Upper-bound control of `randomHsv.sRange` (default lower bound `0`). -/
def sRangeUpperChange (P : ParamSet) (v : ℚ) : ParamSet := changeUpper "randomHsv" "sRange" 0 P v

/-! ## Batch pipeline -/

/-- `Math.round(x)`: the nearest integer, a half rounded up. -/
def jsRound (x : ℚ) : ℤ := ⌊x + 1 / 2⌋

/-- The progress formula `round(completedTasks / totalTasks * 100)` in exact
arithmetic. -/
def progressValue (completedTasks totalTasks : Nat) : ℤ :=
  jsRound ((completedTasks : ℚ) / (totalTasks : ℚ) * 100)

/-- Value handed to `setProgress`:
`Math.round((completedTasks / totalTasks) * 100)`, the quotient and the product
rounded to binary64. -/
def progressDouble (completedTasks totalTasks : Nat) : ℤ :=
  jsRound (fmul (fdiv (completedTasks : ℚ) (totalTasks : ℚ)) 100)

/-- An entry of `files`: its name and the image it decodes to; `none` when the
file does not decode, in which case `img.onload` never fires. -/
structure FileIn where
  name : String
  image : Option Image

/-- An entry of `newResults`; `blob` is the canvas whose JPEG encoding is the
`blob` property and whose data URL is the `url` property. -/
structure BatchResult where
  originalName : String
  augId : String
  blob : Canvas
deriving DecidableEq

/-- What `handleProcess` reads besides `files` and `selectedAugmentations`: the
`params` state, the `Math` object, the random draws (`rng t k` is draw number
`k` made during task number `t`), and whether `toBlob` and `toDataURL` return
without throwing for a canvas. -/
structure Env where
  params : ParamSet
  math : JsMath
  rng : Nat → Nat → ℚ
  encodes : Canvas → Bool

/-- Local state of a run of `handleProcess`: `newResults`, `completedTasks`, the
values handed to `setProgress` so far, and the number of tasks started. -/
structure ProcState where
  newResults : List BatchResult
  completedTasks : Nat
  progressLog : List ℤ
  started : Nat

/-- One iteration of `for (const augId of selectedAugmentations)`: the `try`
block, whose `catch` only logs. -/
def processTask (env : Env) (totalTasks : Nat) (name : String) (img : Image) (augId : String)
    (s : ProcState) : ProcState :=
  let param := toParam ((env.params augId).getD emptyConfig)
  let canvas := applyAugmentation env.math (env.rng s.started) img augId param
  if env.encodes canvas then
    { newResults := s.newResults ++ [{ originalName := name, augId := augId, blob := canvas }]
      completedTasks := s.completedTasks + 1
      progressLog := s.progressLog ++ [progressDouble (s.completedTasks + 1) totalTasks]
      started := s.started + 1 }
  else { s with started := s.started + 1 }

/-- The loop `for (const augId of selectedAugmentations)` for one decoded image. -/
def processOps (env : Env) (totalTasks : Nat) (name : String) (img : Image) :
    List String → ProcState → ProcState
  | [], s => s
  | augId :: rest, s =>
    processOps env totalTasks name img rest (processTask env totalTasks name img augId s)

/-- How a call of `handleProcess` ends: with the alert of the precondition
check, with `setResults(newResults)`, or suspended for ever on the promise of
an image whose `onload` never fires. -/
inductive Run where
  | alerted
  | finished (s : ProcState)
  | pending (s : ProcState)

/-- The loop `for (const file of files)`: the promise resolves only in `onload`
(no `onerror` handler is installed). -/
def processFiles (env : Env) (totalTasks : Nat) (selected : List String) :
    List FileIn → ProcState → Run
  | [], s => .finished s
  | file :: rest, s =>
    match file.image with
    | none => .pending s
    | some img =>
      processFiles env totalTasks selected rest (processOps env totalTasks file.name img selected s)

/-- `handleProcess` for the states `files` and `selectedAugmentations`;
`setProgress(0)` opens the progress log. -/
def handleProcess (env : Env) (files : List FileIn) (selected : List String) : Run :=
  if files.length = 0 ∨ selected.length = 0 then .alerted
  else
    processFiles env (files.length * selected.length) selected files
      { newResults := [], completedTasks := 0, progressLog := [0], started := 0 }

/-- The `results` state after the call: the new list once `setResults(newResults)`
has run, `none` when the call never gets there. -/
def Run.published : Run → Option (List BatchResult)
  | .finished s => some s.newResults
  | _ => none

/-- The values handed to `setProgress` during the call. -/
def Run.progress : Run → List ℤ
  | .alerted => []
  | .finished s => s.progressLog
  | .pending s => s.progressLog

/-- The `(file name, operator id)` pairs of the batch: images in input order,
and for each image the operators in selection order. -/
def taskPairs : List FileIn → List String → List (String × String)
  | [], _ => []
  | file :: rest, selected => selected.map (fun a => (file.name, a)) ++ taskPairs rest selected

/-- A sample environment: the initial parameters, every draw `1 / 2`, every
encoding successful. -/
def sampleEnv : Env :=
  { params := initialParams, math := sampleMath, rng := fun _ _ => 1 / 2, encodes := fun _ => true }

/-! ## Output packager -/

/-- `groupedResults[result.augId].push(result)`, creating the array first when
the key is new; for the operator ids of the catalog the object keeps its keys
in insertion order. -/
def groupPush (g : List (String × List BatchResult)) (r : BatchResult) :
    List (String × List BatchResult) :=
  if g.any (fun e => e.1 = r.augId) then
    g.map (fun e => if e.1 = r.augId then (e.1, e.2 ++ [r]) else e)
  else g ++ [(r.augId, [r])]

/-- The object `groupedResults` after `results.forEach`. -/
def groupResults (results : List BatchResult) : List (String × List BatchResult) :=
  results.foldl groupPush []

/-- A folder handed to the archive writer: `zip.folder(name)` and the
`folder.file(filename, blob)` calls made on it, in order. -/
structure ArchiveFolder where
  name : String
  entries : List (String × Canvas)
deriving DecidableEq

/-- `handleDownloadAll` up to `zip.generateAsync`: `none` when `JSZip` is not
loaded yet (alert and return), else the folders handed to the archive writer. -/
def handleDownloadAll (jsZipLoaded : Bool) (results : List BatchResult) :
    Option (List ArchiveFolder) :=
  if jsZipLoaded then
    some ((groupResults results).map (fun e =>
      { name := e.1
        entries := e.2.map (fun r => (e.1 ++ "_" ++ r.originalName, r.blob)) }))
  else none

/-! ## Selection state -/

/-- `toggleAugmentation(id)` as the function handed to
`setSelectedAugmentations`: remove `id` when `prev.includes(id)`, else append it. -/
def toggleAugmentation (prev : List String) (id : String) : List String :=
  if id ∈ prev then prev.filter (fun item => item ≠ id) else prev ++ [id]

/-- The `selectedAugmentations` state after the toggles `ids`, starting from the
initial state `[]`. -/
def selectionAfter (ids : List String) : List String := ids.foldl toggleAugmentation []

/-! ## Parts of the operators named by the claims -/

/-- Hue `(hsv.h + param.hShift) % 360` that `hsvJitter` hands to `hsvToRgb`. -/
def hsvJitterHue (h hShift : ℚ) : ℚ := jsRem (h + hShift) 360

/-- The rectangle `case "erase"` hands to `fillRect` on a canvas of `w` x `h`
pixels, as `(x, y, eraseWidth, eraseHeight)`; `none` when nothing is filled. -/
def eraseRect (M : JsMath) (u : Nat → ℚ) (w h : Nat) (param : Param) : Option (ℚ × ℚ × ℚ × ℚ) :=
  if u 0 < param.p then
    let eraseArea := (w : ℚ) * (h : ℚ) * (param.sl + u 1 * (param.sh - param.sl))
    let aspectRatio := param.r1 + u 2 * (1 / param.r1 - param.r1)
    let eraseHeight := M.sqrt (eraseArea * aspectRatio)
    let eraseWidth := eraseArea / eraseHeight
    if eraseHeight < h ∧ eraseWidth < w then
      some (u 3 * ((w : ℚ) - eraseWidth), u 4 * ((h : ℚ) - eraseHeight), eraseWidth, eraseHeight)
    else none
  else none

/-- Index `j = Math.floor(Math.random() * (i + 1))` of the shuffle loop for the
draw `x`. -/
def swapIndex (x : ℚ) (i : Nat) : Nat := ⌊x * ((i : ℚ) + 1)⌋.toNat

/-- The shuffle loop of `patchShuffle` with its swap indices given: iteration
number `t` (for `i = length - 1 - t`) swaps the positions `i` and `js t`. -/
def shuffleWith (js : Nat → Nat) (ps : List Patch) : List Patch :=
  forRange (ps.length - 1) (fun t acc => swapAt acc (ps.length - 1 - t) (js t)) ps

/-- Spec-side brightness step of `colorJitter` on one colour byte `v`:
`clamp(v * jb)` stored as a byte. -/
def jitterBrightnessStep (jb : ℚ) (v : Nat) : Nat :=
  toUint8Clamp (clampMinMax (fmul (v : ℚ) jb))

/-- Spec-side contrast step of `colorJitter` on one colour byte `w`:
`clamp(w * jc + 128 * (1 - jc))` stored as a byte. -/
def jitterContrastStep (jc : ℚ) (w : Nat) : Nat :=
  toUint8Clamp (clampMinMax (fadd (fmul (w : ℚ) jc) (fmul 128 (fsub 1 jc))))

/-- Spec-side description of `colorJitter` on one colour byte `v`: the
brightness step, then the contrast step on its stored result. -/
def jitterSpecByte (jb jc : ℚ) (v : Nat) : Nat :=
  jitterContrastStep jc (jitterBrightnessStep jb v)

/-- Spec-side description of the `colorJitter` output for the amplitudes
`brightness`, `contrast` and the draws `u1`, `u2`: both steps on every R, G, B
byte, the alpha bytes kept. -/
def colorJitterSpec (brightness contrast u1 u2 : ℚ) (d : List Nat) : List Nat :=
  tabulate d.length (fun k =>
    if k % 4 = 3 then d.getD k 0
    else jitterSpecByte (fadd 1 (fmul (fsub (fmul 2 u1) 1) brightness))
      (fadd 1 (fmul (fsub (fmul 2 u2) 1) contrast)) (d.getD k 0))

/-- Archive path `(folder, filename)` of every `folder.file` call, in call order. -/
def archivePaths (folders : List ArchiveFolder) : List (String × String) :=
  (folders.map (fun f => f.entries.map (fun e => (f.name, e.1)))).flatten

/-- Archive path `handleDownloadAll` gives to a result: the folder `augId` and
the filename `augId_originalName`. -/
def pathOf (r : BatchResult) : String × String := (r.augId, r.augId ++ "_" ++ r.originalName)

/-- The binary64 value of `Math.sqrt(33245 / 6)`. -/
def sqrtSample : ℚ := 327376394478235 / 4398046511104

/-- A `Math` object whose `sqrt` returns the binary64 root of `33245 / 6`. -/
def rootMath : JsMath := { sampleMath with sqrt := fun _ => sqrtSample }

/-- Draws for a sample run of `erase`: `1 / 4` for the probability test, `3 / 4`
for the area, `1 / 2` afterwards. -/
def eraseDraws : Nat → ℚ := fun k => if k = 0 then 1 / 4 else if k = 1 then 3 / 4 else 1 / 2

/-- The parameters `erase` receives from the initial `params` state. -/
def eraseDefaults : Param := toParam ((initialParams "erase").getD emptyConfig)

/-! ## Binary64 rounding: properties -/

theorem roundHalfEven_cases (t : ℚ) : roundHalfEven t = ⌊t⌋ ∨ roundHalfEven t = ⌊t⌋ + 1 := by
  unfold roundHalfEven
  split_ifs <;> simp

theorem roundHalfEven_near (t : ℚ) : |t - (roundHalfEven t : ℚ)| ≤ 1 / 2 := by
  have h1 := Int.floor_le t
  have h2 := Int.lt_floor_add_one t
  unfold roundHalfEven
  rw [abs_le]
  split_ifs with a b c
  · constructor <;> linarith
  · push_cast; constructor <;> linarith
  · constructor <;> linarith
  · push_cast; constructor <;> linarith

theorem roundHalfEven_tie (t : ℚ) (h : |t - (roundHalfEven t : ℚ)| = 1 / 2) :
    roundHalfEven t % 2 = 0 := by
  have h1 := Int.floor_le t
  have h2 := Int.lt_floor_add_one t
  unfold roundHalfEven at h ⊢
  split_ifs at h ⊢ with a b c
  · rw [abs_of_nonneg (by linarith)] at h; linarith
  · push_cast at h
    rw [abs_of_nonpos (by linarith)] at h; linarith
  · exact c
  · omega

theorem roundHalfEven_unique (t : ℚ) (n : ℤ) (h : |t - (n : ℚ)| ≤ 1 / 2)
    (he : |t - (n : ℚ)| = 1 / 2 → n % 2 = 0) : roundHalfEven t = n := by
  have h1 := Int.floor_le t
  have h2 := Int.lt_floor_add_one t
  rw [abs_le] at h
  have hn : n = ⌊t⌋ ∨ n = ⌊t⌋ + 1 := by
    have a1 : (n : ℚ) < ((⌊t⌋ + 2 : ℤ) : ℚ) := by push_cast; linarith
    have a2 : ((⌊t⌋ - 1 : ℤ) : ℚ) < (n : ℚ) := by push_cast; linarith
    have b1 : n < ⌊t⌋ + 2 := by exact_mod_cast a1
    have b2 : ⌊t⌋ - 1 < n := by exact_mod_cast a2
    omega
  unfold roundHalfEven
  split_ifs with a b c
  · rcases hn with hn | hn
    · exact hn.symm
    · rw [hn] at h; push_cast at h; linarith
  · rcases hn with hn | hn
    · rw [hn] at h; linarith
    · exact hn.symm
  · have ht : t = (⌊t⌋ : ℚ) + 1 / 2 := le_antisymm (not_lt.mp b) (not_lt.mp a)
    rcases hn with hn | hn
    · exact hn.symm
    · have : n % 2 = 0 := by
        apply he
        rw [hn]; push_cast
        rw [abs_of_nonpos (by linarith)]; linarith
      omega
  · have ht : t = (⌊t⌋ : ℚ) + 1 / 2 := le_antisymm (not_lt.mp b) (not_lt.mp a)
    rcases hn with hn | hn
    · have : n % 2 = 0 := by
        apply he
        rw [hn]
        rw [abs_of_nonneg (by linarith)]; linarith
      omega
    · exact hn.symm

theorem roundHalfEven_of_abs_lt (t : ℚ) (n : ℤ) (h : |t - (n : ℚ)| < 1 / 2) :
    roundHalfEven t = n :=
  roundHalfEven_unique t n h.le (fun e => absurd e (ne_of_lt h))

theorem roundHalfEven_intCast (n : ℤ) : roundHalfEven (n : ℚ) = n :=
  roundHalfEven_of_abs_lt _ n (by simp)

theorem roundHalfEven_neg (t : ℚ) : roundHalfEven (-t) = -roundHalfEven t := by
  apply roundHalfEven_unique
  · have := roundHalfEven_near t
    have e : -t - ((-roundHalfEven t : ℤ) : ℚ) = -(t - (roundHalfEven t : ℚ)) := by
      push_cast; ring
    rw [e, abs_neg]; exact this
  · intro h
    have e : -t - ((-roundHalfEven t : ℤ) : ℚ) = -(t - (roundHalfEven t : ℚ)) := by
      push_cast; ring
    rw [e, abs_neg] at h
    have := roundHalfEven_tie t h
    omega

theorem roundHalfEven_mono {s t : ℚ} (h : s ≤ t) : roundHalfEven s ≤ roundHalfEven t := by
  by_contra hc
  have hlt : roundHalfEven t + 1 ≤ roundHalfEven s := by omega
  have hq : ((roundHalfEven t : ℤ) : ℚ) + 1 ≤ (roundHalfEven s : ℚ) := by exact_mod_cast hlt
  have a := abs_le.mp (roundHalfEven_near s)
  have b := abs_le.mp (roundHalfEven_near t)
  have hst : s = t := by linarith
  rw [hst] at hc
  exact hc le_rfl

theorem binade_ge (x : ℚ) : -1022 ≤ binade x := by
  unfold binade
  split_ifs with h
  · exact le_rfl
  · have h0 : (0 : ℚ) < |x| := lt_of_lt_of_le (by positivity) (not_lt.mp h)
    have := (Int.zpow_le_iff_le_log (R := ℚ) (b := 2) (by norm_num) h0 (x := -1022)).mp
      (by simpa using not_lt.mp h)
    exact this

theorem binade_neg (x : ℚ) : binade (-x) = binade x := by
  unfold binade; rw [abs_neg]

theorem lt_zpow_binade (x : ℚ) : |x| < (2 : ℚ) ^ (binade x + 1) := by
  unfold binade
  split_ifs with h
  · exact lt_trans h (zpow_lt_zpow_right₀ (by norm_num) (by norm_num))
  · simpa using Int.lt_zpow_succ_log_self (R := ℚ) (b := 2) (by norm_num) |x|

theorem zpow_binade_le (x : ℚ) (h : (2 : ℚ) ^ (-1022 : ℤ) ≤ |x|) : (2 : ℚ) ^ binade x ≤ |x| := by
  unfold binade
  rw [if_neg (not_lt.mpr h)]
  have h0 : (0 : ℚ) < |x| := lt_of_lt_of_le (by positivity) h
  simpa using Int.zpow_log_le_self (R := ℚ) (b := 2) (by norm_num) h0

theorem binade_eq_of (x : ℚ) (e : ℤ) (he : -1022 ≤ e) (h1 : (2 : ℚ) ^ e ≤ |x|)
    (h2 : |x| < (2 : ℚ) ^ (e + 1)) : binade x = e := by
  have hx : (2 : ℚ) ^ (-1022 : ℤ) ≤ |x| :=
    le_trans (zpow_le_zpow_right₀ (by norm_num) he) h1
  have h0 : (0 : ℚ) < |x| := lt_of_lt_of_le (by positivity) hx
  unfold binade
  rw [if_neg (not_lt.mpr hx)]
  have a : e ≤ Int.log 2 |x| :=
    (Int.zpow_le_iff_le_log (R := ℚ) (b := 2) (by norm_num) h0).mp (by simpa using h1)
  have b : Int.log 2 |x| < e + 1 :=
    (Int.lt_zpow_iff_log_lt (R := ℚ) (b := 2) (by norm_num) h0).mp (by simpa using h2)
  omega

theorem binade_small (x : ℚ) (h : |x| < (2 : ℚ) ^ (-1022 : ℤ)) : binade x = -1022 := by
  unfold binade; rw [if_pos h]

theorem binade_mono {x y : ℚ} (h : |x| ≤ |y|) : binade x ≤ binade y := by
  by_cases hx : |x| < (2 : ℚ) ^ (-1022 : ℤ)
  · rw [binade_small x hx]; exact binade_ge y
  · have hx1 := not_lt.mp hx
    have hy1 : (2 : ℚ) ^ (-1022 : ℤ) ≤ |y| := le_trans hx1 h
    have h0 : (0 : ℚ) < |x| := lt_of_lt_of_le (by positivity) hx1
    unfold binade
    rw [if_neg hx, if_neg (not_lt.mpr hy1)]
    exact Int.log_mono_right h0 h

theorem ulp_pos (x : ℚ) : 0 < ulp x := by
  unfold ulp; positivity

theorem ulp_neg (x : ℚ) : ulp (-x) = ulp x := by
  unfold ulp; rw [binade_neg]

theorem toDouble_zero : toDouble 0 = 0 := by
  unfold toDouble
  rw [zero_div]
  have : roundHalfEven 0 = 0 := by simpa using roundHalfEven_intCast 0
  rw [this]; simp

theorem toDouble_neg (x : ℚ) : toDouble (-x) = -toDouble x := by
  unfold toDouble
  rw [ulp_neg, neg_div, roundHalfEven_neg]
  push_cast; ring

theorem toDouble_nonneg {x : ℚ} (h : 0 ≤ x) : 0 ≤ toDouble x := by
  unfold toDouble
  apply mul_nonneg _ (ulp_pos x).le
  have : roundHalfEven 0 ≤ roundHalfEven (x / ulp x) :=
    roundHalfEven_mono (div_nonneg h (ulp_pos x).le)
  have e : roundHalfEven 0 = 0 := by simpa using roundHalfEven_intCast 0
  rw [e] at this
  exact_mod_cast this

theorem toDouble_nonpos {x : ℚ} (h : x ≤ 0) : toDouble x ≤ 0 := by
  have := toDouble_nonneg (neg_nonneg.mpr h)
  rw [toDouble_neg] at this
  linarith

/-- A value rounds to at most the upper end of its binade. -/
theorem toDouble_le_top {x : ℚ} (h : 0 ≤ x) : toDouble x ≤ (2 : ℚ) ^ (binade x + 1) := by
  have hlt := lt_zpow_binade x
  rw [abs_of_nonneg h] at hlt
  unfold toDouble ulp
  have hu : (0 : ℚ) < (2 : ℚ) ^ (binade x - 52) := by positivity
  have e : (2 : ℚ) ^ (binade x + 1) = (2 : ℚ) ^ (53 : ℤ) * (2 : ℚ) ^ (binade x - 52) := by
    rw [← zpow_add₀ (by norm_num)]; congr 1; ring
  rw [e]
  apply mul_le_mul_of_nonneg_right _ hu.le
  have hq : x / (2 : ℚ) ^ (binade x - 52) ≤ (((2 : ℤ) ^ 53 : ℤ) : ℚ) := by
    rw [div_le_iff₀ hu]
    have : (((2 : ℤ) ^ 53 : ℤ) : ℚ) = (2 : ℚ) ^ (53 : ℤ) := by norm_num
    rw [this, ← e]; exact hlt.le
  have := roundHalfEven_mono hq
  rw [roundHalfEven_intCast] at this
  have c : ((roundHalfEven (x / (2 : ℚ) ^ (binade x - 52)) : ℤ) : ℚ) ≤ (((2 : ℤ) ^ 53 : ℤ) : ℚ) := by
    exact_mod_cast this
  have : (((2 : ℤ) ^ 53 : ℤ) : ℚ) = (2 : ℚ) ^ (53 : ℤ) := by norm_num
  rw [this] at c; exact c

/-- A normal value rounds to at least the lower end of its binade. -/
theorem toDouble_ge_bottom {x : ℚ} (h : (2 : ℚ) ^ (-1022 : ℤ) ≤ x) :
    (2 : ℚ) ^ binade x ≤ toDouble x := by
  have h0 : 0 ≤ x := le_trans (by positivity) h
  have hge := zpow_binade_le x (by rw [abs_of_nonneg h0]; exact h)
  rw [abs_of_nonneg h0] at hge
  unfold toDouble ulp
  have hu : (0 : ℚ) < (2 : ℚ) ^ (binade x - 52) := by positivity
  have e : (2 : ℚ) ^ binade x = (2 : ℚ) ^ (52 : ℤ) * (2 : ℚ) ^ (binade x - 52) := by
    rw [← zpow_add₀ (by norm_num)]; congr 1; ring
  rw [e]
  apply mul_le_mul_of_nonneg_right _ hu.le
  have hq : (((2 : ℤ) ^ 52 : ℤ) : ℚ) ≤ x / (2 : ℚ) ^ (binade x - 52) := by
    rw [le_div_iff₀ hu]
    have : (((2 : ℤ) ^ 52 : ℤ) : ℚ) = (2 : ℚ) ^ (52 : ℤ) := by norm_num
    rw [this, ← e]; exact hge
  have := roundHalfEven_mono hq
  rw [roundHalfEven_intCast] at this
  have c : (((2 : ℤ) ^ 52 : ℤ) : ℚ) ≤ ((roundHalfEven (x / (2 : ℚ) ^ (binade x - 52)) : ℤ) : ℚ) := by
    exact_mod_cast this
  have : (((2 : ℤ) ^ 52 : ℤ) : ℚ) = (2 : ℚ) ^ (52 : ℤ) := by norm_num
  rw [this] at c; exact c

theorem toDouble_mono_nonneg {s t : ℚ} (hs : 0 ≤ s) (h : s ≤ t) : toDouble s ≤ toDouble t := by
  have ht : 0 ≤ t := le_trans hs h
  have hb : binade s ≤ binade t := binade_mono (by rw [abs_of_nonneg hs, abs_of_nonneg ht]; exact h)
  rcases eq_or_lt_of_le hb with hb | hb
  · unfold toDouble ulp
    rw [hb]
    have hu : (0 : ℚ) < (2 : ℚ) ^ (binade t - 52) := by positivity
    apply mul_le_mul_of_nonneg_right _ hu.le
    have := roundHalfEven_mono (div_le_div_of_nonneg_right h hu.le)
    exact_mod_cast this
  · have hnorm : (2 : ℚ) ^ (-1022 : ℤ) ≤ t := by
      by_contra hc
      have := binade_small t (by rw [abs_of_nonneg ht]; exact not_le.mp hc)
      have := binade_ge s
      omega
    calc toDouble s ≤ (2 : ℚ) ^ (binade s + 1) := toDouble_le_top hs
      _ ≤ (2 : ℚ) ^ binade t := zpow_le_zpow_right₀ (by norm_num) (by omega)
      _ ≤ toDouble t := toDouble_ge_bottom hnorm

/-- Rounding to binary64 is monotone. -/
theorem toDouble_mono {s t : ℚ} (h : s ≤ t) : toDouble s ≤ toDouble t := by
  rcases le_total 0 s with hs | hs
  · exact toDouble_mono_nonneg hs h
  · rcases le_total 0 t with ht | ht
    · exact le_trans (toDouble_nonpos hs) (toDouble_nonneg ht)
    · have := toDouble_mono_nonneg (neg_nonneg.mpr ht) (neg_le_neg h)
      rw [toDouble_neg, toDouble_neg] at this
      linarith

/-- Evaluation of `toDouble` at a value whose binade and rounded significand
are known. -/
theorem toDouble_eval (x : ℚ) (e m : ℤ) (he : -1022 ≤ e) (h1 : (2 : ℚ) ^ e ≤ |x|)
    (h2 : |x| < (2 : ℚ) ^ (e + 1)) (hm : |x / (2 : ℚ) ^ (e - 52) - (m : ℚ)| < 1 / 2) :
    toDouble x = (m : ℚ) * (2 : ℚ) ^ (e - 52) := by
  unfold toDouble ulp
  rw [binade_eq_of x e he h1 h2, roundHalfEven_of_abs_lt _ m hm]

/-- Evaluation of `toDouble` at a positive value. -/
theorem toDouble_eval_pos (x : ℚ) (e m : ℤ) (he : -1022 ≤ e) (h1 : (2 : ℚ) ^ e ≤ x)
    (h2 : x < (2 : ℚ) ^ (e + 1)) (hm1 : (m : ℚ) - 1 / 2 < x / (2 : ℚ) ^ (e - 52))
    (hm2 : x / (2 : ℚ) ^ (e - 52) < (m : ℚ) + 1 / 2) :
    toDouble x = (m : ℚ) * (2 : ℚ) ^ (e - 52) := by
  have h0 : 0 ≤ x := le_trans (by positivity) h1
  apply toDouble_eval x e m he
  · rw [abs_of_nonneg h0]; exact h1
  · rw [abs_of_nonneg h0]; exact h2
  · rw [abs_lt]; constructor <;> linarith

/-- Numbers `m * 2 ^ k` with `|m| < 2 ^ 53` and `k ≥ -1074` are binary64 numbers. -/
theorem toDouble_grid (m k : ℤ) (hm : |m| < 2 ^ 53) (hk : -1074 ≤ k) :
    toDouble ((m : ℚ) * (2 : ℚ) ^ k) = (m : ℚ) * (2 : ℚ) ^ k := by
  have hmq : |(m : ℚ)| < (2 : ℚ) ^ (53 : ℤ) := by
    have : ((|m| : ℤ) : ℚ) < (((2 : ℤ) ^ 53 : ℤ) : ℚ) := by exact_mod_cast hm
    rw [Int.cast_abs] at this
    have e : (((2 : ℤ) ^ 53 : ℤ) : ℚ) = (2 : ℚ) ^ (53 : ℤ) := by norm_num
    rw [e] at this; exact this
  have hk2 : (0 : ℚ) < (2 : ℚ) ^ k := by positivity
  have hle : binade ((m : ℚ) * (2 : ℚ) ^ k) - 52 ≤ k := by
    by_cases hs : |(m : ℚ) * (2 : ℚ) ^ k| < (2 : ℚ) ^ (-1022 : ℤ)
    · rw [binade_small _ hs]; omega
    · have hb := zpow_binade_le _ (not_lt.mp hs)
      have hlt : |(m : ℚ) * (2 : ℚ) ^ k| < (2 : ℚ) ^ (53 + k) := by
        rw [abs_mul, abs_of_pos hk2, zpow_add₀ (by norm_num)]
        exact mul_lt_mul_of_pos_right hmq hk2
      have := lt_of_le_of_lt hb hlt
      have := (zpow_lt_zpow_iff_right₀ (by norm_num : (1 : ℚ) < 2)).mp this
      omega
  obtain ⟨d, hd⟩ : ∃ d : ℕ, k = binade ((m : ℚ) * (2 : ℚ) ^ k) - 52 + (d : ℤ) :=
    ⟨(k - (binade ((m : ℚ) * (2 : ℚ) ^ k) - 52)).toNat, by omega⟩
  unfold toDouble ulp
  set b := binade ((m : ℚ) * (2 : ℚ) ^ k) - 52 with hbdef
  have hb0 : (0 : ℚ) < (2 : ℚ) ^ b := by positivity
  have hq : (m : ℚ) * (2 : ℚ) ^ k / (2 : ℚ) ^ b = ((m * 2 ^ d : ℤ) : ℚ) := by
    rw [div_eq_iff hb0.ne']
    push_cast
    rw [mul_assoc]
    congr 1
    rw [hd, zpow_add₀ (by norm_num), zpow_natCast, mul_comm]
  rw [hq, roundHalfEven_intCast, ← hq, div_mul_cancel₀ _ hb0.ne']

theorem toDouble_intCast (n : ℤ) (h : |n| < 2 ^ 53) : toDouble (n : ℚ) = n := by
  simpa using toDouble_grid n 0 h (by norm_num)

theorem toDouble_natCast (n : ℕ) (h : n < 2 ^ 53) : toDouble (n : ℚ) = n := by
  have := toDouble_intCast (n : ℤ) (by rw [abs_of_nonneg (by positivity)]; exact_mod_cast h)
  simpa using this

/-- Dyadic rationals `m / 2 ^ k` with `|m| < 2 ^ 53` and `k ≤ 1074` are binary64
numbers. -/
theorem toDouble_dyadic (m : ℤ) (k : ℕ) (hm : |m| < 2 ^ 53) (hk : k ≤ 1074) :
    toDouble ((m : ℚ) / (2 : ℚ) ^ k) = (m : ℚ) / (2 : ℚ) ^ k := by
  have := toDouble_grid m (-(k : ℤ)) hm (by omega)
  rw [zpow_neg, zpow_natCast, ← div_eq_mul_inv] at this
  exact this

/-- A value between two binary64 numbers rounds to a value between them. -/
theorem toDouble_between {a b x : ℚ} (ha : toDouble a = a) (hb : toDouble b = b) (h1 : a ≤ x)
    (h2 : x ≤ b) : a ≤ toDouble x ∧ toDouble x ≤ b :=
  ⟨ha ▸ toDouble_mono h1, hb ▸ toDouble_mono h2⟩

theorem fadd_comm (x y : ℚ) : fadd x y = fadd y x := by
  unfold fadd; rw [add_comm]

theorem fmul_comm (x y : ℚ) : fmul x y = fmul y x := by
  unfold fmul; rw [mul_comm]

theorem fmul_zero (x : ℚ) : fmul x 0 = 0 := by
  unfold fmul; rw [mul_zero, toDouble_zero]

theorem fadd_zero_natCast (n : ℕ) (h : n < 2 ^ 53) : fadd (n : ℚ) 0 = n := by
  unfold fadd; rw [add_zero, toDouble_natCast n h]

/-! ## Colour-space conversion: properties -/

/-- Value of `hsvToRgb` on a hue written as sector `k` plus fraction `f`. -/
theorem hsvToRgb_sector (k : ℤ) (f s v : ℚ) (hf0 : 0 ≤ f) (hf1 : f < 1) :
    hsvToRgb (((k : ℚ) + f) * 60) s v =
      (let p := v * (1 - s)
       let q := v * (1 - f * s)
       let t := v * (1 - (1 - f) * s)
       if Int.tmod k 6 = 0 then { r := v, g := t, b := p }
       else if Int.tmod k 6 = 1 then { r := q, g := v, b := p }
       else if Int.tmod k 6 = 2 then { r := p, g := v, b := t }
       else if Int.tmod k 6 = 3 then { r := p, g := q, b := v }
       else if Int.tmod k 6 = 4 then { r := t, g := p, b := v }
       else if Int.tmod k 6 = 5 then { r := v, g := p, b := q }
       else { r := 0, g := 0, b := 0 }) := by
  have h1 : ((k : ℚ) + f) * 60 / 60 = (k : ℚ) + f := by field_simp
  have h2 : ⌊(k : ℚ) + f⌋ = k := by
    rw [Int.floor_eq_iff]
    constructor <;> linarith
  unfold hsvToRgb
  simp only [h1, h2, add_sub_cancel_left]

theorem tmod_zero_six : Int.tmod 0 6 = 0 := rfl

theorem tmod_one_six : Int.tmod 1 6 = 1 := rfl

theorem tmod_two_six : Int.tmod 2 6 = 2 := rfl

theorem tmod_three_six : Int.tmod 3 6 = 3 := rfl

theorem tmod_four_six : Int.tmod 4 6 = 4 := rfl

theorem tmod_five_six : Int.tmod 5 6 = 5 := rfl

/-- Round trip through one sector: hue `(k + x / δ) * 60`, saturation `δ / mx`. -/
theorem hsvToRgb_of_sector (mx mn x : ℚ) (k : ℤ) (hd : 0 < mx - mn) (hmn : 0 ≤ mn)
    (hx0 : 0 ≤ x) (hx1 : x < mx - mn) :
    hsvToRgb (((k : ℚ) + x / (mx - mn)) * 60) ((mx - mn) / mx) mx =
      (if Int.tmod k 6 = 0 then { r := mx, g := mn + x, b := mn }
       else if Int.tmod k 6 = 1 then { r := mx - x, g := mx, b := mn }
       else if Int.tmod k 6 = 2 then { r := mn, g := mx, b := mn + x }
       else if Int.tmod k 6 = 3 then { r := mn, g := mx - x, b := mx }
       else if Int.tmod k 6 = 4 then { r := mn + x, g := mn, b := mx }
       else if Int.tmod k 6 = 5 then { r := mx, g := mn, b := mx - x }
       else { r := 0, g := 0, b := 0 }) := by
  have hmx : mx ≠ 0 := by intro h; linarith
  have hd0 : mx - mn ≠ 0 := ne_of_gt hd
  have hf0 : 0 ≤ x / (mx - mn) := div_nonneg hx0 hd.le
  have hf1 : x / (mx - mn) < 1 := by rw [div_lt_one hd]; exact hx1
  have ep : mx * (1 - (mx - mn) / mx) = mn := by field_simp
  have eq : mx * (1 - x / (mx - mn) * ((mx - mn) / mx)) = mx - x := by field_simp
  have et : mx * (1 - (1 - x / (mx - mn)) * ((mx - mn) / mx)) = mn + x := by
    field_simp; ring
  rw [hsvToRgb_sector k _ _ _ hf0 hf1]
  simp only [ep, eq, et]

theorem rgb_hsv_exact (r g b : ℚ) (hr : 0 ≤ r) (hg : 0 ≤ g) (hb : 0 ≤ b) :
    hsvToRgb (rgbToHsv r g b).h (rgbToHsv r g b).s (rgbToHsv r g b).v
      = { r := r, g := g, b := b } := by
  obtain ⟨mx, hmx⟩ : ∃ mx, mx = max (max r g) b := ⟨_, rfl⟩
  obtain ⟨mn, hmn⟩ : ∃ mn, mn = min (min r g) b := ⟨_, rfl⟩
  have h1 : r ≤ mx := by rw [hmx]; exact le_trans (le_max_left _ _) (le_max_left _ _)
  have h2 : g ≤ mx := by rw [hmx]; exact le_trans (le_max_right _ _) (le_max_left _ _)
  have h3 : b ≤ mx := by rw [hmx]; exact le_max_right _ _
  have h4 : mn ≤ r := by rw [hmn]; exact le_trans (min_le_left _ _) (min_le_left _ _)
  have h5 : mn ≤ g := by rw [hmn]; exact le_trans (min_le_left _ _) (min_le_right _ _)
  have h6 : mn ≤ b := by rw [hmn]; exact min_le_right _ _
  have h7 : mn = r ∨ mn = g ∨ mn = b := by
    rw [hmn]
    rcases min_choice (min r g) b with h | h
    · rcases min_choice r g with h' | h'
      · left; rw [h, h']
      · right; left; rw [h, h']
    · right; right; exact h
  have h9 : mx = r ∨ mx = g ∨ mx = b := by
    rw [hmx]
    rcases max_choice (max r g) b with h | h
    · rcases max_choice r g with h' | h'
      · left; rw [h, h']
      · right; left; rw [h, h']
    · right; right; exact h
  have h8 : 0 ≤ mn := by rcases h7 with h | h | h <;> rw [h] <;> assumption
  unfold rgbToHsv
  simp only [← hmx, ← hmn]
  by_cases c0 : mx = mn
  · have e1 : r = mx := le_antisymm h1 (c0 ▸ h4)
    have e2 : g = mx := le_antisymm h2 (c0 ▸ h5)
    have e3 : b = mx := le_antisymm h3 (c0 ▸ h6)
    have := hsvToRgb_sector 0 0 (if mx = 0 then 0 else (mx - mn) / mx) mx le_rfl (by norm_num)
    simp only [Int.cast_zero, add_zero] at this
    simp only [if_pos c0]
    rw [this]
    have hs : (if mx = 0 then (0 : ℚ) else (mx - mn) / mx) = 0 := by
      rw [c0]; simp
    rw [hs, e1, e2, e3]
    simp [tmod_zero_six]
  · have hd : 0 < mx - mn := by
      rcases lt_or_eq_of_le (le_trans h4 h1) with h | h
      · linarith
      · exact absurd h.symm c0
    have hmx0 : mx ≠ 0 := by intro h; linarith
    have hd0 : mx - mn ≠ 0 := ne_of_gt hd
    simp only [if_neg c0, if_neg hmx0]
    by_cases c1 : mx = r
    · simp only [if_pos c1]
      by_cases c2 : g < b
      · have hmg : mn = g := by
          rcases h7 with h | h | h
          · exact absurd (c1.trans h.symm) c0
          · exact h
          · linarith
        have e : ((g - b) / (mx - mn) + (if g < b then 6 else 0)) * 60
            = (((5 : ℤ) : ℚ) + (r - b) / (mx - mn)) * 60 := by
          rw [if_pos c2, c1, hmg]
          have : r - g ≠ 0 := by rw [← c1, ← hmg]; exact hd0
          push_cast; field_simp; ring
        rw [e, hsvToRgb_of_sector mx mn (r - b) 5 hd h8 (by linarith) (by linarith)]
        simp [c1, hmg, tmod_five_six]
      · have hmb : mn = b := by
          rcases h7 with h | h | h
          · exact absurd (c1.trans h.symm) c0
          · linarith
          · exact h
        rw [if_neg c2, add_zero]
        by_cases c3 : g = r
        · have e : (g - b) / (mx - mn) * 60 = (((1 : ℤ) : ℚ) + 0 / (mx - mn)) * 60 := by
            rw [c1, hmb, c3]
            have : r - b ≠ 0 := by rw [← c1, ← hmb]; exact hd0
            push_cast; field_simp
          rw [e, hsvToRgb_of_sector mx mn 0 1 hd h8 le_rfl hd]
          simp [c1, hmb, c3, tmod_one_six]
        · have e : (g - b) / (mx - mn) * 60 = (((0 : ℤ) : ℚ) + (g - b) / (mx - mn)) * 60 := by
            push_cast; ring
          have hgr : g < r := lt_of_le_of_ne (c1 ▸ h2) c3
          rw [e, hsvToRgb_of_sector mx mn (g - b) 0 hd h8 (by linarith) (by linarith)]
          simp [c1, hmb, tmod_zero_six]
    · simp only [if_neg c1]
      have hr_lt : r < mx := lt_of_le_of_ne h1 (Ne.symm c1)
      by_cases c2 : mx = g
      · simp only [if_pos c2]
        by_cases c3 : r ≤ b
        · have hmr : mn = r := by
            rcases h7 with h | h | h
            · exact h
            · exact absurd (c2.trans h.symm) c0
            · linarith
          by_cases c4 : b = g
          · have e : ((b - r) / (mx - mn) + 2) * 60 = (((3 : ℤ) : ℚ) + 0 / (mx - mn)) * 60 := by
              rw [c2, hmr, c4]
              have : g - r ≠ 0 := by rw [← c2, ← hmr]; exact hd0
              push_cast; field_simp; ring
            rw [e, hsvToRgb_of_sector mx mn 0 3 hd h8 le_rfl hd]
            simp [c2, hmr, c4, tmod_three_six]
          · have e : ((b - r) / (mx - mn) + 2) * 60
                = (((2 : ℤ) : ℚ) + (b - r) / (mx - mn)) * 60 := by
              push_cast; ring
            have hbg : b < g := lt_of_le_of_ne (c2 ▸ h3) c4
            rw [e, hsvToRgb_of_sector mx mn (b - r) 2 hd h8 (by linarith) (by linarith)]
            simp [c2, hmr, tmod_two_six]
        · have hmb : mn = b := by
            rcases h7 with h | h | h
            · linarith
            · exact absurd (c2.trans h.symm) c0
            · exact h
          have e : ((b - r) / (mx - mn) + 2) * 60
              = (((1 : ℤ) : ℚ) + (g - r) / (mx - mn)) * 60 := by
            rw [c2, hmb]
            have : g - b ≠ 0 := by rw [← c2, ← hmb]; exact hd0
            push_cast; field_simp; ring
          rw [e, hsvToRgb_of_sector mx mn (g - r) 1 hd h8 (by linarith) (by linarith)]
          simp [c2, hmb, tmod_one_six]
      · simp only [if_neg c2]
        have hg_lt : g < mx := lt_of_le_of_ne h2 (Ne.symm c2)
        have c5 : mx = b := by
          rcases h9 with h | h | h
          · exact absurd h c1
          · exact absurd h c2
          · exact h
        by_cases c3 : g ≤ r
        · have hmg : mn = g := by
            rcases h7 with h | h | h
            · linarith
            · exact h
            · exact absurd (c5.trans h.symm) c0
          have e : ((r - g) / (mx - mn) + 4) * 60
              = (((4 : ℤ) : ℚ) + (r - g) / (mx - mn)) * 60 := by
            push_cast; ring
          rw [e, hsvToRgb_of_sector mx mn (r - g) 4 hd h8 (by linarith) (by linarith)]
          simp [c5, hmg, tmod_four_six]
        · have hmr : mn = r := by
            rcases h7 with h | h | h
            · exact h
            · linarith
            · exact absurd (c5.trans h.symm) c0
          have e : ((r - g) / (mx - mn) + 4) * 60
              = (((3 : ℤ) : ℚ) + (b - g) / (mx - mn)) * 60 := by
            rw [c5, hmr]
            have : b - r ≠ 0 := by rw [← c5, ← hmr]; exact hd0
            push_cast; field_simp; ring
          rw [e, hsvToRgb_of_sector mx mn (b - g) 3 hd h8 (by linarith) (by linarith)]
          simp [c5, hmr, tmod_three_six]

/-- Bounds of the three components of `rgbToHsv` on non-negative channels. -/
theorem rgbToHsv_bounds (r g b : ℚ) (hr : 0 ≤ r) (hg : 0 ≤ g) (hb : 0 ≤ b)
    (hr1 : r ≤ 1) (hg1 : g ≤ 1) (hb1 : b ≤ 1) :
    (0 ≤ (rgbToHsv r g b).h ∧ (rgbToHsv r g b).h < 360) ∧
    (0 ≤ (rgbToHsv r g b).s ∧ (rgbToHsv r g b).s ≤ 1) ∧
    (0 ≤ (rgbToHsv r g b).v ∧ (rgbToHsv r g b).v ≤ 1) := by
  obtain ⟨mx, hmx⟩ : ∃ mx, mx = max (max r g) b := ⟨_, rfl⟩
  obtain ⟨mn, hmn⟩ : ∃ mn, mn = min (min r g) b := ⟨_, rfl⟩
  have h1 : r ≤ mx := by rw [hmx]; exact le_trans (le_max_left _ _) (le_max_left _ _)
  have h2 : g ≤ mx := by rw [hmx]; exact le_trans (le_max_right _ _) (le_max_left _ _)
  have h3 : b ≤ mx := by rw [hmx]; exact le_max_right _ _
  have h4 : mn ≤ r := by rw [hmn]; exact le_trans (min_le_left _ _) (min_le_left _ _)
  have h5 : mn ≤ g := by rw [hmn]; exact le_trans (min_le_left _ _) (min_le_right _ _)
  have h6 : mn ≤ b := by rw [hmn]; exact min_le_right _ _
  have h7 : 0 ≤ mn := by rw [hmn]; exact le_min (le_min hr hg) hb
  have h8 : mx ≤ 1 := by rw [hmx]; exact max_le (max_le hr1 hg1) hb1
  have h9 : mx = r ∨ mx = g ∨ mx = b := by
    rw [hmx]
    rcases max_choice (max r g) b with h | h
    · rcases max_choice r g with h' | h'
      · left; rw [h, h']
      · right; left; rw [h, h']
    · right; right; exact h
  have hmx0 : 0 ≤ mx := le_trans hr h1
  unfold rgbToHsv
  simp only [← hmx, ← hmn]
  refine ⟨?_, ?_, hmx0, h8⟩
  · by_cases c0 : mx = mn
    · simp [c0]
    · have hd : 0 < mx - mn := by
        rcases lt_or_eq_of_le (le_trans h4 h1) with h | h
        · linarith
        · exact absurd h.symm c0
      simp only [if_neg c0]
      by_cases c1 : mx = r
      · simp only [if_pos c1]
        by_cases c2 : g < b
        · simp only [if_pos c2]
          have e1 : -1 ≤ (g - b) / (mx - mn) := by rw [le_div_iff₀ hd]; linarith
          have e2 : (g - b) / (mx - mn) < 0 := div_neg_of_neg_of_pos (by linarith) hd
          constructor <;> linarith
        · simp only [if_neg c2, add_zero]
          have e1 : 0 ≤ (g - b) / (mx - mn) := div_nonneg (by linarith) hd.le
          have e2 : (g - b) / (mx - mn) ≤ 1 := by rw [div_le_one hd]; linarith
          constructor <;> linarith
      · simp only [if_neg c1]
        by_cases c2 : mx = g
        · simp only [if_pos c2]
          have e1 : -1 ≤ (b - r) / (mx - mn) := by rw [le_div_iff₀ hd]; linarith
          have e2 : (b - r) / (mx - mn) ≤ 1 := by rw [div_le_one hd]; linarith
          constructor <;> linarith
        · simp only [if_neg c2]
          have e1 : -1 ≤ (r - g) / (mx - mn) := by rw [le_div_iff₀ hd]; linarith
          have e2 : (r - g) / (mx - mn) ≤ 1 := by rw [div_le_one hd]; linarith
          constructor <;> linarith
  · by_cases c : mx = 0
    · simp [c]
    · simp only [if_neg c]
      have hpos : 0 < mx := lt_of_le_of_ne hmx0 (Ne.symm c)
      constructor
      · exact div_nonneg (by linarith) hmx0
      · rw [div_le_one hpos]; linarith

theorem tabulate_length (n : Nat) (f : Nat → Nat) : (tabulate n f).length = n := by
  simp [tabulate]

theorem tabulate_getD (n : Nat) (f : Nat → Nat) (k : Nat) (hk : k < n) :
    (tabulate n f).getD k 0 = f k := by
  simp [tabulate, List.getD_eq_getElem?_getD, List.getElem?_map, List.getElem?_range hk]

theorem getD_replicate_zero (n k : Nat) : (List.replicate n 0).getD k 0 = 0 := by
  simp only [List.getD_eq_getElem?_getD, List.getElem?_replicate]
  split <;> rfl

/-- Two buffers of the same length with the same bytes are equal. -/
theorem ext_getD (a b : List Nat) (hl : a.length = b.length)
    (h : ∀ k, k < a.length → a.getD k 0 = b.getD k 0) : a = b := by
  apply List.ext_getElem hl
  intro k h1 h2
  have := h k h1
  simpa [List.getD_eq_getElem?_getD, List.getElem?_eq_getElem h1, List.getElem?_eq_getElem h2]
    using this

theorem toUint8Clamp_natCast (n : Nat) (hn : n ≤ 255) : toUint8Clamp (n : ℚ) = n := by
  unfold toUint8Clamp
  by_cases h0 : n = 0
  · simp [h0]
  · have hpos : ¬ ((n : ℚ) ≤ 0) := by
      push_neg; exact_mod_cast Nat.pos_of_ne_zero h0
    rw [if_neg hpos]
    by_cases h255 : n = 255
    · simp [h255]
    · have hlt : ¬ ((255 : ℚ) ≤ (n : ℚ)) := by
        push_neg
        have : n < 255 := lt_of_le_of_ne hn h255
        exact_mod_cast this
      rw [if_neg hlt]
      simp

theorem toUint8Clamp_le (x : ℚ) : toUint8Clamp x ≤ 255 := by
  unfold toUint8Clamp
  split_ifs with h1 h2 h3 h4 h5
  · exact Nat.zero_le _
  · exact le_rfl
  all_goals
    push_neg at h1 h2
    have hf : ⌊x⌋ < 255 := by
      have := Int.floor_le x
      have h : ((⌊x⌋ : ℤ) : ℚ) < ((255 : ℤ) : ℚ) := by push_cast; linarith
      exact_mod_cast h
    have hf0 : 0 ≤ ⌊x⌋ := Int.floor_nonneg.mpr h1.le
    omega

theorem forRange_succ {σ : Type} (n : Nat) (body : Nat → σ → σ) (s : σ) :
    forRange (n + 1) body s = body n (forRange n body s) := rfl

theorem forRange_zero {σ : Type} (body : Nat → σ → σ) (s : σ) :
    forRange 0 body s = s := rfl

/-- Induction principle for a loop invariant. -/
theorem forRange_inv {σ : Type} (P : σ → Prop) (n : Nat) (body : Nat → σ → σ) (s : σ)
    (h0 : P s) (hstep : ∀ i acc, i < n → P acc → P (body i acc)) : P (forRange n body s) := by
  induction n with
  | zero => exact h0
  | succ n ih =>
    rw [forRange_succ]
    exact hstep n _ (Nat.lt_succ_self n) (ih (fun i acc hi => hstep i acc (Nat.lt_succ_of_lt hi)))

theorem getD_set_eq (d : List Nat) (i v : Nat) (hi : i < d.length) :
    (d.set i v).getD i 0 = v := by
  simp [List.getD_eq_getElem?_getD, List.getElem?_set, hi]

theorem getD_set_ne (d : List Nat) (i j v : Nat) (hij : i ≠ j) :
    (d.set i v).getD j 0 = d.getD j 0 := by
  simp [List.getD_eq_getElem?_getD, List.getElem?_set, hij]

theorem set_getD_self (d : List Nat) (i : Nat) : d.set i (d.getD i 0) = d := by
  apply ext_getD
  · simp
  · intro k hk
    by_cases h : i = k
    · subst h
      rw [getD_set_eq]
      simpa using hk
    · rw [getD_set_ne _ _ _ _ h]

/-- Effect of a loop over the pixels whose body rewrites the three colour bytes
of its pixel as a function of the pixel's bytes. -/
theorem forRange_pixels (B : Nat → List Nat → List Nat) (val : Nat → Nat) (d : List Nat)
    (hlen : ∀ i acc, (B i acc).length = acc.length)
    (hframe : ∀ i acc j, (j < i ∨ i + 3 ≤ j) → (B i acc).getD j 0 = acc.getD j 0)
    (hval : ∀ k acc c, c < 3 → acc.length = d.length →
      (∀ c', c' < 4 → acc.getD (4 * k + c') 0 = d.getD (4 * k + c') 0) →
      4 * k + c < acc.length → (B (4 * k) acc).getD (4 * k + c) 0 = val (4 * k + c))
    (n : Nat) :
    (forRange n (fun k acc => B (4 * k) acc) d).length = d.length ∧
    ∀ j, j < d.length → (forRange n (fun k acc => B (4 * k) acc) d).getD j 0
      = if j < 4 * n ∧ j % 4 ≠ 3 then val j else d.getD j 0 := by
  induction n with
  | zero => simp [forRange]
  | succ n ih =>
    obtain ⟨ihl, ihv⟩ := ih
    rw [forRange_succ]
    refine ⟨by rw [hlen, ihl], ?_⟩
    intro j hj
    by_cases h1 : j < 4 * n
    · rw [hframe _ _ _ (Or.inl h1), ihv j hj]
      have : j < 4 * (n + 1) := by omega
      simp [h1, this]
    · by_cases h2 : 4 * n + 3 ≤ j
      · rw [hframe _ _ _ (Or.inr h2), ihv j hj]
        by_cases h3 : j = 4 * n + 3
        · have : j % 4 = 3 := by omega
          simp [this]
        · have : ¬ j < 4 * (n + 1) := by omega
          simp [h1, this]
      · obtain ⟨c, hc, rfl⟩ : ∃ c, c < 3 ∧ j = 4 * n + c := ⟨j - 4 * n, by omega, by omega⟩
        have hagree : ∀ c', c' < 4 →
            (forRange n (fun k acc => B (4 * k) acc) d).getD (4 * n + c') 0
              = d.getD (4 * n + c') 0 := by
          intro c' hc'
          by_cases hin : 4 * n + c' < d.length
          · rw [ihv _ hin]
            have : ¬ 4 * n + c' < 4 * n := by omega
            simp [this]
          · rw [List.getD_eq_default _ _ (by omega), List.getD_eq_default _ _ (by omega)]
        rw [hval n _ c hc ihl hagree (by omega)]
        have h4 : 4 * n + c < 4 * (n + 1) := by omega
        have h5 : (4 * n + c) % 4 ≠ 3 := by omega
        simp [h4, h5]

/-- `forPixels` on a buffer whose length is a multiple of four. -/
theorem forPixels_getD (B : Nat → List Nat → List Nat) (val : Nat → Nat) (d : List Nat)
    (hd : d.length % 4 = 0)
    (hlen : ∀ i acc, (B i acc).length = acc.length)
    (hframe : ∀ i acc j, (j < i ∨ i + 3 ≤ j) → (B i acc).getD j 0 = acc.getD j 0)
    (hval : ∀ k acc c, c < 3 → acc.length = d.length →
      (∀ c', c' < 4 → acc.getD (4 * k + c') 0 = d.getD (4 * k + c') 0) →
      4 * k + c < acc.length → (B (4 * k) acc).getD (4 * k + c) 0 = val (4 * k + c)) :
    (forPixels B d).length = d.length ∧
    ∀ j, j < d.length → (forPixels B d).getD j 0
      = if j % 4 ≠ 3 then val j else d.getD j 0 := by
  have h := forRange_pixels B val d hlen hframe hval ((d.length + 3) / 4)
  refine ⟨h.1, ?_⟩
  intro j hj
  have := h.2 j hj
  unfold forPixels
  rw [this]
  have : j < 4 * ((d.length + 3) / 4) := by omega
  simp [this]

theorem store_length (d : List Nat) (i : Nat) (x : ℚ) : (store d i x).length = d.length := by
  simp [store]

theorem store_getD_ne (d : List Nat) (i j : Nat) (x : ℚ) (h : i ≠ j) :
    (store d i x).getD j 0 = d.getD j 0 := getD_set_ne d i j _ h

theorem store_getD_eq (d : List Nat) (i : Nat) (x : ℚ) (h : i < d.length) :
    (store d i x).getD i 0 = toUint8Clamp x := getD_set_eq d i _ h

theorem rd_store_ne (d : List Nat) (i j : Nat) (x : ℚ) (h : i ≠ j) :
    rd (store d i x) j = rd d j := by
  unfold rd
  rw [store_getD_ne d i j x h]

theorem mapRgbBody_length (g : ℚ → ℚ) (i : Nat) (d : List Nat) :
    (mapRgbBody g i d).length = d.length := by
  simp [mapRgbBody, store_length]

theorem mapRgbBody_frame (g : ℚ → ℚ) (i : Nat) (d : List Nat) (j : Nat)
    (h : j < i ∨ i + 3 ≤ j) : (mapRgbBody g i d).getD j 0 = d.getD j 0 := by
  unfold mapRgbBody
  simp only []
  rw [store_getD_ne _ _ _ _ (by omega), store_getD_ne _ _ _ _ (by omega),
    store_getD_ne _ _ _ _ (by omega)]

theorem mapRgbBody_val (g : ℚ → ℚ) (i : Nat) (d : List Nat) (c : Nat) (hc : c < 3)
    (hi : i + c < d.length) :
    (mapRgbBody g i d).getD (i + c) 0 = toUint8Clamp (g (rd d (i + c))) := by
  unfold mapRgbBody
  simp only []
  rw [rd_store_ne _ _ _ _ (by omega : i + 1 ≠ i + 2), rd_store_ne _ _ _ _ (by omega : i ≠ i + 2),
    rd_store_ne _ _ _ _ (by omega : i ≠ i + 1)]
  obtain rfl | rfl | rfl : c = 0 ∨ c = 1 ∨ c = 2 := by omega
  · rw [store_getD_ne _ _ _ _ (by omega), store_getD_ne _ _ _ _ (by omega), add_zero,
      store_getD_eq _ _ _ (by simpa using hi)]
  · rw [store_getD_ne _ _ _ _ (by omega), store_getD_eq _ _ _ (by simpa [store_length] using hi)]
  · rw [store_getD_eq _ _ _ (by simpa [store_length] using hi)]

/-- Pointwise description of a `forPixels` loop with a `mapRgbBody` body. -/
theorem forPixels_mapRgb (g : ℚ → ℚ) (d : List Nat) (hd : d.length % 4 = 0) :
    (forPixels (mapRgbBody g) d).length = d.length ∧
    ∀ j, j < d.length → (forPixels (mapRgbBody g) d).getD j 0
      = if j % 4 ≠ 3 then toUint8Clamp (g (rd d j)) else d.getD j 0 := by
  apply forPixels_getD (mapRgbBody g) (fun j => toUint8Clamp (g (rd d j))) d hd
    (mapRgbBody_length g) (mapRgbBody_frame g)
  intro k acc c hc _ hag hlt
  rw [mapRgbBody_val g _ acc c hc hlt]
  simp only [rd]
  rw [hag c (by omega)]

theorem brightnessBody_eq (f : ℚ) :
    brightnessBody f = mapRgbBody (fun v => brightnessValue v f) := rfl

theorem contrastBody_eq (f intercept : ℚ) :
    contrastBody f intercept = mapRgbBody (fun v => contrastValue v f intercept) := rfl

theorem intensityBody_eq (f : ℚ) :
    intensityBody f = mapRgbBody (fun v => intensityValue v f) := rfl

/-- A canvas whose bitmap is still transparent black. -/
theorem blank_getD (cv : Canvas) (n : Nat) (hb : cv.data = List.replicate n 0) (k : Nat) :
    cv.data.getD k 0 = 0 := by
  rw [hb]; exact getD_replicate_zero n k

theorem compositeChannel_blank (sc sa dc c : Nat) : compositeChannel sc sa dc 0 c = sc := by
  simp [compositeChannel]

theorem drawImage_width (cv : Canvas) (img : Image) (dx dy : ℚ) :
    (cv.drawImage img dx dy).width = cv.width := by
  unfold Canvas.drawImage; split <;> rfl

theorem drawImage_height (cv : Canvas) (img : Image) (dx dy : ℚ) :
    (cv.drawImage img dx dy).height = cv.height := by
  unfold Canvas.drawImage; split <;> rfl

theorem drawImage_length (cv : Canvas) (img : Image) (dx dy : ℚ) :
    (cv.drawImage img dx dy).data.length = cv.data.length := by
  unfold Canvas.drawImage; split
  · rfl
  · simp [tabulate_length]

theorem drawImage_ctm (cv : Canvas) (img : Image) (dx dy : ℚ) :
    (cv.drawImage img dx dy).ctm = cv.ctm := by
  unfold Canvas.drawImage; split <;> rfl

theorem drawImage_saved (cv : Canvas) (img : Image) (dx dy : ℚ) :
    (cv.drawImage img dx dy).saved = cv.saved := by
  unfold Canvas.drawImage; split <;> rfl

/-- Bytes of `drawImage` on a canvas that is still transparent black. -/
theorem drawImage_blank_getD (cv : Canvas) (n : Nat) (hb : cv.data = List.replicate n 0)
    (img : Image) (dx dy : ℚ) (hdet : (cv.ctm.mul (Transform.shift dx dy)).det ≠ 0)
    (k : Nat) (hk : k < cv.data.length) :
    (cv.drawImage img dx dy).data.getD k 0 =
      (let l := (cv.ctm.mul (Transform.shift dx dy)).inverse.apply
          (((k / 4 % cv.width : Nat) : ℚ) + 1 / 2) (((k / 4 / cv.width : Nat) : ℚ) + 1 / 2)
       if 0 ≤ l.1 ∧ l.1 < img.width ∧ 0 ≤ l.2 ∧ l.2 < img.height then
         img.data.getD (4 * (⌊l.2⌋.toNat * img.width + ⌊l.1⌋.toNat) + k % 4) 0
       else 0) := by
  unfold Canvas.drawImage
  rw [if_neg hdet]
  simp only []
  rw [tabulate_getD _ _ _ hk]
  simp only [blank_getD cv n hb, compositeChannel_blank]

theorem floor_natCast_add_half (n : Nat) : ⌊((n : ℚ) + 1 / 2)⌋ = (n : ℤ) := by
  rw [Int.floor_eq_iff]
  constructor <;> push_cast <;> linarith

theorem identity_inverse_apply (x y : ℚ) :
    Transform.identity.inverse.apply x y = (x, y) := by
  simp [Transform.identity, Transform.inverse, Transform.apply, Transform.det]

/-- Drawing an image with a net identity matrix on a blank canvas of the image's
size copies the image's buffer. -/
theorem drawImage_copy (cv : Canvas) (hb : cv.data = List.replicate (cv.width * cv.height * 4) 0)
    (img : Image) (dx dy : ℚ) (hm : cv.ctm.mul (Transform.shift dx dy) = Transform.identity)
    (hw : img.width = cv.width) (hh : img.height = cv.height)
    (hl : img.data.length = img.width * img.height * 4) :
    (cv.drawImage img dx dy).data = img.data := by
  have hlen : cv.data.length = cv.width * cv.height * 4 := by rw [hb]; simp
  apply ext_getD
  · rw [drawImage_length, hlen, hl, hw, hh]
  · intro k hk
    rw [drawImage_length] at hk
    have hdet : (cv.ctm.mul (Transform.shift dx dy)).det ≠ 0 := by
      rw [hm]; simp [Transform.identity, Transform.det]
    rw [drawImage_blank_getD cv _ hb img dx dy hdet k hk, hm]
    simp only [identity_inverse_apply]
    rw [hlen] at hk
    have hwpos : 0 < cv.width := by
      rcases Nat.eq_zero_or_pos cv.width with h | h
      · rw [h] at hk; simp at hk
      · exact h
    have hp : k / 4 < cv.width * cv.height := by omega
    have hX : k / 4 % cv.width < cv.width := Nat.mod_lt _ hwpos
    have hY : k / 4 / cv.width < cv.height := by
      rw [Nat.div_lt_iff_lt_mul hwpos]; rw [Nat.mul_comm]; exact hp
    have c1 : (0 : ℚ) ≤ ((k / 4 % cv.width : Nat) : ℚ) + 1 / 2 := by positivity
    have c2 : ((k / 4 % cv.width : Nat) : ℚ) + 1 / 2 < (img.width : ℚ) := by
      rw [hw]
      have : ((k / 4 % cv.width : Nat) : ℚ) + 1 ≤ (cv.width : ℚ) := by exact_mod_cast hX
      linarith
    have c3 : (0 : ℚ) ≤ ((k / 4 / cv.width : Nat) : ℚ) + 1 / 2 := by positivity
    have c4 : ((k / 4 / cv.width : Nat) : ℚ) + 1 / 2 < (img.height : ℚ) := by
      rw [hh]
      have : ((k / 4 / cv.width : Nat) : ℚ) + 1 ≤ (cv.height : ℚ) := by exact_mod_cast hY
      linarith
    rw [if_pos ⟨c1, c2, c3, c4⟩, floor_natCast_add_half, floor_natCast_add_half, hw]
    simp only [Int.toNat_ofNat]
    have e : 4 * (k / 4 / cv.width * cv.width + k / 4 % cv.width) + k % 4 = k := by
      have := Nat.div_add_mod (k / 4) cv.width
      have h2 : k / 4 / cv.width * cv.width + k / 4 % cv.width = k / 4 := by
        rw [Nat.mul_comm]; exact this
      rw [h2]; omega
    rw [e]

theorem create_blank (w h : Nat) :
    (Canvas.create w h).data = List.replicate ((Canvas.create w h).width * (Canvas.create w h).height * 4) 0 := rfl

theorem identity_mul_shift_zero :
    Transform.identity.mul (Transform.shift 0 0) = Transform.identity := by
  simp [Transform.identity, Transform.mul, Transform.shift]

/-- The first `drawImage(img, 0, 0)` on the new canvas copies a well-formed image. -/
theorem create_drawImage_data (img : Image) (hl : img.data.length = img.width * img.height * 4) :
    ((Canvas.create img.width img.height).drawImage img 0 0).data = img.data :=
  drawImage_copy _ (create_blank _ _) img 0 0 identity_mul_shift_zero rfl rfl hl

theorem applyAugmentation_brightness (M : JsMath) (u : Nat → ℚ) (img : Image) (p : Param)
    (lo hi : ℚ) (hp : p.factorRange = some (lo, hi)) :
    (applyAugmentation M u img "brightness" p).data =
      forPixels (brightnessBody (fdiv (fadd lo hi) 2))
        ((Canvas.create img.width img.height).drawImage img 0 0).data := by
  simp [applyAugmentation, runSwitch, caseBrightness, caseContrast, hp, Canvas.putImageData,
    Canvas.getImageData]

theorem applyAugmentation_contrast (M : JsMath) (u : Nat → ℚ) (img : Image) (p : Param)
    (lo hi : ℚ) (hp : p.factorRange = some (lo, hi)) :
    (applyAugmentation M u img "contrast" p).data =
      forPixels (contrastBody (fdiv (fadd lo hi) 2) (fmul 128 (fsub 1 (fdiv (fadd lo hi) 2))))
        ((Canvas.create img.width img.height).drawImage img 0 0).data := by
  simp [applyAugmentation, runSwitch, caseBrightness, caseContrast, hp, Canvas.putImageData,
    Canvas.getImageData]

/-! ## Sizes -/

theorem forRange_length (n : Nat) (body : Nat → List Nat → List Nat) (d : List Nat)
    (h : ∀ i acc, (body i acc).length = acc.length) : (forRange n body d).length = d.length :=
  forRange_inv (fun acc => acc.length = d.length) n body d rfl
    (fun i acc _ hacc => by
      show (body i acc).length = d.length
      rw [h i acc]; exact hacc)

theorem forPixels_length (B : Nat → List Nat → List Nat) (d : List Nat)
    (h : ∀ i acc, (B i acc).length = acc.length) : (forPixels B d).length = d.length :=
  forRange_length _ _ d (fun k acc => h (4 * k) acc)

theorem brightnessBody_length (f : ℚ) (i : Nat) (d : List Nat) :
    (brightnessBody f i d).length = d.length := by
  rw [brightnessBody_eq]; exact mapRgbBody_length _ i d

theorem contrastBody_length (f ic : ℚ) (i : Nat) (d : List Nat) :
    (contrastBody f ic i d).length = d.length := by
  rw [contrastBody_eq]; exact mapRgbBody_length _ i d

theorem intensityBody_length (f : ℚ) (i : Nat) (d : List Nat) :
    (intensityBody f i d).length = d.length := by
  rw [intensityBody_eq]; exact mapRgbBody_length _ i d

theorem noiseBody_length (mode : String) (u : Nat → ℚ) (i : Nat) (d : List Nat) :
    (noiseBody mode u i d).length = d.length := by
  unfold noiseBody
  split_ifs <;> simp [store_length]

theorem colorJitterBody_length (jb jc ic : ℚ) (i : Nat) (d : List Nat) :
    (colorJitterBody jb jc ic i d).length = d.length := by
  unfold colorJitterBody
  rw [contrastBody_length, brightnessBody_length]

theorem pcaBody_length (al : Nat → ℚ) (i : Nat) (d : List Nat) :
    (pcaBody al i d).length = d.length := by
  simp [pcaBody, store_length]

theorem hsvJitterBody_length (hShift : ℚ) (sS vS : ℚ × ℚ) (u : Nat → ℚ) (i : Nat)
    (d : List Nat) : (hsvJitterBody hShift sS vS u i d).length = d.length := by
  simp [hsvJitterBody, store_length]

theorem randomHsvBody_length (a b c : ℚ) (i : Nat) (d : List Nat) :
    (randomHsvBody a b c i d).length = d.length := by
  simp [randomHsvBody, store_length]

theorem waveLoop_length (M : JsMath) (a f : ℚ) (w h : Nat) (temp d : List Nat) :
    (waveLoop M a f w h temp d).length = d.length := by
  unfold waveLoop
  apply forRange_length
  intro y acc
  apply forRange_length
  intro x acc
  simp

theorem edgeLoop_length (s : ℚ) (w h : Nat) (temp d : List Nat) :
    (edgeLoop s w h temp d).length = d.length := by
  unfold edgeLoop
  apply forRange_length
  intro y acc
  apply forRange_length
  intro x acc
  simp [store_length]

theorem writePixel_length (w h g : Nat) (patch : List (List Nat)) (ti tj y x : Nat)
    (d : List Nat) : (writePixel w h g patch ti tj y x d).length = d.length := by
  unfold writePixel
  simp only []
  split_ifs <;> simp

theorem writeRow_length (w h g : Nat) (patch : List (List Nat)) (ti tj y : Nat) (d : List Nat) :
    (writeRow w h g patch ti tj y d).length = d.length := by
  unfold writeRow
  apply forRange_length
  intro x acc
  exact writePixel_length _ _ _ _ _ _ _ _ _

theorem writePatch_length (w h g : Nat) (patch : List (List Nat)) (ti tj : Nat) (d : List Nat) :
    (writePatch w h g patch ti tj d).length = d.length := by
  unfold writePatch
  apply forRange_length
  intro y acc
  exact writeRow_length _ _ _ _ _ _ _ _

theorem writePatches_length (w h g hG wG : Nat) (ps : List Patch) (d : List Nat) :
    (writePatches w h g hG wG ps d).length = d.length := by
  unfold writePatches
  apply forRange_length
  intro idx acc
  exact writePatch_length _ _ _ _ _ _ _

theorem patchShuffleData_length (gs : ℤ) (u : Nat → ℚ) (w h : Nat) (d d' : List Nat)
    (hd : patchShuffleData gs u w h d = some d') : d'.length = d.length := by
  unfold patchShuffleData at hd
  simp only [] at hd
  split_ifs at hd
  all_goals
    injection hd with hd
    rw [← hd]
    exact writePatches_length _ _ _ _ _ _ _

theorem create_sized (w h : Nat) : (Canvas.create w h).Sized w h := by
  simp [Canvas.Sized, Canvas.create]

theorem drawImage_sized (cv : Canvas) (w h : Nat) (hs : cv.Sized w h) (img : Image) (dx dy : ℚ) :
    (cv.drawImage img dx dy).Sized w h := by
  obtain ⟨h1, h2, h3⟩ := hs
  exact ⟨by rw [drawImage_width, h1], by rw [drawImage_height, h2], by rw [drawImage_length, h3]⟩

theorem drawImageRect_sized (cv : Canvas) (w h : Nat) (hs : cv.Sized w h) (img : Image)
    (a b c d e f g k : ℚ) : (cv.drawImageRect img a b c d e f g k).Sized w h := by
  unfold Canvas.drawImageRect
  split
  · exact hs
  · obtain ⟨h1, h2, h3⟩ := hs
    exact ⟨h1, h2, by simp [tabulate_length, h3]⟩

theorem fillRectBlack_sized (cv : Canvas) (w h : Nat) (hs : cv.Sized w h) (a b c d : ℚ) :
    (cv.fillRectBlack a b c d).Sized w h := by
  unfold Canvas.fillRectBlack
  split
  · exact hs
  · obtain ⟨h1, h2, h3⟩ := hs
    exact ⟨h1, h2, by simp [tabulate_length, h3]⟩

theorem translate_sized (cv : Canvas) (w h : Nat) (hs : cv.Sized w h) (a b : ℚ) :
    (cv.translate a b).Sized w h := hs

theorem scale_sized (cv : Canvas) (w h : Nat) (hs : cv.Sized w h) (a b : ℚ) :
    (cv.scale a b).Sized w h := hs

theorem rotate_sized (M : JsMath) (cv : Canvas) (w h : Nat) (hs : cv.Sized w h) (a : ℚ) :
    (Canvas.rotate M cv a).Sized w h := hs

theorem save_sized (cv : Canvas) (w h : Nat) (hs : cv.Sized w h) : cv.save.Sized w h := hs

theorem restore_sized (cv : Canvas) (w h : Nat) (hs : cv.Sized w h) : cv.restore.Sized w h := by
  unfold Canvas.restore
  split
  · exact hs
  · exact hs

theorem putImageData_sized (cv : Canvas) (w h : Nat) (hs : cv.Sized w h) (d : List Nat)
    (hd : d.length = cv.data.length) : (cv.putImageData d).Sized w h :=
  ⟨hs.1, hs.2.1, by simp [Canvas.putImageData, hd, hs.2.2]⟩

theorem caseCopy_sized (cv : Canvas) (w h : Nat) (hs : cv.Sized w h) (img : Image) :
    (caseCopy cv img).canvas.Sized w h := drawImage_sized cv w h hs img 0 0

theorem caseHflip_sized (cv : Canvas) (w h : Nat) (hs : cv.Sized w h) (img : Image) :
    (caseHflip cv img).canvas.Sized w h :=
  drawImage_sized _ w h (scale_sized _ w h (translate_sized _ w h hs _ _) _ _) img 0 0

theorem caseVflip_sized (cv : Canvas) (w h : Nat) (hs : cv.Sized w h) (img : Image) :
    (caseVflip cv img).canvas.Sized w h :=
  drawImage_sized _ w h (scale_sized _ w h (translate_sized _ w h hs _ _) _ _) img 0 0

theorem caseRotate_sized (M : JsMath) (cv : Canvas) (w h : Nat) (hs : cv.Sized w h) (img : Image)
    (param : Param) : (caseRotate M cv img param).canvas.Sized w h := by
  unfold caseRotate
  cases param.angleRange with
  | none => exact hs
  | some r =>
    exact restore_sized _ w h (drawImage_sized _ w h
      (rotate_sized M _ w h (translate_sized _ w h (save_sized _ w h hs) _ _) _) img _ _)

theorem caseCrop_sized (cv : Canvas) (w h : Nat) (hs : cv.Sized w h) (img : Image)
    (param : Param) : (caseCrop cv img param).canvas.Sized w h :=
  drawImageRect_sized cv w h hs img _ _ _ _ _ _ _ _

theorem caseBrightness_sized (cv : Canvas) (w h : Nat) (hs : cv.Sized w h) (img : Image)
    (param : Param) : (caseBrightness cv img param).canvas.Sized w h := by
  have hd := drawImage_sized cv w h hs img 0 0
  unfold caseBrightness
  cases param.factorRange with
  | none => exact hd
  | some r =>
    exact putImageData_sized _ w h hd _ (forPixels_length _ _ (brightnessBody_length _))

theorem caseContrast_sized (cv : Canvas) (w h : Nat) (hs : cv.Sized w h) (img : Image)
    (param : Param) : (caseContrast cv img param).canvas.Sized w h := by
  have hd := drawImage_sized cv w h hs img 0 0
  unfold caseContrast
  cases param.factorRange with
  | none => exact hd
  | some r =>
    exact putImageData_sized _ w h hd _ (forPixels_length _ _ (contrastBody_length _ _))

theorem caseNoise_sized (u : Nat → ℚ) (cv : Canvas) (w h : Nat) (hs : cv.Sized w h) (img : Image)
    (param : Param) : (caseNoise u cv img param).canvas.Sized w h :=
  putImageData_sized _ w h (drawImage_sized cv w h hs img 0 0) _
    (forPixels_length _ _ (noiseBody_length _ _))

theorem caseColorJitter_sized (u : Nat → ℚ) (cv : Canvas) (w h : Nat) (hs : cv.Sized w h)
    (img : Image) (param : Param) : (caseColorJitter u cv img param).canvas.Sized w h :=
  putImageData_sized _ w h (drawImage_sized cv w h hs img 0 0) _
    (forPixels_length _ _ (colorJitterBody_length _ _ _))

theorem caseErase_sized (M : JsMath) (u : Nat → ℚ) (cv : Canvas) (w h : Nat) (hs : cv.Sized w h)
    (img : Image) (param : Param) : (caseErase M u cv img param).canvas.Sized w h := by
  have hd := drawImage_sized cv w h hs img 0 0
  unfold caseErase
  simp only []
  split_ifs
  · exact fillRectBlack_sized _ w h hd _ _ _ _
  · exact hd
  · exact hd

theorem caseTranslate_sized (u : Nat → ℚ) (cv : Canvas) (w h : Nat) (hs : cv.Sized w h)
    (img : Image) (param : Param) : (caseTranslate u cv img param).canvas.Sized w h := by
  unfold caseTranslate
  cases param.range with
  | none => exact save_sized _ w h hs
  | some r =>
    exact restore_sized _ w h (drawImage_sized _ w h
      (translate_sized _ w h (save_sized _ w h hs) _ _) img _ _)

theorem caseWaveNoise_sized (M : JsMath) (cv : Canvas) (w h : Nat) (hs : cv.Sized w h)
    (img : Image) (param : Param) : (caseWaveNoise M cv img param).canvas.Sized w h :=
  putImageData_sized _ w h (drawImage_sized cv w h hs img 0 0) _ (waveLoop_length _ _ _ _ _ _ _)

theorem caseFancyPca_sized (u : Nat → ℚ) (cv : Canvas) (w h : Nat) (hs : cv.Sized w h)
    (img : Image) (param : Param) : (caseFancyPca u cv img param).canvas.Sized w h :=
  putImageData_sized _ w h (drawImage_sized cv w h hs img 0 0) _
    (forPixels_length _ _ (pcaBody_length _))

theorem caseHsvJitter_sized (u : Nat → ℚ) (cv : Canvas) (w h : Nat) (hs : cv.Sized w h)
    (img : Image) (param : Param) : (caseHsvJitter u cv img param).canvas.Sized w h := by
  have hd := drawImage_sized cv w h hs img 0 0
  unfold caseHsvJitter
  simp only []
  split_ifs
  · exact putImageData_sized _ w h hd _ rfl
  · cases param.sScale <;> cases param.vScale
    · exact hd
    · exact hd
    · exact hd
    · exact putImageData_sized _ w h hd _ (forPixels_length _ _ (hsvJitterBody_length _ _ _ _))

theorem caseIntensity_sized (u : Nat → ℚ) (cv : Canvas) (w h : Nat) (hs : cv.Sized w h)
    (img : Image) (param : Param) : (caseIntensity u cv img param).canvas.Sized w h := by
  have hd := drawImage_sized cv w h hs img 0 0
  unfold caseIntensity
  cases param.factor with
  | none => exact hd
  | some r =>
    exact putImageData_sized _ w h hd _ (forPixels_length _ _ (intensityBody_length _))

theorem caseEdgeEnhance_sized (cv : Canvas) (w h : Nat) (hs : cv.Sized w h)
    (img : Image) (param : Param) : (caseEdgeEnhance cv img param).canvas.Sized w h :=
  putImageData_sized _ w h (drawImage_sized cv w h hs img 0 0) _ (edgeLoop_length _ _ _ _ _)

theorem caseRandomHsv_sized (u : Nat → ℚ) (cv : Canvas) (w h : Nat) (hs : cv.Sized w h)
    (img : Image) (param : Param) : (caseRandomHsv u cv img param).canvas.Sized w h := by
  have hd := drawImage_sized cv w h hs img 0 0
  unfold caseRandomHsv
  cases param.hRange <;> cases param.sRange <;> cases param.vRange
  all_goals first
    | exact hd
    | exact putImageData_sized _ w h hd _ (forPixels_length _ _ (randomHsvBody_length _ _ _))

theorem casePatchShuffle_sized (u : Nat → ℚ) (cv : Canvas) (w h : Nat) (hs : cv.Sized w h)
    (img : Image) (param : Param) : (casePatchShuffle u cv img param).canvas.Sized w h := by
  have hd := drawImage_sized cv w h hs img 0 0
  cases hp : patchShuffleData param.gridSize u cv.width cv.height (cv.drawImage img 0 0).data with
  | none =>
    have e : casePatchShuffle u cv img param = .done (cv.drawImage img 0 0) := by
      show (match patchShuffleData param.gridSize u cv.width cv.height
        (cv.drawImage img 0 0).data with
        | some d => Outcome.done ((cv.drawImage img 0 0).putImageData d)
        | none => Outcome.done (cv.drawImage img 0 0)) = _
      rw [hp]
    rw [e]; exact hd
  | some d' =>
    have e : casePatchShuffle u cv img param
        = .done ((cv.drawImage img 0 0).putImageData d') := by
      show (match patchShuffleData param.gridSize u cv.width cv.height
        (cv.drawImage img 0 0).data with
        | some d => Outcome.done ((cv.drawImage img 0 0).putImageData d)
        | none => Outcome.done (cv.drawImage img 0 0)) = _
      rw [hp]
    rw [e]
    exact putImageData_sized _ w h hd _ (patchShuffleData_length _ _ _ _ _ _ hp)

/-- Case analysis on the `switch`: a property of every case holds of `runSwitch`. -/
theorem runSwitch_cases (P : Outcome → Prop) (M : JsMath) (u : Nat → ℚ) (cv : Canvas)
    (img : Image) (augId : String) (param : Param)
    (h0 : P (caseHflip cv img)) (h1 : P (caseVflip cv img)) (h2 : P (caseRotate M cv img param))
    (h3 : P (caseCrop cv img param)) (h4 : P (caseBrightness cv img param))
    (h5 : P (caseContrast cv img param)) (h6 : P (caseNoise u cv img param))
    (h7 : P (caseCopy cv img)) (h9 : P (caseColorJitter u cv img param))
    (h12 : P (caseErase M u cv img param)) (h13 : P (caseTranslate u cv img param))
    (h14 : P (caseWaveNoise M cv img param)) (h15 : P (caseFancyPca u cv img param))
    (h16 : P (caseHsvJitter u cv img param)) (h17 : P (caseIntensity u cv img param))
    (h18 : P (caseEdgeEnhance cv img param)) (h19 : P (caseRandomHsv u cv img param))
    (h20 : P (casePatchShuffle u cv img param)) :
    P (runSwitch M u cv img augId param) := by
  have h8 := h7
  have h10 := h7
  have h11 := h7
  unfold runSwitch
  by_cases c0 : augId = "hflip"
  · rw [if_pos c0]; exact h0
  rw [if_neg c0]
  by_cases c1 : augId = "vflip"
  · rw [if_pos c1]; exact h1
  rw [if_neg c1]
  by_cases c2 : augId = "rotate"
  · rw [if_pos c2]; exact h2
  rw [if_neg c2]
  by_cases c3 : augId = "crop"
  · rw [if_pos c3]; exact h3
  rw [if_neg c3]
  by_cases c4 : augId = "brightness"
  · rw [if_pos c4]; exact h4
  rw [if_neg c4]
  by_cases c5 : augId = "contrast"
  · rw [if_pos c5]; exact h5
  rw [if_neg c5]
  by_cases c6 : augId = "noise"
  · rw [if_pos c6]; exact h6
  rw [if_neg c6]
  by_cases c7 : augId = "scale"
  · rw [if_pos c7]; exact h7
  rw [if_neg c7]
  by_cases c8 : augId = "blur"
  · rw [if_pos c8]; exact h8
  rw [if_neg c8]
  by_cases c9 : augId = "colorJitter"
  · rw [if_pos c9]; exact h9
  rw [if_neg c9]
  by_cases c10 : augId = "motionBlur"
  · rw [if_pos c10]; exact h10
  rw [if_neg c10]
  by_cases c11 : augId = "elastic"
  · rw [if_pos c11]; exact h11
  rw [if_neg c11]
  by_cases c12 : augId = "erase"
  · rw [if_pos c12]; exact h12
  rw [if_neg c12]
  by_cases c13 : augId = "translate"
  · rw [if_pos c13]; exact h13
  rw [if_neg c13]
  by_cases c14 : augId = "waveNoise"
  · rw [if_pos c14]; exact h14
  rw [if_neg c14]
  by_cases c15 : augId = "fancyPca"
  · rw [if_pos c15]; exact h15
  rw [if_neg c15]
  by_cases c16 : augId = "hsvJitter"
  · rw [if_pos c16]; exact h16
  rw [if_neg c16]
  by_cases c17 : augId = "intensity"
  · rw [if_pos c17]; exact h17
  rw [if_neg c17]
  by_cases c18 : augId = "edgeEnhance"
  · rw [if_pos c18]; exact h18
  rw [if_neg c18]
  by_cases c19 : augId = "randomHsv"
  · rw [if_pos c19]; exact h19
  rw [if_neg c19]
  by_cases c20 : augId = "patchShuffle"
  · rw [if_pos c20]; exact h20
  rw [if_neg c20]
  exact h7

/-- Whatever the `switch` does, the canvas keeps the size it was created with. -/
theorem runSwitch_sized (M : JsMath) (u : Nat → ℚ) (cv : Canvas) (w h : Nat) (hs : cv.Sized w h)
    (img : Image) (augId : String) (param : Param) :
    (runSwitch M u cv img augId param).canvas.Sized w h :=
  runSwitch_cases (fun o => o.canvas.Sized w h) M u cv img augId param
    (caseHflip_sized cv w h hs img) (caseVflip_sized cv w h hs img)
    (caseRotate_sized M cv w h hs img param) (caseCrop_sized cv w h hs img param)
    (caseBrightness_sized cv w h hs img param) (caseContrast_sized cv w h hs img param)
    (caseNoise_sized u cv w h hs img param) (caseCopy_sized cv w h hs img)
    (caseColorJitter_sized u cv w h hs img param) (caseErase_sized M u cv w h hs img param)
    (caseTranslate_sized u cv w h hs img param) (caseWaveNoise_sized M cv w h hs img param)
    (caseFancyPca_sized u cv w h hs img param) (caseHsvJitter_sized u cv w h hs img param)
    (caseIntensity_sized u cv w h hs img param) (caseEdgeEnhance_sized cv w h hs img param)
    (caseRandomHsv_sized u cv w h hs img param) (casePatchShuffle_sized u cv w h hs img param)

/-! ## Byte range -/

theorem clampMinMax_range (x : ℚ) : 0 ≤ clampMinMax x ∧ clampMinMax x ≤ 255 := by
  unfold clampMinMax
  exact ⟨le_min (by norm_num) (le_max_left _ _), min_le_left _ _⟩

theorem clampMaxMin_range (x : ℚ) : 0 ≤ clampMaxMin x ∧ clampMaxMin x ≤ 255 := by
  unfold clampMaxMin
  exact ⟨le_max_left _ _, max_le (by norm_num) (min_le_left _ _)⟩

theorem getD_le_of_bytes (d : List Nat) (hd : Bytes d) (k : Nat) : d.getD k 0 ≤ 255 := by
  by_cases hk : k < d.length
  · rw [List.getD_eq_getElem _ _ hk]
    exact hd _ (List.getElem_mem _)
  · rw [List.getD_eq_default _ _ (by omega)]
    exact Nat.zero_le _

theorem set_bytes (d : List Nat) (hd : Bytes d) (i x : Nat) (hx : x ≤ 255) :
    Bytes (d.set i x) := by
  intro v hv
  rcases List.mem_or_eq_of_mem_set hv with h | h
  · exact hd v h
  · rw [h]; exact hx

theorem store_bytes (d : List Nat) (hd : Bytes d) (i : Nat) (x : ℚ) : Bytes (store d i x) :=
  set_bytes d hd i _ (toUint8Clamp_le x)

theorem forRange_bytes (n : Nat) (body : Nat → List Nat → List Nat) (d : List Nat)
    (hd : Bytes d) (h : ∀ i acc, Bytes acc → Bytes (body i acc)) : Bytes (forRange n body d) :=
  forRange_inv Bytes n body d hd (fun i acc _ hacc => h i acc hacc)

theorem forPixels_bytes (B : Nat → List Nat → List Nat) (d : List Nat) (hd : Bytes d)
    (h : ∀ i acc, Bytes acc → Bytes (B i acc)) : Bytes (forPixels B d) :=
  forRange_bytes _ _ d hd (fun k acc => h (4 * k) acc)

theorem mapRgbBody_bytes (g : ℚ → ℚ) (i : Nat) (d : List Nat) (hd : Bytes d) :
    Bytes (mapRgbBody g i d) :=
  store_bytes _ (store_bytes _ (store_bytes _ hd _ _) _ _) _ _

theorem brightnessBody_bytes (f : ℚ) (i : Nat) (d : List Nat) (hd : Bytes d) :
    Bytes (brightnessBody f i d) :=
  store_bytes _ (store_bytes _ (store_bytes _ hd _ _) _ _) _ _

theorem contrastBody_bytes (f ic : ℚ) (i : Nat) (d : List Nat) (hd : Bytes d) :
    Bytes (contrastBody f ic i d) :=
  store_bytes _ (store_bytes _ (store_bytes _ hd _ _) _ _) _ _

theorem intensityBody_bytes (f : ℚ) (i : Nat) (d : List Nat) (hd : Bytes d) :
    Bytes (intensityBody f i d) :=
  store_bytes _ (store_bytes _ (store_bytes _ hd _ _) _ _) _ _

theorem noiseBody_bytes (mode : String) (u : Nat → ℚ) (i : Nat) (d : List Nat) (hd : Bytes d) :
    Bytes (noiseBody mode u i d) := by
  unfold noiseBody
  split_ifs
  · exact store_bytes _ (store_bytes _ (store_bytes _ hd _ _) _ _) _ _
  · exact store_bytes _ (store_bytes _ (store_bytes _ hd _ _) _ _) _ _
  · exact hd
  · exact store_bytes _ (store_bytes _ (store_bytes _ hd _ _) _ _) _ _
  · exact hd
  · exact hd

theorem colorJitterBody_bytes (jb jc ic : ℚ) (i : Nat) (d : List Nat) (hd : Bytes d) :
    Bytes (colorJitterBody jb jc ic i d) :=
  contrastBody_bytes _ _ _ _ (brightnessBody_bytes _ _ _ hd)

theorem pcaBody_bytes (al : Nat → ℚ) (i : Nat) (d : List Nat) (hd : Bytes d) :
    Bytes (pcaBody al i d) :=
  store_bytes _ (store_bytes _ (store_bytes _ hd _ _) _ _) _ _

theorem hsvJitterBody_bytes (hShift : ℚ) (sS vS : ℚ × ℚ) (u : Nat → ℚ) (i : Nat)
    (d : List Nat) (hd : Bytes d) : Bytes (hsvJitterBody hShift sS vS u i d) :=
  store_bytes _ (store_bytes _ (store_bytes _ hd _ _) _ _) _ _

theorem randomHsvBody_bytes (a b c : ℚ) (i : Nat) (d : List Nat) (hd : Bytes d) :
    Bytes (randomHsvBody a b c i d) :=
  store_bytes _ (store_bytes _ (store_bytes _ hd _ _) _ _) _ _

theorem edgeLoop_bytes (s : ℚ) (w h : Nat) (temp d : List Nat) (hd : Bytes d) :
    Bytes (edgeLoop s w h temp d) := by
  unfold edgeLoop
  apply forRange_bytes _ _ _ hd
  intro y acc hacc
  apply forRange_bytes _ _ _ hacc
  intro x acc hacc
  exact store_bytes _ (store_bytes _ (store_bytes _ hacc _ _) _ _) _ _

theorem tabulate_bytes (n : Nat) (f : Nat → Nat) (h : ∀ k, f k ≤ 255) : Bytes (tabulate n f) := by
  intro v hv
  simp only [tabulate, List.mem_map] at hv
  obtain ⟨k, _, rfl⟩ := hv
  exact h k

theorem compositeChannel_le (sc sa dc da c : Nat) (h : sc ≤ 255) :
    compositeChannel sc sa dc da c ≤ 255 := by
  unfold compositeChannel
  split_ifs
  · exact h
  · exact toUint8Clamp_le _
  · exact toUint8Clamp_le _

theorem drawImage_bytes (cv : Canvas) (img : Image) (dx dy : ℚ) (hc : Bytes cv.data)
    (hi : Bytes img.data) : Bytes (cv.drawImage img dx dy).data := by
  unfold Canvas.drawImage
  split
  · exact hc
  · apply tabulate_bytes
    intro k
    simp only []
    split_ifs
    · exact compositeChannel_le _ _ _ _ _ (getD_le_of_bytes _ hi _)
    · exact getD_le_of_bytes _ hc _

theorem create_bytes (w h : Nat) : Bytes (Canvas.create w h).data := by
  intro v hv
  simp only [Canvas.create, List.mem_replicate] at hv
  rw [hv.2]; exact Nat.zero_le _

/-! ## The `switch` at each operator id -/

theorem runSwitch_hflip (M : JsMath) (u : Nat → ℚ) (cv : Canvas) (img : Image) (param : Param) :
    runSwitch M u cv img "hflip" param = caseHflip cv img := by
  simp [runSwitch]

theorem runSwitch_vflip (M : JsMath) (u : Nat → ℚ) (cv : Canvas) (img : Image) (param : Param) :
    runSwitch M u cv img "vflip" param = caseVflip cv img := by
  simp [runSwitch]

theorem runSwitch_rotate (M : JsMath) (u : Nat → ℚ) (cv : Canvas) (img : Image) (param : Param) :
    runSwitch M u cv img "rotate" param = caseRotate M cv img param := by
  simp [runSwitch]

theorem runSwitch_crop (M : JsMath) (u : Nat → ℚ) (cv : Canvas) (img : Image) (param : Param) :
    runSwitch M u cv img "crop" param = caseCrop cv img param := by
  simp [runSwitch]

theorem runSwitch_brightness (M : JsMath) (u : Nat → ℚ) (cv : Canvas) (img : Image) (param : Param) :
    runSwitch M u cv img "brightness" param = caseBrightness cv img param := by
  simp [runSwitch]

theorem runSwitch_contrast (M : JsMath) (u : Nat → ℚ) (cv : Canvas) (img : Image) (param : Param) :
    runSwitch M u cv img "contrast" param = caseContrast cv img param := by
  simp [runSwitch]

theorem runSwitch_noise (M : JsMath) (u : Nat → ℚ) (cv : Canvas) (img : Image) (param : Param) :
    runSwitch M u cv img "noise" param = caseNoise u cv img param := by
  simp [runSwitch]

theorem runSwitch_scale (M : JsMath) (u : Nat → ℚ) (cv : Canvas) (img : Image) (param : Param) :
    runSwitch M u cv img "scale" param = caseCopy cv img := by
  simp [runSwitch]

theorem runSwitch_blur (M : JsMath) (u : Nat → ℚ) (cv : Canvas) (img : Image) (param : Param) :
    runSwitch M u cv img "blur" param = caseCopy cv img := by
  simp [runSwitch]

theorem runSwitch_colorJitter (M : JsMath) (u : Nat → ℚ) (cv : Canvas) (img : Image) (param : Param) :
    runSwitch M u cv img "colorJitter" param = caseColorJitter u cv img param := by
  simp [runSwitch]

theorem runSwitch_motionBlur (M : JsMath) (u : Nat → ℚ) (cv : Canvas) (img : Image) (param : Param) :
    runSwitch M u cv img "motionBlur" param = caseCopy cv img := by
  simp [runSwitch]

theorem runSwitch_elastic (M : JsMath) (u : Nat → ℚ) (cv : Canvas) (img : Image) (param : Param) :
    runSwitch M u cv img "elastic" param = caseCopy cv img := by
  simp [runSwitch]

theorem runSwitch_erase (M : JsMath) (u : Nat → ℚ) (cv : Canvas) (img : Image) (param : Param) :
    runSwitch M u cv img "erase" param = caseErase M u cv img param := by
  simp [runSwitch]

theorem runSwitch_translate (M : JsMath) (u : Nat → ℚ) (cv : Canvas) (img : Image) (param : Param) :
    runSwitch M u cv img "translate" param = caseTranslate u cv img param := by
  simp [runSwitch]

theorem runSwitch_waveNoise (M : JsMath) (u : Nat → ℚ) (cv : Canvas) (img : Image) (param : Param) :
    runSwitch M u cv img "waveNoise" param = caseWaveNoise M cv img param := by
  simp [runSwitch]

theorem runSwitch_fancyPca (M : JsMath) (u : Nat → ℚ) (cv : Canvas) (img : Image) (param : Param) :
    runSwitch M u cv img "fancyPca" param = caseFancyPca u cv img param := by
  simp [runSwitch]

theorem runSwitch_hsvJitter (M : JsMath) (u : Nat → ℚ) (cv : Canvas) (img : Image) (param : Param) :
    runSwitch M u cv img "hsvJitter" param = caseHsvJitter u cv img param := by
  simp [runSwitch]

theorem runSwitch_intensity (M : JsMath) (u : Nat → ℚ) (cv : Canvas) (img : Image) (param : Param) :
    runSwitch M u cv img "intensity" param = caseIntensity u cv img param := by
  simp [runSwitch]

theorem runSwitch_edgeEnhance (M : JsMath) (u : Nat → ℚ) (cv : Canvas) (img : Image) (param : Param) :
    runSwitch M u cv img "edgeEnhance" param = caseEdgeEnhance cv img param := by
  simp [runSwitch]

theorem runSwitch_randomHsv (M : JsMath) (u : Nat → ℚ) (cv : Canvas) (img : Image) (param : Param) :
    runSwitch M u cv img "randomHsv" param = caseRandomHsv u cv img param := by
  simp [runSwitch]

theorem runSwitch_patchShuffle (M : JsMath) (u : Nat → ℚ) (cv : Canvas) (img : Image) (param : Param) :
    runSwitch M u cv img "patchShuffle" param = casePatchShuffle u cv img param := by
  simp [runSwitch]

theorem applyAugmentation_bytes_of (M : JsMath) (u : Nat → ℚ) (img : Image) (augId : String)
    (param : Param) (hi : Bytes img.data)
    (h : Bytes (runSwitch M u (Canvas.create img.width img.height) img augId param).canvas.data) :
    Bytes (applyAugmentation M u img augId param).data := by
  unfold applyAugmentation
  cases hr : runSwitch M u (Canvas.create img.width img.height) img augId param with
  | done c => rw [hr] at h; exact h
  | thrown c => rw [hr] at h; exact drawImage_bytes c img 0 0 h hi

theorem caseBrightness_bytes (cv : Canvas) (img : Image) (param : Param) (hc : Bytes cv.data)
    (hi : Bytes img.data) : Bytes (caseBrightness cv img param).canvas.data := by
  have hd := drawImage_bytes cv img 0 0 hc hi
  unfold caseBrightness
  cases param.factorRange with
  | none => exact hd
  | some r => exact forPixels_bytes _ _ hd (brightnessBody_bytes _)

theorem caseContrast_bytes (cv : Canvas) (img : Image) (param : Param) (hc : Bytes cv.data)
    (hi : Bytes img.data) : Bytes (caseContrast cv img param).canvas.data := by
  have hd := drawImage_bytes cv img 0 0 hc hi
  unfold caseContrast
  cases param.factorRange with
  | none => exact hd
  | some r => exact forPixels_bytes _ _ hd (contrastBody_bytes _ _)

theorem caseNoise_bytes (u : Nat → ℚ) (cv : Canvas) (img : Image) (param : Param)
    (hc : Bytes cv.data) (hi : Bytes img.data) : Bytes (caseNoise u cv img param).canvas.data :=
  forPixels_bytes _ _ (drawImage_bytes cv img 0 0 hc hi) (noiseBody_bytes _ _)

theorem caseColorJitter_bytes (u : Nat → ℚ) (cv : Canvas) (img : Image) (param : Param)
    (hc : Bytes cv.data) (hi : Bytes img.data) :
    Bytes (caseColorJitter u cv img param).canvas.data :=
  forPixels_bytes _ _ (drawImage_bytes cv img 0 0 hc hi) (colorJitterBody_bytes _ _ _)

theorem caseFancyPca_bytes (u : Nat → ℚ) (cv : Canvas) (img : Image) (param : Param)
    (hc : Bytes cv.data) (hi : Bytes img.data) :
    Bytes (caseFancyPca u cv img param).canvas.data :=
  forPixels_bytes _ _ (drawImage_bytes cv img 0 0 hc hi) (pcaBody_bytes _)

theorem caseHsvJitter_bytes (u : Nat → ℚ) (cv : Canvas) (img : Image) (param : Param)
    (hc : Bytes cv.data) (hi : Bytes img.data) :
    Bytes (caseHsvJitter u cv img param).canvas.data := by
  have hd := drawImage_bytes cv img 0 0 hc hi
  unfold caseHsvJitter
  simp only []
  split_ifs
  · exact hd
  · cases param.sScale <;> cases param.vScale
    · exact hd
    · exact hd
    · exact hd
    · exact forPixels_bytes _ _ hd (hsvJitterBody_bytes _ _ _ _)

theorem caseIntensity_bytes (u : Nat → ℚ) (cv : Canvas) (img : Image) (param : Param)
    (hc : Bytes cv.data) (hi : Bytes img.data) :
    Bytes (caseIntensity u cv img param).canvas.data := by
  have hd := drawImage_bytes cv img 0 0 hc hi
  unfold caseIntensity
  cases param.factor with
  | none => exact hd
  | some r => exact forPixels_bytes _ _ hd (intensityBody_bytes _)

theorem caseEdgeEnhance_bytes (cv : Canvas) (img : Image) (param : Param)
    (hc : Bytes cv.data) (hi : Bytes img.data) :
    Bytes (caseEdgeEnhance cv img param).canvas.data :=
  edgeLoop_bytes _ _ _ _ _ (drawImage_bytes cv img 0 0 hc hi)

theorem caseRandomHsv_bytes (u : Nat → ℚ) (cv : Canvas) (img : Image) (param : Param)
    (hc : Bytes cv.data) (hi : Bytes img.data) :
    Bytes (caseRandomHsv u cv img param).canvas.data := by
  have hd := drawImage_bytes cv img 0 0 hc hi
  unfold caseRandomHsv
  cases param.hRange <;> cases param.sRange <;> cases param.vRange
  all_goals first
    | exact hd
    | exact forPixels_bytes _ _ hd (randomHsvBody_bytes _ _ _)

/-! ## Horizontal flip -/

theorem hflip_matrix_det (w : ℚ) :
    ((((Transform.identity.mul (Transform.shift w 0)).mul (Transform.scaling (-1) 1)).mul
      (Transform.shift 0 0))).det = -1 := by
  simp [Transform.identity, Transform.mul, Transform.shift, Transform.scaling, Transform.det]

theorem hflip_inverse_apply (w x y : ℚ) :
    ((((Transform.identity.mul (Transform.shift w 0)).mul (Transform.scaling (-1) 1)).mul
      (Transform.shift 0 0))).inverse.apply x y = (w - x, y) := by
  simp [Transform.identity, Transform.mul, Transform.shift, Transform.scaling, Transform.det,
    Transform.inverse, Transform.apply]
  ring

theorem floor_flip (w X : Nat) (hX : X < w) :
    ⌊(w : ℚ) - ((X : ℚ) + 1 / 2)⌋.toNat = w - 1 - X := by
  have h : ⌊(w : ℚ) - ((X : ℚ) + 1 / 2)⌋ = ((w - 1 - X : Nat) : ℤ) := by
    rw [Int.floor_eq_iff]
    have e : (((w - 1 - X : Nat) : ℤ) : ℚ) = (w : ℚ) - 1 - (X : ℚ) := by
      have : w - 1 - X + 1 + X = w := by omega
      have h2 : (((w - 1 - X : Nat) : ℚ)) + 1 + (X : ℚ) = (w : ℚ) := by exact_mod_cast this
      push_cast
      linarith
    rw [e]
    constructor <;> linarith
  rw [h]; simp

/-- Bytes of the canvas returned for `hflip`: row `y` is read right to left. -/
theorem hflip_getD (M : JsMath) (u : Nat → ℚ) (img : Image) (param : Param) (k : Nat)
    (hk : k < img.width * img.height * 4) :
    (applyAugmentation M u img "hflip" param).data.getD k 0 =
      img.data.getD
        (4 * (k / 4 / img.width * img.width + (img.width - 1 - k / 4 % img.width)) + k % 4) 0 := by
  unfold applyAugmentation
  rw [runSwitch_hflip]
  show (((((Canvas.create img.width img.height).translate img.width 0).scale (-1) 1).drawImage
    img 0 0).data.getD k 0) = _
  have hwpos : 0 < img.width := by
    rcases Nat.eq_zero_or_pos img.width with h | h
    · rw [h] at hk; simp at hk
    · exact h
  have hp : k / 4 < img.width * img.height := by omega
  have hX : k / 4 % img.width < img.width := Nat.mod_lt _ hwpos
  have hY : k / 4 / img.width < img.height := by
    rw [Nat.div_lt_iff_lt_mul hwpos]; rw [Nat.mul_comm]; exact hp
  rw [drawImage_blank_getD _ (img.width * img.height * 4) rfl img 0 0
    (by
      show ((((Transform.identity.mul (Transform.shift img.width 0)).mul
        (Transform.scaling (-1) 1)).mul (Transform.shift 0 0))).det ≠ 0
      rw [hflip_matrix_det]; norm_num)
    k (by simpa [Canvas.create, Canvas.translate, Canvas.scale] using hk)]
  have hctm : (((Canvas.create img.width img.height).translate img.width 0).scale (-1) 1).ctm
      = (Transform.identity.mul (Transform.shift img.width 0)).mul (Transform.scaling (-1) 1) :=
    rfl
  have hwd : (((Canvas.create img.width img.height).translate img.width 0).scale (-1) 1).width
      = img.width := rfl
  simp only [hctm, hwd, hflip_inverse_apply]
  have hXq : ((k / 4 % img.width : Nat) : ℚ) + 1 ≤ (img.width : ℚ) := by exact_mod_cast hX
  have hYq : ((k / 4 / img.width : Nat) : ℚ) + 1 ≤ (img.height : ℚ) := by exact_mod_cast hY
  have hX0 : (0 : ℚ) ≤ ((k / 4 % img.width : Nat) : ℚ) := Nat.cast_nonneg _
  have hY0 : (0 : ℚ) ≤ ((k / 4 / img.width : Nat) : ℚ) := Nat.cast_nonneg _
  rw [if_pos ⟨by linarith, by linarith, by linarith, by linarith⟩, floor_flip _ _ hX,
    floor_natCast_add_half]
  simp only [Int.toNat_ofNat]

/-- Size of the canvas returned by `applyAugmentation`. -/
theorem applyAugmentation_sized (M : JsMath) (u : Nat → ℚ) (img : Image) (augId : String)
    (param : Param) : (applyAugmentation M u img augId param).Sized img.width img.height := by
  have h := runSwitch_sized M u (Canvas.create img.width img.height) img.width img.height
    (create_sized _ _) img augId param
  unfold applyAugmentation
  cases hr : runSwitch M u (Canvas.create img.width img.height) img augId param with
  | done c => rw [hr] at h; exact h
  | thrown c => rw [hr] at h; exact drawImage_sized c _ _ h img 0 0

/-! ## Identity parameters -/

theorem waveLoop_zero (M : JsMath) (f : ℚ) (w h : Nat) (temp : List Nat) :
    waveLoop M 0 f w h temp temp = temp := by
  unfold waveLoop
  apply forRange_inv (fun acc => acc = temp) h _ temp rfl
  intro y acc hy hacc
  apply forRange_inv (fun acc => acc = temp) w _ acc hacc
  intro x acc hx hacc
  show (let offset_x : ℤ := ⌊(0 : ℚ) * M.sin (2 * M.PI * f * (y : ℚ))⌋
    let offset_y : ℤ := ⌊(0 : ℚ) * M.sin (2 * M.PI * f * (x : ℚ))⌋
    let src_x : ℤ := max 0 (min ((w : ℤ) - 1) ((x : ℤ) + offset_x))
    let src_y : ℤ := max 0 (min ((h : ℤ) - 1) ((y : ℤ) + offset_y))
    let src_idx : Nat := ((src_y * (w : ℤ) + src_x) * 4).toNat
    let dst_idx : Nat := (y * w + x) * 4
    let d1 := acc.set dst_idx (temp.getD src_idx 0)
    let d2 := d1.set (dst_idx + 1) (temp.getD (src_idx + 1) 0)
    d2.set (dst_idx + 2) (temp.getD (src_idx + 2) 0)) = temp
  simp only [zero_mul, Int.floor_zero, add_zero]
  have hx' : min ((w : ℤ) - 1) (x : ℤ) = x := min_eq_right (by omega)
  have hy' : min ((h : ℤ) - 1) (y : ℤ) = y := min_eq_right (by omega)
  have hx0 : max (0 : ℤ) (x : ℤ) = x := max_eq_right (by omega)
  have hy0 : max (0 : ℤ) (y : ℤ) = y := max_eq_right (by omega)
  rw [hx', hy', hx0, hy0]
  have e : (((y : ℤ) * (w : ℤ) + (x : ℤ)) * 4).toNat = (y * w + x) * 4 := by
    have : ((y : ℤ) * (w : ℤ) + (x : ℤ)) * 4 = (((y * w + x) * 4 : Nat) : ℤ) := by push_cast; ring
    rw [this, Int.toNat_ofNat]
  rw [e, hacc, set_getD_self, set_getD_self, set_getD_self]

theorem clampMaxMin_byte (n : Nat) (hn : n ≤ 255) : clampMaxMin (n : ℚ) = n := by
  unfold clampMaxMin
  have h1 : ((n : ℚ)) ≤ 255 := by exact_mod_cast hn
  rw [min_eq_right h1, max_eq_right (Nat.cast_nonneg n)]

theorem store_edge_zero (temp : List Nat) (ht : Bytes temp) (i : Nat) (conv : ℤ) :
    store temp i (edgeValue (rd temp i) conv 0) = temp := by
  unfold store edgeValue rd
  rw [fmul_zero, fadd_zero_natCast _ (lt_of_le_of_lt (getD_le_of_bytes temp ht i) (by norm_num)),
    clampMaxMin_byte _ (getD_le_of_bytes temp ht i),
    toUint8Clamp_natCast _ (getD_le_of_bytes temp ht i), set_getD_self]

theorem edgeLoop_zero (w h : Nat) (temp : List Nat) (ht : Bytes temp) :
    edgeLoop 0 w h temp temp = temp := by
  unfold edgeLoop
  apply forRange_inv (fun acc => acc = temp) (h - 2) _ temp rfl
  intro y acc _ hacc
  apply forRange_inv (fun acc => acc = temp) (w - 2) _ acc hacc
  intro x acc _ hacc
  show store (store (store acc _ _) _ _) _ _ = temp
  rw [hacc, store_edge_zero temp ht, store_edge_zero temp ht, store_edge_zero temp ht]

/-! ## Rotation -/

theorem restore_data (cv : Canvas) : cv.restore.data = cv.data := by
  unfold Canvas.restore
  split <;> rfl

theorem rotate_data (M : JsMath) (u : Nat → ℚ) (img : Image) (param : Param) (r : ℚ × ℚ)
    (hp : param.angleRange = some r) :
    (applyAugmentation M u img "rotate" param).data =
      ((Canvas.rotate M ((Canvas.create img.width img.height).save.translate
        ((img.width : ℚ) / 2) ((img.height : ℚ) / 2)) (((r.1 + r.2) / 2) * M.PI / 180)).drawImage
          img (-(img.width : ℚ) / 2) (-(img.height : ℚ) / 2)).data := by
  unfold applyAugmentation
  rw [runSwitch_rotate]
  unfold caseRotate
  rw [hp]
  exact restore_data _

theorem rotateNet_zero (M : JsMath) (img : Image) (r : ℚ × ℚ) (hmid : (r.1 + r.2) / 2 = 0)
    (hcos : M.cos 0 = 1) (hsin : M.sin 0 = 0) : rotateNet M img r = Transform.identity := by
  unfold rotateNet
  rw [hmid]
  simp only [zero_mul, zero_div, Transform.rotation, hcos, hsin, Transform.identity,
    Transform.mul, Transform.shift]
  simp
  constructor <;> ring

/-! ## The shuffle is a permutation -/

theorem swapAt_length (ps : List Patch) (i j : Nat) : (swapAt ps i j).length = ps.length := by
  simp [swapAt]

theorem swapAt_perm (ps : List Patch) (i j : Nat) (hi : i < ps.length) (hj : j < ps.length) :
    (swapAt ps i j).Perm ps := by
  unfold swapAt
  rw [List.getD_eq_getElem _ _ hi, List.getD_eq_getElem _ _ hj]
  by_cases hij : i = j
  · subst hij
    have e : ps.set i ps[i] = ps := by
      apply List.ext_getElem (by simp)
      intro k h1 h2
      by_cases hk : i = k
      · subst hk; simp
      · rw [List.getElem_set_ne hk]
    rw [e, e]
  · rw [List.perm_iff_count]
    intro a
    rw [List.count_set _ _ _ _ (by simpa using hj), List.count_set _ _ _ _ hi]
    have hj2 : j < (ps.set i ps[j]).length := by simpa using hj
    have e : (ps.set i ps[j])[j] = ps[j] := List.getElem_set_ne hij hj2
    rw [e]
    have hmem : (if ps[i] == a then 1 else 0) ≤ List.count a ps := by
      split
      · rename_i h
        have : ps[i] = a := by simpa using h
        rw [← this]
        exact List.count_pos_iff.mpr (List.getElem_mem _)
      · exact Nat.zero_le _
    omega

theorem shufflePatches_perm (u : Nat → ℚ) (ps : List Patch) (hu : ∀ k, 0 ≤ u k ∧ u k < 1) :
    (shufflePatches u ps).Perm ps := by
  unfold shufflePatches
  have key : ∀ n, n ≤ ps.length - 1 →
      (forRange n (fun t acc =>
        let i := ps.length - 1 - t
        let j := ⌊u t * ((i : ℚ) + 1)⌋.toNat
        swapAt acc i j) ps).Perm ps := by
    intro n
    induction n with
    | zero => intro _; exact List.Perm.refl _
    | succ n ih =>
      intro hn
      have ihp := ih (by omega)
      rw [forRange_succ]
      refine List.Perm.trans ?_ ihp
      have hlen := ihp.length_eq
      apply swapAt_perm
      · rw [hlen]; omega
      · rw [hlen]
        have h0 : 0 ≤ u n * (((ps.length - 1 - n : Nat) : ℚ) + 1) :=
          mul_nonneg (hu n).1 (by positivity)
        have h1 : u n * (((ps.length - 1 - n : Nat) : ℚ) + 1)
            < (((ps.length - 1 - n : Nat) : ℚ) + 1) := by
          have hpos : (0 : ℚ) < ((ps.length - 1 - n : Nat) : ℚ) + 1 := by positivity
          nlinarith [(hu n).2]
        have hfl : ⌊u n * (((ps.length - 1 - n : Nat) : ℚ) + 1)⌋
            < ((ps.length - 1 - n : Nat) : ℤ) + 1 := by
          rw [Int.floor_lt]
          push_cast
          exact h1
        have hfl0 : 0 ≤ ⌊u n * (((ps.length - 1 - n : Nat) : ℚ) + 1)⌋ := Int.floor_nonneg.mpr h0
        omega
  exact key _ le_rfl

/-! ## Loops that collect or write blocks -/

theorem forRange_congr {σ : Type} (n : Nat) (body body' : Nat → σ → σ) (s : σ)
    (h : ∀ i, i < n → ∀ acc, body i acc = body' i acc) :
    forRange n body s = forRange n body' s := by
  induction n with
  | zero => rfl
  | succ n ih =>
    rw [forRange_succ, forRange_succ, ih (fun i hi => h i (Nat.lt_succ_of_lt hi)),
      h n (Nat.lt_succ_self n)]

theorem forRange_push {α : Type} (n : Nat) (f : Nat → α) (init : List α) :
    forRange n (fun i acc => acc ++ [f i]) init = init ++ (List.range n).map f := by
  induction n with
  | zero => simp [forRange]
  | succ n ih =>
    rw [forRange_succ, ih, List.range_succ, List.map_append]
    simp

theorem forRange_push_nested {α : Type} (n m : Nat) (f : Nat → Nat → α) (init : List α) :
    forRange n (fun i acc => forRange m (fun j acc => acc ++ [f i j]) acc) init
      = init ++ (List.range (n * m)).map (fun k => f (k / m) (k % m)) := by
  induction n with
  | zero => simp [forRange]
  | succ n ih =>
    rw [forRange_succ, ih, forRange_push, Nat.succ_mul, List.range_add, List.map_append,
      List.append_assoc, List.map_map]
    congr 2
    apply List.map_congr_left
    intro j hj
    have hjm : j < m := List.mem_range.mp hj
    have hm : 0 < m := by omega
    simp only [Function.comp]
    have e1 : (n * m + j) / m = n := by
      rw [Nat.add_comm, Nat.add_mul_div_right _ _ hm, Nat.div_eq_of_lt hjm]; simp
    have e2 : (n * m + j) % m = j := by
      rw [Nat.add_comm, Nat.add_mul_mod_self_right]; exact Nat.mod_eq_of_lt hjm
    rw [e1, e2]

/-- A loop whose iteration `i` writes the value `V k` to every index `k` of its
region `R i` and leaves the other indices alone. -/
theorem forRange_regions (n : Nat) (body : Nat → List Nat → List Nat) (R : Nat → Nat → Prop)
    (V : Nat → Nat) (d : List Nat)
    (hlen : ∀ i acc, (body i acc).length = acc.length)
    (hframe : ∀ i acc k, ¬ R i k → (body i acc).getD k 0 = acc.getD k 0)
    (hval : ∀ i acc k, i < n → acc.length = d.length → R i k → k < d.length →
      (body i acc).getD k 0 = V k) :
    (forRange n body d).length = d.length ∧
    (∀ k, k < d.length → (∃ i, i < n ∧ R i k) → (forRange n body d).getD k 0 = V k) ∧
    (∀ k, (∀ i, i < n → ¬ R i k) → (forRange n body d).getD k 0 = d.getD k 0) := by
  induction n with
  | zero =>
    refine ⟨rfl, ?_, fun k _ => rfl⟩
    rintro k _ ⟨i, hi, _⟩
    exact absurd hi (Nat.not_lt_zero i)
  | succ n ih =>
    obtain ⟨ihl, ihv, ihf⟩ := ih (fun i acc k hi => hval i acc k (Nat.lt_succ_of_lt hi))
    rw [forRange_succ]
    refine ⟨by rw [hlen, ihl], ?_, ?_⟩
    · rintro k hk ⟨i, hi, hR⟩
      by_cases hn : R n k
      · exact hval n _ k (Nat.lt_succ_self n) ihl hn hk
      · rw [hframe n _ k hn]
        have hin : i < n := by
          rcases Nat.lt_succ_iff_lt_or_eq.mp hi with h | h
          · exact h
          · subst h; exact absurd hR hn
        exact ihv k hk ⟨i, hin, hR⟩
    · intro k hk
      rw [hframe n _ k (hk n (Nat.lt_succ_self n))]
      exact ihf k (fun i hi => hk i (Nat.lt_succ_of_lt hi))

/-- Four consecutive writes at the bytes of pixel `q`. -/
theorem set4_getD (acc : List Nat) (q v0 v1 v2 v3 k : Nat) (hq : q * 4 + 3 < acc.length) :
    ((((acc.set (q * 4) v0).set (q * 4 + 1) v1).set (q * 4 + 2) v2).set (q * 4 + 3) v3).getD k 0
      = if k / 4 = q then [v0, v1, v2, v3].getD (k % 4) 0 else acc.getD k 0 := by
  by_cases h : k / 4 = q
  · rw [if_pos h]
    obtain h0 | h1 | h2 | h3 : k = q * 4 ∨ k = q * 4 + 1 ∨ k = q * 4 + 2 ∨ k = q * 4 + 3 := by
      omega
    · have e : k % 4 = 0 := by omega
      rw [e, h0, getD_set_ne _ _ _ _ (by omega), getD_set_ne _ _ _ _ (by omega),
        getD_set_ne _ _ _ _ (by omega), getD_set_eq _ _ _ (by omega)]
      rfl
    · have e : k % 4 = 1 := by omega
      rw [e, h1, getD_set_ne _ _ _ _ (by omega), getD_set_ne _ _ _ _ (by omega),
        getD_set_eq _ _ _ (by simp; omega)]
      rfl
    · have e : k % 4 = 2 := by omega
      rw [e, h2, getD_set_ne _ _ _ _ (by omega), getD_set_eq _ _ _ (by simp; omega)]
      rfl
    · have e : k % 4 = 3 := by omega
      rw [e, h3, getD_set_eq _ _ _ (by simp; omega)]
      rfl
  · rw [if_neg h, getD_set_ne _ _ _ _ (by omega), getD_set_ne _ _ _ _ (by omega),
      getD_set_ne _ _ _ _ (by omega), getD_set_ne _ _ _ _ (by omega)]

theorem set4_getD_ne (acc : List Nat) (q v0 v1 v2 v3 k : Nat) (h : k / 4 ≠ q) :
    ((((acc.set (q * 4) v0).set (q * 4 + 1) v1).set (q * 4 + 2) v2).set (q * 4 + 3) v3).getD k 0
      = acc.getD k 0 := by
  rw [getD_set_ne _ _ _ _ (by omega), getD_set_ne _ _ _ _ (by omega),
    getD_set_ne _ _ _ _ (by omega), getD_set_ne _ _ _ _ (by omega)]

theorem extractPatches_eq (w h g hG wG : Nat) (d : List Nat) :
    extractPatches w h g hG wG d = (List.range (hG * wG)).map
      (fun n => { patch := extractPatch w h g d (n / wG) (n % wG), i := n / wG, j := n % wG }) := by
  unfold extractPatches
  rw [forRange_push_nested hG wG
    (fun i j => ({ patch := extractPatch w h g d i j, i := i, j := j } : Patch)) []]
  simp

theorem extractPatch_eq (w h g : Nat) (d : List Nat) (i j : Nat) (hi : (i + 1) * g ≤ h)
    (hj : (j + 1) * g ≤ w) :
    extractPatch w h g d i j
      = (List.range (g * g)).map (fun m => pixelAt w d (j * g + m % g) (i * g + m / g)) := by
  unfold extractPatch
  have key : forRange g (fun y acc => forRange g (fun x acc =>
      let srcY := i * g + y
      let srcX := j * g + x
      if srcY < h ∧ srcX < w then
        let idx := (srcY * w + srcX) * 4
        acc ++ [[d.getD idx 0, d.getD (idx + 1) 0, d.getD (idx + 2) 0, d.getD (idx + 3) 0]]
      else acc) acc) ([] : List (List Nat))
      = forRange g (fun y acc => forRange g (fun x acc =>
          acc ++ [pixelAt w d (j * g + x) (i * g + y)]) acc) [] := by
    apply forRange_congr
    intro y hy acc
    apply forRange_congr
    intro x hx acc
    have h1 : i * g + y < h := by
      have : (i + 1) * g = i * g + g := by ring
      omega
    have h2 : j * g + x < w := by
      have : (j + 1) * g = j * g + g := by ring
      omega
    simp only [h1, h2, and_self, if_true, pixelAt]
  rw [key, forRange_push_nested g g (fun y x => pixelAt w d (j * g + x) (i * g + y)) []]
  simp

/-- Position of the pixel `(x, y)` of the block at `(tI, tJ)` in the buffer. -/
theorem cell_lt (w h g tI tJ y x : Nat) (hI : (tI + 1) * g ≤ h) (hJ : (tJ + 1) * g ≤ w)
    (hy : y < g) (hx : x < g) : (tI * g + y) * w + (tJ * g + x) < w * h := by
  have hIg : (tI + 1) * g = tI * g + g := by ring
  have hJg : (tJ + 1) * g = tJ * g + g := by ring
  have h1 : tI * g + y < h := by omega
  have h2 : tJ * g + x < w := by omega
  calc (tI * g + y) * w + (tJ * g + x) < (tI * g + y) * w + w := by omega
    _ = (tI * g + y + 1) * w := by ring
    _ ≤ h * w := Nat.mul_le_mul_right _ h1
    _ = w * h := Nat.mul_comm _ _

theorem writePixel_frame (w h g : Nat) (patch : List (List Nat)) (tI tJ y x : Nat)
    (acc : List Nat) (k : Nat) (hk : k / 4 ≠ (tI * g + y) * w + (tJ * g + x)) :
    (writePixel w h g patch tI tJ y x acc).getD k 0 = acc.getD k 0 := by
  unfold writePixel
  simp only []
  split_ifs
  · exact set4_getD_ne _ _ _ _ _ _ _ hk
  · rfl
  · rfl

theorem writePixel_val (w h g : Nat) (patch : List (List Nat)) (tI tJ y x : Nat)
    (acc : List Nat) (k : Nat) (hacc : acc.length = w * h * 4) (hp : patch.length = g * g)
    (hI : (tI + 1) * g ≤ h) (hJ : (tJ + 1) * g ≤ w) (hy : y < g) (hx : x < g)
    (hk : k / 4 = (tI * g + y) * w + (tJ * g + x)) :
    (writePixel w h g patch tI tJ y x acc).getD k 0
      = (patch.getD (y * g + x) []).getD (k % 4) 0 := by
  have hIg : (tI + 1) * g = tI * g + g := by ring
  have hJg : (tJ + 1) * g = tJ * g + g := by ring
  have h1 : tI * g + y < h := by omega
  have h2 : tJ * g + x < w := by omega
  have hgpos : (0 : ℚ) < (g : ℚ) := by
    have : 0 < g := by omega
    exact_mod_cast this
  have h3 : (y : ℚ) < (patch.length : ℚ) / (g : ℚ) := by
    rw [hp, lt_div_iff₀ hgpos]
    push_cast
    have : (y : ℚ) < (g : ℚ) := by exact_mod_cast hy
    nlinarith
  have h4 : y * g + x < patch.length := by
    rw [hp]
    calc y * g + x < y * g + g := by omega
      _ = (y + 1) * g := by ring
      _ ≤ g * g := Nat.mul_le_mul_right _ hy
  have hcell := cell_lt w h g tI tJ y x hI hJ hy hx
  unfold writePixel
  simp only [h1, h2, h3, hx, and_self, if_true, h4]
  rw [set4_getD _ _ _ _ _ _ _ (by rw [hacc]; omega), if_pos hk]
  have hc : k % 4 < 4 := Nat.mod_lt _ (by norm_num)
  obtain h0 | h0 | h0 | h0 : k % 4 = 0 ∨ k % 4 = 1 ∨ k % 4 = 2 ∨ k % 4 = 3 := by omega
  all_goals rw [h0]; rfl

/-- Decoding of a buffer index that lies in the block at `(tI, tJ)`. -/
theorem cell_decode (w g tI tJ y x q : Nat) (hJ : (tJ + 1) * g ≤ w) (hy : y < g) (hx : x < g)
    (hq : q = (tI * g + y) * w + (tJ * g + x)) :
    q / w / g = tI ∧ q / w % g = y ∧ q % w / g = tJ ∧ q % w % g = x := by
  have hJg : (tJ + 1) * g = tJ * g + g := by ring
  have h2 : tJ * g + x < w := by omega
  have hwpos : 0 < w := by omega
  have hgpos : 0 < g := by omega
  have e1 : q / w = tI * g + y := by
    rw [hq, Nat.add_comm, Nat.add_mul_div_right _ _ hwpos, Nat.div_eq_of_lt h2]; simp
  have e2 : q % w = tJ * g + x := by
    rw [hq, Nat.add_comm, Nat.add_mul_mod_self_right]; exact Nat.mod_eq_of_lt h2
  rw [e1, e2]
  refine ⟨?_, ?_, ?_, ?_⟩
  · rw [Nat.add_comm, Nat.add_mul_div_right _ _ hgpos, Nat.div_eq_of_lt hy]; simp
  · rw [Nat.add_comm, Nat.add_mul_mod_self_right]; exact Nat.mod_eq_of_lt hy
  · rw [Nat.add_comm, Nat.add_mul_div_right _ _ hgpos, Nat.div_eq_of_lt hx]; simp
  · rw [Nat.add_comm, Nat.add_mul_mod_self_right]; exact Nat.mod_eq_of_lt hx

theorem writeRow_frame (w h g : Nat) (patch : List (List Nat)) (tI tJ y : Nat)
    (acc : List Nat) (k : Nat)
    (hk : ∀ x, x < g → k / 4 ≠ (tI * g + y) * w + (tJ * g + x)) :
    (writeRow w h g patch tI tJ y acc).getD k 0 = acc.getD k 0 := by
  unfold writeRow
  apply forRange_inv (fun a => a.getD k 0 = acc.getD k 0) g _ acc rfl
  intro x a hx ha
  show (writePixel w h g patch tI tJ y x a).getD k 0 = acc.getD k 0
  rw [writePixel_frame _ _ _ _ _ _ _ _ _ _ (hk x hx)]
  exact ha

theorem writePatch_frame (w h g : Nat) (patch : List (List Nat)) (tI tJ : Nat)
    (d : List Nat) (k : Nat)
    (hk : ∀ y x, y < g → x < g → k / 4 ≠ (tI * g + y) * w + (tJ * g + x)) :
    (writePatch w h g patch tI tJ d).getD k 0 = d.getD k 0 := by
  unfold writePatch
  apply forRange_inv (fun a => a.getD k 0 = d.getD k 0) g _ d rfl
  intro y a hy ha
  show (writeRow w h g patch tI tJ y a).getD k 0 = d.getD k 0
  rw [writeRow_frame _ _ _ _ _ _ _ _ _ (fun x hx => hk y x hy hx)]
  exact ha

/-- Bytes written by the two inner loops that write one patch. -/
theorem writePatch_val (w h g : Nat) (patch : List (List Nat)) (tI tJ : Nat) (d : List Nat)
    (hd : d.length = w * h * 4) (hp : patch.length = g * g) (hI : (tI + 1) * g ≤ h)
    (hJ : (tJ + 1) * g ≤ w) (k : Nat) (hk : k < d.length)
    (hR : ∃ y x, y < g ∧ x < g ∧ k / 4 = (tI * g + y) * w + (tJ * g + x)) :
    (writePatch w h g patch tI tJ d).getD k 0
      = (patch.getD (k / 4 / w % g * g + k / 4 % w % g) []).getD (k % 4) 0 := by
  have rows := forRange_regions g (fun y acc => writeRow w h g patch tI tJ y acc)
    (fun y k => ∃ x, x < g ∧ k / 4 = (tI * g + y) * w + (tJ * g + x))
    (fun k => (patch.getD (k / 4 / w % g * g + k / 4 % w % g) []).getD (k % 4) 0) d
    (fun y acc => writeRow_length _ _ _ _ _ _ _ _)
    (by
      intro y acc k hk
      exact writeRow_frame _ _ _ _ _ _ _ _ _ (fun x hx hc => hk ⟨x, hx, hc⟩))
    (by
      intro y acc k hy hacc hR hk
      have cols := forRange_regions g (fun x acc => writePixel w h g patch tI tJ y x acc)
        (fun x k => k / 4 = (tI * g + y) * w + (tJ * g + x))
        (fun k => (patch.getD (k / 4 / w % g * g + k / 4 % w % g) []).getD (k % 4) 0) acc
        (fun x a => writePixel_length _ _ _ _ _ _ _ _ _)
        (fun x a k hk => writePixel_frame _ _ _ _ _ _ _ _ _ _ hk)
        (by
          intro x a k hx ha hR hk
          obtain ⟨_, e2, _, e4⟩ := cell_decode w g tI tJ y x (k / 4) hJ hy hx hR
          show _ = (patch.getD (k / 4 / w % g * g + k / 4 % w % g) []).getD (k % 4) 0
          rw [e2, e4]
          exact writePixel_val w h g patch tI tJ y x a k (by rw [ha, hacc, hd]) hp hI hJ hy hx hR)
      exact cols.2.1 k (by rw [hacc]; exact hk) hR)
  obtain ⟨y, x, hy, hx, hc⟩ := hR
  exact rows.2.1 k hk ⟨y, hy, x, hx, hc⟩

/-- Bytes of the buffer after the reassembly loop: the pixel at column `X`, row
`Y` inside the grid comes from patch number `(Y / g) * wG + X / g`. -/
theorem writePatches_val (w h g hG wG : Nat) (ps : List Patch) (d : List Nat)
    (hd : d.length = w * h * 4) (hlen : ps.length = hG * wG)
    (hp : ∀ p ∈ ps, p.patch.length = g * g) (hh : hG * g ≤ h) (hw : wG * g ≤ w)
    (k : Nat) (hk : k < d.length)
    (hR : ∃ idx y x, idx < hG * wG ∧ y < g ∧ x < g ∧
      k / 4 = (idx / wG * g + y) * w + (idx % wG * g + x)) :
    (writePatches w h g hG wG ps d).getD k 0
      = ((ps.getD (k / 4 / w / g * wG + k / 4 % w / g) default).patch.getD
          (k / 4 / w % g * g + k / 4 % w % g) []).getD (k % 4) 0 := by
  have hbound : ∀ idx, idx < hG * wG → (idx / wG + 1) * g ≤ h ∧ (idx % wG + 1) * g ≤ w := by
    intro idx hidx
    have hwG : 0 < wG := by
      rcases Nat.eq_zero_or_pos wG with h0 | h0
      · rw [h0] at hidx; simp at hidx
      · exact h0
    have h1 : idx / wG < hG := by
      rw [Nat.div_lt_iff_lt_mul hwG]; exact hidx
    have h2 : idx % wG < wG := Nat.mod_lt _ hwG
    exact ⟨le_trans (Nat.mul_le_mul_right _ h1) hh, le_trans (Nat.mul_le_mul_right _ h2) hw⟩
  have all := forRange_regions ps.length
    (fun idx acc =>
      let targetIdx := idx % (hG * wG)
      let targetI := targetIdx / wG
      let targetJ := targetIdx % wG
      writePatch w h g (ps.getD idx default).patch targetI targetJ acc)
    (fun idx k => ∃ y x, y < g ∧ x < g ∧
      k / 4 = (idx % (hG * wG) / wG * g + y) * w + (idx % (hG * wG) % wG * g + x))
    (fun k => ((ps.getD (k / 4 / w / g * wG + k / 4 % w / g) default).patch.getD
          (k / 4 / w % g * g + k / 4 % w % g) []).getD (k % 4) 0) d
    (fun idx acc => writePatch_length _ _ _ _ _ _ _)
    (by
      intro idx acc k hk
      exact writePatch_frame _ _ _ _ _ _ _ _ (fun y x hy hx hc => hk ⟨y, x, hy, hx, hc⟩))
    (by
      intro idx acc k hidx hacc hR hk
      rw [hlen] at hidx
      have hmod : idx % (hG * wG) = idx := Nat.mod_eq_of_lt hidx
      rw [hmod] at hR
      obtain ⟨hI, hJ⟩ := hbound idx hidx
      have hmem : (ps.getD idx default) ∈ ps := by
        rw [List.getD_eq_getElem _ _ (by rw [hlen]; exact hidx)]
        exact List.getElem_mem _
      show (writePatch w h g (ps.getD idx default).patch (idx % (hG * wG) / wG)
        (idx % (hG * wG) % wG) acc).getD k 0 = _
      rw [hmod, writePatch_val w h g _ _ _ acc (by rw [hacc, hd]) (hp _ hmem) hI hJ k
        (by rw [hacc]; exact hk) hR]
      obtain ⟨y, x, hy, hx, hc⟩ := hR
      obtain ⟨e1, _, e3, _⟩ := cell_decode w g (idx / wG) (idx % wG) y x (k / 4) hJ hy hx hc
      show _ = ((ps.getD (k / 4 / w / g * wG + k / 4 % w / g) default).patch.getD
          (k / 4 / w % g * g + k / 4 % w % g) []).getD (k % 4) 0
      rw [e1, e3]
      have : idx / wG * wG + idx % wG = idx := by
        rw [Nat.mul_comm]; exact Nat.div_add_mod idx wG
      rw [this])
  obtain ⟨idx, y, x, hidx, hy, hx, hc⟩ := hR
  unfold writePatches
  apply all.2.1 k hk
  refine ⟨idx, by rw [hlen]; exact hidx, y, x, hy, hx, ?_⟩
  rw [Nat.mod_eq_of_lt hidx]
  exact hc

/-! ## Blocks before and after `patchShuffle` -/

theorem four_getD (px : List Nat) (h : px.length = 4) :
    [px.getD 0 0, px.getD 1 0, px.getD 2 0, px.getD 3 0] = px := by
  match px, h with
  | [a, b, c, e], _ => rfl

theorem div_mul_add_mod (m g : Nat) : m / g * g + m % g = m := by
  rw [Nat.mul_comm]; exact Nat.div_add_mod m g

/-- After the reassembly loop the block at `(I, J)` is patch number `I * wG + J`. -/
theorem blockAt_writePatches (w h g hG wG : Nat) (ps : List Patch) (d : List Nat)
    (hd : d.length = w * h * 4) (hlen : ps.length = hG * wG)
    (hp : ∀ p ∈ ps, p.patch.length = g * g ∧ ∀ px ∈ p.patch, px.length = 4)
    (hh : hG * g ≤ h) (hw : wG * g ≤ w) (I J : Nat) (hI : I < hG) (hJ : J < wG) :
    blockAt { width := w, height := h, data := writePatches w h g hG wG ps d } g I J
      = (ps.getD (I * wG + J) default).patch := by
  have hidx : I * wG + J < hG * wG := by
    calc I * wG + J < I * wG + wG := by omega
      _ = (I + 1) * wG := by ring
      _ ≤ hG * wG := Nat.mul_le_mul_right _ hI
  have hmem : (ps.getD (I * wG + J) default) ∈ ps := by
    rw [List.getD_eq_getElem _ _ (by rw [hlen]; exact hidx)]
    exact List.getElem_mem _
  obtain ⟨hpl, hpx⟩ := hp _ hmem
  have hdivI : (I * wG + J) / wG = I := by
    rw [Nat.add_comm, Nat.add_mul_div_right _ _ (by omega), Nat.div_eq_of_lt hJ]; simp
  have hmodJ : (I * wG + J) % wG = J := by
    rw [Nat.add_comm, Nat.add_mul_mod_self_right]; exact Nat.mod_eq_of_lt hJ
  have hJw : (J + 1) * g ≤ w := le_trans (Nat.mul_le_mul_right _ hJ) hw
  have hIh : (I + 1) * g ≤ h := le_trans (Nat.mul_le_mul_right _ hI) hh
  unfold blockAt
  apply List.ext_getElem
  · rw [hpl]; simp
  · intro m h1 h2
    have hm : m < g * g := by simpa using h1
    have hgpos : 0 < g := by
      rcases Nat.eq_zero_or_pos g with h0 | h0
      · rw [h0] at hm; simp at hm
      · exact h0
    have hy : m / g < g := by rw [Nat.div_lt_iff_lt_mul hgpos]; exact hm
    have hx : m % g < g := Nat.mod_lt _ hgpos
    simp only [List.getElem_map, List.getElem_range, pixelAt]
    have hcell := cell_lt w h g I J (m / g) (m % g) hIh hJw hy hx
    have hval : ∀ c, c < 4 →
        (writePatches w h g hG wG ps d).getD
          (((I * g + m / g) * w + (J * g + m % g)) * 4 + c) 0
          = ((ps.getD (I * wG + J) default).patch.getD m []).getD c 0 := by
      intro c hc
      have hq : (((I * g + m / g) * w + (J * g + m % g)) * 4 + c) / 4
          = (I * g + m / g) * w + (J * g + m % g) := by omega
      have hc4 : (((I * g + m / g) * w + (J * g + m % g)) * 4 + c) % 4 = c := by omega
      rw [writePatches_val w h g hG wG ps d hd hlen (fun p hp' => (hp p hp').1) hh hw _
        (by rw [hd]; omega)
        ⟨I * wG + J, m / g, m % g, hidx, hy, hx, by rw [hq, hdivI, hmodJ]⟩]
      obtain ⟨e1, e2, e3, e4⟩ := cell_decode w g I J (m / g) (m % g) _ hJw hy hx rfl
      rw [hq, hc4, e1, e2, e3, e4, div_mul_add_mod]
    have hv0 := hval 0 (by norm_num)
    rw [Nat.add_zero] at hv0
    rw [hv0, hval 1 (by norm_num), hval 2 (by norm_num), hval 3 (by norm_num)]
    have hm2 : m < (ps.getD (I * wG + J) default).patch.length := by rw [hpl]; exact hm
    rw [List.getD_eq_getElem _ _ hm2]
    exact four_getD _ (hpx _ (List.getElem_mem _))

theorem map_range_getD_patch (ps : List Patch) :
    (List.range ps.length).map (fun n => (ps.getD n default).patch) = ps.map (fun p => p.patch) := by
  apply List.ext_getElem
  · simp
  · intro n h1 h2
    have hn : n < ps.length := by simpa using h1
    simp only [List.getElem_map, List.getElem_range]
    rw [List.getD_eq_getElem _ _ hn]

/-- The blocks of the reassembled buffer are the patches, in order. -/
theorem blocksOf_writePatches (w h g : Nat) (ps : List Patch) (d : List Nat)
    (hd : d.length = w * h * 4) (hlen : ps.length = h / g * (w / g))
    (hp : ∀ p ∈ ps, p.patch.length = g * g ∧ ∀ px ∈ p.patch, px.length = 4) :
    blocksOf { width := w, height := h, data := writePatches w h g (h / g) (w / g) ps d } g
      = ps.map (fun p => p.patch) := by
  unfold blocksOf
  rw [← map_range_getD_patch, hlen]
  apply List.map_congr_left
  intro n hn
  have hn' : n < h / g * (w / g) := List.mem_range.mp hn
  have hwG : 0 < w / g := by
    rcases Nat.eq_zero_or_pos (w / g) with h0 | h0
    · rw [h0] at hn'; simp at hn'
    · exact h0
  have h1 : n / (w / g) < h / g := by rw [Nat.div_lt_iff_lt_mul hwG]; exact hn'
  have h2 : n % (w / g) < w / g := Nat.mod_lt _ hwG
  show blockAt _ g (n / (w / g)) (n % (w / g)) = _
  rw [blockAt_writePatches w h g (h / g) (w / g) ps d hd hlen hp (Nat.div_mul_le_self h g)
    (Nat.div_mul_le_self w g) _ _ h1 h2, div_mul_add_mod]

/-- The extracted patches are the blocks of the buffer, in order. -/
theorem blocksOf_eq_extract (img : Image) (g : Nat) :
    blocksOf img g = (extractPatches img.width img.height g (img.height / g) (img.width / g)
      img.data).map (fun p => p.patch) := by
  unfold blocksOf
  rw [extractPatches_eq, List.map_map]
  apply List.map_congr_left
  intro n hn
  have hn' : n < img.height / g * (img.width / g) := List.mem_range.mp hn
  have hwG : 0 < img.width / g := by
    rcases Nat.eq_zero_or_pos (img.width / g) with h0 | h0
    · rw [h0] at hn'; simp at hn'
    · exact h0
  have h1 : n / (img.width / g) < img.height / g := by
    rw [Nat.div_lt_iff_lt_mul hwG]; exact hn'
  have h2 : n % (img.width / g) < img.width / g := Nat.mod_lt _ hwG
  simp only [Function.comp]
  rw [extractPatch_eq _ _ _ _ _ _
    (le_trans (Nat.mul_le_mul_right _ h1) (Nat.div_mul_le_self _ g))
    (le_trans (Nat.mul_le_mul_right _ h2) (Nat.div_mul_le_self _ g))]
  rfl

theorem extractPatches_good (w h g : Nat) (d : List Nat) :
    ∀ p ∈ extractPatches w h g (h / g) (w / g) d,
      p.patch.length = g * g ∧ ∀ px ∈ p.patch, px.length = 4 := by
  intro p hp
  rw [extractPatches_eq] at hp
  simp only [List.mem_map, List.mem_range] at hp
  obtain ⟨n, hn, rfl⟩ := hp
  have hwG : 0 < w / g := by
    rcases Nat.eq_zero_or_pos (w / g) with h0 | h0
    · rw [h0] at hn; simp at hn
    · exact h0
  have h1 : n / (w / g) < h / g := by rw [Nat.div_lt_iff_lt_mul hwG]; exact hn
  have h2 : n % (w / g) < w / g := Nat.mod_lt _ hwG
  show (extractPatch w h g d (n / (w / g)) (n % (w / g))).length = g * g ∧
    ∀ px ∈ extractPatch w h g d (n / (w / g)) (n % (w / g)), px.length = 4
  rw [extractPatch_eq _ _ _ _ _ _
    (le_trans (Nat.mul_le_mul_right _ h1) (Nat.div_mul_le_self _ g))
    (le_trans (Nat.mul_le_mul_right _ h2) (Nat.div_mul_le_self _ g))]
  constructor
  · simp
  · intro px hpx
    simp only [List.mem_map] at hpx
    obtain ⟨m, _, rfl⟩ := hpx
    rfl

theorem extractPatches_length (w h g hG wG : Nat) (d : List Nat) :
    (extractPatches w h g hG wG d).length = hG * wG := by
  rw [extractPatches_eq]; simp

/-- Data of the canvas returned for `patchShuffle` with a positive grid size. -/
theorem patchShuffle_data (M : JsMath) (u : Nat → ℚ) (img : Image) (param : Param) (g : Nat)
    (hg : 0 < g) (hgs : param.gridSize = (g : ℤ))
    (hl : img.data.length = img.width * img.height * 4) :
    (applyAugmentation M u img "patchShuffle" param).data =
      if 0 < img.height / g ∧ 0 < img.width / g then
        writePatches img.width img.height g (img.height / g) (img.width / g)
          (shufflePatches u
            (extractPatches img.width img.height g (img.height / g) (img.width / g) img.data))
          img.data
      else img.data := by
  have hcopy := create_drawImage_data img hl
  have hg0 : (g : ℤ) ≠ 0 := by exact_mod_cast (Nat.pos_iff_ne_zero.mp hg)
  have hfh : ⌊(img.height : ℚ) / (((g : ℤ)) : ℚ)⌋ = ((img.height / g : Nat) : ℤ) := by
    rw [Int.cast_natCast, Rat.floor_natCast_div_natCast]; rfl
  have hfw : ⌊(img.width : ℚ) / (((g : ℤ)) : ℚ)⌋ = ((img.width / g : Nat) : ℤ) := by
    rw [Int.cast_natCast, Rat.floor_natCast_div_natCast]; rfl
  have hps : patchShuffleData param.gridSize u img.width img.height img.data =
      if 0 < img.height / g ∧ 0 < img.width / g then
        some (writePatches img.width img.height g (img.height / g) (img.width / g)
          (shufflePatches u
            (extractPatches img.width img.height g (img.height / g) (img.width / g) img.data))
          img.data)
      else none := by
    unfold patchShuffleData
    simp only [hgs, if_neg hg0, hfh, hfw, Int.toNat_ofNat, Nat.cast_pos]
  have hcase : casePatchShuffle u (Canvas.create img.width img.height) img param =
      if 0 < img.height / g ∧ 0 < img.width / g then
        Outcome.done (((Canvas.create img.width img.height).drawImage img 0 0).putImageData
          (writePatches img.width img.height g (img.height / g) (img.width / g)
            (shufflePatches u
              (extractPatches img.width img.height g (img.height / g) (img.width / g) img.data))
            img.data))
      else Outcome.done ((Canvas.create img.width img.height).drawImage img 0 0) := by
    show (match patchShuffleData param.gridSize u img.width img.height
        ((Canvas.create img.width img.height).drawImage img 0 0).data with
      | some d => Outcome.done
          (((Canvas.create img.width img.height).drawImage img 0 0).putImageData d)
      | none => Outcome.done ((Canvas.create img.width img.height).drawImage img 0 0)) = _
    rw [hcopy, hps]
    split_ifs <;> rfl
  unfold applyAugmentation
  rw [runSwitch_patchShuffle, hcase]
  split_ifs
  · rfl
  · exact hcopy

/-- The blocks of the output of `patchShuffle` are a permutation of the blocks
of the input, for every positive grid size. -/
theorem patchShuffle_blocks_perm (M : JsMath) (u : Nat → ℚ) (img : Image) (param : Param)
    (g : Nat) (hg : 0 < g) (hgs : param.gridSize = (g : ℤ))
    (hl : img.data.length = img.width * img.height * 4) (hu : ∀ k, 0 ≤ u k ∧ u k < 1) :
    (blocksOf (applyAugmentation M u img "patchShuffle" param).toImage g).Perm
      (blocksOf img g) := by
  obtain ⟨hw, hh, _⟩ := applyAugmentation_sized M u img "patchShuffle" param
  have hdata := patchShuffle_data M u img param g hg hgs hl
  have himg : (applyAugmentation M u img "patchShuffle" param).toImage
      = { width := img.width, height := img.height,
          data := (applyAugmentation M u img "patchShuffle" param).data } := by
    simp [Canvas.toImage, hw, hh]
  rw [himg, hdata]
  split_ifs with hc
  · have hperm := shufflePatches_perm u
      (extractPatches img.width img.height g (img.height / g) (img.width / g) img.data) hu
    rw [blocksOf_writePatches img.width img.height g _ img.data hl
      (by rw [hperm.length_eq, extractPatches_length])
      (fun p hp => extractPatches_good _ _ _ _ p (hperm.mem_iff.mp hp)),
      blocksOf_eq_extract]
    exact hperm.map _
  · exact List.Perm.refl _

/-! ## Progress values -/

theorem progressValue_mono (N k k' : Nat) (h : k ≤ k') :
    progressValue k N ≤ progressValue k' N := by
  unfold progressValue jsRound
  apply Int.floor_le_floor
  have h1 : (k : ℚ) ≤ (k' : ℚ) := by exact_mod_cast h
  have h2 : (k : ℚ) / (N : ℚ) ≤ (k' : ℚ) / (N : ℚ) :=
    div_le_div_of_nonneg_right h1 (Nat.cast_nonneg N)
  linarith

theorem progressValue_nonneg (N k : Nat) : 0 ≤ progressValue k N := by
  unfold progressValue jsRound
  apply Int.floor_nonneg.mpr
  have : (0 : ℚ) ≤ (k : ℚ) / (N : ℚ) := div_nonneg (Nat.cast_nonneg k) (Nat.cast_nonneg N)
  linarith

theorem progressValue_zero (N : Nat) : progressValue 0 N = 0 := by
  unfold progressValue jsRound
  norm_num

theorem progressValue_self (N : Nat) (hN : 0 < N) : progressValue N N = 100 := by
  unfold progressValue jsRound
  have hN' : (N : ℚ) ≠ 0 := by exact_mod_cast (Nat.pos_iff_ne_zero.mp hN)
  rw [div_self hN']
  norm_num

theorem progressValue_le (N k : Nat) (hN : 0 < N) (hk : k ≤ N) : progressValue k N ≤ 100 := by
  rw [← progressValue_self N hN]
  exact progressValue_mono N k N hk

/-- When the rounded percentage is 100. -/
theorem progressValue_eq_hundred_iff (N k : Nat) (hN : 0 < N) (hk : k ≤ N) :
    progressValue k N = 100 ↔ 200 * (N - k) ≤ N := by
  have hNq : (0 : ℚ) < (N : ℚ) := by exact_mod_cast hN
  have hkq : (k : ℚ) ≤ (N : ℚ) := by exact_mod_cast hk
  have hsub : ((N - k : Nat) : ℚ) = (N : ℚ) - (k : ℚ) := by
    rw [Nat.cast_sub hk]
  unfold progressValue jsRound
  rw [Int.floor_eq_iff]
  have hdiv : (k : ℚ) / (N : ℚ) ≤ 1 := by rw [div_le_one hNq]; exact hkq
  constructor
  · rintro ⟨h1, _⟩
    have h2 : (100 : ℚ) ≤ (k : ℚ) / (N : ℚ) * 100 + 1 / 2 := by exact_mod_cast h1
    have h3 : (199 / 2 : ℚ) * (N : ℚ) ≤ (k : ℚ) * 100 := by
      have h5 : (199 / 2 : ℚ) ≤ (k : ℚ) / (N : ℚ) * 100 := by linarith
      rw [div_mul_eq_mul_div, le_div_iff₀ hNq] at h5
      exact h5
    have h4 : (200 : ℚ) * ((N : ℚ) - (k : ℚ)) ≤ (N : ℚ) := by linarith
    rw [← hsub] at h4
    exact_mod_cast h4
  · intro h
    have h4 : (200 : ℚ) * ((N - k : Nat) : ℚ) ≤ (N : ℚ) := by exact_mod_cast h
    rw [hsub] at h4
    have h5 : (199 / 2 : ℚ) ≤ (k : ℚ) / (N : ℚ) * 100 := by
      rw [div_mul_eq_mul_div, le_div_iff₀ hNq]
      linarith
    constructor
    · push_cast; linarith
    · push_cast; linarith

/-! ## The batch pipeline -/

theorem processOps_spec (env : Env) (T : Nat) (name : String) (img : Image)
    (henc : ∀ c, env.encodes c = true) (ops : List String) :
    ∀ s : ProcState,
      (processOps env T name img ops s).newResults.map (fun r => (r.originalName, r.augId))
        = s.newResults.map (fun r => (r.originalName, r.augId)) ++ ops.map (fun a => (name, a)) ∧
      (processOps env T name img ops s).completedTasks = s.completedTasks + ops.length ∧
      (processOps env T name img ops s).progressLog
        = s.progressLog ++
          (List.range ops.length).map (fun j => progressDouble (s.completedTasks + j + 1) T) := by
  induction ops with
  | nil => intro s; simp [processOps]
  | cons a rest ih =>
    intro s
    have hstep : processTask env T name img a s =
        ProcState.mk
          (s.newResults ++ [BatchResult.mk name a
            (applyAugmentation env.math (env.rng s.started) img a
              (toParam ((env.params a).getD emptyConfig)))])
          (s.completedTasks + 1)
          (s.progressLog ++ [progressDouble (s.completedTasks + 1) T])
          (s.started + 1) := by
      unfold processTask
      simp only [henc, if_true]
    obtain ⟨h1, h2, h3⟩ := ih (processTask env T name img a s)
    show (processOps env T name img rest (processTask env T name img a s)).newResults.map _ = _ ∧
      (processOps env T name img rest (processTask env T name img a s)).completedTasks = _ ∧
      (processOps env T name img rest (processTask env T name img a s)).progressLog = _
    rw [h1, h2, h3, hstep]
    refine ⟨by simp, by simp; omega, ?_⟩
    simp only [List.length_cons, List.append_assoc]
    congr 1
    rw [Nat.add_comm rest.length 1, List.range_add, List.map_append, List.map_map]
    have hr1 : List.range 1 = [0] := rfl
    simp only [hr1, List.map_cons, List.map_nil, List.singleton_append, Nat.add_zero]
    congr 1
    apply List.map_congr_left
    intro j _
    simp only [Function.comp]
    congr 1
    omega

theorem processFiles_spec (env : Env) (T : Nat) (ops : List String)
    (henc : ∀ c, env.encodes c = true) (files : List FileIn)
    (hdec : ∀ f ∈ files, f.image ≠ none) :
    ∀ s : ProcState, ∃ s', processFiles env T ops files s = .finished s' ∧
      s'.newResults.map (fun r => (r.originalName, r.augId))
        = s.newResults.map (fun r => (r.originalName, r.augId)) ++ taskPairs files ops ∧
      s'.completedTasks = s.completedTasks + files.length * ops.length ∧
      s'.progressLog = s.progressLog ++
        (List.range (files.length * ops.length)).map
          (fun j => progressDouble (s.completedTasks + j + 1) T) := by
  induction files with
  | nil => intro s; exact ⟨s, rfl, by simp [taskPairs], by simp, by simp⟩
  | cons f rest ih =>
    intro s
    have hf : f.image ≠ none := hdec f (List.mem_cons_self _ _)
    obtain ⟨img, himg⟩ := Option.ne_none_iff_exists'.mp hf
    obtain ⟨h1, h2, h3⟩ := processOps_spec env T f.name img henc ops s
    obtain ⟨s', hs', g1, g2, g3⟩ :=
      ih (fun f' hf' => hdec f' (List.mem_cons_of_mem _ hf')) (processOps env T f.name img ops s)
    refine ⟨s', ?_, ?_, ?_, ?_⟩
    · show (match f.image with
        | none => Run.pending s
        | some img => processFiles env T ops rest (processOps env T f.name img ops s)) = _
      rw [himg]
      exact hs'
    · rw [g1, h1]; simp [taskPairs]
    · rw [g2, h2, List.length_cons, Nat.succ_mul]; omega
    · rw [g3, h3, h2, List.length_cons, Nat.succ_mul, Nat.add_comm (rest.length * ops.length),
        List.range_add, List.map_append, List.map_map, List.append_assoc]
      congr 2
      apply List.map_congr_left
      intro j _
      simp only [Function.comp]
      congr 1
      omega

/-- Entry `i * n + j` of the task pairs. -/
theorem taskPairs_getElem (ops : List String) (files : List FileIn) :
    ∀ i j, i < files.length → j < ops.length →
      ∃ f a, files[i]? = some f ∧ ops[j]? = some a ∧
        (taskPairs files ops)[i * ops.length + j]? = some (f.name, a) := by
  induction files with
  | nil => intro i j hi; simp at hi
  | cons f rest ih =>
    intro i j hi hj
    cases i with
    | zero =>
      refine ⟨f, ops[j], by simp, List.getElem?_eq_getElem hj, ?_⟩
      simp only [taskPairs, Nat.zero_mul, Nat.zero_add]
      rw [List.getElem?_append_left (by simpa using hj)]
      simp [List.getElem?_eq_getElem hj]
    | succ i =>
      have hi' : i < rest.length := by simpa using hi
      obtain ⟨f', a, hf', ha, hp⟩ := ih i j hi' hj
      refine ⟨f', a, by simpa using hf', ha, ?_⟩
      simp only [taskPairs]
      rw [List.getElem?_append_right (by simp; nlinarith)]
      have e : (i + 1) * ops.length + j - (List.map (fun a => (f.name, a)) ops).length
          = i * ops.length + j := by
        simp only [List.length_map]
        rw [Nat.succ_mul]; omega
      rw [e]
      exact hp

theorem taskPairs_length (ops : List String) (files : List FileIn) :
    (taskPairs files ops).length = files.length * ops.length := by
  induction files with
  | nil => simp [taskPairs]
  | cons f rest ih => simp [taskPairs, ih, Nat.succ_mul]; omega

/-- A run of `handleProcess` in which every image decodes and every encoding
succeeds. -/
theorem handleProcess_spec (env : Env) (files : List FileIn) (selected : List String)
    (hf : files ≠ []) (hs : selected ≠ []) (hdec : ∀ f ∈ files, f.image ≠ none)
    (henc : ∀ c, env.encodes c = true) :
    ∃ s, handleProcess env files selected = .finished s ∧
      s.newResults.map (fun r => (r.originalName, r.augId)) = taskPairs files selected ∧
      s.progressLog = 0 :: (List.range (files.length * selected.length)).map
        (fun k => progressDouble (k + 1) (files.length * selected.length)) := by
  obtain ⟨s', h1, h2, _, h4⟩ := processFiles_spec env (files.length * selected.length) selected
    henc files hdec { newResults := [], completedTasks := 0, progressLog := [0], started := 0 }
  refine ⟨s', ?_, by simpa using h2, ?_⟩
  · unfold handleProcess
    have : ¬ (files.length = 0 ∨ selected.length = 0) := by
      simp [List.length_eq_zero, hf, hs]
    rw [if_neg this]
    exact h1
  · rw [h4]
    simp

/-- A run of `handleProcess` in which some image does not decode never
publishes results. -/
theorem processFiles_pending (env : Env) (T : Nat) (ops : List String) (files : List FileIn)
    (hbad : ∃ f ∈ files, f.image = none) :
    ∀ s : ProcState, ∃ s', processFiles env T ops files s = .pending s' := by
  induction files with
  | nil => obtain ⟨f, hf, _⟩ := hbad; simp at hf
  | cons f rest ih =>
    intro s
    cases himg : f.image with
    | none =>
      refine ⟨s, ?_⟩
      show (match f.image with
        | none => Run.pending s
        | some img => processFiles env T ops rest (processOps env T f.name img ops s)) = _
      rw [himg]
    | some img =>
      have hrest : ∃ f' ∈ rest, f'.image = none := by
        obtain ⟨f', hf', hn⟩ := hbad
        rcases List.mem_cons.mp hf' with h | h
        · rw [h, himg] at hn; cases hn
        · exact ⟨f', h, hn⟩
      obtain ⟨s', hs'⟩ := ih hrest (processOps env T f.name img ops s)
      refine ⟨s', ?_⟩
      show (match f.image with
        | none => Run.pending s
        | some img => processFiles env T ops rest (processOps env T f.name img ops s)) = _
      rw [himg]
      exact hs'

theorem handleProcess_pending (env : Env) (files : List FileIn) (selected : List String)
    (hs : selected ≠ []) (hbad : ∃ f ∈ files, f.image = none) :
    (handleProcess env files selected).published = none := by
  have hf : files ≠ [] := by
    obtain ⟨f, hf, _⟩ := hbad
    exact List.ne_nil_of_mem hf
  unfold handleProcess
  have : ¬ (files.length = 0 ∨ selected.length = 0) := by
    simp [List.length_eq_zero, hf, hs]
  rw [if_neg this]
  obtain ⟨s', hs'⟩ := processFiles_pending env (files.length * selected.length) selected files
    hbad { newResults := [], completedTasks := 0, progressLog := [0], started := 0 }
  rw [hs']
  rfl

/-! ## Pass-through cases -/

theorem runSwitch_default (M : JsMath) (u : Nat → ℚ) (cv : Canvas) (img : Image) (augId : String)
    (param : Param) (h : ∀ id ∈ catalogIds, augId ≠ id) :
    runSwitch M u cv img augId param = caseCopy cv img := by
  unfold runSwitch
  rw [if_neg (h "hflip" (by simp [catalogIds]))]
  rw [if_neg (h "vflip" (by simp [catalogIds]))]
  rw [if_neg (h "rotate" (by simp [catalogIds]))]
  rw [if_neg (h "crop" (by simp [catalogIds]))]
  rw [if_neg (h "brightness" (by simp [catalogIds]))]
  rw [if_neg (h "contrast" (by simp [catalogIds]))]
  rw [if_neg (h "noise" (by simp [catalogIds]))]
  rw [if_neg (h "scale" (by simp [catalogIds]))]
  rw [if_neg (h "blur" (by simp [catalogIds]))]
  rw [if_neg (h "colorJitter" (by simp [catalogIds]))]
  rw [if_neg (h "motionBlur" (by simp [catalogIds]))]
  rw [if_neg (h "elastic" (by simp [catalogIds]))]
  rw [if_neg (h "erase" (by simp [catalogIds]))]
  rw [if_neg (h "translate" (by simp [catalogIds]))]
  rw [if_neg (h "waveNoise" (by simp [catalogIds]))]
  rw [if_neg (h "fancyPca" (by simp [catalogIds]))]
  rw [if_neg (h "hsvJitter" (by simp [catalogIds]))]
  rw [if_neg (h "intensity" (by simp [catalogIds]))]
  rw [if_neg (h "edgeEnhance" (by simp [catalogIds]))]
  rw [if_neg (h "randomHsv" (by simp [catalogIds]))]
  rw [if_neg (h "patchShuffle" (by simp [catalogIds]))]

/-- The cases that only call `drawImage(img, 0, 0)` return the image's buffer. -/
theorem applyAugmentation_copy (M : JsMath) (u : Nat → ℚ) (img : Image) (augId : String)
    (param : Param) (hl : img.data.length = img.width * img.height * 4)
    (h : runSwitch M u (Canvas.create img.width img.height) img augId param
      = caseCopy (Canvas.create img.width img.height) img) :
    (applyAugmentation M u img augId param).data = img.data := by
  unfold applyAugmentation
  rw [h]
  exact create_drawImage_data img hl

/-! ## Range controls -/

theorem upperOf_changeLower (augId key : String) (d : ℚ) (P : ParamSet) (v : ℚ) :
    upperOf (changeLower augId key d P v) augId key = some (orDefault (upperOf P augId key) d) := by
  simp [upperOf, changeLower, updateParam, configRange]

theorem lowerOf_changeUpper (augId key : String) (d : ℚ) (P : ParamSet) (v : ℚ) :
    lowerOf (changeUpper augId key d P v) augId key = some (orDefault (lowerOf P augId key) d) := by
  simp [lowerOf, changeUpper, updateParam, configRange]

theorem upperOf_changeUpper (augId key : String) (d : ℚ) (P : ParamSet) (v : ℚ) :
    upperOf (changeUpper augId key d P v) augId key = some v := by
  simp [upperOf, changeUpper, updateParam, configRange]

theorem lowerOf_changeLower (augId key : String) (d : ℚ) (P : ParamSet) (v : ℚ) :
    lowerOf (changeLower augId key d P v) augId key = some v := by
  simp [lowerOf, changeLower, updateParam, configRange]

/-! ## The `catch` block -/

/-- Bytes of `drawImage` with a net identity matrix on a canvas of the image's
size that already has content: each pixel is composited over the old one. -/
theorem drawImage_over_getD (cv : Canvas) (img : Image) (dx dy : ℚ)
    (hm : cv.ctm.mul (Transform.shift dx dy) = Transform.identity)
    (hw : img.width = cv.width) (hh : img.height = cv.height)
    (hlen : cv.data.length = cv.width * cv.height * 4) (k : Nat) (hk : k < cv.data.length) :
    (cv.drawImage img dx dy).data.getD k 0 =
      compositeChannel (img.data.getD k 0) (img.data.getD (4 * (k / 4) + 3) 0)
        (cv.data.getD k 0) (cv.data.getD (4 * (k / 4) + 3) 0) (k % 4) := by
  have hdet : (cv.ctm.mul (Transform.shift dx dy)).det ≠ 0 := by
    rw [hm]; simp [Transform.identity, Transform.det]
  unfold Canvas.drawImage
  rw [if_neg hdet]
  simp only []
  rw [tabulate_getD _ _ _ hk, hm]
  simp only [identity_inverse_apply]
  rw [hlen] at hk
  have hwpos : 0 < cv.width := by
    rcases Nat.eq_zero_or_pos cv.width with h | h
    · rw [h] at hk; simp at hk
    · exact h
  have hp : k / 4 < cv.width * cv.height := by omega
  have hX : k / 4 % cv.width < cv.width := Nat.mod_lt _ hwpos
  have hY : k / 4 / cv.width < cv.height := by
    rw [Nat.div_lt_iff_lt_mul hwpos]; rw [Nat.mul_comm]; exact hp
  have c1 : (0 : ℚ) ≤ ((k / 4 % cv.width : Nat) : ℚ) + 1 / 2 := by positivity
  have c2 : ((k / 4 % cv.width : Nat) : ℚ) + 1 / 2 < (img.width : ℚ) := by
    rw [hw]
    have : ((k / 4 % cv.width : Nat) : ℚ) + 1 ≤ (cv.width : ℚ) := by exact_mod_cast hX
    linarith
  have c3 : (0 : ℚ) ≤ ((k / 4 / cv.width : Nat) : ℚ) + 1 / 2 := by positivity
  have c4 : ((k / 4 / cv.width : Nat) : ℚ) + 1 / 2 < (img.height : ℚ) := by
    rw [hh]
    have : ((k / 4 / cv.width : Nat) : ℚ) + 1 ≤ (cv.height : ℚ) := by exact_mod_cast hY
    linarith
  rw [if_pos ⟨c1, c2, c3, c4⟩, floor_natCast_add_half, floor_natCast_add_half, hw]
  simp only [Int.toNat_ofNat]
  have h2 : k / 4 / cv.width * cv.width + k / 4 % cv.width = k / 4 := by
    rw [Nat.mul_comm]; exact Nat.div_add_mod (k / 4) cv.width
  have e : 4 * (k / 4) + k % 4 = k := by omega
  rw [h2, e]

/-! ## Grouping by operator id -/

/-- Invariant of `groupedResults` after the results `done`: distinct keys, each
key holds the results with that id in order, and every id seen has a key. -/
theorem groupPush_inv (g : List (String × List BatchResult)) (done : List BatchResult)
    (r : BatchResult)
    (h1 : (g.map (fun e => e.1)).Nodup)
    (h2 : ∀ e ∈ g, e.2 = done.filter (fun x => x.augId = e.1))
    (h3 : ∀ x ∈ done, x.augId ∈ g.map (fun e => e.1)) :
    ((groupPush g r).map (fun e => e.1)).Nodup ∧
    (∀ e ∈ groupPush g r, e.2 = (done ++ [r]).filter (fun x => x.augId = e.1)) ∧
    (∀ x ∈ done ++ [r], x.augId ∈ (groupPush g r).map (fun e => e.1)) := by
  unfold groupPush
  by_cases hkey : g.any (fun e => e.1 = r.augId) = true
  · rw [if_pos hkey]
    have hkeys : (g.map (fun e => if e.1 = r.augId then (e.1, e.2 ++ [r]) else e)).map
        (fun e => e.1) = g.map (fun e => e.1) := by
      rw [List.map_map]
      apply List.map_congr_left
      intro e _
      simp only [Function.comp]
      split <;> rfl
    rw [hkeys]
    refine ⟨h1, ?_, ?_⟩
    · intro e' he'
      obtain ⟨e, he, rfl⟩ := List.mem_map.mp he'
      by_cases hk : e.1 = r.augId
      · simp only [if_pos hk]
        rw [List.filter_append, ← h2 e he]
        simp [hk]
      · simp only [if_neg hk]
        rw [List.filter_append, ← h2 e he]
        have : ¬ r.augId = e.1 := fun h => hk h.symm
        simp [this]
    · intro x hx
      rcases List.mem_append.mp hx with hx | hx
      · exact h3 x hx
      · have hxr : x = r := by simpa using hx
        rw [hxr]
        obtain ⟨e, he, hk⟩ := List.any_eq_true.mp hkey
        have hk' : e.1 = r.augId := by simpa using hk
        rw [← hk']
        exact List.mem_map.mpr ⟨e, he, rfl⟩
  · rw [if_neg hkey]
    have hnot : r.augId ∉ g.map (fun e => e.1) := by
      intro hmem
      obtain ⟨e, he, hk⟩ := List.mem_map.mp hmem
      apply hkey
      exact List.any_eq_true.mpr ⟨e, he, by simpa using hk⟩
    have hnone : done.filter (fun x => x.augId = r.augId) = [] := by
      rw [List.filter_eq_nil_iff]
      intro x hx hk
      have hk' : x.augId = r.augId := by simpa using hk
      exact hnot (hk' ▸ h3 x hx)
    refine ⟨?_, ?_, ?_⟩
    · rw [List.map_append, List.nodup_append]
      refine ⟨h1, by simp, ?_⟩
      intro a ha hb
      have : a = r.augId := by simpa using hb
      exact hnot (this ▸ ha)
    · intro e he
      rcases List.mem_append.mp he with he | he
      · rw [List.filter_append, ← h2 e he]
        have hne : ¬ r.augId = e.1 := by
          intro h
          exact hnot (h ▸ List.mem_map.mpr ⟨e, he, rfl⟩)
        simp [hne]
      · have her : e = (r.augId, [r]) := by simpa using he
        rw [her, List.filter_append, hnone]
        simp
    · intro x hx
      rw [List.map_append]
      rcases List.mem_append.mp hx with hx | hx
      · exact List.mem_append_left _ (h3 x hx)
      · have hxr : x = r := by simpa using hx
        rw [hxr]
        exact List.mem_append_right _ (by simp)

theorem foldl_groupPush_inv (rest : List BatchResult) :
    ∀ (g : List (String × List BatchResult)) (done : List BatchResult),
      (g.map (fun e => e.1)).Nodup →
      (∀ e ∈ g, e.2 = done.filter (fun x => x.augId = e.1)) →
      (∀ x ∈ done, x.augId ∈ g.map (fun e => e.1)) →
      ((rest.foldl groupPush g).map (fun e => e.1)).Nodup ∧
      (∀ e ∈ rest.foldl groupPush g, e.2 = (done ++ rest).filter (fun x => x.augId = e.1)) ∧
      (∀ x ∈ done ++ rest, x.augId ∈ (rest.foldl groupPush g).map (fun e => e.1)) := by
  induction rest with
  | nil =>
    intro g done h1 h2 h3
    simp only [List.foldl_nil, List.append_nil]
    exact ⟨h1, h2, h3⟩
  | cons r rest ih =>
    intro g done h1 h2 h3
    obtain ⟨k1, k2, k3⟩ := groupPush_inv g done r h1 h2 h3
    have := ih (groupPush g r) (done ++ [r]) k1 k2 k3
    simpa [List.foldl_cons, List.append_assoc] using this

theorem groupPush_keys_occur (g : List (String × List BatchResult)) (done : List BatchResult)
    (r : BatchResult) (h : ∀ e ∈ g, ∃ x ∈ done, x.augId = e.1) :
    ∀ e ∈ groupPush g r, ∃ x ∈ done ++ [r], x.augId = e.1 := by
  unfold groupPush
  by_cases hkey : g.any (fun e => e.1 = r.augId) = true
  · rw [if_pos hkey]
    intro e' he'
    obtain ⟨e, he, rfl⟩ := List.mem_map.mp he'
    obtain ⟨x, hx, hxe⟩ := h e he
    refine ⟨x, List.mem_append_left _ hx, ?_⟩
    by_cases hk : e.1 = r.augId
    · simp only [if_pos hk]; exact hxe
    · simp only [if_neg hk]; exact hxe
  · rw [if_neg hkey]
    intro e he
    rcases List.mem_append.mp he with he | he
    · obtain ⟨x, hx, hxe⟩ := h e he
      exact ⟨x, List.mem_append_left _ hx, hxe⟩
    · have her : e = (r.augId, [r]) := by simpa using he
      exact ⟨r, List.mem_append_right _ (by simp), by rw [her]⟩

theorem foldl_groupPush_keys_occur (rest : List BatchResult) :
    ∀ (g : List (String × List BatchResult)) (done : List BatchResult),
      (∀ e ∈ g, ∃ x ∈ done, x.augId = e.1) →
      ∀ e ∈ rest.foldl groupPush g, ∃ x ∈ done ++ rest, x.augId = e.1 := by
  induction rest with
  | nil =>
    intro g done h
    simp only [List.foldl_nil, List.append_nil]
    exact h
  | cons r rest ih =>
    intro g done h
    have := ih (groupPush g r) (done ++ [r]) (groupPush_keys_occur g done r h)
    simpa [List.foldl_cons, List.append_assoc] using this

theorem groupResults_keys_occur (results : List BatchResult) :
    ∀ e ∈ groupResults results, ∃ x ∈ results, x.augId = e.1 := by
  have h := foldl_groupPush_keys_occur results [] [] (by simp)
  simpa using h

/-- The object `groupedResults`: distinct keys, one per operator id that occurs,
each holding the results with that id in the order of `results`. -/
theorem groupResults_spec (results : List BatchResult) :
    ((groupResults results).map (fun e => e.1)).Nodup ∧
    (∀ e ∈ groupResults results, e.2 = results.filter (fun x => x.augId = e.1)) ∧
    (∀ x ∈ results, x.augId ∈ (groupResults results).map (fun e => e.1)) ∧
    (∀ e ∈ groupResults results, ∃ x ∈ results, x.augId = e.1) := by
  have h := foldl_groupPush_inv results [] [] (by simp) (by simp) (by simp)
  simp only [List.nil_append] at h
  obtain ⟨h1, h2, h3⟩ := h
  refine ⟨h1, h2, h3, ?_⟩
  exact groupResults_keys_occur results

/-! ## Toggling the selection -/

theorem toggleAugmentation_nodup (prev : List String) (id : String) (h : prev.Nodup) :
    (toggleAugmentation prev id).Nodup := by
  unfold toggleAugmentation
  split
  · exact h.filter _
  · rename_i hid
    rw [List.nodup_append]
    refine ⟨h, by simp, ?_⟩
    intro a ha hb
    have : a = id := by simpa using hb
    exact hid (this ▸ ha)

theorem selectionAfter_nodup (ids : List String) : (selectionAfter ids).Nodup := by
  unfold selectionAfter
  have key : ∀ (l init : List String), init.Nodup → (l.foldl toggleAugmentation init).Nodup := by
    intro l
    induction l with
    | nil => intro init h; exact h
    | cons a l ih =>
      intro init h
      rw [List.foldl_cons]
      exact ih _ (toggleAugmentation_nodup init a h)
  exact key ids [] List.nodup_nil

theorem toggleAugmentation_mem_self (prev : List String) (id : String) :
    id ∈ toggleAugmentation prev id ↔ id ∉ prev := by
  unfold toggleAugmentation
  split
  · rename_i h
    simp [h]
  · rename_i h
    simp [h]

theorem toggleAugmentation_mem_other (prev : List String) (id other : String) (h : other ≠ id) :
    other ∈ toggleAugmentation prev id ↔ other ∈ prev := by
  unfold toggleAugmentation
  split
  · simp [h]
  · simp [h]

theorem toggleAugmentation_others (prev : List String) (id : String) :
    (toggleAugmentation prev id).filter (fun item => item ≠ id)
      = prev.filter (fun item => item ≠ id) := by
  unfold toggleAugmentation
  split
  · rw [List.filter_filter]
    simp
  · rw [List.filter_append]
    simp

/-! ## The hue handed on by `hsvJitter` -/

theorem hsvJitterBody_hue (hShift : ℚ) (sS vS : ℚ × ℚ) (u : Nat → ℚ) (i : Nat) (d : List Nat) :
    hsvJitterBody hShift sS vS u i d =
      (let hsv := rgbToHsv (rd d i / 255) (rd d (i + 1) / 255) (rd d (i + 2) / 255)
       let rgb := hsvToRgb (hsvJitterHue hsv.h hShift)
         (clampUnit (hsv.s * (sS.1 + u (2 * (i / 4)) * (sS.2 - sS.1))))
         (clampUnit (hsv.v * (vS.1 + u (2 * (i / 4) + 1) * (vS.2 - vS.1))))
       store (store (store d i (hsvValue rgb.r)) (i + 1) (hsvValue rgb.g)) (i + 2)
         (hsvValue rgb.b)) := rfl

theorem jsRem_congr (x : ℚ) : ∃ k : ℤ, x = jsRem x 360 + 360 * (k : ℚ) := by
  unfold jsRem
  split
  · exact ⟨⌊x / 360⌋, by ring⟩
  · exact ⟨⌈x / 360⌉, by ring⟩

theorem jsRem_nonneg (x : ℚ) (hx : 0 ≤ x) : 0 ≤ jsRem x 360 ∧ jsRem x 360 < 360 := by
  unfold jsRem
  have h0 : 0 ≤ x / 360 := by positivity
  rw [if_pos h0]
  have h1 := Int.floor_le (x / 360)
  have h2 := Int.lt_floor_add_one (x / 360)
  constructor
  · have : (360 : ℚ) * (⌊x / 360⌋ : ℚ) ≤ 360 * (x / 360) := by linarith
    have e : (360 : ℚ) * (x / 360) = x := by ring
    linarith
  · have : (360 : ℚ) * (x / 360) < 360 * ((⌊x / 360⌋ : ℚ) + 1) := by linarith
    have e : (360 : ℚ) * (x / 360) = x := by ring
    linarith

theorem jsRem_neg (x : ℚ) (hx : x < 0) : -360 < jsRem x 360 ∧ jsRem x 360 ≤ 0 := by
  unfold jsRem
  have h0 : ¬ 0 ≤ x / 360 := by
    rw [not_le]
    exact div_neg_of_neg_of_pos hx (by norm_num)
  rw [if_neg h0]
  have h1 := Int.le_ceil (x / 360)
  have h2 := Int.ceil_lt_add_one (x / 360)
  have e : (360 : ℚ) * (x / 360) = x := by ring
  constructor
  · have : (360 : ℚ) * (⌈x / 360⌉ : ℚ) < 360 * (x / 360 + 1) := by linarith
    linarith
  · have : (360 : ℚ) * (x / 360) ≤ 360 * (⌈x / 360⌉ : ℚ) := by linarith
    linarith

/-! ## Ranges supplied in either order -/

theorem brightness_swap (M : JsMath) (u : Nat → ℚ) (img : Image) (p : Param) (lo hi : ℚ) :
    applyAugmentation M u img "brightness" { p with factorRange := some (hi, lo) }
      = applyAugmentation M u img "brightness" { p with factorRange := some (lo, hi) } := by
  unfold applyAugmentation
  rw [runSwitch_brightness, runSwitch_brightness]
  unfold caseBrightness
  simp only [fadd_comm hi lo]

theorem contrast_swap (M : JsMath) (u : Nat → ℚ) (img : Image) (p : Param) (lo hi : ℚ) :
    applyAugmentation M u img "contrast" { p with factorRange := some (hi, lo) }
      = applyAugmentation M u img "contrast" { p with factorRange := some (lo, hi) } := by
  unfold applyAugmentation
  rw [runSwitch_contrast, runSwitch_contrast]
  unfold caseContrast
  simp only [fadd_comm hi lo]

theorem rotate_swap (M : JsMath) (u : Nat → ℚ) (img : Image) (p : Param) (lo hi : ℚ) :
    applyAugmentation M u img "rotate" { p with angleRange := some (hi, lo) }
      = applyAugmentation M u img "rotate" { p with angleRange := some (lo, hi) } := by
  unfold applyAugmentation
  rw [runSwitch_rotate, runSwitch_rotate]
  unfold caseRotate
  simp only [add_comm hi lo]

/-- Data returned by `intensity` on a one-pixel image. -/
theorem intensity_one_pixel (M : JsMath) (u : Nat → ℚ) (r g b a : Nat) (p : Param) (lo hi : ℚ)
    (hp : p.factor = some (lo, hi)) :
    (applyAugmentation M u ⟨1, 1, [r, g, b, a]⟩ "intensity" p).data
      = intensityBody (fadd lo (fmul (u 0) (fsub hi lo))) 0 [r, g, b, a] := by
  unfold applyAugmentation
  rw [runSwitch_intensity]
  unfold caseIntensity
  rw [hp]
  show forPixels _ ((Canvas.create 1 1).drawImage ⟨1, 1, [r, g, b, a]⟩ 0 0).data = _
  rw [create_drawImage_data ⟨1, 1, [r, g, b, a]⟩ rfl]
  unfold forPixels
  rw [show ((([r, g, b, a] : List Nat).length + 3) / 4) = 0 + 1 from by simp, forRange_succ,
    forRange_zero]

/-! ## Draws of `hsvJitter` -/

/-- Data returned by `hsvJitter` on an image of two pixels in one row. -/
theorem hsvJitter_two_pixels (M : JsMath) (u : Nat → ℚ) (d : List Nat) (hd : d.length = 8)
    (p : Param) (sS vS : ℚ × ℚ) (hs : p.sScale = some sS) (hv : p.vScale = some vS) :
    (applyAugmentation M u ⟨2, 1, d⟩ "hsvJitter" p).data
      = hsvJitterBody p.hShift sS vS u 4 (hsvJitterBody p.hShift sS vS u 0 d) := by
  unfold applyAugmentation
  rw [runSwitch_hsvJitter]
  unfold caseHsvJitter
  have hc : ((Canvas.create 2 1).drawImage ⟨2, 1, d⟩ 0 0).data = d :=
    create_drawImage_data ⟨2, 1, d⟩ (by simpa using hd)
  simp only [Canvas.getImageData, hc, hs, hv]
  rw [if_neg (by rw [hd]; decide)]
  show forPixels _ d = _
  unfold forPixels
  rw [show (d.length + 3) / 4 = 0 + 1 + 1 from by rw [hd], forRange_succ, forRange_succ,
    forRange_zero]

theorem hsvJitter_pixel_low :
    hsvJitterBody 10 (8 / 10, 12 / 10) (8 / 10, 12 / 10) (fun k => if k < 2 then 0 else 1 / 2) 0
      [200, 100, 50, 255, 200, 100, 50, 255] = [160, 112, 64, 255, 200, 100, 50, 255] := by
  have h1 : rgbToHsv (200 / 255) (100 / 255) (50 / 255) = ⟨20, 3 / 4, 200 / 255⟩ := by
    norm_num [rgbToHsv]
  have h2 : jsRem (20 + 10) 360 = 30 := by
    unfold jsRem; norm_num
  have h3 : hsvToRgb 30 (3 / 5) (160 / 255) = ⟨160 / 255, 112 / 255, 64 / 255⟩ := by
    have hf : ⌊(30 : ℚ) / 60⌋ = 0 := by rw [Int.floor_eq_iff]; norm_num
    unfold hsvToRgb
    simp only [hf, tmod_zero_six]
    norm_num
  have a1 : rd [200, 100, 50, 255, 200, 100, 50, 255] 0 / 255 = 200 / 255 := by norm_num [rd]
  have a2 : rd [200, 100, 50, 255, 200, 100, 50, 255] (0 + 1) / 255 = 100 / 255 := by
    norm_num [rd]
  have a3 : rd [200, 100, 50, 255, 200, 100, 50, 255] (0 + 2) / 255 = 50 / 255 := by
    norm_num [rd]
  unfold hsvJitterBody
  simp only [a1, a2, a3, h1, h2]
  have s1 : clampUnit (3 / 4 * (8 / 10 + (if 2 * (0 / 4) < 2 then (0 : ℚ) else 1 / 2)
      * (12 / 10 - 8 / 10))) = 3 / 5 := by
    norm_num [clampUnit]
  have v1 : clampUnit (200 / 255 * (8 / 10 + (if 2 * (0 / 4) + 1 < 2 then (0 : ℚ) else 1 / 2)
      * (12 / 10 - 8 / 10))) = 160 / 255 := by
    norm_num [clampUnit]
  simp only [s1, v1, h3]
  norm_num [store, hsvValue, clampMaxMin, toUint8Clamp]
  refine ⟨?_, ?_, ?_⟩ <;> rfl

theorem hsvJitter_pixel_high :
    hsvJitterBody 10 (8 / 10, 12 / 10) (8 / 10, 12 / 10) (fun k => if k < 2 then 0 else 1 / 2) 4
      [160, 112, 64, 255, 200, 100, 50, 255] = [160, 112, 64, 255, 200, 125, 50, 255] := by
  have h1 : rgbToHsv (200 / 255) (100 / 255) (50 / 255) = ⟨20, 3 / 4, 200 / 255⟩ := by
    norm_num [rgbToHsv]
  have h2 : jsRem (20 + 10) 360 = 30 := by
    unfold jsRem; norm_num
  have h3 : hsvToRgb 30 (3 / 4) (200 / 255) = ⟨200 / 255, 125 / 255, 50 / 255⟩ := by
    have hf : ⌊(30 : ℚ) / 60⌋ = 0 := by rw [Int.floor_eq_iff]; norm_num
    unfold hsvToRgb
    simp only [hf, tmod_zero_six]
    norm_num
  have a1 : rd [160, 112, 64, 255, 200, 100, 50, 255] 4 / 255 = 200 / 255 := by norm_num [rd]
  have a2 : rd [160, 112, 64, 255, 200, 100, 50, 255] (4 + 1) / 255 = 100 / 255 := by
    norm_num [rd]
  have a3 : rd [160, 112, 64, 255, 200, 100, 50, 255] (4 + 2) / 255 = 50 / 255 := by
    norm_num [rd]
  unfold hsvJitterBody
  simp only [a1, a2, a3, h1, h2]
  have s1 : clampUnit (3 / 4 * (8 / 10 + (if 2 * (4 / 4) < 2 then (0 : ℚ) else 1 / 2)
      * (12 / 10 - 8 / 10))) = 3 / 4 := by
    norm_num [clampUnit]
  have v1 : clampUnit (200 / 255 * (8 / 10 + (if 2 * (4 / 4) + 1 < 2 then (0 : ℚ) else 1 / 2)
      * (12 / 10 - 8 / 10))) = 200 / 255 := by
    norm_num [clampUnit]
  simp only [s1, v1, h3]
  norm_num [store, hsvValue, clampMaxMin, toUint8Clamp]
  refine ⟨?_, ?_, ?_⟩ <;> rfl

/-! ## The rectangle of `erase` -/

/-- `case "erase"` fills exactly the rectangle `eraseRect`, when there is one. -/
theorem caseErase_eq_rect (M : JsMath) (u : Nat → ℚ) (cv : Canvas) (img : Image) (param : Param) :
    caseErase M u cv img param =
      .done (match eraseRect M u cv.width cv.height param with
        | some (x, y, w, h) => (cv.drawImage img 0 0).fillRectBlack x y w h
        | none => cv.drawImage img 0 0) := by
  unfold caseErase eraseRect
  by_cases h1 : u 0 < param.p
  · simp only [if_pos h1]
    split_ifs <;> rfl
  · simp only [if_neg h1]

/-! ## `colorJitter` against its description -/

theorem colorJitterBody_eq (jb jc ic : ℚ) (i : Nat) (d : List Nat) :
    colorJitterBody jb jc ic i d
      = mapRgbBody (fun v => contrastValue v jc ic) i
          (mapRgbBody (fun v => brightnessValue v jb) i d) := rfl

theorem colorJitterBody_frame (jb jc ic : ℚ) (i : Nat) (d : List Nat) (j : Nat)
    (h : j < i ∨ i + 3 ≤ j) : (colorJitterBody jb jc ic i d).getD j 0 = d.getD j 0 := by
  rw [colorJitterBody_eq, mapRgbBody_frame _ _ _ _ h, mapRgbBody_frame _ _ _ _ h]

theorem colorJitterBody_val (jb jc ic : ℚ) (i : Nat) (d : List Nat) (c : Nat) (hc : c < 3)
    (hi : i + c < d.length) :
    (colorJitterBody jb jc ic i d).getD (i + c) 0
      = toUint8Clamp (contrastValue
          ((toUint8Clamp (brightnessValue (rd d (i + c)) jb) : Nat) : ℚ) jc ic) := by
  rw [colorJitterBody_eq, mapRgbBody_val _ _ _ c hc (by rw [mapRgbBody_length]; exact hi)]
  congr 2
  unfold rd
  rw [mapRgbBody_val _ _ _ c hc hi]
  rfl

/-- Pointwise description of the `colorJitter` loop. -/
theorem forPixels_colorJitter (jb jc : ℚ) (d : List Nat) (hd : d.length % 4 = 0) :
    (forPixels (colorJitterBody jb jc (fmul 128 (fsub 1 jc))) d).length = d.length ∧
    ∀ j, j < d.length → (forPixels (colorJitterBody jb jc (fmul 128 (fsub 1 jc))) d).getD j 0
      = if j % 4 ≠ 3 then jitterSpecByte jb jc (d.getD j 0) else d.getD j 0 := by
  apply forPixels_getD (colorJitterBody jb jc (fmul 128 (fsub 1 jc)))
    (fun j => jitterSpecByte jb jc (d.getD j 0)) d hd
    (colorJitterBody_length jb jc _) (colorJitterBody_frame jb jc _)
  intro k acc c hc _ hag hlt
  rw [colorJitterBody_val jb jc _ _ acc c hc hlt]
  simp only [rd]
  rw [hag c (by omega)]
  rfl

theorem colorJitter_data (M : JsMath) (u : Nat → ℚ) (img : Image) (param : Param)
    (hl : img.data.length = img.width * img.height * 4) :
    (applyAugmentation M u img "colorJitter" param).data
      = colorJitterSpec param.brightness param.contrast (u 0) (u 1) img.data := by
  unfold applyAugmentation
  rw [runSwitch_colorJitter]
  show forPixels _ ((Canvas.create img.width img.height).drawImage img 0 0).data = _
  rw [create_drawImage_data img hl, fmul_comm (u 0) 2, fmul_comm (u 1) 2]
  have hd : img.data.length % 4 = 0 := by rw [hl]; omega
  obtain ⟨hlen, hval⟩ := forPixels_colorJitter (fadd 1 (fmul (fsub (fmul 2 (u 0)) 1) param.brightness))
    (fadd 1 (fmul (fsub (fmul 2 (u 1)) 1) param.contrast)) img.data hd
  apply ext_getD
  · rw [hlen]; unfold colorJitterSpec; rw [tabulate_length]
  · intro k hk
    rw [hlen] at hk
    rw [hval k hk]
    unfold colorJitterSpec
    rw [tabulate_getD _ _ _ hk]
    by_cases h3 : k % 4 = 3
    · simp [h3]
    · simp [h3]

theorem colorJitter_reads (M M' : JsMath) (u u' : Nat → ℚ) (img : Image) (param param' : Param)
    (hb : param'.brightness = param.brightness) (hc : param'.contrast = param.contrast)
    (h0 : u' 0 = u 0) (h1 : u' 1 = u 1) :
    applyAugmentation M' u' img "colorJitter" param'
      = applyAugmentation M u img "colorJitter" param := by
  unfold applyAugmentation
  rw [runSwitch_colorJitter, runSwitch_colorJitter]
  unfold caseColorJitter
  rw [hb, hc, h0, h1]

/-! ## `edgeEnhance` pixel by pixel -/

theorem cell_div (w x y : Nat) (hx : x < w) : (y * w + x) / w = y := by
  have hw : 0 < w := by omega
  rw [Nat.add_comm, Nat.add_mul_div_right _ _ hw, Nat.div_eq_of_lt hx]; simp

theorem cell_mod (w x y : Nat) (hx : x < w) : (y * w + x) % w = x := by
  rw [Nat.add_comm, Nat.add_mul_mod_self_right]; exact Nat.mod_eq_of_lt hx

theorem cell_unique (w x y x' y' : Nat) (hx : x < w) (hx' : x' < w)
    (h : y * w + x = y' * w + x') : x = x' ∧ y = y' := by
  have h1 := congrArg (fun n => n % w) h
  have h2 := congrArg (fun n => n / w) h
  simp only [cell_mod w x y hx, cell_mod w x' y' hx', cell_div w x y hx,
    cell_div w x' y' hx'] at h1 h2
  exact ⟨h1, h2⟩

/-- The inner loop of `edgeEnhance` for row `yy + 1`: the bytes of the row's
interior pixels get their new value, the others stay. -/
theorem edgeInner_regions (s : ℚ) (w : Nat) (temp acc0 : List Nat) (yy : Nat)
    (body : Nat → List Nat → List Nat)
    (hbody : body = fun xx acc =>
        let y := yy + 1
        let x := xx + 1
        let r := convolve w temp x y 0
        let g := convolve w temp x y 1
        let b := convolve w temp x y 2
        let i := (y * w + x) * 4
        let d1 := store acc i (edgeValue (rd temp i) r s)
        let d2 := store d1 (i + 1) (edgeValue (rd temp (i + 1)) g s)
        store d2 (i + 2) (edgeValue (rd temp (i + 2)) b s)) :
    (forRange (w - 2) body acc0).length = acc0.length ∧
    (∀ k, k < acc0.length → (∃ xx, xx < w - 2 ∧ k / 4 = (yy + 1) * w + (xx + 1) ∧ k % 4 ≠ 3) →
      (forRange (w - 2) body acc0).getD k 0
        = toUint8Clamp (edgeValue (rd temp k) (convolve w temp (k / 4 % w) (k / 4 / w) (k % 4)) s)) ∧
    (∀ k, (∀ xx, xx < w - 2 → ¬ (k / 4 = (yy + 1) * w + (xx + 1) ∧ k % 4 ≠ 3)) →
      (forRange (w - 2) body acc0).getD k 0 = acc0.getD k 0) := by
  subst hbody
  apply forRange_regions (w - 2) _
    (fun xx k => k / 4 = (yy + 1) * w + (xx + 1) ∧ k % 4 ≠ 3)
    (fun k => toUint8Clamp
      (edgeValue (rd temp k) (convolve w temp (k / 4 % w) (k / 4 / w) (k % 4)) s)) acc0
  · intro xx acc
    simp only [store_length]
  · intro xx acc k hk
    simp only []
    have hne : ∀ c, c < 3 → ((yy + 1) * w + (xx + 1)) * 4 + c ≠ k := by
      intro c hc heq
      apply hk
      subst heq
      constructor <;> omega
    rw [store_getD_ne _ _ _ _ (hne 2 (by omega)), store_getD_ne _ _ _ _ (hne 1 (by omega)),
      store_getD_ne _ _ _ _ (by have := hne 0 (by omega); simpa using this)]
  · intro xx acc k hxx hlen hR hk
    obtain ⟨hq, hc3⟩ := hR
    have hxw : xx + 1 < w := by omega
    have hX : k / 4 % w = xx + 1 := by rw [hq]; exact cell_mod w _ _ hxw
    have hY : k / 4 / w = yy + 1 := by rw [hq]; exact cell_div w _ _ hxw
    rw [hX, hY]
    simp only []
    obtain h0 | h1 | h2 : k = ((yy + 1) * w + (xx + 1)) * 4 ∨ k = ((yy + 1) * w + (xx + 1)) * 4 + 1
        ∨ k = ((yy + 1) * w + (xx + 1)) * 4 + 2 := by omega
    · have e : k % 4 = 0 := by omega
      rw [e, h0, store_getD_ne _ _ _ _ (by omega), store_getD_ne _ _ _ _ (by omega),
        store_getD_eq _ _ _ (by omega)]
    · have e : k % 4 = 1 := by omega
      rw [e, h1, store_getD_ne _ _ _ _ (by omega),
        store_getD_eq _ _ _ (by rw [store_length]; omega)]
    · have e : k % 4 = 2 := by omega
      rw [e, h2, store_getD_eq _ _ _ (by rw [store_length, store_length]; omega)]

/-- The loops of `edgeEnhance`: the colour bytes of the interior pixels get
`clamp(temp + conv * strength)` computed from `temp`, every other byte stays. -/
theorem edgeLoop_regions (s : ℚ) (w h : Nat) (temp d : List Nat) :
    (edgeLoop s w h temp d).length = d.length ∧
    (∀ k, k < d.length →
      (∃ yy, yy < h - 2 ∧ ∃ xx, xx < w - 2 ∧ k / 4 = (yy + 1) * w + (xx + 1) ∧ k % 4 ≠ 3) →
      (edgeLoop s w h temp d).getD k 0
        = toUint8Clamp (edgeValue (rd temp k) (convolve w temp (k / 4 % w) (k / 4 / w) (k % 4)) s)) ∧
    (∀ k, (∀ yy, yy < h - 2 → ¬ ∃ xx, xx < w - 2 ∧ k / 4 = (yy + 1) * w + (xx + 1) ∧ k % 4 ≠ 3) →
      (edgeLoop s w h temp d).getD k 0 = d.getD k 0) := by
  unfold edgeLoop
  apply forRange_regions (h - 2) _
    (fun yy k => ∃ xx, xx < w - 2 ∧ k / 4 = (yy + 1) * w + (xx + 1) ∧ k % 4 ≠ 3)
    (fun k => toUint8Clamp
      (edgeValue (rd temp k) (convolve w temp (k / 4 % w) (k / 4 / w) (k % 4)) s)) d
  · intro yy acc
    exact (edgeInner_regions s w temp acc yy _ rfl).1
  · intro yy acc k hk
    apply (edgeInner_regions s w temp acc yy _ rfl).2.2 k
    intro xx hxx hR
    exact hk ⟨xx, hxx, hR⟩
  · intro yy acc k _ hlen hR hk
    exact (edgeInner_regions s w temp acc yy _ rfl).2.1 k (by rw [hlen]; exact hk) hR

theorem convolve_eq (w : Nat) (temp : List Nat) (x y c : Nat) :
    convolve w temp x y c =
      4 * (temp.getD ((y * w + x) * 4 + c) 0 : ℤ)
        - (temp.getD (((y - 1) * w + x) * 4 + c) 0 : ℤ)
        - (temp.getD (((y + 1) * w + x) * 4 + c) 0 : ℤ)
        - (temp.getD ((y * w + (x - 1)) * 4 + c) 0 : ℤ)
        - (temp.getD ((y * w + (x + 1)) * 4 + c) 0 : ℤ) := by
  have k00 : kernelAt 0 0 = 0 := rfl
  have k01 : kernelAt 0 1 = -1 := rfl
  have k02 : kernelAt 0 2 = 0 := rfl
  have k10 : kernelAt 1 0 = -1 := rfl
  have k11 : kernelAt 1 1 = 4 := rfl
  have k12 : kernelAt 1 2 = -1 := rfl
  have k20 : kernelAt 2 0 = 0 := rfl
  have k21 : kernelAt 2 1 = -1 := rfl
  have k22 : kernelAt 2 2 = 0 := rfl
  unfold convolve
  simp only [forRange, k00, k01, k02, k10, k11, k12, k20, k21, k22]
  have e1 : y + 1 - 1 = y := by omega
  have e2 : y + 2 - 1 = y + 1 := by omega
  have e3 : x + 1 - 1 = x := by omega
  have e4 : x + 2 - 1 = x + 1 := by omega
  have e5 : y + 0 - 1 = y - 1 := by omega
  have e6 : x + 0 - 1 = x - 1 := by omega
  simp only [e1, e2, e3, e4, e5, e6]
  ring

theorem edgeEnhance_data (M : JsMath) (u : Nat → ℚ) (img : Image) (param : Param)
    (hl : img.data.length = img.width * img.height * 4) :
    (applyAugmentation M u img "edgeEnhance" param).data
      = edgeLoop param.strength img.width img.height img.data img.data := by
  unfold applyAugmentation
  rw [runSwitch_edgeEnhance]
  show edgeLoop param.strength img.width img.height
    ((Canvas.create img.width img.height).drawImage img 0 0).data
    ((Canvas.create img.width img.height).drawImage img 0 0).data = _
  rw [create_drawImage_data img hl]

/-! ## Alpha bytes -/

/-- A loop over the pixels whose body only touches the three colour bytes of
its pixel keeps every alpha byte. -/
theorem forPixels_alpha (B : Nat → List Nat → List Nat) (d : List Nat)
    (hframe : ∀ i acc j, (j < i ∨ i + 3 ≤ j) → (B i acc).getD j 0 = acc.getD j 0)
    (j : Nat) (hj : j % 4 = 3) : (forPixels B d).getD j 0 = d.getD j 0 := by
  unfold forPixels
  apply forRange_inv (fun acc => acc.getD j 0 = d.getD j 0) _ _ d rfl
  intro k acc _ hacc
  show (B (4 * k) acc).getD j 0 = d.getD j 0
  rw [hframe _ _ _ (by omega), hacc]

theorem store3_frame (d : List Nat) (i j : Nat) (a b c : ℚ) (h : j < i ∨ i + 3 ≤ j) :
    (store (store (store d i a) (i + 1) b) (i + 2) c).getD j 0 = d.getD j 0 := by
  rw [store_getD_ne _ _ _ _ (by omega), store_getD_ne _ _ _ _ (by omega),
    store_getD_ne _ _ _ _ (by omega)]

theorem noiseBody_frame (mode : String) (u : Nat → ℚ) (i : Nat) (d : List Nat) (j : Nat)
    (h : j < i ∨ i + 3 ≤ j) : (noiseBody mode u i d).getD j 0 = d.getD j 0 := by
  unfold noiseBody
  split_ifs
  · exact store3_frame d i j _ _ _ h
  · exact store3_frame d i j _ _ _ h
  · rfl
  · exact store3_frame d i j _ _ _ h
  · rfl
  · rfl

theorem pcaBody_frame (al : Nat → ℚ) (i : Nat) (d : List Nat) (j : Nat)
    (h : j < i ∨ i + 3 ≤ j) : (pcaBody al i d).getD j 0 = d.getD j 0 :=
  store3_frame d i j _ _ _ h

theorem hsvJitterBody_frame (hShift : ℚ) (sS vS : ℚ × ℚ) (u : Nat → ℚ) (i : Nat) (d : List Nat)
    (j : Nat) (h : j < i ∨ i + 3 ≤ j) :
    (hsvJitterBody hShift sS vS u i d).getD j 0 = d.getD j 0 :=
  store3_frame d i j _ _ _ h

theorem randomHsvBody_frame (a b c : ℚ) (i : Nat) (d : List Nat) (j : Nat)
    (h : j < i ∨ i + 3 ≤ j) : (randomHsvBody a b c i d).getD j 0 = d.getD j 0 :=
  store3_frame d i j _ _ _ h

theorem waveLoop_alpha (M : JsMath) (a f : ℚ) (w h : Nat) (temp d : List Nat) (j : Nat)
    (hj : j % 4 = 3) : (waveLoop M a f w h temp d).getD j 0 = d.getD j 0 := by
  unfold waveLoop
  apply forRange_inv (fun acc => acc.getD j 0 = d.getD j 0) h _ d rfl
  intro y acc _ hacc
  apply forRange_inv (fun acc => acc.getD j 0 = d.getD j 0) w _ acc hacc
  intro x acc _ hacc
  simp only []
  rw [getD_set_ne _ _ _ _ (by omega), getD_set_ne _ _ _ _ (by omega),
    getD_set_ne _ _ _ _ (by omega), hacc]

theorem edgeLoop_alpha (s : ℚ) (w h : Nat) (temp d : List Nat) (j : Nat) (hj : j % 4 = 3) :
    (edgeLoop s w h temp d).getD j 0 = d.getD j 0 := by
  apply (edgeLoop_regions s w h temp d).2.2 j
  rintro yy _ ⟨xx, _, _, h3⟩
  exact h3 hj

theorem mapRgb_alpha (g : ℚ → ℚ) (d : List Nat) (j : Nat) (hj : j % 4 = 3) :
    (forPixels (mapRgbBody g) d).getD j 0 = d.getD j 0 :=
  forPixels_alpha _ d (mapRgbBody_frame g) j hj

/-- When the `switch` of a pixel operator runs to its end, every alpha byte of
the canvas equals the image's. -/
theorem pixelOps_keep_alpha (M : JsMath) (u : Nat → ℚ) (img : Image) (augId : String)
    (param : Param) (cv : Canvas) (hl : img.data.length = img.width * img.height * 4)
    (hop : augId ∈ ["brightness", "contrast", "noise", "colorJitter", "waveNoise", "fancyPca",
      "hsvJitter", "intensity", "edgeEnhance", "randomHsv"])
    (hrun : runSwitch M u (Canvas.create img.width img.height) img augId param = .done cv)
    (k : Nat) (hk : k % 4 = 3) : cv.data.getD k 0 = img.data.getD k 0 := by
  have hc := create_drawImage_data img hl
  simp only [List.mem_cons, List.mem_singleton, List.not_mem_nil, or_false] at hop
  rcases hop with rfl | rfl | rfl | rfl | rfl | rfl | rfl | rfl | rfl | rfl
  · rw [runSwitch_brightness] at hrun
    unfold caseBrightness at hrun
    cases hp : param.factorRange with
    | none => rw [hp] at hrun; cases hrun
    | some r =>
      rw [hp] at hrun
      injection hrun with hcv
      subst hcv
      show (forPixels _ ((Canvas.create img.width img.height).drawImage img 0 0).data).getD k 0 = _
      rw [hc, brightnessBody_eq]
      exact mapRgb_alpha _ _ k hk
  · rw [runSwitch_contrast] at hrun
    unfold caseContrast at hrun
    cases hp : param.factorRange with
    | none => rw [hp] at hrun; cases hrun
    | some r =>
      rw [hp] at hrun
      injection hrun with hcv
      subst hcv
      show (forPixels _ ((Canvas.create img.width img.height).drawImage img 0 0).data).getD k 0 = _
      rw [hc, contrastBody_eq]
      exact mapRgb_alpha _ _ k hk
  · rw [runSwitch_noise] at hrun
    unfold caseNoise at hrun
    injection hrun with hcv
    subst hcv
    show (forPixels _ ((Canvas.create img.width img.height).drawImage img 0 0).data).getD k 0 = _
    rw [hc]
    exact forPixels_alpha _ _ (noiseBody_frame _ _) k hk
  · rw [runSwitch_colorJitter] at hrun
    unfold caseColorJitter at hrun
    injection hrun with hcv
    subst hcv
    show (forPixels _ ((Canvas.create img.width img.height).drawImage img 0 0).data).getD k 0 = _
    rw [hc]
    exact forPixels_alpha _ _ (colorJitterBody_frame _ _ _) k hk
  · rw [runSwitch_waveNoise] at hrun
    unfold caseWaveNoise at hrun
    injection hrun with hcv
    subst hcv
    show (waveLoop M _ _ _ _ ((Canvas.create img.width img.height).drawImage img 0 0).data
      ((Canvas.create img.width img.height).drawImage img 0 0).data).getD k 0 = _
    rw [hc]
    exact waveLoop_alpha _ _ _ _ _ _ _ k hk
  · rw [runSwitch_fancyPca] at hrun
    unfold caseFancyPca at hrun
    injection hrun with hcv
    subst hcv
    show (forPixels _ ((Canvas.create img.width img.height).drawImage img 0 0).data).getD k 0 = _
    rw [hc]
    exact forPixels_alpha _ _ (pcaBody_frame _) k hk
  · rw [runSwitch_hsvJitter] at hrun
    unfold caseHsvJitter at hrun
    simp only [Canvas.getImageData, hc] at hrun
    by_cases h0 : img.data.length = 0
    · rw [if_pos h0] at hrun
      injection hrun with hcv
      subst hcv
      rfl
    · rw [if_neg h0] at hrun
      cases hs : param.sScale with
      | none => rw [hs] at hrun; cases hrun
      | some sS =>
        cases hv : param.vScale with
        | none => rw [hs, hv] at hrun; cases hrun
        | some vS =>
          rw [hs, hv] at hrun
          injection hrun with hcv
          subst hcv
          show (forPixels _ img.data).getD k 0 = _
          exact forPixels_alpha _ _ (hsvJitterBody_frame _ _ _ _) k hk
  · rw [runSwitch_intensity] at hrun
    unfold caseIntensity at hrun
    cases hp : param.factor with
    | none => rw [hp] at hrun; cases hrun
    | some r =>
      rw [hp] at hrun
      injection hrun with hcv
      subst hcv
      show (forPixels _ ((Canvas.create img.width img.height).drawImage img 0 0).data).getD k 0 = _
      rw [hc, intensityBody_eq]
      exact mapRgb_alpha _ _ k hk
  · rw [runSwitch_edgeEnhance] at hrun
    unfold caseEdgeEnhance at hrun
    injection hrun with hcv
    subst hcv
    show (edgeLoop _ _ _ ((Canvas.create img.width img.height).drawImage img 0 0).data
      ((Canvas.create img.width img.height).drawImage img 0 0).data).getD k 0 = _
    rw [hc]
    exact edgeLoop_alpha _ _ _ _ _ k hk
  · rw [runSwitch_randomHsv] at hrun
    unfold caseRandomHsv at hrun
    cases hh : param.hRange with
    | none => rw [hh] at hrun; cases hrun
    | some hR =>
      cases hs : param.sRange with
      | none => rw [hh, hs] at hrun; cases hrun
      | some sR =>
        cases hv : param.vRange with
        | none => rw [hh, hs, hv] at hrun; cases hrun
        | some vR =>
          rw [hh, hs, hv] at hrun
          injection hrun with hcv
          subst hcv
          show (forPixels _ ((Canvas.create img.width img.height).drawImage img 0 0).data).getD k 0
            = _
          rw [hc]
          exact forPixels_alpha _ _ (randomHsvBody_frame _ _ _) k hk

/-- Bytes returned when the `switch` throws after the image has been drawn: the
`catch` block draws the image over the canvas once more. -/
theorem thrown_after_draw_getD (M : JsMath) (u : Nat → ℚ) (img : Image) (augId : String)
    (param : Param) (hl : img.data.length = img.width * img.height * 4)
    (hrun : runSwitch M u (Canvas.create img.width img.height) img augId param
      = .thrown ((Canvas.create img.width img.height).drawImage img 0 0))
    (k : Nat) (hk : k < img.data.length) :
    (applyAugmentation M u img augId param).data.getD k 0 =
      compositeChannel (img.data.getD k 0) (img.data.getD (4 * (k / 4) + 3) 0)
        (img.data.getD k 0) (img.data.getD (4 * (k / 4) + 3) 0) (k % 4) := by
  have hcopy := create_drawImage_data img hl
  have hs := drawImage_sized (Canvas.create img.width img.height) img.width img.height
    (create_sized _ _) img 0 0
  have happ : applyAugmentation M u img augId param
      = ((Canvas.create img.width img.height).drawImage img 0 0).drawImage img 0 0 := by
    unfold applyAugmentation
    rw [hrun]
  rw [happ, drawImage_over_getD _ img 0 0
    (by rw [drawImage_ctm]; exact identity_mul_shift_zero) hs.1.symm hs.2.1.symm
    (by rw [hs.2.2, hs.1, hs.2.1]) k (by rw [hcopy]; exact hk), hcopy]

/-! ## Archive paths of a batch -/

theorem processTask_keys (env : Env) (T : Nat) (name : String) (img : Image) (a : String)
    (s : ProcState) :
    ∃ l, l.Sublist [(name, a)] ∧
      (processTask env T name img a s).newResults.map (fun r => (r.originalName, r.augId))
        = s.newResults.map (fun r => (r.originalName, r.augId)) ++ l := by
  unfold processTask
  simp only []
  split
  · exact ⟨[(name, a)], List.Sublist.refl _, by simp⟩
  · exact ⟨[], List.nil_sublist _, by simp⟩

theorem processOps_keys (env : Env) (T : Nat) (name : String) (img : Image) (ops : List String) :
    ∀ s : ProcState, ∃ l, l.Sublist (ops.map (fun a => (name, a))) ∧
      (processOps env T name img ops s).newResults.map (fun r => (r.originalName, r.augId))
        = s.newResults.map (fun r => (r.originalName, r.augId)) ++ l := by
  induction ops with
  | nil => intro s; exact ⟨[], List.Sublist.refl _, by simp [processOps]⟩
  | cons a rest ih =>
    intro s
    obtain ⟨l1, hl1, h1⟩ := processTask_keys env T name img a s
    obtain ⟨l2, hl2, h2⟩ := ih (processTask env T name img a s)
    refine ⟨l1 ++ l2, ?_, ?_⟩
    · have := List.Sublist.append hl1 hl2
      simpa using this
    · show (processOps env T name img rest (processTask env T name img a s)).newResults.map _ = _
      rw [h2, h1, List.append_assoc]

theorem processFiles_keys (env : Env) (T : Nat) (ops : List String) (files : List FileIn) :
    ∀ s s' : ProcState, processFiles env T ops files s = .finished s' →
      ∃ l, l.Sublist (taskPairs files ops) ∧
        s'.newResults.map (fun r => (r.originalName, r.augId))
          = s.newResults.map (fun r => (r.originalName, r.augId)) ++ l := by
  induction files with
  | nil =>
    intro s s' h
    have : s = s' := by
      have h' : Run.finished s = Run.finished s' := h
      injection h'
    subst this
    exact ⟨[], List.Sublist.refl _, by simp⟩
  | cons f rest ih =>
    intro s s' h
    have h' : (match f.image with
        | none => Run.pending s
        | some img => processFiles env T ops rest (processOps env T f.name img ops s))
        = .finished s' := h
    cases himg : f.image with
    | none => rw [himg] at h'; cases h'
    | some img =>
      rw [himg] at h'
      obtain ⟨l1, hl1, h1⟩ := processOps_keys env T f.name img ops s
      obtain ⟨l2, hl2, h2⟩ := ih _ _ h'
      refine ⟨l1 ++ l2, ?_, ?_⟩
      · exact List.Sublist.append hl1 hl2
      · rw [h2, h1, List.append_assoc]

theorem taskPairs_nodup (files : List FileIn) (ops : List String)
    (hn : (files.map (fun f => f.name)).Nodup) (ho : ops.Nodup) :
    (taskPairs files ops).Nodup := by
  induction files with
  | nil => simp [taskPairs]
  | cons f rest ih =>
    have hn' : f.name ∉ rest.map (fun f => f.name) ∧ (rest.map (fun f => f.name)).Nodup := by
      simpa using hn
    have hmem : ∀ p ∈ taskPairs rest ops, p.1 ∈ rest.map (fun f => f.name) := by
      clear ih hn hn'
      induction rest with
      | nil => intro p hp; simp [taskPairs] at hp
      | cons g rest ih2 =>
        intro p hp
        simp only [taskPairs, List.mem_append, List.mem_map] at hp
        rcases hp with ⟨a, _, rfl⟩ | hp
        · simp
        · have := ih2 p hp
          simp only [List.map_cons, List.mem_cons]
          exact Or.inr this
    simp only [taskPairs]
    rw [List.nodup_append]
    refine ⟨?_, ih hn'.2, ?_⟩
    · exact ho.map (fun a b h => by simpa using h)
    · intro p hp1 hp2
      obtain ⟨a, _, rfl⟩ := List.mem_map.mp hp1
      exact hn'.1 (hmem _ hp2)

theorem pathOf_eq_iff (r r' : BatchResult) (h : pathOf r = pathOf r') :
    (r.originalName, r.augId) = (r'.originalName, r'.augId) := by
  unfold pathOf at h
  simp only [Prod.mk.injEq] at h
  obtain ⟨ha, hf⟩ := h
  rw [ha] at hf
  have hd := congrArg String.data hf
  simp only [String.data_append, List.append_assoc] at hd
  have hn : r.originalName.data = r'.originalName.data :=
    List.append_cancel_left (List.append_cancel_left hd)
  have hname : r.originalName = r'.originalName := String.ext hn
  rw [hname, ha]

theorem map_pathOf_nodup (rs : List BatchResult)
    (h : (rs.map (fun r => (r.originalName, r.augId))).Nodup) : (rs.map pathOf).Nodup := by
  induction rs with
  | nil => simp
  | cons r rest ih =>
    simp only [List.map_cons, List.nodup_cons] at h ⊢
    refine ⟨?_, ih h.2⟩
    intro hmem
    obtain ⟨r', hr', he⟩ := List.mem_map.mp hmem
    apply h.1
    rw [pathOf_eq_iff r r' he.symm]
    exact List.mem_map.mpr ⟨r', hr', rfl⟩

/-- The paths `handleDownloadAll` hands over, folder by folder. -/
theorem archivePaths_eq (rs : List BatchResult) (folders : List ArchiveFolder)
    (h : handleDownloadAll true rs = some folders) :
    archivePaths folders = ((groupResults rs).map
      (fun e => (rs.filter (fun r => r.augId = e.1)).map pathOf)).flatten := by
  obtain ⟨_, h2, _, _⟩ := groupResults_spec rs
  simp only [handleDownloadAll, if_true, Option.some.injEq] at h
  subst h
  unfold archivePaths
  rw [List.map_map]
  congr 1
  apply List.map_congr_left
  intro e he
  simp only [Function.comp, List.map_map]
  rw [h2 e he]
  apply List.map_congr_left
  intro r hr
  have hk : r.augId = e.1 := by simpa using (List.mem_filter.mp hr).2
  simp only [Function.comp, pathOf, hk]

theorem archivePaths_nodup (rs : List BatchResult) (folders : List ArchiveFolder)
    (h : handleDownloadAll true rs = some folders) (hp : (rs.map pathOf).Nodup) :
    (archivePaths folders).Nodup := by
  rw [archivePaths_eq rs folders h, List.nodup_flatten]
  obtain ⟨h1, _, _, _⟩ := groupResults_spec rs
  constructor
  · intro l hl
    obtain ⟨e, _, rfl⟩ := List.mem_map.mp hl
    exact hp.sublist (List.Sublist.map _ (List.filter_sublist _))
  · rw [List.pairwise_map]
    have hpw : List.Pairwise (fun e e' : String × List BatchResult => e.1 ≠ e'.1)
        (groupResults rs) := by
      have := h1
      rw [List.Nodup, List.pairwise_map] at this
      exact this
    apply hpw.imp
    intro e e' hne
    rw [List.disjoint_left]
    intro p hp1 hp2
    obtain ⟨r, hr, rfl⟩ := List.mem_map.mp hp1
    obtain ⟨r', hr', he⟩ := List.mem_map.mp hp2
    have k1 : r.augId = e.1 := by simpa using (List.mem_filter.mp hr).2
    have k2 : r'.augId = e'.1 := by simpa using (List.mem_filter.mp hr').2
    have : r'.augId = r.augId := by
      have := congrArg Prod.fst he
      simpa [pathOf] using this
    exact hne (by rw [← k1, ← k2, this])

theorem archivePaths_mem (rs : List BatchResult) (folders : List ArchiveFolder)
    (h : handleDownloadAll true rs = some folders) (p : String × String) :
    p ∈ archivePaths folders ↔ ∃ r ∈ rs, pathOf r = p := by
  rw [archivePaths_eq rs folders h]
  obtain ⟨_, _, h3, _⟩ := groupResults_spec rs
  simp only [List.mem_flatten, List.mem_map]
  constructor
  · rintro ⟨l, ⟨e, _, rfl⟩, hp⟩
    obtain ⟨r, hr, rfl⟩ := List.mem_map.mp hp
    exact ⟨r, (List.mem_filter.mp hr).1, rfl⟩
  · rintro ⟨r, hr, rfl⟩
    obtain ⟨e, he, hk⟩ := List.mem_map.mp (h3 r hr)
    refine ⟨_, ⟨e, he, rfl⟩, ?_⟩
    exact List.mem_map.mpr ⟨r, List.mem_filter.mpr ⟨hr, by simpa using hk.symm⟩, rfl⟩

/-! ## The shuffle loop and the swap indices -/

theorem shufflePatches_eq_shuffleWith (u : Nat → ℚ) (ps : List Patch) :
    shufflePatches u ps = shuffleWith (fun t => swapIndex (u t) (ps.length - 1 - t)) ps := rfl

/-- The first iteration of a loop taken out in front. -/
theorem forRange_peel {σ : Type} (k : Nat) (body : Nat → σ → σ) (s : σ) :
    forRange (k + 1) body s = forRange k (fun t => body (t + 1)) (body 0 s) := by
  induction k with
  | zero => rfl
  | succ k ih =>
    rw [forRange_succ, ih, forRange_succ]

theorem swapAt_append (l : List Patch) (z : Patch) (i j : Nat) (hi : i < l.length)
    (hj : j < l.length) : swapAt (l ++ [z]) i j = swapAt l i j ++ [z] := by
  unfold swapAt
  rw [List.getD_append _ _ _ _ hi, List.getD_append _ _ _ _ hj,
    List.set_append_left _ _ hi, List.set_append_left _ _ (by simpa using hj)]

/-- The first swap of the loop on `a ++ [x]`: position `a.length` against `j`. -/
theorem swapAt_last (a : List Patch) (x : Patch) (j : Nat) (hj : j ≤ a.length) :
    swapAt (a ++ [x]) a.length j
      = (if j < a.length then a.set j x else a) ++ [(a ++ [x]).getD j default] := by
  unfold swapAt
  have hx : (a ++ [x]).getD a.length default = x := by
    rw [List.getD_append_right _ _ _ _ (le_refl _)]; simp
  rw [hx]
  by_cases h : j < a.length
  · rw [if_pos h, List.getD_append _ _ _ _ h, List.set_append_right _ _ (le_refl _)]
    simp only [Nat.sub_self, List.set_cons_zero]
    rw [List.set_append_left _ _ h]
  · have hja : j = a.length := by omega
    rw [if_neg h, hja, hx, List.set_append_right _ _ (le_refl _)]
    simp only [Nat.sub_self, List.set_cons_zero]
    rw [List.set_append_right _ _ (le_refl _)]
    simp

/-- The later iterations never touch the last position. -/
theorem forRange_swap_append (m : Nat) (js : Nat → Nat) (a : List Patch) (z : Patch)
    (ha : a.length = m + 1) (hjs : ∀ t, t < m → js t ≤ m - t) (k : Nat) (hk : k ≤ m) :
    (forRange k (fun t acc => swapAt acc (m - t) (js t)) a).length = m + 1 ∧
    forRange k (fun t acc => swapAt acc (m - t) (js t)) (a ++ [z])
      = forRange k (fun t acc => swapAt acc (m - t) (js t)) a ++ [z] := by
  induction k with
  | zero => exact ⟨ha, rfl⟩
  | succ k ih =>
    obtain ⟨hl, he⟩ := ih (by omega)
    rw [forRange_succ, forRange_succ, he]
    refine ⟨by rw [swapAt_length, hl], ?_⟩
    have h1 := hjs k (by omega)
    exact swapAt_append _ z _ _ (by rw [hl]; omega) (by rw [hl]; omega)

/-- One step of the shuffle on `a ++ [x]`: the element at the first swap index
goes to the last position for good, and the loop goes on with the rest. -/
theorem shuffleWith_append (m : Nat) (js : Nat → Nat) (a : List Patch) (x : Patch)
    (ha : a.length = m + 1) (hjs : ∀ t, t < m + 1 → js t ≤ m + 1 - t) :
    shuffleWith js (a ++ [x])
      = shuffleWith (fun t => js (t + 1)) (if js 0 < a.length then a.set (js 0) x else a)
          ++ [(a ++ [x]).getD (js 0) default] := by
  have hlen : (a ++ [x]).length - 1 = m + 1 := by simp [ha]
  have h0 : js 0 ≤ a.length := by
    have := hjs 0 (by omega)
    omega
  have ha' : (if js 0 < a.length then a.set (js 0) x else a).length = m + 1 := by
    split <;> simp [ha]
  unfold shuffleWith
  rw [hlen, forRange_peel]
  have e1 : swapAt (a ++ [x]) (m + 1 - 0) (js 0)
      = (if js 0 < a.length then a.set (js 0) x else a) ++ [(a ++ [x]).getD (js 0) default] := by
    rw [Nat.sub_zero, ← ha]
    exact swapAt_last a x (js 0) h0
  rw [e1, ha']
  simp only [Nat.add_sub_cancel]
  have e2 : ∀ t, t < m → ∀ acc : List Patch,
      swapAt acc (m + 1 - (t + 1)) (js (t + 1)) = swapAt acc (m - t) (js (t + 1)) := by
    intro t _ acc
    rw [Nat.add_sub_add_right]
  rw [forRange_congr m _ _ _ e2]
  exact (forRange_swap_append m (fun t => js (t + 1)) _ _ ha'
    (fun t ht => by
      show js (t + 1) ≤ m - t
      have := hjs (t + 1) (by omega)
      omega) m (le_refl _)).2

theorem shuffleWith_short (js : Nat → Nat) (ps : List Patch) (h : ps.length ≤ 1) :
    shuffleWith js ps = ps := by
  unfold shuffleWith
  have : ps.length - 1 = 0 := by omega
  rw [this]
  rfl

/-- The shuffle loop is a bijection from the valid sequences of swap indices to
the orderings of a list without repetitions. -/
theorem shuffleWith_bijective (n : Nat) :
    ∀ ps : List Patch, ps.length = n → ps.Nodup → ∀ q : List Patch, q.Perm ps →
      ∃ js : Nat → Nat, (∀ t, t < n - 1 → js t ≤ n - 1 - t) ∧ shuffleWith js ps = q ∧
        ∀ js' : Nat → Nat, (∀ t, t < n - 1 → js' t ≤ n - 1 - t) → shuffleWith js' ps = q →
          ∀ t, t < n - 1 → js' t = js t := by
  induction n with
  | zero =>
    intro ps hlen _ q hq
    have hps : ps = [] := List.length_eq_zero.mp hlen
    subst hps
    have hq' : q = [] := List.Perm.eq_nil hq
    subst hq'
    exact ⟨fun _ => 0, fun t ht => absurd ht (by omega), rfl, fun _ _ _ t ht => absurd ht (by omega)⟩
  | succ n ih =>
    cases n with
    | zero =>
      intro ps hlen _ q hq
      obtain ⟨a, rfl⟩ := List.length_eq_one.mp hlen
      have hq' : q = [a] := List.perm_singleton.mp hq
      subst hq'
      exact ⟨fun _ => 0, fun t ht => absurd ht (by omega), rfl,
        fun _ _ _ t ht => absurd ht (by omega)⟩
    | succ m =>
      intro ps hlen hnd q hq
      have hqlen : q.length = m + 2 := by rw [hq.length_eq, hlen]
      obtain ⟨a, x, rfl⟩ : ∃ a x, ps = a ++ [x] := by
        rcases List.eq_nil_or_concat ps with h | ⟨L, b, h⟩
        · rw [h] at hlen; simp at hlen
        · exact ⟨L, b, by rw [h, List.concat_eq_append]⟩
      obtain ⟨b, y, rfl⟩ : ∃ b y, q = b ++ [y] := by
        rcases List.eq_nil_or_concat q with h | ⟨L, c, h⟩
        · rw [h] at hqlen; simp at hqlen
        · exact ⟨L, c, by rw [h, List.concat_eq_append]⟩
      have ha : a.length = m + 1 := by simpa using hlen
      have hymem : y ∈ a ++ [x] := hq.subset (by simp)
      have hj0 : List.indexOf y (a ++ [x]) < (a ++ [x]).length := List.indexOf_lt_length.mpr hymem
      have hget : (a ++ [x]).getD (List.indexOf y (a ++ [x])) default = y := by
        rw [List.getD_eq_getElem _ _ hj0]
        exact List.getElem_indexOf hj0
      have hj0le : List.indexOf y (a ++ [x]) ≤ a.length := by
        have : (a ++ [x]).length = a.length + 1 := by simp
        omega
      have hswap := swapAt_last a x (List.indexOf y (a ++ [x])) hj0le
      rw [hget] at hswap
      have hperm1 : ((if List.indexOf y (a ++ [x]) < a.length
          then a.set (List.indexOf y (a ++ [x])) x else a) ++ [y]).Perm (a ++ [x]) := by
        rw [← hswap]
        exact swapAt_perm _ _ _ (by simp) hj0
      have hperm2 : b.Perm (if List.indexOf y (a ++ [x]) < a.length
          then a.set (List.indexOf y (a ++ [x])) x else a) :=
        (List.perm_append_right_iff [y]).mp (hq.trans hperm1.symm)
      have hnd' : (if List.indexOf y (a ++ [x]) < a.length
          then a.set (List.indexOf y (a ++ [x])) x else a).Nodup :=
        (List.Nodup.of_append_left ((hperm1.nodup_iff).mpr hnd))
      have hlen' : (if List.indexOf y (a ++ [x]) < a.length
          then a.set (List.indexOf y (a ++ [x])) x else a).length = m + 1 := by
        split <;> simp [ha]
      obtain ⟨js1, hv1, hs1, hu1⟩ := ih _ hlen' hnd' b hperm2
      simp only [Nat.add_sub_cancel] at hv1 hu1
      refine ⟨fun t => if t = 0 then List.indexOf y (a ++ [x]) else js1 (t - 1), ?_, ?_, ?_⟩
      · intro t ht
        by_cases h0 : t = 0
        · subst h0
          simp only [if_true]
          omega
        · simp only [if_neg h0]
          have := hv1 (t - 1) (by omega)
          omega
      · rw [shuffleWith_append m _ a x ha]
        · simp only [if_true]
          rw [hget]
          have e : (fun t => if t + 1 = 0 then List.indexOf y (a ++ [x]) else js1 (t + 1 - 1))
              = js1 := by
            funext t
            simp
          rw [e, hs1]
        · intro t ht
          by_cases h0 : t = 0
          · subst h0
            simp only [if_true]
            omega
          · simp only [if_neg h0]
            have := hv1 (t - 1) (by omega)
            omega
      · intro js' hv' hs' t ht
        have hv'' : ∀ t, t < m + 1 → js' t ≤ m + 1 - t := by
          intro t ht
          have := hv' t (by omega)
          omega
        rw [shuffleWith_append m js' a x ha hv''] at hs'
        obtain ⟨hb, hz⟩ := List.append_inj' hs' rfl
        have hz' : (a ++ [x]).getD (js' 0) default = y := by simpa using hz
        have hj'lt : js' 0 < (a ++ [x]).length := by
          have := hv'' 0 (by omega)
          simp [ha]
          omega
        have hj' : js' 0 = List.indexOf y (a ++ [x]) := by
          rw [List.getD_eq_getElem _ _ hj'lt] at hz'
          have h2 : (a ++ [x])[List.indexOf y (a ++ [x])] = y := List.getElem_indexOf hj0
          exact (hnd.getElem_inj_iff).mp (hz'.trans h2.symm)
        rw [hj'] at hb
        have hrest := hu1 (fun t => js' (t + 1))
          (fun t ht => by
            show js' (t + 1) ≤ m - t
            have := hv'' (t + 1) (by omega)
            omega) hb
        by_cases h0 : t = 0
        · subst h0
          simp only [if_true]
          exact hj'
        · simp only [if_neg h0]
          have := hrest (t - 1) (by omega)
          have e : t - 1 + 1 = t := by omega
          simpa [e] using this

theorem swapIndex_le (x : ℚ) (i : Nat) (hx : 0 ≤ x ∧ x < 1) : swapIndex x i ≤ i := by
  unfold swapIndex
  have h0 : 0 ≤ x * ((i : ℚ) + 1) := mul_nonneg hx.1 (by positivity)
  have hpos : (0 : ℚ) < (i : ℚ) + 1 := by positivity
  have h1 : x * ((i : ℚ) + 1) < (i : ℚ) + 1 := by nlinarith [hx.2]
  have hfl : ⌊x * ((i : ℚ) + 1)⌋ < (i : ℤ) + 1 := by
    rw [Int.floor_lt]
    push_cast
    exact h1
  have hfl0 : 0 ≤ ⌊x * ((i : ℚ) + 1)⌋ := Int.floor_nonneg.mpr h0
  omega

theorem swapIndex_div (j i : Nat) (hj : j ≤ i) :
    (0 ≤ (j : ℚ) / ((i : ℚ) + 1) ∧ (j : ℚ) / ((i : ℚ) + 1) < 1) ∧
    swapIndex ((j : ℚ) / ((i : ℚ) + 1)) i = j := by
  have hpos : (0 : ℚ) < (i : ℚ) + 1 := by positivity
  refine ⟨⟨by positivity, ?_⟩, ?_⟩
  · rw [div_lt_one hpos]
    have : (j : ℚ) ≤ (i : ℚ) := by exact_mod_cast hj
    linarith
  · unfold swapIndex
    rw [div_mul_cancel₀ _ (ne_of_gt hpos)]
    simp

theorem shuffleWith_congr (js js' : Nat → Nat) (ps : List Patch)
    (h : ∀ t, t < ps.length - 1 → js t = js' t) : shuffleWith js ps = shuffleWith js' ps := by
  unfold shuffleWith
  apply forRange_congr
  intro t ht acc
  rw [h t ht]

/-! ## Evaluating the rounding -/

/-- Evaluation of `toDouble` at a negative value. -/
theorem toDouble_eval_neg (x : ℚ) (e m : ℤ) (he : -1022 ≤ e) (h1 : (2 : ℚ) ^ e ≤ -x)
    (h2 : -x < (2 : ℚ) ^ (e + 1)) (hm1 : (m : ℚ) - 1 / 2 < -x / (2 : ℚ) ^ (e - 52))
    (hm2 : -x / (2 : ℚ) ^ (e - 52) < (m : ℚ) + 1 / 2) :
    toDouble x = -((m : ℚ) * (2 : ℚ) ^ (e - 52)) := by
  have := toDouble_eval_pos (-x) e m he h1 h2 hm1 hm2
  rw [toDouble_neg] at this
  linarith

/-- Evaluation of `toDouble` at a positive value half-way between two binary64
numbers: the even significand is taken. -/
theorem toDouble_tie_pos (x : ℚ) (e m : ℤ) (he : -1022 ≤ e) (h1 : (2 : ℚ) ^ e ≤ x)
    (h2 : x < (2 : ℚ) ^ (e + 1)) (hm1 : (m : ℚ) - 1 / 2 ≤ x / (2 : ℚ) ^ (e - 52))
    (hm2 : x / (2 : ℚ) ^ (e - 52) ≤ (m : ℚ) + 1 / 2) (hev : m % 2 = 0) :
    toDouble x = (m : ℚ) * (2 : ℚ) ^ (e - 52) := by
  have h0 : 0 ≤ x := le_trans (by positivity) h1
  unfold toDouble ulp
  rw [binade_eq_of x e he (by rw [abs_of_nonneg h0]; exact h1)
    (by rw [abs_of_nonneg h0]; exact h2),
    roundHalfEven_unique _ m (by rw [abs_le]; constructor <;> linarith) (fun _ => hev)]

/-- Evaluation of `toDouble` at a negative value half-way between two binary64
numbers. -/
theorem toDouble_tie_neg (x : ℚ) (e m : ℤ) (he : -1022 ≤ e) (h1 : (2 : ℚ) ^ e ≤ -x)
    (h2 : -x < (2 : ℚ) ^ (e + 1)) (hm1 : (m : ℚ) - 1 / 2 ≤ -x / (2 : ℚ) ^ (e - 52))
    (hm2 : -x / (2 : ℚ) ^ (e - 52) ≤ (m : ℚ) + 1 / 2) (hev : m % 2 = 0) :
    toDouble x = -((m : ℚ) * (2 : ℚ) ^ (e - 52)) := by
  have := toDouble_tie_pos (-x) e m he h1 h2 hm1 hm2 hev
  rw [toDouble_neg] at this
  linarith

/-! ## Error and idempotence of the rounding -/

theorem toDouble_one : toDouble 1 = 1 := by
  simpa using toDouble_natCast 1 (by norm_num)

/-- Rounding to binary64 moves a value by at most half a unit in the last place. -/
theorem toDouble_error (x : ℚ) : |toDouble x - x| ≤ ulp x / 2 := by
  have hu := ulp_pos x
  have h := roundHalfEven_near (x / ulp x)
  have e : toDouble x - x = -((x / ulp x - (roundHalfEven (x / ulp x) : ℚ)) * ulp x) := by
    unfold toDouble
    field_simp
    ring
  rw [e, abs_neg, abs_mul, abs_of_pos hu]
  calc |x / ulp x - (roundHalfEven (x / ulp x) : ℚ)| * ulp x ≤ 1 / 2 * ulp x :=
        mul_le_mul_of_nonneg_right h hu.le
    _ = ulp x / 2 := by ring

theorem ulp_le_of_abs_le_one (x : ℚ) (h : |x| ≤ 1) : ulp x ≤ (2 : ℚ) ^ (-52 : ℤ) := by
  have h1 : binade 1 = 0 := binade_eq_of 1 0 (by norm_num) (by norm_num) (by norm_num)
  have h2 : binade x ≤ 0 := h1 ▸ binade_mono (by rw [abs_one]; exact h)
  unfold ulp
  exact zpow_le_zpow_right₀ (by norm_num) (by omega)

/-- The significand `toDouble` rounds to has at most 53 bits, or is `2 ^ 53`. -/
theorem roundHalfEven_significand (x : ℚ) : |roundHalfEven (x / ulp x)| ≤ 2 ^ 53 := by
  have hu := ulp_pos x
  have hlt := lt_zpow_binade x
  have e : (2 : ℚ) ^ (binade x + 1) = (2 : ℚ) ^ (53 : ℤ) * ulp x := by
    unfold ulp
    rw [← zpow_add₀ (by norm_num)]; congr 1; ring
  rw [e, abs_lt] at hlt
  have c : (((2 : ℤ) ^ 53 : ℤ) : ℚ) = (2 : ℚ) ^ (53 : ℤ) := by norm_num
  have h1 : x / ulp x ≤ (((2 : ℤ) ^ 53 : ℤ) : ℚ) := by
    rw [div_le_iff₀ hu, c]; linarith
  have h2 : ((-(2 : ℤ) ^ 53 : ℤ) : ℚ) ≤ x / ulp x := by
    rw [le_div_iff₀ hu, Int.cast_neg, c]; linarith
  have a := roundHalfEven_mono h1
  have b := roundHalfEven_mono h2
  rw [roundHalfEven_intCast] at a b
  rw [abs_le]
  exact ⟨b, a⟩

/-- Rounding to binary64 is idempotent. -/
theorem toDouble_idem (x : ℚ) : toDouble (toDouble x) = toDouble x := by
  have hs := roundHalfEven_significand x
  have hb := binade_ge x
  rcases lt_or_eq_of_le hs with hlt | heq
  · have := toDouble_grid (roundHalfEven (x / ulp x)) (binade x - 52) hlt (by omega)
    exact this
  · have e : (2 : ℚ) ^ (53 : ℤ) * (2 : ℚ) ^ (binade x - 52) = (2 : ℚ) ^ (binade x + 1) := by
      rw [← zpow_add₀ (by norm_num)]; congr 1; ring
    have c : (((2 : ℤ) ^ 53 : ℤ) : ℚ) = (2 : ℚ) ^ (53 : ℤ) := by norm_num
    rcases abs_eq (by norm_num : (0 : ℤ) ≤ 2 ^ 53) |>.mp heq with h | h
    · have hv : toDouble x = ((1 : ℤ) : ℚ) * (2 : ℚ) ^ (binade x + 1) := by
        unfold toDouble
        rw [h, c]
        unfold ulp
        rw [e]; simp
      rw [hv]
      exact toDouble_grid 1 (binade x + 1) (by norm_num) (by omega)
    · have hv : toDouble x = ((-1 : ℤ) : ℚ) * (2 : ℚ) ^ (binade x + 1) := by
        unfold toDouble
        rw [h, Int.cast_neg, c]
        unfold ulp
        rw [neg_mul, e]; simp
      rw [hv]
      exact toDouble_grid (-1) (binade x + 1) (by norm_num) (by omega)

/-! ## `rgbToHsv` in binary64 -/

theorem toDouble_neg_one : toDouble (-1) = -1 := by
  rw [toDouble_neg, toDouble_one]

/-- Every binary64 number is an integer multiple of `2 ^ (-1074)`. -/
theorem toDouble_multiple (x : ℚ) : ∃ n : ℤ, toDouble x = (n : ℚ) * (2 : ℚ) ^ (-1074 : ℤ) := by
  obtain ⟨d, hd⟩ : ∃ d : ℕ, binade x - 52 = -1074 + (d : ℤ) :=
    ⟨(binade x + 1022).toNat, by have := binade_ge x; omega⟩
  refine ⟨roundHalfEven (x / ulp x) * 2 ^ d, ?_⟩
  unfold toDouble
  rw [show ulp x = (2 : ℚ) ^ (binade x - 52) from rfl, hd, zpow_add₀ (by norm_num), zpow_natCast]
  push_cast
  ring

/-- Rounding to binary64 does not turn a nonzero multiple of `2 ^ (-1074)` into
zero. -/
theorem toDouble_pos_of_multiple (z : ℚ) (n : ℤ) (hz : z = (n : ℚ) * (2 : ℚ) ^ (-1074 : ℤ))
    (hpos : 0 < z) : 0 < toDouble z := by
  have hu := ulp_pos z
  have hn : 0 < n := by
    by_contra hc
    have : (n : ℚ) ≤ 0 := by exact_mod_cast not_lt.mp hc
    have : z ≤ 0 := by rw [hz]; exact mul_nonpos_of_nonpos_of_nonneg this (by positivity)
    linarith
  have hn1 : (1 : ℚ) ≤ (n : ℚ) := by exact_mod_cast hn
  have hge : ulp z ≤ z := by
    by_cases hs : |z| < (2 : ℚ) ^ (-1022 : ℤ)
    · unfold ulp
      rw [binade_small z hs, hz]
      have e : (-1022 : ℤ) - 52 = -1074 := by norm_num
      rw [e]
      have : (0 : ℚ) < (2 : ℚ) ^ (-1074 : ℤ) := by positivity
      nlinarith
    · have h1 := zpow_binade_le z (not_lt.mp hs)
      rw [abs_of_pos hpos] at h1
      unfold ulp
      exact le_trans (zpow_le_zpow_right₀ (by norm_num) (by omega)) h1
  have h1 : (1 : ℚ) ≤ z / ulp z := by rw [le_div_iff₀ hu]; linarith
  have h2 := roundHalfEven_mono h1
  have e1 : roundHalfEven 1 = 1 := by simpa using roundHalfEven_intCast 1
  rw [e1] at h2
  unfold toDouble
  apply mul_pos _ hu
  have : (1 : ℚ) ≤ ((roundHalfEven (z / ulp z) : ℤ) : ℚ) := by exact_mod_cast h2
  linarith

/-- The difference of two distinct binary64 numbers does not round to zero. -/
theorem fsub_pos (x y : ℚ) (hx : toDouble x = x) (hy : toDouble y = y) (h : y < x) :
    0 < fsub x y := by
  obtain ⟨n, hn⟩ := toDouble_multiple x
  obtain ⟨m, hm⟩ := toDouble_multiple y
  rw [hx] at hn
  rw [hy] at hm
  unfold fsub
  apply toDouble_pos_of_multiple (x - y) (n - m)
  · rw [hn, hm]; push_cast; ring
  · linarith

theorem fsub_within (mn mx a b : ℚ) (ha : mn ≤ a ∧ a ≤ mx) (hb : mn ≤ b ∧ b ≤ mx) :
    -fsub mx mn ≤ fsub a b ∧ fsub a b ≤ fsub mx mn := by
  unfold fsub
  constructor
  · rw [← toDouble_neg]
    exact toDouble_mono (by linarith)
  · exact toDouble_mono (by linarith)

theorem fdiv_unit (x d : ℚ) (hd : 0 < d) (h1 : -d ≤ x) (h2 : x ≤ d) :
    -1 ≤ fdiv x d ∧ fdiv x d ≤ 1 := by
  unfold fdiv
  constructor
  · rw [← toDouble_neg_one]
    apply toDouble_mono
    rw [le_div_iff₀ hd]; linarith
  · rw [← toDouble_one]
    apply toDouble_mono
    rw [div_le_iff₀ hd]; linarith

theorem fdiv_nonneg (x d : ℚ) (hd : 0 < d) (h : 0 ≤ x) : 0 ≤ fdiv x d :=
  toDouble_nonneg (div_nonneg h hd.le)

theorem fdiv_nonpos (x d : ℚ) (hd : 0 < d) (h : x ≤ 0) : fdiv x d ≤ 0 :=
  toDouble_nonpos (div_nonpos_of_nonpos_of_nonneg h hd.le)

/-- `fmul h 60` for a sextant value `h` between two small integers. -/
theorem hue_scaled (h : ℚ) (lo hi : ℕ) (hhi : hi ≤ 6) (h1 : (lo : ℚ) ≤ h) (h2 : h ≤ (hi : ℚ)) :
    ((lo * 60 : ℕ) : ℚ) ≤ fmul h 60 ∧ fmul h 60 ≤ ((hi * 60 : ℕ) : ℚ) := by
  have hlo : lo ≤ 6 := by
    have : (lo : ℚ) ≤ (hi : ℚ) := le_trans h1 h2
    have : lo ≤ hi := by exact_mod_cast this
    omega
  unfold fmul
  constructor
  · rw [← toDouble_natCast (lo * 60) (by omega)]
    apply toDouble_mono
    push_cast; linarith
  · rw [← toDouble_natCast (hi * 60) (by omega)]
    apply toDouble_mono
    push_cast; linarith

/-- `fadd q c` for a quotient `q` between `a` and `b` and a small integer `c`. -/
theorem sextant_shift (q : ℚ) (a b : ℤ) (c : ℕ) (hc : c ≤ 6) (ha : -1 ≤ a) (hb : b ≤ 1)
    (h1 : (a : ℚ) ≤ q) (h2 : q ≤ (b : ℚ)) :
    ((a + c : ℤ) : ℚ) ≤ fadd q c ∧ fadd q c ≤ ((b + c : ℤ) : ℚ) := by
  have hab : a ≤ b := by
    have : (a : ℚ) ≤ (b : ℚ) := le_trans h1 h2
    exact_mod_cast this
  unfold fadd
  constructor
  · rw [← toDouble_intCast (a + c) (by rw [abs_lt]; constructor <;> omega)]
    apply toDouble_mono
    push_cast; linarith
  · rw [← toDouble_intCast (b + c) (by rw [abs_lt]; constructor <;> omega)]
    apply toDouble_mono
    push_cast; linarith

/-- Range of `rgbToHsvDouble` on binary64 inputs in `[0, 1]`: the hue lies in
`[0, 360]`, saturation and value in `[0, 1]`, and `delta` is positive whenever
it is divided by. -/
theorem rgbToHsvDouble_bounds (r g b : ℚ) (hr : 0 ≤ r ∧ r ≤ 1) (hg : 0 ≤ g ∧ g ≤ 1)
    (hb : 0 ≤ b ∧ b ≤ 1) (hrd : toDouble r = r) (hgd : toDouble g = g) (hbd : toDouble b = b) :
    (0 ≤ (rgbToHsvDouble r g b).h ∧ (rgbToHsvDouble r g b).h ≤ 360) ∧
    (0 ≤ (rgbToHsvDouble r g b).s ∧ (rgbToHsvDouble r g b).s ≤ 1) ∧
    (0 ≤ (rgbToHsvDouble r g b).v ∧ (rgbToHsvDouble r g b).v ≤ 1) ∧
    (max (max r g) b ≠ min (min r g) b → 0 < fsub (max (max r g) b) (min (min r g) b)) := by
  set mn := min (min r g) b with hmn
  set mx := max (max r g) b with hmx
  have bmn : ∀ x, (x = r ∨ x = g ∨ x = b) → mn ≤ x ∧ x ≤ mx := by
    intro x hx
    rcases hx with rfl | rfl | rfl
    · exact ⟨le_trans (min_le_left _ _) (min_le_left _ _),
        le_trans (le_max_left _ _) (le_max_left _ _)⟩
    · exact ⟨le_trans (min_le_left _ _) (min_le_right _ _),
        le_trans (le_max_right _ _) (le_max_left _ _)⟩
    · exact ⟨min_le_right _ _, le_max_right _ _⟩
  have hmx_mem : mx = r ∨ mx = g ∨ mx = b := by
    rcases max_choice (max r g) b with h | h
    · rcases max_choice r g with h2 | h2
      · left; rw [hmx, h, h2]
      · right; left; rw [hmx, h, h2]
    · right; right; rw [hmx, h]
  have hmn_mem : mn = r ∨ mn = g ∨ mn = b := by
    rcases min_choice (min r g) b with h | h
    · rcases min_choice r g with h2 | h2
      · left; rw [hmn, h, h2]
      · right; left; rw [hmn, h, h2]
    · right; right; rw [hmn, h]
  have hmxd : toDouble mx = mx := by
    rcases hmx_mem with h | h | h <;> rw [h] <;> assumption
  have hmnd : toDouble mn = mn := by
    rcases hmn_mem with h | h | h <;> rw [h] <;> assumption
  have hmx01 : 0 ≤ mx ∧ mx ≤ 1 := by
    rcases hmx_mem with h | h | h <;> rw [h] <;> assumption
  have hmn0 : 0 ≤ mn := by
    rcases hmn_mem with h | h | h <;> rw [h]
    · exact hr.1
    · exact hg.1
    · exact hb.1
  have hle : mn ≤ mx := le_trans (bmn r (Or.inl rfl)).1 (bmn r (Or.inl rfl)).2
  have hd0 : 0 ≤ fsub mx mn := toDouble_nonneg (by linarith)
  have hdle : fsub mx mn ≤ mx := by
    have := toDouble_mono (show mx - mn ≤ mx by linarith)
    rw [hmxd] at this
    exact this
  have hdpos : mx ≠ mn → 0 < fsub mx mn := fun hne =>
    fsub_pos mx mn hmxd hmnd (lt_of_le_of_ne hle (Ne.symm hne))
  have hq : ∀ x y, (x = r ∨ x = g ∨ x = b) → (y = r ∨ y = g ∨ y = b) → mx ≠ mn →
      -1 ≤ fdiv (fsub x y) (fsub mx mn) ∧ fdiv (fsub x y) (fsub mx mn) ≤ 1 := by
    intro x y hx hy hne
    obtain ⟨w1, w2⟩ := fsub_within mn mx x y (bmn x hx) (bmn y hy)
    exact fdiv_unit _ _ (hdpos hne) w1 w2
  refine ⟨?_, ?_, hmx01, hdpos⟩
  · show 0 ≤ fmul (if mx = mn then 0
        else if mx = r then fadd (fdiv (fsub g b) (fsub mx mn)) (if g < b then 6 else 0)
        else if mx = g then fadd (fdiv (fsub b r) (fsub mx mn)) 2
        else fadd (fdiv (fsub r g) (fsub mx mn)) 4) 60 ∧
      fmul (if mx = mn then 0
        else if mx = r then fadd (fdiv (fsub g b) (fsub mx mn)) (if g < b then 6 else 0)
        else if mx = g then fadd (fdiv (fsub b r) (fsub mx mn)) 2
        else fadd (fdiv (fsub r g) (fsub mx mn)) 4) 60 ≤ 360
    by_cases h0 : mx = mn
    · rw [if_pos h0]
      have := hue_scaled 0 0 0 (by norm_num) (by norm_num) (by norm_num)
      constructor
      · simpa using this.1
      · have h2 := this.2; norm_num at h2; linarith
    · rw [if_neg h0]
      by_cases h1 : mx = r
      · rw [if_pos h1]
        obtain ⟨q1, q2⟩ := hq g b (Or.inr (Or.inl rfl)) (Or.inr (Or.inr rfl)) h0
        by_cases hgb : g < b
        · rw [if_pos hgb]
          have hneg : fdiv (fsub g b) (fsub mx mn) ≤ 0 :=
            fdiv_nonpos _ _ (hdpos h0) (toDouble_nonpos (by linarith))
          have s := sextant_shift _ (-1) 0 6 (by norm_num) (by norm_num) (by norm_num)
            (by simpa using q1) (by simpa using hneg)
          have t := hue_scaled _ 5 6 (by norm_num) (by simpa using s.1) (by simpa using s.2)
          constructor
          · have := t.1; norm_num at this; linarith
          · have := t.2; norm_num at this; linarith
        · rw [if_neg hgb]
          have hpos : 0 ≤ fdiv (fsub g b) (fsub mx mn) :=
            fdiv_nonneg _ _ (hdpos h0) (toDouble_nonneg (by linarith [not_lt.mp hgb]))
          have s := sextant_shift _ 0 1 0 (by norm_num) (by norm_num) (by norm_num)
            (by simpa using hpos) (by simpa using q2)
          have t := hue_scaled _ 0 1 (by norm_num) (by simpa using s.1) (by simpa using s.2)
          constructor
          · have := t.1; norm_num at this; linarith
          · have := t.2; norm_num at this; linarith
      · rw [if_neg h1]
        by_cases h2 : mx = g
        · rw [if_pos h2]
          obtain ⟨q1, q2⟩ := hq b r (Or.inr (Or.inr rfl)) (Or.inl rfl) h0
          have s := sextant_shift _ (-1) 1 2 (by norm_num) (by norm_num) (by norm_num)
            (by simpa using q1) (by simpa using q2)
          have t := hue_scaled _ 1 3 (by norm_num) (by simpa using s.1) (by simpa using s.2)
          constructor
          · have := t.1; norm_num at this; linarith
          · have := t.2; norm_num at this; linarith
        · rw [if_neg h2]
          obtain ⟨q1, q2⟩ := hq r g (Or.inl rfl) (Or.inr (Or.inl rfl)) h0
          have s := sextant_shift _ (-1) 1 4 (by norm_num) (by norm_num) (by norm_num)
            (by simpa using q1) (by simpa using q2)
          have t := hue_scaled _ 3 5 (by norm_num) (by simpa using s.1) (by simpa using s.2)
          constructor
          · have := t.1; norm_num at this; linarith
          · have := t.2; norm_num at this; linarith
  · show 0 ≤ (if mx = 0 then 0 else fdiv (fsub mx mn) mx) ∧
      (if mx = 0 then 0 else fdiv (fsub mx mn) mx) ≤ 1
    by_cases h0 : mx = 0
    · rw [if_pos h0]; norm_num
    · rw [if_neg h0]
      have hp : 0 < mx := lt_of_le_of_ne hmx01.1 (Ne.symm h0)
      constructor
      · exact fdiv_nonneg _ _ hp hd0
      · exact (fdiv_unit _ _ hp (by linarith) hdle).2


/-- The hue returned by `rgbToHsvDouble` is at most `300` except in the branch
`max = r`, `g < b`, where it is `((g - b) / delta + 6) * 60`. -/
theorem rgbToHsvDouble_hue_cases (r g b : ℚ) (hrd : toDouble r = r) (hgd : toDouble g = g)
    (hbd : toDouble b = b) :
    (rgbToHsvDouble r g b).h ≤ 300 ∨
    (max (max r g) b ≠ min (min r g) b ∧ g < b ∧
      (rgbToHsvDouble r g b).h
        = fmul (fadd (fdiv (fsub g b) (fsub (max (max r g) b) (min (min r g) b))) 6) 60) := by
  set mn := min (min r g) b with hmn
  set mx := max (max r g) b with hmx
  have bmn : ∀ x, (x = r ∨ x = g ∨ x = b) → mn ≤ x ∧ x ≤ mx := by
    intro x hx
    rcases hx with rfl | rfl | rfl
    · exact ⟨le_trans (min_le_left _ _) (min_le_left _ _),
        le_trans (le_max_left _ _) (le_max_left _ _)⟩
    · exact ⟨le_trans (min_le_left _ _) (min_le_right _ _),
        le_trans (le_max_right _ _) (le_max_left _ _)⟩
    · exact ⟨min_le_right _ _, le_max_right _ _⟩
  have hmx_mem : mx = r ∨ mx = g ∨ mx = b := by
    rcases max_choice (max r g) b with h | h
    · rcases max_choice r g with h2 | h2
      · left; rw [hmx, h, h2]
      · right; left; rw [hmx, h, h2]
    · right; right; rw [hmx, h]
  have hmn_mem : mn = r ∨ mn = g ∨ mn = b := by
    rcases min_choice (min r g) b with h | h
    · rcases min_choice r g with h2 | h2
      · left; rw [hmn, h, h2]
      · right; left; rw [hmn, h, h2]
    · right; right; rw [hmn, h]
  have hmxd : toDouble mx = mx := by
    rcases hmx_mem with h | h | h <;> rw [h] <;> assumption
  have hmnd : toDouble mn = mn := by
    rcases hmn_mem with h | h | h <;> rw [h] <;> assumption
  have hle : mn ≤ mx := le_trans (bmn r (Or.inl rfl)).1 (bmn r (Or.inl rfl)).2
  have hdpos : mx ≠ mn → 0 < fsub mx mn := fun hne =>
    fsub_pos mx mn hmxd hmnd (lt_of_le_of_ne hle (Ne.symm hne))
  have hq : ∀ x y, (x = r ∨ x = g ∨ x = b) → (y = r ∨ y = g ∨ y = b) → mx ≠ mn →
      -1 ≤ fdiv (fsub x y) (fsub mx mn) ∧ fdiv (fsub x y) (fsub mx mn) ≤ 1 := by
    intro x y hx hy hne
    obtain ⟨w1, w2⟩ := fsub_within mn mx x y (bmn x hx) (bmn y hy)
    exact fdiv_unit _ _ (hdpos hne) w1 w2
  show fmul (if mx = mn then 0
        else if mx = r then fadd (fdiv (fsub g b) (fsub mx mn)) (if g < b then 6 else 0)
        else if mx = g then fadd (fdiv (fsub b r) (fsub mx mn)) 2
        else fadd (fdiv (fsub r g) (fsub mx mn)) 4) 60 ≤ 300 ∨
    (mx ≠ mn ∧ g < b ∧
      fmul (if mx = mn then 0
        else if mx = r then fadd (fdiv (fsub g b) (fsub mx mn)) (if g < b then 6 else 0)
        else if mx = g then fadd (fdiv (fsub b r) (fsub mx mn)) 2
        else fadd (fdiv (fsub r g) (fsub mx mn)) 4) 60
        = fmul (fadd (fdiv (fsub g b) (fsub mx mn)) 6) 60)
  by_cases h0 : mx = mn
  · left
    rw [if_pos h0]
    have := (hue_scaled 0 0 0 (by norm_num) (by norm_num) (by norm_num)).2
    norm_num at this
    linarith
  · rw [if_neg h0]
    by_cases h1 : mx = r
    · rw [if_pos h1]
      by_cases hgb : g < b
      · right
        rw [if_pos hgb]
        exact ⟨h0, hgb, rfl⟩
      · left
        rw [if_neg hgb]
        obtain ⟨q1, q2⟩ := hq g b (Or.inr (Or.inl rfl)) (Or.inr (Or.inr rfl)) h0
        have hpos : 0 ≤ fdiv (fsub g b) (fsub mx mn) :=
          fdiv_nonneg _ _ (hdpos h0) (toDouble_nonneg (by linarith [not_lt.mp hgb]))
        have s := sextant_shift _ 0 1 0 (by norm_num) (by norm_num) (by norm_num)
          (by simpa using hpos) (by simpa using q2)
        have t := hue_scaled _ 0 1 (by norm_num) (by simpa using s.1) (by simpa using s.2)
        have := t.2; norm_num at this; linarith
    · rw [if_neg h1]
      left
      by_cases h2 : mx = g
      · rw [if_pos h2]
        obtain ⟨q1, q2⟩ := hq b r (Or.inr (Or.inr rfl)) (Or.inl rfl) h0
        have s := sextant_shift _ (-1) 1 2 (by norm_num) (by norm_num) (by norm_num)
          (by simpa using q1) (by simpa using q2)
        have t := hue_scaled _ 1 3 (by norm_num) (by simpa using s.1) (by simpa using s.2)
        have := t.2; norm_num at this; linarith
      · rw [if_neg h2]
        obtain ⟨q1, q2⟩ := hq r g (Or.inl rfl) (Or.inr (Or.inl rfl)) h0
        have s := sextant_shift _ (-1) 1 4 (by norm_num) (by norm_num) (by norm_num)
          (by simpa using q1) (by simpa using q2)
        have t := hue_scaled _ 3 5 (by norm_num) (by simpa using s.1) (by simpa using s.2)
        have := t.2; norm_num at this; linarith

/-- A byte divided by `255` in binary64: a binary64 number in `[0, 1]` within
`2 ^ (-53)` of the exact quotient. -/
theorem byte_channel (n : ℕ) (hn : n ≤ 255) :
    toDouble (fdiv (n : ℚ) 255) = fdiv (n : ℚ) 255 ∧
    (0 ≤ fdiv (n : ℚ) 255 ∧ fdiv (n : ℚ) 255 ≤ 1) ∧
    |fdiv (n : ℚ) 255 - (n : ℚ) / 255| ≤ (2 : ℚ) ^ (-53 : ℤ) := by
  have h0 : (0 : ℚ) ≤ (n : ℚ) / 255 := by positivity
  have h1 : (n : ℚ) / 255 ≤ 1 := by
    rw [div_le_one (by norm_num)]
    exact_mod_cast hn
  refine ⟨toDouble_idem _, ⟨toDouble_nonneg h0, ?_⟩, ?_⟩
  · have := toDouble_mono h1
    rw [toDouble_one] at this
    exact this
  · have e := toDouble_error ((n : ℚ) / 255)
    have u := ulp_le_of_abs_le_one ((n : ℚ) / 255) (by rw [abs_of_nonneg h0]; exact h1)
    have c : (2 : ℚ) ^ (-52 : ℤ) / 2 = (2 : ℚ) ^ (-53 : ℤ) := by norm_num
    unfold fdiv
    linarith

/-- On channel values obtained from bytes, as the operators pass them, the hue
returned by `rgbToHsvDouble` stays below `360`. -/
theorem rgbToHsvDouble_bytes (R G B : ℕ) (hR : R ≤ 255) (hG : G ≤ 255) (hB : B ≤ 255) :
    (rgbToHsvDouble (fdiv (R : ℚ) 255) (fdiv (G : ℚ) 255) (fdiv (B : ℚ) 255)).h < 360 := by
  obtain ⟨r1, r2, _⟩ := byte_channel R hR
  obtain ⟨g1, g2, g3⟩ := byte_channel G hG
  obtain ⟨b1, b2, b3⟩ := byte_channel B hB
  rcases rgbToHsvDouble_hue_cases _ _ _ r1 g1 b1 with h | ⟨hne, hgb, hh⟩
  · linarith
  · rw [hh]
    obtain ⟨_, _, hv, hd⟩ := rgbToHsvDouble_bounds _ _ _ r2 g2 b2 r1 g1 b1
    have hdpos := hd hne
    set delta := fsub (max (max (fdiv (R : ℚ) 255) (fdiv (G : ℚ) 255)) (fdiv (B : ℚ) 255))
      (min (min (fdiv (R : ℚ) 255) (fdiv (G : ℚ) 255)) (fdiv (B : ℚ) 255)) with hdelta
    have hmx1 : max (max (fdiv (R : ℚ) 255) (fdiv (G : ℚ) 255)) (fdiv (B : ℚ) 255) ≤ 1 :=
      max_le (max_le r2.2 g2.2) b2.2
    have hmn0 : 0 ≤ min (min (fdiv (R : ℚ) 255) (fdiv (G : ℚ) 255)) (fdiv (B : ℚ) 255) :=
      le_min (le_min r2.1 g2.1) b2.1
    have hd1 : delta ≤ 1 := by
      have := toDouble_mono (show max (max (fdiv (R : ℚ) 255) (fdiv (G : ℚ) 255))
          (fdiv (B : ℚ) 255)
        - min (min (fdiv (R : ℚ) 255) (fdiv (G : ℚ) 255)) (fdiv (B : ℚ) 255) ≤ 1 by linarith)
      rw [toDouble_one] at this
      exact this
    have hGB : G < B := by
      by_contra hc
      have : (B : ℚ) / 255 ≤ (G : ℚ) / 255 :=
        div_le_div_of_nonneg_right (by exact_mod_cast not_lt.mp hc) (by norm_num)
      have := toDouble_mono this
      exact absurd hgb (not_lt.mpr this)
    have hGBq : (G : ℚ) + 1 ≤ (B : ℚ) := by exact_mod_cast hGB
    have c53 : (2 : ℚ) ^ (-53 : ℤ) = 1 / 9007199254740992 := by norm_num
    rw [c53] at g3 b3
    have hdiff : fdiv (G : ℚ) 255 - fdiv (B : ℚ) 255 ≤ -(1 / 256) := by
      have := (abs_le.mp g3).2
      have := (abs_le.mp b3).1
      linarith
    have k1 : toDouble (-(1 / 256)) = -(1 / 256) := by
      rw [toDouble_neg]
      have := toDouble_dyadic 1 8 (by norm_num) (by norm_num)
      norm_num at this ⊢
      exact this
    have s1 : fsub (fdiv (G : ℚ) 255) (fdiv (B : ℚ) 255) ≤ -(1 / 256) :=
      k1 ▸ toDouble_mono hdiff
    have s2 : fsub (fdiv (G : ℚ) 255) (fdiv (B : ℚ) 255) / delta ≤ -(1 / 256) := by
      rw [div_le_iff₀ hdpos]
      nlinarith
    have s3 : fdiv (fsub (fdiv (G : ℚ) 255) (fdiv (B : ℚ) 255)) delta ≤ -(1 / 256) :=
      k1 ▸ toDouble_mono s2
    have k2 : toDouble (1535 / 256) = 1535 / 256 := by
      have := toDouble_dyadic 1535 8 (by norm_num) (by norm_num)
      norm_num at this ⊢
      exact this
    have s4 : fadd (fdiv (fsub (fdiv (G : ℚ) 255) (fdiv (B : ℚ) 255)) delta) 6 ≤ 1535 / 256 :=
      k2 ▸ toDouble_mono (by linarith)
    have k3 : toDouble (23025 / 64) = 23025 / 64 := by
      have := toDouble_dyadic 23025 6 (by norm_num) (by norm_num)
      norm_num at this ⊢
      exact this
    have s5 : fmul (fadd (fdiv (fsub (fdiv (G : ℚ) 255) (fdiv (B : ℚ) 255)) delta) 6) 60
        ≤ 23025 / 64 := k3 ▸ toDouble_mono (by linarith)
    linarith

/-- In binary64 `rgbToHsv(1, 0, 2 ^ -70)` returns the hue `360`: the quotient
`-2 ^ -70` is absorbed by the addition of `6`. -/
theorem rgbToHsvDouble_sample :
    rgbToHsvDouble 1 0 (1 / 2 ^ 70) = { h := 360, s := 1, v := 1 } := by
  have hmn : min (min (1 : ℚ) 0) (1 / 2 ^ 70) = 0 := by norm_num
  have hmx : max (max (1 : ℚ) 0) (1 / 2 ^ 70) = 1 := by norm_num
  have hd : fsub 1 0 = 1 := by unfold fsub; rw [sub_zero, toDouble_one]
  have hs : fdiv 1 1 = 1 := by unfold fdiv; rw [div_one, toDouble_one]
  have hgb : fsub 0 (1 / 2 ^ 70) = -(1 / 2 ^ 70) := by
    unfold fsub
    rw [zero_sub, toDouble_neg]
    have := toDouble_dyadic 1 70 (by norm_num) (by norm_num)
    rw [Int.cast_one] at this
    rw [this]
  have hq : fdiv (-(1 / 2 ^ 70)) 1 = -(1 / 2 ^ 70) := by
    unfold fdiv
    rw [div_one, toDouble_neg]
    have := toDouble_dyadic 1 70 (by norm_num) (by norm_num)
    rw [Int.cast_one] at this
    rw [this]
  have h6 : fadd (-(1 / 2 ^ 70)) 6 = 6 := by
    unfold fadd
    rw [toDouble_eval_pos (-(1 / 2 ^ 70) + 6) 2 6755399441055744 (by norm_num) (by norm_num)
      (by norm_num) (by norm_num) (by norm_num)]
    norm_num
  have h360 : fmul 6 60 = 360 := by
    unfold fmul
    have := toDouble_natCast 360 (by norm_num)
    norm_num at this ⊢
    exact this
  have n10 : ¬ ((1 : ℚ) = 0) := by norm_num
  have hlt : (0 : ℚ) < 1 / 2 ^ 70 := by norm_num
  unfold rgbToHsvDouble
  simp only [hmn, hmx, hd, hs, hgb, hq, n10, hlt, if_false, if_true, h6, h360]

/-! ## Progress values in binary64 -/

theorem jsRound_mono {x y : ℚ} (h : x ≤ y) : jsRound x ≤ jsRound y := by
  unfold jsRound
  exact Int.floor_le_floor (by linarith)

theorem jsRound_intCast (n : ℤ) : jsRound (n : ℚ) = n := by
  unfold jsRound
  rw [Int.floor_eq_iff]
  constructor <;> linarith

theorem progressDouble_mono (N k k' : Nat) (h : k ≤ k') :
    progressDouble k N ≤ progressDouble k' N := by
  unfold progressDouble fmul fdiv
  apply jsRound_mono
  apply toDouble_mono
  apply mul_le_mul_of_nonneg_right _ (by norm_num)
  apply toDouble_mono
  exact div_le_div_of_nonneg_right (by exact_mod_cast h) (Nat.cast_nonneg N)

theorem progressDouble_zero (N : Nat) : progressDouble 0 N = 0 := by
  unfold progressDouble fmul fdiv
  rw [Nat.cast_zero, zero_div, toDouble_zero, zero_mul, toDouble_zero]
  simpa using jsRound_intCast 0

theorem progressDouble_nonneg (N k : Nat) : 0 ≤ progressDouble k N := by
  rw [← progressDouble_zero N]
  exact progressDouble_mono N 0 k (Nat.zero_le k)

theorem progressDouble_self (N : Nat) (hN : 0 < N) : progressDouble N N = 100 := by
  unfold progressDouble fmul fdiv
  have hq : ((N : ℚ)) ≠ 0 := by exact_mod_cast hN.ne'
  rw [div_self hq]
  have h1 : toDouble 1 = 1 := by simpa using toDouble_natCast 1 (by norm_num)
  have h100 : toDouble 100 = 100 := by simpa using toDouble_natCast 100 (by norm_num)
  rw [h1, one_mul, h100]
  simpa using jsRound_intCast 100

theorem progressDouble_le (N k : Nat) (hN : 0 < N) (hk : k ≤ N) : progressDouble k N ≤ 100 := by
  rw [← progressDouble_self N hN]
  exact progressDouble_mono N k N hk

/-- The binary64 progress value is `v` once the exact quotient lies between two
dyadic bounds whose products with `100` round `v`. -/
theorem progressDouble_of_bounds (k N : Nat) (v : ℤ) (a b c d : ℚ)
    (ha : toDouble a = a) (hb : toDouble b = b) (hc : toDouble c = c) (hd : toDouble d = d)
    (h1 : a ≤ (k : ℚ) / (N : ℚ)) (h2 : (k : ℚ) / (N : ℚ) ≤ b)
    (h3 : c ≤ a * 100) (h4 : b * 100 ≤ d)
    (h5 : (v : ℚ) - 1 / 2 ≤ c) (h6 : d < (v : ℚ) + 1 / 2) :
    progressDouble k N = v := by
  unfold progressDouble fmul fdiv jsRound
  obtain ⟨q1, q2⟩ := toDouble_between ha hb h1 h2
  obtain ⟨p1, p2⟩ := toDouble_between hc hd
    (show c ≤ toDouble ((k : ℚ) / (N : ℚ)) * 100 by linarith)
    (show toDouble ((k : ℚ) / (N : ℚ)) * 100 ≤ d by linarith)
  rw [Int.floor_eq_iff]
  constructor <;> linarith

theorem progressDouble_six :
    (List.range 6).map (fun k => progressDouble (k + 1) 6) = [17, 33, 50, 67, 83, 100] := by
  have hr : List.range 6 = [0, 1, 2, 3, 4, 5] := rfl
  have dy : ∀ (m : ℤ) (k : ℕ), |m| < 2 ^ 53 → k ≤ 1074 →
      toDouble ((m : ℚ) / (2 : ℚ) ^ k) = (m : ℚ) / (2 : ℚ) ^ k := toDouble_dyadic
  have e1 : progressDouble 1 6 = 17 :=
    progressDouble_of_bounds 1 6 17 (85 / 512) (86 / 512) (33 / 2) 17
      (by simpa using dy 85 9 (by norm_num) (by norm_num))
      (by simpa using dy 86 9 (by norm_num) (by norm_num))
      (by simpa using dy 33 1 (by norm_num) (by norm_num))
      (by simpa using dy 17 0 (by norm_num) (by norm_num))
      (by norm_num) (by norm_num) (by norm_num) (by norm_num) (by norm_num) (by norm_num)
  have e2 : progressDouble 2 6 = 33 :=
    progressDouble_of_bounds 2 6 33 (170 / 512) (1366 / 4096) 33 (267 / 8)
      (by simpa using dy 170 9 (by norm_num) (by norm_num))
      (by simpa using dy 1366 12 (by norm_num) (by norm_num))
      (by simpa using dy 33 0 (by norm_num) (by norm_num))
      (by simpa using dy 267 3 (by norm_num) (by norm_num))
      (by norm_num) (by norm_num) (by norm_num) (by norm_num) (by norm_num) (by norm_num)
  have e3 : progressDouble 3 6 = 50 :=
    progressDouble_of_bounds 3 6 50 (1 / 2) (1 / 2) 50 50
      (by simpa using dy 1 1 (by norm_num) (by norm_num))
      (by simpa using dy 1 1 (by norm_num) (by norm_num))
      (by simpa using dy 50 0 (by norm_num) (by norm_num))
      (by simpa using dy 50 0 (by norm_num) (by norm_num))
      (by norm_num) (by norm_num) (by norm_num) (by norm_num) (by norm_num) (by norm_num)
  have e4 : progressDouble 4 6 = 67 :=
    progressDouble_of_bounds 4 6 67 (341 / 512) (342 / 512) (133 / 2) 67
      (by simpa using dy 341 9 (by norm_num) (by norm_num))
      (by simpa using dy 342 9 (by norm_num) (by norm_num))
      (by simpa using dy 133 1 (by norm_num) (by norm_num))
      (by simpa using dy 67 0 (by norm_num) (by norm_num))
      (by norm_num) (by norm_num) (by norm_num) (by norm_num) (by norm_num) (by norm_num)
  have e5 : progressDouble 5 6 = 83 :=
    progressDouble_of_bounds 5 6 83 (426 / 512) (3414 / 4096) 83 (667 / 8)
      (by simpa using dy 426 9 (by norm_num) (by norm_num))
      (by simpa using dy 3414 12 (by norm_num) (by norm_num))
      (by simpa using dy 83 0 (by norm_num) (by norm_num))
      (by simpa using dy 667 3 (by norm_num) (by norm_num))
      (by norm_num) (by norm_num) (by norm_num) (by norm_num) (by norm_num) (by norm_num)
  have e6 : progressDouble 6 6 = 100 := progressDouble_self 6 (by norm_num)
  rw [hr]
  simp only [List.map_cons, List.map_nil, zero_add, Nat.reduceAdd, e1, e2, e3, e4, e5, e6]

/-- With 40 tasks the 23rd progress value is `57` in binary64, where the exact
quotient `57.5` would round to `58`. -/
theorem progressDouble_sample : progressDouble 23 40 = 57 ∧ progressValue 23 40 = 58 := by
  have h1 : toDouble (23 / 40) = 2589569785738035 / 4503599627370496 := by
    rw [toDouble_eval_pos (23 / 40) (-1) 5179139571476070 (by norm_num) (by norm_num)
      (by norm_num) (by norm_num) (by norm_num)]
    norm_num
  have h2 : toDouble (64739244643450875 / 1125899906842624)
      = 8092405580431359 / 140737488355328 := by
    rw [toDouble_eval_pos (64739244643450875 / 1125899906842624) 5 8092405580431359
      (by norm_num) (by norm_num) (by norm_num) (by norm_num) (by norm_num)]
    norm_num
  constructor
  · unfold progressDouble fmul fdiv jsRound
    rw [show ((23 : Nat) : ℚ) / ((40 : Nat) : ℚ) = 23 / 40 from by norm_num, h1,
      show (2589569785738035 / 4503599627370496 : ℚ) * 100
        = 64739244643450875 / 1125899906842624 from by norm_num, h2]
    rw [Int.floor_eq_iff]
    constructor <;> norm_num
  · unfold progressValue jsRound
    norm_num

/-- For batches of at most `2 ^ 20` tasks the binary64 progress value is `100`
under the same condition as the exact one. -/
theorem progressDouble_eq_hundred_iff (N k : Nat) (hN : 0 < N) (hk : k ≤ N)
    (hb : N ≤ 2 ^ 20) : progressDouble k N = 100 ↔ 200 * (N - k) ≤ N := by
  have hNq : (0 : ℚ) < (N : ℚ) := by exact_mod_cast hN
  have hsub : ((N - k : Nat) : ℚ) = (N : ℚ) - (k : ℚ) := Nat.cast_sub hk
  constructor
  · intro h
    by_contra hc
    have hc1 : N + 1 ≤ 200 * (N - k) := by omega
    have hc2 : ((N : ℚ)) + 1 ≤ 200 * ((N : ℚ) - (k : ℚ)) := by
      rw [← hsub]; exact_mod_cast hc1
    have hbq : (N : ℚ) ≤ 1048576 := by exact_mod_cast hb
    have hq : (k : ℚ) / (N : ℚ) ≤ 1094014064395 / 1099511627776 := by
      rw [div_le_iff₀ hNq]
      nlinarith
    have hbrep : toDouble (1094014064395 / 1099511627776) = 1094014064395 / 1099511627776 := by
      simpa using toDouble_dyadic 1094014064395 40 (by norm_num) (by norm_num)
    have hdrep : toDouble (417333247 / 4194304) = 417333247 / 4194304 := by
      simpa using toDouble_dyadic 417333247 22 (by norm_num) (by norm_num)
    have q2 : toDouble ((k : ℚ) / (N : ℚ)) ≤ 1094014064395 / 1099511627776 :=
      hbrep ▸ toDouble_mono hq
    have p2 : toDouble (toDouble ((k : ℚ) / (N : ℚ)) * 100) ≤ 417333247 / 4194304 :=
      hdrep ▸ toDouble_mono (by linarith)
    have : progressDouble k N ≤ 99 := by
      unfold progressDouble fmul fdiv jsRound
      have : ⌊toDouble (toDouble ((k : ℚ) / (N : ℚ)) * 100) + 1 / 2⌋ < 100 := by
        rw [Int.floor_lt]
        push_cast
        linarith
      omega
    omega
  · intro h
    have h4 : (200 : ℚ) * ((N - k : Nat) : ℚ) ≤ (N : ℚ) := by exact_mod_cast h
    rw [hsub] at h4
    have hq : (199 / 200 : ℚ) ≤ (k : ℚ) / (N : ℚ) := by
      rw [le_div_iff₀ hNq]
      linarith
    have h1 : toDouble (199 / 200) = 8962163258467287 / 9007199254740992 := by
      rw [toDouble_eval_pos (199 / 200) (-1) 8962163258467287 (by norm_num) (by norm_num)
        (by norm_num) (by norm_num) (by norm_num)]
      norm_num
    have h2 : toDouble (224054081461682175 / 2251799813685248) = 199 / 2 := by
      rw [toDouble_eval_pos (224054081461682175 / 2251799813685248) 6 7001690045677568
        (by norm_num) (by norm_num) (by norm_num) (by norm_num) (by norm_num)]
      norm_num
    have q1 : (8962163258467287 / 9007199254740992 : ℚ) ≤ toDouble ((k : ℚ) / (N : ℚ)) :=
      h1 ▸ toDouble_mono hq
    have p1 : (199 / 2 : ℚ) ≤ toDouble (toDouble ((k : ℚ) / (N : ℚ)) * 100) :=
      h2 ▸ toDouble_mono (by linarith)
    have hle := progressDouble_le N k hN hk
    have hge : 100 ≤ progressDouble k N := by
      unfold progressDouble fmul fdiv jsRound
      rw [Int.le_floor]
      push_cast
      linarith
    omega

/-! ## Sample values in binary64 -/

theorem brightness_sample :
    toUint8Clamp (min 255 (max 0 (fmul ((30 : ℕ) : ℚ)
      (fdiv (fadd (toDouble (1 / 10)) (toDouble (2 / 10))) 2)))) = 5 := by
  have h1 : toDouble (1 / 10) = 3602879701896397 / 36028797018963968 := by
    rw [toDouble_eval_pos (1 / 10) (-4) 7205759403792794 (by norm_num) (by norm_num) (by norm_num)
      (by norm_num) (by norm_num)]
    norm_num
  have h2 : toDouble (2 / 10) = 3602879701896397 / 18014398509481984 := by
    rw [show (2 / 10 : ℚ) = 1 / 5 from by norm_num]
    exact (by
    rw [toDouble_eval_pos (1 / 5) (-3) 7205759403792794 (by norm_num) (by norm_num) (by norm_num)
      (by norm_num) (by norm_num)]
    norm_num)
  have h3 : fadd (3602879701896397 / 36028797018963968) (3602879701896397 / 18014398509481984) =
      1351079888211149 / 4503599627370496 := by
    unfold fadd
    rw [show ((3602879701896397 / 36028797018963968) : ℚ) + (3602879701896397 / 18014398509481984)
        = 10808639105689191 / 36028797018963968 from by norm_num]
    rw [toDouble_tie_pos (10808639105689191 / 36028797018963968) (-2) 5404319552844596 (by
        norm_num) (by norm_num) (by norm_num)
      (by norm_num) (by norm_num) (by decide)]
    norm_num
  have h4 : fdiv (1351079888211149 / 4503599627370496) 2 = 1351079888211149 / 9007199254740992 := by
    unfold fdiv
    rw [show ((1351079888211149 / 4503599627370496) : ℚ) / 2 = 1351079888211149 / 9007199254740992
        from by norm_num]
    rw [toDouble_eval_pos (1351079888211149 / 9007199254740992) (-3) 5404319552844596 (by norm_num)
        (by norm_num) (by norm_num)
      (by norm_num) (by norm_num)]
    norm_num
  have h5 : fmul (((30 : ℕ) : ℚ)) (1351079888211149 / 9007199254740992) = 5066549580791809 /
      1125899906842624 := by
    unfold fmul
    rw [show ((((30 : ℕ) : ℚ)) : ℚ) * (1351079888211149 / 9007199254740992) = 20266198323167235 /
        4503599627370496 from by norm_num]
    rw [toDouble_eval_pos (20266198323167235 / 4503599627370496) 2 5066549580791809 (by norm_num)
        (by norm_num) (by norm_num)
      (by norm_num) (by norm_num)]
    norm_num
  rw [h1, h2, h3, h4, h5]
  norm_num [toUint8Clamp]
  all_goals rfl

theorem contrast_sample :
    toUint8Clamp (min 255 (max 0 (fadd
      (fmul ((13 : ℕ) : ℚ) (fdiv (fadd (toDouble (1 / 10)) (toDouble (13 / 10))) 2))
      (fmul 128 (fsub 1 (fdiv (fadd (toDouble (1 / 10)) (toDouble (13 / 10))) 2)))))) = 47 := by
  have h1 : toDouble (1 / 10) = 3602879701896397 / 36028797018963968 := by
    rw [toDouble_eval_pos (1 / 10) (-4) 7205759403792794 (by norm_num) (by norm_num) (by norm_num)
      (by norm_num) (by norm_num)]
    norm_num
  have h2 : toDouble (13 / 10) = 5854679515581645 / 4503599627370496 := by
    rw [toDouble_eval_pos (13 / 10) 0 5854679515581645 (by norm_num) (by norm_num) (by norm_num)
      (by norm_num) (by norm_num)]
    norm_num
  have h3 : fadd (3602879701896397 / 36028797018963968) (5854679515581645 / 4503599627370496) =
      6305039478318695 / 4503599627370496 := by
    unfold fadd
    rw [show ((3602879701896397 / 36028797018963968) : ℚ) + (5854679515581645 / 4503599627370496) =
        50440315826549557 / 36028797018963968 from by norm_num]
    rw [toDouble_eval_pos (50440315826549557 / 36028797018963968) 0 6305039478318695 (by norm_num)
        (by norm_num) (by norm_num)
      (by norm_num) (by norm_num)]
    norm_num
  have h4 : fdiv (6305039478318695 / 4503599627370496) 2 = 6305039478318695 / 9007199254740992 := by
    unfold fdiv
    rw [show ((6305039478318695 / 4503599627370496) : ℚ) / 2 = 6305039478318695 / 9007199254740992
        from by norm_num]
    rw [toDouble_eval_pos (6305039478318695 / 9007199254740992) (-1) 6305039478318695 (by norm_num)
        (by norm_num) (by norm_num)
      (by norm_num) (by norm_num)]
    norm_num
  have h5 : fsub 1 (6305039478318695 / 9007199254740992) = 2702159776422297 / 9007199254740992 := by
    unfold fsub
    rw [show (1 : ℚ) - (6305039478318695 / 9007199254740992) = 2702159776422297 / 9007199254740992
        from by norm_num]
    rw [toDouble_eval_pos (2702159776422297 / 9007199254740992) (-2) 5404319552844594 (by norm_num)
        (by norm_num) (by norm_num)
      (by norm_num) (by norm_num)]
    norm_num
  have h6 : fmul 128 (2702159776422297 / 9007199254740992) = 2702159776422297 / 70368744177664 := by
    unfold fmul
    rw [show (128 : ℚ) * (2702159776422297 / 9007199254740992) = 2702159776422297 / 70368744177664
        from by norm_num]
    rw [toDouble_eval_pos (2702159776422297 / 70368744177664) 5 5404319552844594 (by norm_num) (by
        norm_num) (by norm_num)
      (by norm_num) (by norm_num)]
    norm_num
  have h7 : fmul (((13 : ℕ) : ℚ)) (6305039478318695 / 9007199254740992) = 1280711144033485 /
      140737488355328 := by
    unfold fmul
    rw [show ((((13 : ℕ) : ℚ)) : ℚ) * (6305039478318695 / 9007199254740992) = 81965513218143035 /
        9007199254740992 from by norm_num]
    rw [toDouble_eval_pos (81965513218143035 / 9007199254740992) 3 5122844576133940 (by norm_num)
        (by norm_num) (by norm_num)
      (by norm_num) (by norm_num)]
    norm_num
  have h8 : fadd (1280711144033485 / 140737488355328) (2702159776422297 / 70368744177664) =
      6685030696878079 / 140737488355328 := by
    unfold fadd
    rw [show ((1280711144033485 / 140737488355328) : ℚ) + (2702159776422297 / 70368744177664) =
        6685030696878079 / 140737488355328 from by norm_num]
    rw [toDouble_eval_pos (6685030696878079 / 140737488355328) 5 6685030696878079 (by norm_num) (by
        norm_num) (by norm_num)
      (by norm_num) (by norm_num)]
    norm_num
  rw [h1, h2, h3, h4, h5, h6, h7, h8]
  norm_num [toUint8Clamp]
  all_goals rfl

theorem edge_sample_value :
    toUint8Clamp (clampMaxMin (fadd ((32 : ℕ) : ℚ)
      (fmul ((-45 : ℤ) : ℚ) (toDouble (7 / 10))))) = 1 := by
  have h1 : toDouble (7 / 10) = 3152519739159347 / 4503599627370496 := by
    rw [toDouble_eval_pos (7 / 10) (-1) 6305039478318694 (by norm_num) (by norm_num) (by norm_num)
      (by norm_num) (by norm_num)]
    norm_num
  have h2 : fmul (((-45 : ℤ) : ℚ)) (3152519739159347 / 4503599627370496) = -(8866461766385663 /
      281474976710656) := by
    unfold fmul
    rw [show ((((-45 : ℤ) : ℚ)) : ℚ) * (3152519739159347 / 4503599627370496) = -(141863388262170615
        / 4503599627370496) from by norm_num]
    rw [toDouble_eval_neg (-(141863388262170615 / 4503599627370496)) 4 8866461766385663 (by
        norm_num) (by norm_num) (by norm_num)
      (by norm_num) (by norm_num)]
    norm_num
  have h3 : fadd (((32 : ℕ) : ℚ)) (-(8866461766385663 / 281474976710656)) = 140737488355329 /
      281474976710656 := by
    unfold fadd
    rw [show ((((32 : ℕ) : ℚ)) : ℚ) + (-(8866461766385663 / 281474976710656)) = 140737488355329 /
        281474976710656 from by norm_num]
    rw [toDouble_eval_pos (140737488355329 / 281474976710656) (-1) 4503599627370528 (by norm_num)
        (by norm_num) (by norm_num)
      (by norm_num) (by norm_num)]
    norm_num
  rw [h1, h2, h3]
  norm_num [clampMaxMin, toUint8Clamp]

/-! ## The rectangle of `erase` at the default parameters -/

/-- The rectangle of `erase` lies inside the canvas, whatever `Math.sqrt`
returns: the guard bounds its sides and the two position draws lie in `[0, 1)`. -/
theorem eraseRect_inside (M : JsMath) (u : Nat → ℚ) (W H : Nat) (param : Param) (x y w h : ℚ)
    (hu : ∀ k, 0 ≤ u k ∧ u k < 1)
    (hrect : eraseRect M u W H param = some (x, y, w, h)) :
    (0 ≤ x ∧ x + w ≤ (W : ℚ) ∧ 0 ≤ y ∧ y + h ≤ (H : ℚ)) ∧
    h = M.sqrt ((W : ℚ) * (H : ℚ) * (param.sl + u 1 * (param.sh - param.sl))
        * (param.r1 + u 2 * (1 / param.r1 - param.r1))) ∧
    w = (W : ℚ) * (H : ℚ) * (param.sl + u 1 * (param.sh - param.sl)) / h ∧
    h < (H : ℚ) ∧ w < (W : ℚ) := by
  unfold eraseRect at hrect
  by_cases h1 : u 0 < param.p
  swap
  · rw [if_neg h1] at hrect; exact absurd hrect (by simp)
  rw [if_pos h1] at hrect
  simp only [] at hrect
  set frac := param.sl + u 1 * (param.sh - param.sl) with hfrac
  set R := param.r1 + u 2 * (1 / param.r1 - param.r1) with hR
  set eH := M.sqrt ((W : ℚ) * (H : ℚ) * frac * R) with heH
  by_cases h2 : eH < (H : ℚ) ∧ (W : ℚ) * (H : ℚ) * frac / eH < (W : ℚ)
  swap
  · rw [if_neg h2] at hrect; exact absurd hrect (by simp)
  rw [if_pos h2] at hrect
  simp only [Option.some.injEq, Prod.mk.injEq] at hrect
  obtain ⟨hx, hy, hw, hh⟩ := hrect
  subst hw hh hx hy
  refine ⟨⟨?_, ?_, ?_, ?_⟩, rfl, rfl, h2.1, h2.2⟩
  · exact mul_nonneg (hu 3).1 (by linarith [h2.2])
  · have : u 3 * ((W : ℚ) - (W : ℚ) * (H : ℚ) * frac / eH)
        ≤ 1 * ((W : ℚ) - (W : ℚ) * (H : ℚ) * frac / eH) :=
      mul_le_mul_of_nonneg_right (hu 3).2.le (by linarith [h2.2])
    linarith
  · exact mul_nonneg (hu 4).1 (by linarith [h2.1])
  · have : u 4 * ((H : ℚ) - eH) ≤ 1 * ((H : ℚ) - eH) :=
      mul_le_mul_of_nonneg_right (hu 4).2.le (by linarith [h2.1])
    linarith

/-- No rational number squares to `33245 / 6`. -/
theorem no_rational_root_sample (q : ℚ) : q * q ≠ 33245 / 6 := by
  intro hq
  have h1 : IsSquare ((199470 : ℕ) : ℚ) := ⟨6 * q, by
    push_cast
    have : 6 * q * (6 * q) = 36 * (q * q) := by ring
    rw [this, hq]; norm_num⟩
  rw [Rat.isSquare_natCast_iff] at h1
  obtain ⟨r, hr⟩ := h1
  have h446 : 446 < r := by
    by_contra hc
    have : r ≤ 446 := not_lt.mp hc
    have : r * r ≤ 446 * 446 := Nat.mul_le_mul this this
    omega
  have h447 : r < 447 := by
    by_contra hc
    have : 447 ≤ r := not_lt.mp hc
    have : 447 * 447 ≤ r * r := Nat.mul_le_mul this this
    omega
  omega

theorem eraseDefaults_fields :
    eraseDefaults.p = 1 / 2 ∧ eraseDefaults.sl = 2 / 100 ∧ eraseDefaults.sh = 4 / 10 ∧
    eraseDefaults.r1 = 3 / 10 := by
  refine ⟨?_, ?_, ?_, ?_⟩ <;>
    simp [eraseDefaults, toParam, initialParams, configNum, configOf, List.find?]
  all_goals norm_num

theorem eraseDraws_range (k : Nat) : 0 ≤ eraseDraws k ∧ eraseDraws k < 1 := by
  unfold eraseDraws
  split_ifs <;> norm_num

/-- The sample run of `erase`: a canvas of `100` x `100` pixels, the default
parameters, area fraction `0.305` and aspect ratio `109 / 60`. -/
theorem eraseRect_sample :
    eraseRect rootMath eraseDraws 100 100 eraseDefaults
      = some (1 / 2 * (100 - 3050 / sqrtSample), 1 / 2 * (100 - sqrtSample), 3050 / sqrtSample,
          sqrtSample) := by
  unfold eraseRect
  have e0 : eraseDraws 0 = 1 / 4 := rfl
  have e1 : eraseDraws 1 = 3 / 4 := rfl
  have e2 : eraseDraws 2 = 1 / 2 := rfl
  have e3 : eraseDraws 3 = 1 / 2 := rfl
  have e4 : eraseDraws 4 = 1 / 2 := rfl
  have es : ∀ z, rootMath.sqrt z = sqrtSample := fun _ => rfl
  simp only [e0, e1, e2, e3, e4, es]
  obtain ⟨fp, fsl, fsh, _⟩ := eraseDefaults_fields
  have hp : (1 / 4 : ℚ) < eraseDefaults.p := by rw [fp]; norm_num
  rw [if_pos hp]
  have ha : ((100 : ℕ) : ℚ) * ((100 : ℕ) : ℚ)
      * (eraseDefaults.sl + 3 / 4 * (eraseDefaults.sh - eraseDefaults.sl)) = 3050 := by
    rw [fsl, fsh]; norm_num
  rw [ha]
  have hg : sqrtSample < ((100 : ℕ) : ℚ) ∧ 3050 / sqrtSample < ((100 : ℕ) : ℚ) := by
    norm_num [sqrtSample]
  rw [if_pos hg]
  norm_num

/-- In the sample run the argument of `Math.sqrt` is `33245 / 6`, so the sides of
a filled rectangle do not have the drawn aspect ratio `109 / 60`, whatever
`Math.sqrt` returns. -/
theorem eraseRect_ratio_sample (M : JsMath) (x y w h : ℚ)
    (hrect : eraseRect M eraseDraws 100 100 eraseDefaults = some (x, y, w, h)) :
    h / w ≠ 109 / 60 := by
  obtain ⟨_, _, hw, _, _⟩ := eraseRect_inside M eraseDraws 100 100 eraseDefaults x y w h
    eraseDraws_range hrect
  obtain ⟨_, fsl, fsh, _⟩ := eraseDefaults_fields
  have e1 : eraseDraws 1 = 3 / 4 := rfl
  have ha : ((100 : ℕ) : ℚ) * ((100 : ℕ) : ℚ)
      * (eraseDefaults.sl + eraseDraws 1 * (eraseDefaults.sh - eraseDefaults.sl)) = 3050 := by
    rw [e1, fsl, fsh]; norm_num
  rw [ha] at hw
  intro hq
  rw [hw, div_div_eq_mul_div, div_eq_iff (by norm_num)] at hq
  exact no_rational_root_sample h (by rw [hq]; norm_num)

/-! ## Sample run of the `colorJitter` description -/

/-- Sample run of the `colorJitter` description: brightness amplitude `0`,
contrast amplitude `0.2`, draws `0` and `0.75`; the byte `13` becomes `1`, where
the exact value `1.5` would be stored as `2`. -/
theorem colorJitterSpec_sample :
    colorJitterSpec 0 (toDouble (2 / 10)) 0 (3 / 4) [13, 100, 200, 128]
      = [1, 97, 207, 128] := by
  have h1 : toDouble (2 / 10) = 3602879701896397 / 18014398509481984 := by
    rw [show (2 / 10 : ℚ) = 1 / 5 from by norm_num]
    exact (by
    rw [toDouble_eval_pos (1 / 5) (-3) 7205759403792794 (by norm_num) (by norm_num) (by norm_num)
      (by norm_num) (by norm_num)]
    norm_num)
  have h2 : fmul 2 0 = 0 := by
    unfold fmul
    rw [show (2 : ℚ) * 0 = 0 from by norm_num]
    exact toDouble_zero
  have h3 : fsub 0 1 = -(1) := by
    unfold fsub
    rw [show (0 : ℚ) - 1 = -(1) from by norm_num]
    rw [toDouble_eval_neg (-(1)) 0 4503599627370496 (by norm_num) (by norm_num) (by norm_num)
      (by norm_num) (by norm_num)]
    norm_num
  have h4 : fmul (-(1)) 0 = 0 := by
    unfold fmul
    rw [show ((-(1)) : ℚ) * 0 = 0 from by norm_num]
    exact toDouble_zero
  have h5 : fadd 1 0 = 1 := by
    unfold fadd
    rw [show (1 : ℚ) + 0 = 1 from by norm_num]
    rw [toDouble_eval_pos 1 0 4503599627370496 (by norm_num) (by norm_num) (by norm_num)
      (by norm_num) (by norm_num)]
    norm_num
  have h6 : fmul 2 (3 / 4) = 3 / 2 := by
    unfold fmul
    rw [show (2 : ℚ) * (3 / 4) = 3 / 2 from by norm_num]
    rw [toDouble_eval_pos (3 / 2) 0 6755399441055744 (by norm_num) (by norm_num) (by norm_num)
      (by norm_num) (by norm_num)]
    norm_num
  have h7 : fsub (3 / 2) 1 = 1 / 2 := by
    unfold fsub
    rw [show ((3 / 2) : ℚ) - 1 = 1 / 2 from by norm_num]
    rw [toDouble_eval_pos (1 / 2) (-1) 4503599627370496 (by norm_num) (by norm_num) (by norm_num)
      (by norm_num) (by norm_num)]
    norm_num
  have h8 : fmul (1 / 2) (3602879701896397 / 18014398509481984) = 3602879701896397 /
      36028797018963968 := by
    unfold fmul
    rw [show ((1 / 2) : ℚ) * (3602879701896397 / 18014398509481984) = 3602879701896397 /
        36028797018963968 from by norm_num]
    rw [toDouble_eval_pos (3602879701896397 / 36028797018963968) (-4) 7205759403792794 (by
        norm_num) (by norm_num) (by norm_num)
      (by norm_num) (by norm_num)]
    norm_num
  have h9 : fadd 1 (3602879701896397 / 36028797018963968) = 2476979795053773 / 2251799813685248 :=
      by
    unfold fadd
    rw [show (1 : ℚ) + (3602879701896397 / 36028797018963968) = 39631676720860365 /
        36028797018963968 from by norm_num]
    rw [toDouble_eval_pos (39631676720860365 / 36028797018963968) 0 4953959590107546 (by norm_num)
        (by norm_num) (by norm_num)
      (by norm_num) (by norm_num)]
    norm_num
  have h10 : fsub 1 (2476979795053773 / 2251799813685248) = -(225179981368525 / 2251799813685248)
      := by
    unfold fsub
    rw [show (1 : ℚ) - (2476979795053773 / 2251799813685248) = -(225179981368525 /
        2251799813685248) from by norm_num]
    rw [toDouble_eval_neg (-(225179981368525 / 2251799813685248)) (-4) 7205759403792800 (by
        norm_num) (by norm_num) (by norm_num)
      (by norm_num) (by norm_num)]
    norm_num
  have h11 : fmul 128 (-(225179981368525 / 2251799813685248)) = -(225179981368525 / 17592186044416)
      := by
    unfold fmul
    rw [show (128 : ℚ) * (-(225179981368525 / 2251799813685248)) = -(225179981368525 /
        17592186044416) from by norm_num]
    rw [toDouble_eval_neg (-(225179981368525 / 17592186044416)) 3 7205759403792800 (by norm_num)
        (by norm_num) (by norm_num)
      (by norm_num) (by norm_num)]
    norm_num
  have hjb : fadd 1 (fmul (fsub (fmul 2 0) 1) 0) = 1 := by rw [h2, h3, h4, h5]
  have hjc : fadd 1 (fmul (fsub (fmul 2 (3 / 4)) 1) (toDouble (2 / 10))) = 2476979795053773 /
      2251799813685248 := by
    rw [h1, h6, h7, h8, h9]
  have hb : ∀ v : ℕ, v ≤ 255 → jitterBrightnessStep 1 v = v := by
    intro v hv
    unfold jitterBrightnessStep fmul
    have e : clampMinMax (v : ℚ) = v := by
      unfold clampMinMax
      have h1 : (v : ℚ) ≤ 255 := by exact_mod_cast hv
      rw [max_eq_right (Nat.cast_nonneg v), min_eq_right h1]
    rw [mul_one, toDouble_natCast v (lt_of_le_of_lt hv (by norm_num)), e,
      toUint8Clamp_natCast v hv]
  have c13 : jitterContrastStep (2476979795053773 / 2251799813685248) 13 = 1 := by
    have k1 : fmul (((13 : ℕ) : ℚ)) (2476979795053773 / 2251799813685248) = 4025092166962381 /
        281474976710656 := by
      unfold fmul
      rw [show ((((13 : ℕ) : ℚ)) : ℚ) * (2476979795053773 / 2251799813685248) = 32200737335699049 /
          2251799813685248 from by norm_num]
      rw [toDouble_eval_pos (32200737335699049 / 2251799813685248) 3 8050184333924762 (by norm_num)
          (by norm_num) (by norm_num)
        (by norm_num) (by norm_num)]
      norm_num
    have k2 : fadd (4025092166962381 / 281474976710656) (-(225179981368525 / 17592186044416)) =
        422212465065981 / 281474976710656 := by
      unfold fadd
      rw [show ((4025092166962381 / 281474976710656) : ℚ) + (-(225179981368525 / 17592186044416)) =
          422212465065981 / 281474976710656 from by norm_num]
      rw [toDouble_eval_pos (422212465065981 / 281474976710656) 0 6755399441055696 (by norm_num)
          (by norm_num) (by norm_num)
        (by norm_num) (by norm_num)]
      norm_num
    unfold jitterContrastStep
    rw [h10, h11, k1, k2]
    norm_num [clampMinMax, toUint8Clamp]
  have c100 : jitterContrastStep (2476979795053773 / 2251799813685248) 100 = 97 := by
    have k1 : fmul (((100 : ℕ) : ℚ)) (2476979795053773 / 2251799813685248) = 7740561859543041 /
        70368744177664 := by
      unfold fmul
      rw [show ((((100 : ℕ) : ℚ)) : ℚ) * (2476979795053773 / 2251799813685248) = 61924494876344325
          / 562949953421312 from by norm_num]
      rw [toDouble_eval_pos (61924494876344325 / 562949953421312) 6 7740561859543041 (by norm_num)
          (by norm_num) (by norm_num)
        (by norm_num) (by norm_num)]
      norm_num
    have k2 : fadd (7740561859543041 / 70368744177664) (-(225179981368525 / 17592186044416)) =
        6839841934068941 / 70368744177664 := by
      unfold fadd
      rw [show ((7740561859543041 / 70368744177664) : ℚ) + (-(225179981368525 / 17592186044416)) =
          6839841934068941 / 70368744177664 from by norm_num]
      rw [toDouble_eval_pos (6839841934068941 / 70368744177664) 6 6839841934068941 (by norm_num)
          (by norm_num) (by norm_num)
        (by norm_num) (by norm_num)]
      norm_num
    unfold jitterContrastStep
    rw [h10, h11, k1, k2]
    norm_num [clampMinMax, toUint8Clamp]
    all_goals rfl
  have c200 : jitterContrastStep (2476979795053773 / 2251799813685248) 200 = 207 := by
    have k1 : fmul (((200 : ℕ) : ℚ)) (2476979795053773 / 2251799813685248) = 7740561859543041 /
        35184372088832 := by
      unfold fmul
      rw [show ((((200 : ℕ) : ℚ)) : ℚ) * (2476979795053773 / 2251799813685248) = 61924494876344325
          / 281474976710656 from by norm_num]
      rw [toDouble_eval_pos (61924494876344325 / 281474976710656) 7 7740561859543041 (by norm_num)
          (by norm_num) (by norm_num)
        (by norm_num) (by norm_num)]
      norm_num
    have k2 : fadd (7740561859543041 / 35184372088832) (-(225179981368525 / 17592186044416)) =
        7290201896805991 / 35184372088832 := by
      unfold fadd
      rw [show ((7740561859543041 / 35184372088832) : ℚ) + (-(225179981368525 / 17592186044416)) =
          7290201896805991 / 35184372088832 from by norm_num]
      rw [toDouble_eval_pos (7290201896805991 / 35184372088832) 7 7290201896805991 (by norm_num)
          (by norm_num) (by norm_num)
        (by norm_num) (by norm_num)]
      norm_num
    unfold jitterContrastStep
    rw [h10, h11, k1, k2]
    norm_num [clampMinMax, toUint8Clamp]
    all_goals rfl
  have hr : List.range 4 = [0, 1, 2, 3] := rfl
  unfold colorJitterSpec tabulate
  simp only [List.length_cons, List.length_nil, zero_add, Nat.reduceAdd, hr, List.map_cons,
    List.map_nil, hjb, hjc, jitterSpecByte]
  simp [hb, c13, c100, c200]

/-! ## Operators given the ranges they read -/

/-- With the range fields it reads present, each of the ten pixel operators
runs to the end of its case. -/
theorem pixelOps_done (M : JsMath) (u : Nat → ℚ) (cv : Canvas) (img : Image) (augId : String)
    (param : Param)
    (hop : augId ∈ ["brightness", "contrast", "noise", "colorJitter", "waveNoise", "fancyPca",
      "hsvJitter", "intensity", "edgeEnhance", "randomHsv"])
    (hfr : augId = "brightness" ∨ augId = "contrast" → param.factorRange ≠ none)
    (hsv : augId = "hsvJitter" → param.sScale ≠ none ∧ param.vScale ≠ none)
    (hfa : augId = "intensity" → param.factor ≠ none)
    (hrh : augId = "randomHsv" →
      param.hRange ≠ none ∧ param.sRange ≠ none ∧ param.vRange ≠ none) :
    ∃ c, runSwitch M u cv img augId param = .done c := by
  simp only [List.mem_cons, List.mem_singleton, List.not_mem_nil, or_false] at hop
  rcases hop with rfl | rfl | rfl | rfl | rfl | rfl | rfl | rfl | rfl | rfl
  · obtain ⟨r, hr⟩ := Option.ne_none_iff_exists'.mp (hfr (Or.inl rfl))
    rw [runSwitch_brightness]; unfold caseBrightness; rw [hr]; exact ⟨_, rfl⟩
  · obtain ⟨r, hr⟩ := Option.ne_none_iff_exists'.mp (hfr (Or.inr rfl))
    rw [runSwitch_contrast]; unfold caseContrast; rw [hr]; exact ⟨_, rfl⟩
  · rw [runSwitch_noise]; exact ⟨_, rfl⟩
  · rw [runSwitch_colorJitter]; exact ⟨_, rfl⟩
  · rw [runSwitch_waveNoise]; exact ⟨_, rfl⟩
  · rw [runSwitch_fancyPca]; exact ⟨_, rfl⟩
  · obtain ⟨h1, h2⟩ := hsv rfl
    obtain ⟨r1, hr1⟩ := Option.ne_none_iff_exists'.mp h1
    obtain ⟨r2, hr2⟩ := Option.ne_none_iff_exists'.mp h2
    rw [runSwitch_hsvJitter]; unfold caseHsvJitter; rw [hr1, hr2]
    by_cases hz : (cv.drawImage img 0 0).getImageData.length = 0
    · simp only [if_pos hz]; exact ⟨_, rfl⟩
    · simp only [if_neg hz]; exact ⟨_, rfl⟩
  · obtain ⟨r, hr⟩ := Option.ne_none_iff_exists'.mp (hfa rfl)
    rw [runSwitch_intensity]; unfold caseIntensity; rw [hr]; exact ⟨_, rfl⟩
  · rw [runSwitch_edgeEnhance]; exact ⟨_, rfl⟩
  · obtain ⟨h1, h2, h3⟩ := hrh rfl
    obtain ⟨r1, hr1⟩ := Option.ne_none_iff_exists'.mp h1
    obtain ⟨r2, hr2⟩ := Option.ne_none_iff_exists'.mp h2
    obtain ⟨r3, hr3⟩ := Option.ne_none_iff_exists'.mp h3
    rw [runSwitch_randomHsv]; unfold caseRandomHsv; rw [hr1, hr2, hr3]; exact ⟨_, rfl⟩

/-- The parameters the ten pixel operators receive from the initial `params`
state hold every range field the operator reads. -/
theorem initialParams_ranges :
    (toParam ((initialParams "brightness").getD emptyConfig)).factorRange ≠ none ∧
    (toParam ((initialParams "contrast").getD emptyConfig)).factorRange ≠ none ∧
    (toParam ((initialParams "hsvJitter").getD emptyConfig)).sScale ≠ none ∧
    (toParam ((initialParams "hsvJitter").getD emptyConfig)).vScale ≠ none ∧
    (toParam ((initialParams "intensity").getD emptyConfig)).factor ≠ none ∧
    (toParam ((initialParams "randomHsv").getD emptyConfig)).hRange ≠ none ∧
    (toParam ((initialParams "randomHsv").getD emptyConfig)).sRange ≠ none ∧
    (toParam ((initialParams "randomHsv").getD emptyConfig)).vRange ≠ none := by
  refine ⟨?_, ?_, ?_, ?_, ?_, ?_, ?_, ?_⟩ <;>
    simp [toParam, initialParams, configRange, configOf, List.find?]

/-! ## Scenario values and a suspended run -/

/-- The scenario values of `brightness`: the byte `100` becomes `200` for the
range `[2, 2]` and `255` for `[3, 3]`. -/
theorem brightness_scenario :
    toUint8Clamp (min 255 (max 0 (fmul ((100 : ℕ) : ℚ) (fdiv (fadd 2 2) 2)))) = 200 ∧
    toUint8Clamp (min 255 (max 0 (fmul ((100 : ℕ) : ℚ) (fdiv (fadd 3 3) 2)))) = 255 := by
  have h1 : fadd 2 2 = 4 := by
    unfold fadd
    rw [show (2 : ℚ) + 2 = 4 from by norm_num]
    rw [toDouble_eval_pos 4 2 4503599627370496 (by norm_num) (by norm_num) (by norm_num)
      (by norm_num) (by norm_num)]
    norm_num
  have h2 : fdiv 4 2 = 2 := by
    unfold fdiv
    rw [show (4 : ℚ) / 2 = 2 from by norm_num]
    rw [toDouble_eval_pos 2 1 4503599627370496 (by norm_num) (by norm_num) (by norm_num)
      (by norm_num) (by norm_num)]
    norm_num
  have h3 : fmul (((100 : ℕ) : ℚ)) 2 = 200 := by
    unfold fmul
    rw [show ((((100 : ℕ) : ℚ)) : ℚ) * 2 = 200 from by norm_num]
    rw [toDouble_eval_pos 200 7 7036874417766400 (by norm_num) (by norm_num) (by norm_num)
      (by norm_num) (by norm_num)]
    norm_num
  have h4 : fadd 3 3 = 6 := by
    unfold fadd
    rw [show (3 : ℚ) + 3 = 6 from by norm_num]
    rw [toDouble_eval_pos 6 2 6755399441055744 (by norm_num) (by norm_num) (by norm_num)
      (by norm_num) (by norm_num)]
    norm_num
  have h5 : fdiv 6 2 = 3 := by
    unfold fdiv
    rw [show (6 : ℚ) / 2 = 3 from by norm_num]
    rw [toDouble_eval_pos 3 1 6755399441055744 (by norm_num) (by norm_num) (by norm_num)
      (by norm_num) (by norm_num)]
    norm_num
  have h6 : fmul (((100 : ℕ) : ℚ)) 3 = 300 := by
    unfold fmul
    rw [show ((((100 : ℕ) : ℚ)) : ℚ) * 3 = 300 from by norm_num]
    rw [toDouble_eval_pos 300 8 5277655813324800 (by norm_num) (by norm_num) (by norm_num)
      (by norm_num) (by norm_num)]
    norm_num
  rw [h1, h2, h3, h4, h5, h6]
  constructor
  · norm_num [toUint8Clamp]
    all_goals rfl
  · norm_num [toUint8Clamp]

/-- The run of `handleProcess` on three files of which the second does not
decode, with two operators selected: it stays suspended after the two tasks of
the first file. -/
theorem handleProcess_suspended (env : Env) (a c : FileIn) (img : Image) (name : String)
    (ha : a.image = some img) (henc : ∀ cv, env.encodes cv = true) (op1 op2 : String) :
    ∃ s, handleProcess env [a, ⟨name, none⟩, c] [op1, op2] = .pending s ∧
      s.newResults.map (fun r => (r.originalName, r.augId)) = [(a.name, op1), (a.name, op2)] ∧
      s.progressLog = [0, progressDouble 1 6, progressDouble 2 6] := by
  obtain ⟨h1, _, h3⟩ := processOps_spec env 6 a.name img henc [op1, op2]
    { newResults := [], completedTasks := 0, progressLog := [0], started := 0 }
  refine ⟨processOps env 6 a.name img [op1, op2]
    { newResults := [], completedTasks := 0, progressLog := [0], started := 0 }, ?_, ?_, ?_⟩
  · unfold handleProcess
    rw [if_neg (by simp)]
    show processFiles env 6 [op1, op2] [a, ⟨name, none⟩, c] _ = _
    unfold processFiles
    rw [ha]
    simp only []
    unfold processFiles
    rfl
  · rw [h1]; rfl
  · rw [h3]
    have hr : List.range 2 = [0, 1] := rfl
    simp [hr]

/-! ## The claims -/

/-- Claim C1: for all `r`, `g`, `b` in `[0, 1]`, `hsvToRgb` applied to the
`(h, s, v)` returned by `rgbToHsv r g b` gives back each of `r`, `g`, `b` to
within `1 / 255`. -/
theorem C1_rgb_hsv_roundtrip (r g b : ℚ) (hr : 0 ≤ r ∧ r ≤ 1) (hg : 0 ≤ g ∧ g ≤ 1)
    (hb : 0 ≤ b ∧ b ≤ 1) :
    |(hsvToRgb (rgbToHsv r g b).h (rgbToHsv r g b).s (rgbToHsv r g b).v).r - r| ≤ 1 / 255 ∧
    |(hsvToRgb (rgbToHsv r g b).h (rgbToHsv r g b).s (rgbToHsv r g b).v).g - g| ≤ 1 / 255 ∧
    |(hsvToRgb (rgbToHsv r g b).h (rgbToHsv r g b).s (rgbToHsv r g b).v).b - b| ≤ 1 / 255 := by
  rw [rgb_hsv_exact r g b hr.1 hg.1 hb.1]
  simp

theorem C1_rgb_hsv_roundtrip_witness :
    ((0 : ℚ) ≤ 1 / 2 ∧ (1 / 2 : ℚ) ≤ 1) ∧ ((0 : ℚ) ≤ 1 / 4 ∧ (1 / 4 : ℚ) ≤ 1) ∧
    ((0 : ℚ) ≤ 3 / 4 ∧ (3 / 4 : ℚ) ≤ 1) ∧
    |(hsvToRgb (rgbToHsv (1 / 2) (1 / 4) (3 / 4)).h (rgbToHsv (1 / 2) (1 / 4) (3 / 4)).s
        (rgbToHsv (1 / 2) (1 / 4) (3 / 4)).v).r - 1 / 2| ≤ 1 / 255 :=
  ⟨by norm_num, by norm_num, by norm_num,
    (C1_rgb_hsv_roundtrip (1 / 2) (1 / 4) (3 / 4) (by norm_num) (by norm_num) (by norm_num)).1⟩

/-- Claim C2, as the code has it: for all binary64 numbers `r`, `g`, `b` in
`[0, 1]`, `rgbToHsv` computed in binary64 returns `h` with `0 ≤ h ≤ 360` and
`s`, `v` both in `[0, 1]`, and `delta` is positive wherever it is divided by;
for channel values obtained from bytes (`byte / 255`, as the operators pass
them) the hue is below `360`. -/
theorem C2_rgbToHsv_range (r g b : ℚ) (hr : 0 ≤ r ∧ r ≤ 1) (hg : 0 ≤ g ∧ g ≤ 1)
    (hb : 0 ≤ b ∧ b ≤ 1) (hrd : toDouble r = r) (hgd : toDouble g = g) (hbd : toDouble b = b) :
    (0 ≤ (rgbToHsvDouble r g b).h ∧ (rgbToHsvDouble r g b).h ≤ 360) ∧
    (0 ≤ (rgbToHsvDouble r g b).s ∧ (rgbToHsvDouble r g b).s ≤ 1) ∧
    (0 ≤ (rgbToHsvDouble r g b).v ∧ (rgbToHsvDouble r g b).v ≤ 1) ∧
    (max (max r g) b ≠ min (min r g) b → 0 < fsub (max (max r g) b) (min (min r g) b)) ∧
    (∀ R G B : ℕ, R ≤ 255 → G ≤ 255 → B ≤ 255 → r = fdiv (R : ℚ) 255 → g = fdiv (G : ℚ) 255 →
      b = fdiv (B : ℚ) 255 → (rgbToHsvDouble r g b).h < 360) := by
  obtain ⟨h1, h2, h3, h4⟩ := rgbToHsvDouble_bounds r g b hr hg hb hrd hgd hbd
  refine ⟨h1, h2, h3, h4, ?_⟩
  intro R G B hR hG hB er eg eb
  rw [er, eg, eb]
  exact rgbToHsvDouble_bytes R G B hR hG hB

theorem C2_rgbToHsv_range_witness :
    ((0 : ℚ) ≤ 1 / 2 ∧ (1 / 2 : ℚ) ≤ 1) ∧ ((0 : ℚ) ≤ 1 / 4 ∧ (1 / 4 : ℚ) ≤ 1) ∧
    ((0 : ℚ) ≤ 3 / 4 ∧ (3 / 4 : ℚ) ≤ 1) ∧
    toDouble (1 / 2) = 1 / 2 ∧ toDouble (1 / 4) = 1 / 4 ∧ toDouble (3 / 4) = 3 / 4 ∧
    (0 ≤ (rgbToHsvDouble (1 / 2) (1 / 4) (3 / 4)).h ∧
      (rgbToHsvDouble (1 / 2) (1 / 4) (3 / 4)).h ≤ 360) :=
  have d1 : toDouble (1 / 2) = 1 / 2 := by
    simpa using toDouble_dyadic 1 1 (by norm_num) (by norm_num)
  have d2 : toDouble (1 / 4) = 1 / 4 := by
    have := toDouble_dyadic 1 2 (by norm_num) (by norm_num)
    norm_num at this ⊢
    exact this
  have d3 : toDouble (3 / 4) = 3 / 4 := by
    have := toDouble_dyadic 3 2 (by norm_num) (by norm_num)
    norm_num at this ⊢
    exact this
  ⟨by norm_num, by norm_num, by norm_num, d1, d2, d3,
    (C2_rgbToHsv_range (1 / 2) (1 / 4) (3 / 4) (by norm_num) (by norm_num) (by norm_num)
      d1 d2 d3).1⟩

/-- Counterexample to claim C2 as stated: `1`, `0` and `2 ^ (-70)` are binary64
numbers in `[0, 1]`, and for them `rgbToHsv` returns the hue `360`: the quotient
`-2 ^ (-70)` is absorbed when `6` is added. -/
theorem C2_rgbToHsv_range_counterexample :
    ((0 : ℚ) ≤ 1 ∧ (1 : ℚ) ≤ 1) ∧ ((0 : ℚ) ≤ 0 ∧ (0 : ℚ) ≤ 1) ∧
    ((0 : ℚ) ≤ 1 / 2 ^ 70 ∧ (1 / 2 ^ 70 : ℚ) ≤ 1) ∧
    toDouble 1 = 1 ∧ toDouble 0 = 0 ∧ toDouble (1 / 2 ^ 70) = 1 / 2 ^ 70 ∧
    (rgbToHsvDouble 1 0 (1 / 2 ^ 70)).h = 360 ∧
    ¬ ((rgbToHsvDouble 1 0 (1 / 2 ^ 70)).h < 360) := by
  have d : toDouble (1 / 2 ^ 70) = 1 / 2 ^ 70 := by
    have := toDouble_dyadic 1 70 (by norm_num) (by norm_num)
    rw [Int.cast_one] at this
    exact this
  refine ⟨by norm_num, by norm_num, by norm_num, toDouble_one, toDouble_zero, d, ?_, ?_⟩
  · rw [rgbToHsvDouble_sample]
  · rw [rgbToHsvDouble_sample]; norm_num

/-- Claim C3: for every image, every positive integer `gridSize` that divides
both the width and the height, and every sequence of random draws in `[0, 1)`,
the multiset of `gridSize` x `gridSize` pixel blocks of the `patchShuffle`
output equals the multiset of blocks of the input. -/
theorem C3_patchShuffle_preserves_blocks (M : JsMath) (u : Nat → ℚ) (img : Image)
    (param : Param) (g : Nat) (hg : 0 < g) (hgs : param.gridSize = (g : ℤ))
    (_hw : g ∣ img.width) (_hh : g ∣ img.height)
    (hl : img.data.length = img.width * img.height * 4) (hu : ∀ k, 0 ≤ u k ∧ u k < 1) :
    (↑(blocksOf (applyAugmentation M u img "patchShuffle" param).toImage g) :
      Multiset (List (List Nat))) = ↑(blocksOf img g) :=
  Multiset.coe_eq_coe.mpr (patchShuffle_blocks_perm M u img param g hg hgs hl hu)

theorem C3_patchShuffle_preserves_blocks_witness :
    0 < 1 ∧ (1 ∣ 2) ∧ (1 ∣ 1) ∧
    (⟨2, 1, [1, 2, 3, 255, 4, 5, 6, 128]⟩ : Image).data.length = 2 * 1 * 4 ∧
    (∀ k : Nat, (0 : ℚ) ≤ (fun _ => (1 / 3 : ℚ)) k ∧ (fun _ => (1 / 3 : ℚ)) k < 1) ∧
    (↑(blocksOf (applyAugmentation sampleMath (fun _ => 1 / 3)
        ⟨2, 1, [1, 2, 3, 255, 4, 5, 6, 128]⟩ "patchShuffle" { gridSize := 1 }).toImage 1) :
      Multiset (List (List Nat))) = ↑(blocksOf ⟨2, 1, [1, 2, 3, 255, 4, 5, 6, 128]⟩ 1) :=
  ⟨by decide, by decide, by decide, by decide, fun _ => by norm_num,
    C3_patchShuffle_preserves_blocks sampleMath (fun _ => 1 / 3)
      ⟨2, 1, [1, 2, 3, 255, 4, 5, 6, 128]⟩ { gridSize := 1 } 1 (by decide) rfl (by decide)
      (by decide) (by decide) (fun _ => by norm_num)⟩

/-- Claim C4: for every well-formed pixel buffer and every `factorRange = [lo, hi]`,
`brightness` replaces each R, G and B byte `v` by `v * f`, `f = (lo + hi) / 2`,
clamped to `[0, 255]` and stored in the 8-bit buffer, the sum, the quotient and
the product being those of binary64 arithmetic; a byte `100` becomes `200` for
`[2, 2]` and `255` for `[3, 3]`. -/
theorem C4_brightness_formula (M : JsMath) (u : Nat → ℚ) (img : Image) (p : Param) (lo hi : ℚ)
    (hp : p.factorRange = some (lo, hi))
    (hl : img.data.length = img.width * img.height * 4) :
    (∀ j, j < img.data.length → j % 4 ≠ 3 →
      (applyAugmentation M u img "brightness" p).data.getD j 0
        = toUint8Clamp (min 255 (max 0
            (fmul ((img.data.getD j 0 : ℕ) : ℚ) (fdiv (fadd lo hi) 2))))) ∧
    (∀ j, j < img.data.length → j % 4 ≠ 3 → img.data.getD j 0 = 100 → lo = 2 → hi = 2 →
      (applyAugmentation M u img "brightness" p).data.getD j 0 = 200) ∧
    (∀ j, j < img.data.length → j % 4 ≠ 3 → img.data.getD j 0 = 100 → lo = 3 → hi = 3 →
      (applyAugmentation M u img "brightness" p).data.getD j 0 = 255) := by
  have key : ∀ j, j < img.data.length → j % 4 ≠ 3 →
      (applyAugmentation M u img "brightness" p).data.getD j 0
        = toUint8Clamp (min 255 (max 0
            (fmul ((img.data.getD j 0 : ℕ) : ℚ) (fdiv (fadd lo hi) 2)))) := by
    intro j hj hj3
    rw [applyAugmentation_brightness M u img p lo hi hp, create_drawImage_data img hl,
      brightnessBody_eq]
    have h4 : img.data.length % 4 = 0 := by rw [hl]; omega
    rw [(forPixels_mapRgb _ img.data h4).2 j hj, if_pos hj3]
    simp only [brightnessValue, clampMinMax, rd]
  refine ⟨key, ?_, ?_⟩
  · intro j hj hj3 hv hlo hhi
    rw [key j hj hj3, hv, hlo, hhi]
    exact brightness_scenario.1
  · intro j hj hj3 hv hlo hhi
    rw [key j hj hj3, hv, hlo, hhi]
    exact brightness_scenario.2

theorem C4_brightness_formula_witness :
    (⟨1, 1, [30, 100, 100, 255]⟩ : Image).data.length = 1 * 1 * 4 ∧
    (applyAugmentation sampleMath (fun _ => 0) ⟨1, 1, [30, 100, 100, 255]⟩ "brightness"
        { factorRange := some (toDouble (1 / 10), toDouble (2 / 10)) }).data.getD 0 0 = 5 :=
  ⟨by decide,
    ((C4_brightness_formula sampleMath (fun _ => 0) ⟨1, 1, [30, 100, 100, 255]⟩
      { factorRange := some (toDouble (1 / 10), toDouble (2 / 10)) } (toDouble (1 / 10))
      (toDouble (2 / 10)) rfl (by decide)).1 0 (by decide) (by decide)).trans
      brightness_sample⟩

/-- Claim C5: for every well-formed pixel buffer and every `factorRange = [lo, hi]`,
`contrast` with `f = (lo + hi) / 2` replaces each R, G and B byte `v` by
`v * f + 128 * (1 - f)` clamped to `[0, 255]` and stored in the 8-bit buffer,
every operation being that of binary64 arithmetic. -/
theorem C5_contrast_formula (M : JsMath) (u : Nat → ℚ) (img : Image) (p : Param) (lo hi : ℚ)
    (hp : p.factorRange = some (lo, hi))
    (hl : img.data.length = img.width * img.height * 4) :
    ∀ j, j < img.data.length → j % 4 ≠ 3 →
      (applyAugmentation M u img "contrast" p).data.getD j 0
        = toUint8Clamp (min 255 (max 0 (fadd
            (fmul ((img.data.getD j 0 : ℕ) : ℚ) (fdiv (fadd lo hi) 2))
            (fmul 128 (fsub 1 (fdiv (fadd lo hi) 2)))))) := by
  intro j hj hj3
  rw [applyAugmentation_contrast M u img p lo hi hp, create_drawImage_data img hl,
    contrastBody_eq]
  have h4 : img.data.length % 4 = 0 := by rw [hl]; omega
  rw [(forPixels_mapRgb _ img.data h4).2 j hj, if_pos hj3]
  simp only [contrastValue, clampMinMax, rd]

theorem C5_contrast_formula_witness :
    (⟨1, 1, [100, 13, 200, 255]⟩ : Image).data.length = 1 * 1 * 4 ∧
    (applyAugmentation sampleMath (fun _ => 0) ⟨1, 1, [100, 13, 200, 255]⟩ "contrast"
        { factorRange := some (toDouble (1 / 10), toDouble (13 / 10)) }).data.getD 1 0 = 47 :=
  ⟨by decide,
    (C5_contrast_formula sampleMath (fun _ => 0) ⟨1, 1, [100, 13, 200, 255]⟩
      { factorRange := some (toDouble (1 / 10), toDouble (13 / 10)) } (toDouble (1 / 10))
      (toDouble (13 / 10)) rfl (by decide) 1 (by decide) (by decide)).trans contrast_sample⟩

/-- Claim C6: for each pixel-writing operator (brightness, contrast, noise,
colorJitter, fancyPca, hsvJitter, intensity, edgeEnhance, randomHsv), every
parameter value and every random draw, every entry of the output buffer of a
byte image lies in `[0, 255]`, and each number these operators compute for a
channel before storing it (the salt and pepper modes store the constants `255`
and `0`) lies in `[0, 255]`. -/
theorem C6_written_values_in_range (M : JsMath) (u : Nat → ℚ) (img : Image) (augId : String)
    (param : Param) (hi : Bytes img.data)
    (hop : augId ∈ ["brightness", "contrast", "noise", "colorJitter", "fancyPca", "hsvJitter",
      "intensity", "edgeEnhance", "randomHsv"]) :
    (∀ v ∈ (applyAugmentation M u img augId param).data, 0 ≤ v ∧ v ≤ 255) ∧
    (∀ v f : ℚ, 0 ≤ brightnessValue v f ∧ brightnessValue v f ≤ 255) ∧
    (∀ v f c : ℚ, 0 ≤ contrastValue v f c ∧ contrastValue v f c ≤ 255) ∧
    (∀ v n : ℚ, 0 ≤ noiseValue v n ∧ noiseValue v n ≤ 255) ∧
    (∀ v n : ℚ, 0 ≤ pcaValue v n ∧ pcaValue v n ≤ 255) ∧
    (∀ x : ℚ, 0 ≤ hsvValue x ∧ hsvValue x ≤ 255) ∧
    (∀ v f : ℚ, 0 ≤ intensityValue v f ∧ intensityValue v f ≤ 255) ∧
    (∀ (v : ℚ) (conv : ℤ) (s : ℚ), 0 ≤ edgeValue v conv s ∧ edgeValue v conv s ≤ 255) := by
  refine ⟨?_, fun v f => clampMinMax_range _, fun v f c => clampMinMax_range _,
    fun v n => clampMinMax_range _, fun v n => clampMaxMin_range _,
    fun x => clampMaxMin_range _, fun v f => clampMaxMin_range _,
    fun v conv s => clampMaxMin_range _⟩
  have hc := create_bytes img.width img.height
  have key : Bytes (applyAugmentation M u img augId param).data := by
    apply applyAugmentation_bytes_of M u img augId param hi
    simp only [List.mem_cons, List.mem_singleton, List.not_mem_nil, or_false] at hop
    rcases hop with rfl | rfl | rfl | rfl | rfl | rfl | rfl | rfl | rfl
    · rw [runSwitch_brightness]; exact caseBrightness_bytes _ _ _ hc hi
    · rw [runSwitch_contrast]; exact caseContrast_bytes _ _ _ hc hi
    · rw [runSwitch_noise]; exact caseNoise_bytes _ _ _ _ hc hi
    · rw [runSwitch_colorJitter]; exact caseColorJitter_bytes _ _ _ _ hc hi
    · rw [runSwitch_fancyPca]; exact caseFancyPca_bytes _ _ _ _ hc hi
    · rw [runSwitch_hsvJitter]; exact caseHsvJitter_bytes _ _ _ _ hc hi
    · rw [runSwitch_intensity]; exact caseIntensity_bytes _ _ _ _ hc hi
    · rw [runSwitch_edgeEnhance]; exact caseEdgeEnhance_bytes _ _ _ hc hi
    · rw [runSwitch_randomHsv]; exact caseRandomHsv_bytes _ _ _ _ hc hi
  intro v hv
  exact ⟨Nat.zero_le _, key v hv⟩

theorem C6_written_values_in_range_witness :
    Bytes (⟨1, 1, [100, 50, 200, 255]⟩ : Image).data ∧
    "hsvJitter" ∈ ["brightness", "contrast", "noise", "colorJitter", "fancyPca", "hsvJitter",
      "intensity", "edgeEnhance", "randomHsv"] ∧
    ∀ v ∈ (applyAugmentation sampleMath (fun _ => 1 / 2) ⟨1, 1, [100, 50, 200, 255]⟩ "hsvJitter"
      { hShift := 400, sScale := some (0, 3), vScale := some (0, 3) }).data, 0 ≤ v ∧ v ≤ 255 :=
  ⟨by unfold Bytes; decide, by decide,
    (C6_written_values_in_range sampleMath (fun _ => 1 / 2) ⟨1, 1, [100, 50, 200, 255]⟩
      "hsvJitter" { hShift := 400, sScale := some (0, 3), vScale := some (0, 3) }
      (by unfold Bytes; decide) (by decide)).1⟩

/-- Claim C7: for every input image, every operator id (an unknown id included)
and every parameter value, the canvas returned by `applyAugmentation` has the
width and the height of the input, and a pixel buffer of length
`width * height * 4`. -/
theorem C7_dimensions_preserved (M : JsMath) (u : Nat → ℚ) (img : Image) (augId : String)
    (param : Param) :
    (applyAugmentation M u img augId param).width = img.width ∧
    (applyAugmentation M u img augId param).height = img.height ∧
    (applyAugmentation M u img augId param).data.length = img.width * img.height * 4 :=
  applyAugmentation_sized M u img augId param

/-- Claim C8: for every image (buffer of length `width * height * 4`), applying
`hflip` and then `hflip` again to the result reproduces the original pixel
buffer exactly. -/
theorem C8_hflip_involution (M : JsMath) (u u' : Nat → ℚ) (img : Image) (param param' : Param)
    (hl : img.data.length = img.width * img.height * 4) :
    (applyAugmentation M u' (applyAugmentation M u img "hflip" param).toImage "hflip"
      param').data = img.data := by
  obtain ⟨hw, hh, hlen⟩ := applyAugmentation_sized M u img "hflip" param
  obtain ⟨_, _, hlen2⟩ := applyAugmentation_sized M u'
    (applyAugmentation M u img "hflip" param).toImage "hflip" param'
  have hw' : (applyAugmentation M u img "hflip" param).toImage.width = img.width := hw
  have hh' : (applyAugmentation M u img "hflip" param).toImage.height = img.height := hh
  rw [hw', hh'] at hlen2
  apply ext_getD
  · rw [hlen2, hl]
  · intro k hk
    rw [hlen2] at hk
    have hwpos : 0 < img.width := by
      rcases Nat.eq_zero_or_pos img.width with h | h
      · rw [h] at hk; simp at hk
      · exact h
    have hp : k / 4 < img.width * img.height := by omega
    have hX : k / 4 % img.width < img.width := Nat.mod_lt _ hwpos
    have hY : k / 4 / img.width < img.height := by
      rw [Nat.div_lt_iff_lt_mul hwpos]; rw [Nat.mul_comm]; exact hp
    have hc : k % 4 < 4 := Nat.mod_lt _ (by norm_num)
    rw [hflip_getD M u' _ param' k (by rw [hw', hh']; exact hk), hw']
    show (applyAugmentation M u img "hflip" param).data.getD _ 0 = _
    set X := k / 4 % img.width with hXdef
    set Y := k / 4 / img.width with hYdef
    have hq : (4 * (Y * img.width + (img.width - 1 - X)) + k % 4) / 4
        = Y * img.width + (img.width - 1 - X) := by omega
    have hq4 : (4 * (Y * img.width + (img.width - 1 - X)) + k % 4) % 4 = k % 4 := by omega
    have hlt : Y * img.width + (img.width - 1 - X) < img.width * img.height := by
      have : Y + 1 ≤ img.height := hY
      calc Y * img.width + (img.width - 1 - X) < Y * img.width + img.width := by omega
        _ = (Y + 1) * img.width := by ring
        _ ≤ img.height * img.width := Nat.mul_le_mul_right _ this
        _ = img.width * img.height := Nat.mul_comm _ _
    rw [hflip_getD M u img param _ (by omega), hq, hq4]
    have hmod : (Y * img.width + (img.width - 1 - X)) % img.width = img.width - 1 - X := by
      rw [Nat.add_comm, Nat.add_mul_mod_self_right]
      exact Nat.mod_eq_of_lt (by omega)
    have hdiv : (Y * img.width + (img.width - 1 - X)) / img.width = Y := by
      rw [Nat.add_comm, Nat.add_mul_div_right _ _ hwpos]
      rw [Nat.div_eq_of_lt (by omega)]; simp
    rw [hmod, hdiv]
    have hxx : img.width - 1 - (img.width - 1 - X) = X := by omega
    rw [hxx]
    have e : 4 * (Y * img.width + X) + k % 4 = k := by
      have := Nat.div_add_mod (k / 4) img.width
      have h2 : Y * img.width + X = k / 4 := by
        rw [Nat.mul_comm]; exact this
      rw [h2]; omega
    rw [e]

theorem C8_hflip_involution_witness :
    (⟨2, 1, [1, 2, 3, 255, 4, 5, 6, 128]⟩ : Image).data.length = 2 * 1 * 4 ∧
    (applyAugmentation sampleMath (fun _ => 0)
      (applyAugmentation sampleMath (fun _ => 0) ⟨2, 1, [1, 2, 3, 255, 4, 5, 6, 128]⟩ "hflip"
        {}).toImage "hflip" {}).data = [1, 2, 3, 255, 4, 5, 6, 128] :=
  ⟨by decide,
    C8_hflip_involution sampleMath (fun _ => 0) (fun _ => 0)
      ⟨2, 1, [1, 2, 3, 255, 4, 5, 6, 128]⟩ {} {} (by decide)⟩

/-- Claim C9: for every well-formed image, every value of the other parameters
and all draws in `[0, 1)`, `erase` with `p = 0`, `waveNoise` with
`amplitude = 0` and `edgeEnhance` with `strength = 0` each return a pixel buffer
equal to the input. -/
theorem C9_identity_parameters (M : JsMath) (u : Nat → ℚ) (img : Image) (param : Param)
    (hwf : img.WF) (hu : ∀ k, 0 ≤ u k ∧ u k < 1) :
    (param.p = 0 → (applyAugmentation M u img "erase" param).data = img.data) ∧
    (param.amplitude = 0 → (applyAugmentation M u img "waveNoise" param).data = img.data) ∧
    (param.strength = 0 → (applyAugmentation M u img "edgeEnhance" param).data = img.data) := by
  have hcopy := create_drawImage_data img hwf.1
  refine ⟨?_, ?_, ?_⟩
  · intro hp
    unfold applyAugmentation
    rw [runSwitch_erase]
    unfold caseErase
    have : ¬ u 0 < param.p := by rw [hp]; exact not_lt.mpr (hu 0).1
    simp only [if_neg this]
    exact hcopy
  · intro ha
    unfold applyAugmentation
    rw [runSwitch_waveNoise]
    show waveLoop M param.amplitude param.frequency img.width img.height
      ((Canvas.create img.width img.height).drawImage img 0 0).data
      ((Canvas.create img.width img.height).drawImage img 0 0).data = img.data
    rw [hcopy, ha, waveLoop_zero]
  · intro hs
    unfold applyAugmentation
    rw [runSwitch_edgeEnhance]
    show edgeLoop param.strength img.width img.height
      ((Canvas.create img.width img.height).drawImage img 0 0).data
      ((Canvas.create img.width img.height).drawImage img 0 0).data = img.data
    rw [hcopy, hs, edgeLoop_zero _ _ _ hwf.2]

theorem C9_identity_parameters_witness :
    (⟨3, 3, (List.range 36).map (fun k => 7 * k)⟩ : Image).WF ∧
    (∀ k : Nat, (0 : ℚ) ≤ (fun _ => (1 / 2 : ℚ)) k ∧ (fun _ => (1 / 2 : ℚ)) k < 1) ∧
    (applyAugmentation sampleMath (fun _ => 1 / 2) ⟨3, 3, (List.range 36).map (fun k => 7 * k)⟩
      "edgeEnhance" { strength := 0 }).data = (List.range 36).map (fun k => 7 * k) :=
  ⟨by decide, fun _ => by norm_num,
    (C9_identity_parameters sampleMath (fun _ => 1 / 2)
      ⟨3, 3, (List.range 36).map (fun k => 7 * k)⟩ { strength := 0 } (by decide)
      (fun _ => by norm_num)).2.2 rfl⟩

/-- Claim C10: `rotate` draws the image under a matrix whose linear part is the
rotation by the midpoint `(a + b) / 2` of `angleRange = [a, b]`, taken in
degrees, and which fixes the canvas centre; each output pixel is the source
pixel under the preimage of its centre (transparent outside the source); and
whenever the midpoint is `0` (with `cos 0 = 1`, `sin 0 = 0`) the composed
transform is the identity and the output buffer equals the input buffer. -/
theorem C10_rotate_about_centre (M : JsMath) (u : Nat → ℚ) (img : Image) (param : Param)
    (a b : ℚ) (hp : param.angleRange = some (a, b))
    (hl : img.data.length = img.width * img.height * 4) :
    ((rotateNet M img (a, b)).a = M.cos (((a + b) / 2) * M.PI / 180) ∧
      (rotateNet M img (a, b)).b = M.sin (((a + b) / 2) * M.PI / 180) ∧
      (rotateNet M img (a, b)).c = -M.sin (((a + b) / 2) * M.PI / 180) ∧
      (rotateNet M img (a, b)).d = M.cos (((a + b) / 2) * M.PI / 180)) ∧
    (rotateNet M img (a, b)).apply ((img.width : ℚ) / 2) ((img.height : ℚ) / 2)
      = ((img.width : ℚ) / 2, (img.height : ℚ) / 2) ∧
    ((rotateNet M img (a, b)).det ≠ 0 → ∀ k, k < img.width * img.height * 4 →
      (applyAugmentation M u img "rotate" param).data.getD k 0 =
        (let l := (rotateNet M img (a, b)).inverse.apply
            (((k / 4 % img.width : Nat) : ℚ) + 1 / 2) (((k / 4 / img.width : Nat) : ℚ) + 1 / 2)
         if 0 ≤ l.1 ∧ l.1 < img.width ∧ 0 ≤ l.2 ∧ l.2 < img.height then
           img.data.getD (4 * (⌊l.2⌋.toNat * img.width + ⌊l.1⌋.toNat) + k % 4) 0
         else 0)) ∧
    ((a + b) / 2 = 0 → M.cos 0 = 1 → M.sin 0 = 0 →
      rotateNet M img (a, b) = Transform.identity ∧
      (applyAugmentation M u img "rotate" param).data = img.data) := by
  refine ⟨?_, ?_, ?_, ?_⟩
  · simp [rotateNet, Transform.rotation, Transform.identity, Transform.mul, Transform.shift]
  · simp [rotateNet, Transform.rotation, Transform.identity, Transform.mul, Transform.shift,
      Transform.apply]
    constructor <;> ring
  · intro hdet k hk
    rw [rotate_data M u img param (a, b) hp]
    exact drawImage_blank_getD
      (Canvas.rotate M ((Canvas.create img.width img.height).save.translate
        ((img.width : ℚ) / 2) ((img.height : ℚ) / 2)) (((a + b) / 2) * M.PI / 180))
      (img.width * img.height * 4) rfl img (-(img.width : ℚ) / 2) (-(img.height : ℚ) / 2) hdet k
      (by simpa [Canvas.create, Canvas.translate, Canvas.save, Canvas.rotate] using hk)
  · intro hmid hcos hsin
    have hid := rotateNet_zero M img (a, b) hmid hcos hsin
    refine ⟨hid, ?_⟩
    rw [rotate_data M u img param (a, b) hp]
    exact drawImage_copy
      (Canvas.rotate M ((Canvas.create img.width img.height).save.translate
        ((img.width : ℚ) / 2) ((img.height : ℚ) / 2)) (((a + b) / 2) * M.PI / 180))
      rfl img (-(img.width : ℚ) / 2) (-(img.height : ℚ) / 2) hid rfl rfl hl

theorem C10_rotate_about_centre_witness :
    (⟨2, 1, [1, 2, 3, 255, 4, 5, 6, 128]⟩ : Image).data.length = 2 * 1 * 4 ∧
    (applyAugmentation sampleMath (fun _ => 0) ⟨2, 1, [1, 2, 3, 255, 4, 5, 6, 128]⟩ "rotate"
      { angleRange := some (-30, 30) }).data = [1, 2, 3, 255, 4, 5, 6, 128] :=
  ⟨by decide,
    ((C10_rotate_about_centre sampleMath (fun _ => 0) ⟨2, 1, [1, 2, 3, 255, 4, 5, 6, 128]⟩
      { angleRange := some (-30, 30) } (-30) 30 rfl (by decide)).2.2.2
        (by norm_num) (by norm_num [sampleMath]) (by norm_num [sampleMath])).2⟩

/-- Claim C11: for every non-empty list of `m` images and non-empty list of `n`
selected operator ids, when every image decodes and every encoding succeeds,
`handleProcess` produces exactly `m * n` results, and the result at index
`i * n + j` carries the name of image `i` and the id of operator `j`. -/
theorem C11_results_in_task_order (env : Env) (files : List FileIn) (selected : List String)
    (hf : files ≠ []) (hs : selected ≠ []) (hdec : ∀ f ∈ files, f.image ≠ none)
    (henc : ∀ c, env.encodes c = true) :
    ∃ s, handleProcess env files selected = .finished s ∧
      s.newResults.length = files.length * selected.length ∧
      ∀ i j, i < files.length → j < selected.length →
        ∃ r f, s.newResults[i * selected.length + j]? = some r ∧ files[i]? = some f ∧
          r.originalName = f.name ∧ selected[j]? = some r.augId := by
  obtain ⟨s, hrun, hkeys, _⟩ := handleProcess_spec env files selected hf hs hdec henc
  have hlen : s.newResults.length = files.length * selected.length := by
    rw [← taskPairs_length selected files, ← hkeys, List.length_map]
  refine ⟨s, hrun, hlen, ?_⟩
  intro i j hi hj
  obtain ⟨f, a, hfi, haj, hp⟩ := taskPairs_getElem selected files i j hi hj
  rw [← hkeys, List.getElem?_map] at hp
  cases hr : s.newResults[i * selected.length + j]? with
  | none => rw [hr] at hp; simp at hp
  | some r =>
    rw [hr] at hp
    simp only [Option.map_some', Option.some.injEq, Prod.mk.injEq] at hp
    exact ⟨r, f, rfl, hfi, hp.1, by rw [haj, hp.2]⟩

theorem C11_results_in_task_order_witness :
    ([⟨"a.png", some ⟨1, 1, [1, 2, 3, 255]⟩⟩, ⟨"b.png", some ⟨1, 1, [4, 5, 6, 255]⟩⟩] :
      List FileIn) ≠ [] ∧ (["hflip", "brightness", "blur"] : List String) ≠ [] ∧
    ∃ s, handleProcess sampleEnv
        [⟨"a.png", some ⟨1, 1, [1, 2, 3, 255]⟩⟩, ⟨"b.png", some ⟨1, 1, [4, 5, 6, 255]⟩⟩]
        ["hflip", "brightness", "blur"] = .finished s ∧
      s.newResults.length = 2 * 3 :=
  ⟨by simp, by simp,
    (C11_results_in_task_order sampleEnv
      [⟨"a.png", some ⟨1, 1, [1, 2, 3, 255]⟩⟩, ⟨"b.png", some ⟨1, 1, [4, 5, 6, 255]⟩⟩]
      ["hflip", "brightness", "blur"] (by simp) (by simp) (by simp) (fun _ => rfl)).imp
      (fun _ h => ⟨h.1, h.2.1⟩)⟩

/-- Claim C12: for a batch of `N ≥ 1` tasks that all complete, the `k`-th
progress value reported after the initial `0` is
`Math.round((k / N) * 100)` for `k = 1..N`, the quotient and the product being
those of binary64 arithmetic; the values are non-decreasing in `k`, each is an
integer in `[0, 100]`, and the last one is `100`; for `N = 6` the sequence is
`17, 33, 50, 67, 83, 100`, and for `N = 40` the 23rd value is `57`. -/
theorem C12_progress_sequence (env : Env) (files : List FileIn) (selected : List String)
    (hf : files ≠ []) (hs : selected ≠ []) (hdec : ∀ f ∈ files, f.image ≠ none)
    (henc : ∀ c, env.encodes c = true) :
    (handleProcess env files selected).progress
      = 0 :: (List.range (files.length * selected.length)).map
          (fun k => progressDouble (k + 1) (files.length * selected.length)) ∧
    (∀ N k k', 1 ≤ N → k ≤ k' → progressDouble k N ≤ progressDouble k' N) ∧
    (∀ N k, 1 ≤ N → k ≤ N → 0 ≤ progressDouble k N ∧ progressDouble k N ≤ 100) ∧
    (∀ N, 1 ≤ N → progressDouble N N = 100) ∧
    (List.range 6).map (fun k => progressDouble (k + 1) 6) = [17, 33, 50, 67, 83, 100] ∧
    progressDouble 23 40 = 57 := by
  obtain ⟨s, hrun, _, hlog⟩ := handleProcess_spec env files selected hf hs hdec henc
  refine ⟨?_, fun N k k' _ h => progressDouble_mono N k k' h,
    fun N k hN hk => ⟨progressDouble_nonneg N k, progressDouble_le N k hN hk⟩,
    fun N hN => progressDouble_self N hN, progressDouble_six, progressDouble_sample.1⟩
  rw [hrun]; exact hlog

theorem C12_progress_sequence_witness :
    ([⟨"a.png", some ⟨1, 1, [1, 2, 3, 255]⟩⟩, ⟨"b.png", some ⟨1, 1, [4, 5, 6, 255]⟩⟩] :
      List FileIn) ≠ [] ∧ (["hflip", "brightness", "blur"] : List String) ≠ [] ∧
    (handleProcess sampleEnv
        [⟨"a.png", some ⟨1, 1, [1, 2, 3, 255]⟩⟩, ⟨"b.png", some ⟨1, 1, [4, 5, 6, 255]⟩⟩]
        ["hflip", "brightness", "blur"]).progress
      = 0 :: (List.range (2 * 3)).map (fun k => progressDouble (k + 1) (2 * 3)) :=
  ⟨by simp, by simp,
    (C12_progress_sequence sampleEnv
      [⟨"a.png", some ⟨1, 1, [1, 2, 3, 255]⟩⟩, ⟨"b.png", some ⟨1, 1, [4, 5, 6, 255]⟩⟩]
      ["hflip", "brightness", "blur"] (by simp) (by simp) (by simp) (fun _ => rfl)).1⟩

/-- Claim C13, as the code has it: for every batch of `N ≥ 1` tasks and every
`k` with `1 ≤ k ≤ N`, the progress value `round(k / N * 100)` equals `100`
exactly when `200 * (N - k) ≤ N`; for `N < 200` that is only when `k = N`. -/
theorem C13_progress_hundred (N k : Nat) (hN : 1 ≤ N) (_hk1 : 1 ≤ k) (hk : k ≤ N) :
    (progressValue k N = 100 ↔ 200 * (N - k) ≤ N) ∧
    (N < 200 → (progressValue k N = 100 ↔ k = N)) := by
  have h := progressValue_eq_hundred_iff N k hN hk
  refine ⟨h, ?_⟩
  intro hlt
  rw [h]
  omega

theorem C13_progress_hundred_witness :
    1 ≤ 6 ∧ 1 ≤ 5 ∧ 5 ≤ 6 ∧ (progressValue 5 6 = 100 ↔ 5 = 6) :=
  ⟨by decide, by decide, by decide,
    (C13_progress_hundred 6 5 (by decide) (by decide) (by decide)).2 (by decide)⟩

/-- Counterexample to claim C13 as stated: with `N = 200` tasks the progress value
after `k = 199` completed tasks is already `100`. -/
theorem C13_progress_hundred_counterexample :
    1 ≤ 199 ∧ 199 ≤ 200 ∧ progressValue 199 200 = 100 ∧ 199 ≠ 200 := by
  refine ⟨by decide, by decide, ?_, by decide⟩
  unfold progressValue jsRound
  norm_num

/-- Claim C14: for every image (buffer of length `width * height * 4`) and every
parameter value, the operators `scale`, `blur`, `motionBlur` and `elastic` each
return a pixel buffer equal to the input, as does any operator id that is not
in the catalog. -/
theorem C14_passthrough_operators (M : JsMath) (u : Nat → ℚ) (img : Image) (augId : String)
    (param : Param) (hl : img.data.length = img.width * img.height * 4)
    (hop : augId ∈ ["scale", "blur", "motionBlur", "elastic"] ∨ augId ∉ catalogIds) :
    (applyAugmentation M u img augId param).data = img.data := by
  apply applyAugmentation_copy M u img augId param hl
  rcases hop with hop | hop
  · simp only [List.mem_cons, List.mem_singleton, List.not_mem_nil, or_false] at hop
    rcases hop with rfl | rfl | rfl | rfl
    · exact runSwitch_scale _ _ _ _ _
    · exact runSwitch_blur _ _ _ _ _
    · exact runSwitch_motionBlur _ _ _ _ _
    · exact runSwitch_elastic _ _ _ _ _
  · apply runSwitch_default
    intro id hid heq
    exact hop (heq ▸ hid)

theorem C14_passthrough_operators_witness :
    (⟨2, 1, [1, 2, 3, 255, 4, 5, 6, 128]⟩ : Image).data.length = 2 * 1 * 4 ∧
    ("sharpen" ∈ ["scale", "blur", "motionBlur", "elastic"] ∨ "sharpen" ∉ catalogIds) ∧
    (applyAugmentation sampleMath (fun _ => 0) ⟨2, 1, [1, 2, 3, 255, 4, 5, 6, 128]⟩ "sharpen"
      {}).data = [1, 2, 3, 255, 4, 5, 6, 128] :=
  ⟨by decide, Or.inr (by decide),
    C14_passthrough_operators sampleMath (fun _ => 0) ⟨2, 1, [1, 2, 3, 255, 4, 5, 6, 128]⟩
      "sharpen" {} (by decide) (Or.inr (by decide))⟩

/-- Claim C15: for every parameter set `P`, operator id `a`, field key `k` and
value `v`, `updateParam(a, k, v)` yields a parameter set in which field `k` of
operator `a` is `v`, every other field of operator `a` keeps its value from
`P`, and the configuration of every other operator is the same as in `P`. -/
theorem C15_updateParam_frame (P : ParamSet) (a k : String) (v : Value) :
    fieldOf (updateParam P a k v) a k = some v ∧
    (∀ k', k' ≠ k → fieldOf (updateParam P a k v) a k' = fieldOf P a k') ∧
    (∀ a', a' ≠ a → updateParam P a k v a' = P a') := by
  refine ⟨?_, ?_, ?_⟩
  · simp [fieldOf, updateParam]
  · intro k' hk
    simp only [fieldOf, updateParam, if_true, if_neg hk]
  · intro a' ha
    simp only [updateParam, if_neg ha]

/-- Claim C16 on the code: after the upper bound of `rotate.angleRange`,
`translate.range` or `randomHsv.sRange` has been set to `0` through its own
control, changing the lower bound resets the upper bound to the control's
default (`30`, `10`, `1`) instead of keeping `0`. -/
theorem C16_zero_bound_is_reset :
    (upperOf (rotateUpperChange initialParams 0) "rotate" "angleRange" = some 0 ∧
      upperOf (rotateLowerChange (rotateUpperChange initialParams 0) (-10)) "rotate" "angleRange"
        = some 30) ∧
    (upperOf (translateUpperChange initialParams 0) "translate" "range" = some 0 ∧
      upperOf (translateLowerChange (translateUpperChange initialParams 0) (-5)) "translate"
        "range" = some 10) ∧
    (upperOf (sRangeUpperChange initialParams 0) "randomHsv" "sRange" = some 0 ∧
      upperOf (sRangeLowerChange (sRangeUpperChange initialParams 0) (1 / 2)) "randomHsv"
        "sRange" = some 1) := by
  refine ⟨⟨?_, ?_⟩, ⟨?_, ?_⟩, ⟨?_, ?_⟩⟩
  · exact upperOf_changeUpper _ _ _ _ _
  · unfold rotateLowerChange rotateUpperChange
    rw [upperOf_changeLower, upperOf_changeUpper]
    simp [orDefault]
  · exact upperOf_changeUpper _ _ _ _ _
  · unfold translateLowerChange translateUpperChange
    rw [upperOf_changeLower, upperOf_changeUpper]
    simp [orDefault]
  · exact upperOf_changeUpper _ _ _ _ _
  · unfold sRangeLowerChange sRangeUpperChange
    rw [upperOf_changeLower, upperOf_changeUpper]
    simp [orDefault]

/-- Claim C18 on the code: of 3 images the second does not decode and 2
operators are selected; the call stays suspended on the second image after the
two tasks of the first, the progress log stops at `0, 17, 33`, and no result
list is ever published, where the claim has the batch complete with 4 entries. -/
theorem C18_decode_failure_hangs :
    (handleProcess sampleEnv
      [⟨"a.png", some ⟨1, 1, [1, 2, 3, 255]⟩⟩, ⟨"b.png", none⟩,
        ⟨"c.png", some ⟨1, 1, [7, 8, 9, 255]⟩⟩] ["hflip", "vflip"]).published = none ∧
    (handleProcess sampleEnv
      [⟨"a.png", some ⟨1, 1, [1, 2, 3, 255]⟩⟩, ⟨"b.png", none⟩,
        ⟨"c.png", some ⟨1, 1, [7, 8, 9, 255]⟩⟩] ["hflip", "vflip"]).progress = [0, 17, 33] ∧
    ∃ s, handleProcess sampleEnv
        [⟨"a.png", some ⟨1, 1, [1, 2, 3, 255]⟩⟩, ⟨"b.png", none⟩,
          ⟨"c.png", some ⟨1, 1, [7, 8, 9, 255]⟩⟩] ["hflip", "vflip"] = .pending s ∧
      s.newResults.map (fun r => (r.originalName, r.augId))
        = [("a.png", "hflip"), ("a.png", "vflip")] := by
  obtain ⟨s, hrun, hres, hlog⟩ := handleProcess_suspended sampleEnv
    ⟨"a.png", some ⟨1, 1, [1, 2, 3, 255]⟩⟩ ⟨"c.png", some ⟨1, 1, [7, 8, 9, 255]⟩⟩
    ⟨1, 1, [1, 2, 3, 255]⟩ "b.png" rfl (fun _ => rfl) "hflip" "vflip"
  have h6 := progressDouble_six
  have hr : List.range 6 = [0, 1, 2, 3, 4, 5] := rfl
  simp only [hr, List.map_cons, List.map_nil, zero_add, Nat.reduceAdd, List.cons.injEq,
    and_true] at h6
  refine ⟨by rw [hrun]; rfl, ?_, s, hrun, hres⟩
  rw [hrun]
  show s.progressLog = _
  rw [hlog, h6.1, h6.2.1]

/-- Claim C19: for every list of batch results whose operator ids are catalog
ids, with the archive library loaded, the download handler hands over one folder
per distinct operator id occurring in the results (no folder name twice, none
for an id that does not occur), and the folder of an id holds exactly the
results of that id, in the order of the results, each as one entry named
operatorId_originalName carrying the result blob. -/
theorem C19_archive_grouping (results : List BatchResult)
    (_hids : ∀ r ∈ results, r.augId ∈ catalogIds) :
    ∃ folders, handleDownloadAll true results = some folders ∧
      (folders.map (fun f => f.name)).Nodup ∧
      (∀ a, a ∈ folders.map (fun f => f.name) ↔ ∃ r ∈ results, r.augId = a) ∧
      (∀ f ∈ folders, f.entries =
        (results.filter (fun r => r.augId = f.name)).map
          (fun r => (r.augId ++ "_" ++ r.originalName, r.blob))) := by
  obtain ⟨h1, h2, h3, h4⟩ := groupResults_spec results
  refine ⟨(groupResults results).map (fun e =>
    ArchiveFolder.mk e.1 (e.2.map (fun r => (e.1 ++ "_" ++ r.originalName, r.blob)))),
    by simp only [handleDownloadAll, if_true], ?_, ?_, ?_⟩
  · rw [List.map_map]
    exact h1
  · intro a
    rw [List.map_map]
    constructor
    · intro ha
      obtain ⟨e, he, hea⟩ := List.mem_map.mp ha
      obtain ⟨x, hx, hxe⟩ := h4 e he
      exact ⟨x, hx, hxe.trans hea⟩
    · rintro ⟨r, hr, rfl⟩
      exact h3 r hr
  · intro f hf
    obtain ⟨e, he, rfl⟩ := List.mem_map.mp hf
    simp only
    rw [h2 e he]
    apply List.map_congr_left
    intro r hr
    have hk : r.augId = e.1 := by simpa using (List.mem_filter.mp hr).2
    rw [hk]

theorem C19_archive_grouping_witness :
    (∀ r ∈ ([⟨"a.png", "hflip", Canvas.create 1 1⟩, ⟨"a.png", "blur", Canvas.create 1 1⟩,
        ⟨"b.png", "hflip", Canvas.create 1 1⟩] : List BatchResult), r.augId ∈ catalogIds) ∧
    ∃ folders, handleDownloadAll true
        [⟨"a.png", "hflip", Canvas.create 1 1⟩, ⟨"a.png", "blur", Canvas.create 1 1⟩,
          ⟨"b.png", "hflip", Canvas.create 1 1⟩] = some folders ∧
      (folders.map (fun f => f.name)).Nodup :=
  ⟨by simp [catalogIds],
    (C19_archive_grouping
      [⟨"a.png", "hflip", Canvas.create 1 1⟩, ⟨"a.png", "blur", Canvas.create 1 1⟩,
        ⟨"b.png", "hflip", Canvas.create 1 1⟩] (by simp [catalogIds])).imp
      (fun _ h => ⟨h.1, h.2.1⟩)⟩

/-- Claim C20 on the code: in the mode `"s&p"` offered by the selector, `noise`
matches none of the three branches and returns the input buffer unchanged,
whatever the draws. -/
theorem C20_salt_and_pepper_is_noop (M : JsMath) (u : Nat → ℚ) (img : Image) (param : Param)
    (hl : img.data.length = img.width * img.height * 4) (hmode : param.mode = "s&p") :
    (applyAugmentation M u img "noise" param).data = img.data := by
  unfold applyAugmentation
  rw [runSwitch_noise]
  show forPixels (noiseBody param.mode u)
    ((Canvas.create img.width img.height).drawImage img 0 0).data = img.data
  rw [create_drawImage_data img hl, hmode]
  unfold forPixels
  apply forRange_inv (fun acc => acc = img.data) _ _ img.data rfl
  intro k acc _ hacc
  show noiseBody "s&p" u (4 * k) acc = img.data
  rw [hacc]
  unfold noiseBody
  rw [if_neg (by decide), if_neg (by decide), if_neg (by decide)]

theorem C20_salt_and_pepper_is_noop_witness :
    (⟨1, 1, [100, 100, 100, 255]⟩ : Image).data.length = 1 * 1 * 4 ∧
    (applyAugmentation sampleMath (fun _ => 99 / 100) ⟨1, 1, [100, 100, 100, 255]⟩ "noise"
      { mode := "s&p" }).data = [100, 100, 100, 255] :=
  ⟨by decide,
    C20_salt_and_pepper_is_noop sampleMath (fun _ => 99 / 100) ⟨1, 1, [100, 100, 100, 255]⟩
      { mode := "s&p" } (by decide) rfl⟩

/-- Claim C21 on the code: `hsvJitter` draws its saturation and value factors
inside the pixel loop. With the initial parameters and the draws `0, 0` for the
first pixel and `1/2, 1/2` for the second, two equal input pixels
`(200, 100, 50, 255)` come back as `(160, 112, 64, 255)` (factors `0.8`) and
`(200, 125, 50, 255)` (factors `1.0`). -/
theorem C21_factors_drawn_per_pixel :
    (applyAugmentation sampleMath (fun k => if k < 2 then 0 else 1 / 2)
      ⟨2, 1, [200, 100, 50, 255, 200, 100, 50, 255]⟩ "hsvJitter"
      { hShift := 10, sScale := some (8 / 10, 12 / 10), vScale := some (8 / 10, 12 / 10) }).data
      = [160, 112, 64, 255, 200, 125, 50, 255] := by
  rw [hsvJitter_two_pixels sampleMath _ [200, 100, 50, 255, 200, 100, 50, 255] rfl _
    (8 / 10, 12 / 10) (8 / 10, 12 / 10) rfl rfl]
  show hsvJitterBody 10 (8 / 10, 12 / 10) (8 / 10, 12 / 10) _ 4
    (hsvJitterBody 10 (8 / 10, 12 / 10) (8 / 10, 12 / 10) _ 0 _) = _
  rw [hsvJitter_pixel_low, hsvJitter_pixel_high]

/-- Claim C22, as the code has it: for every pixel hue `h` in `[0, 360)` and every
`hShift`, the hue `hsvJitter` hands to `hsvToRgb` is congruent to `h + hShift`
modulo 360 and has the sign of `h + hShift`: it lies in `[0, 360)` when
`h + hShift ≥ 0`, in particular for every `hShift ≥ 0`, and in `(-360, 0]` when
`h + hShift < 0`. -/
theorem C22_hue_remainder (h hShift : ℚ) (hh : 0 ≤ h ∧ h < 360) :
    (∃ k : ℤ, h + hShift = hsvJitterHue h hShift + 360 * (k : ℚ)) ∧
    (0 ≤ h + hShift → 0 ≤ hsvJitterHue h hShift ∧ hsvJitterHue h hShift < 360) ∧
    (0 ≤ hShift → 0 ≤ hsvJitterHue h hShift ∧ hsvJitterHue h hShift < 360) ∧
    (h + hShift < 0 → -360 < hsvJitterHue h hShift ∧ hsvJitterHue h hShift ≤ 0) :=
  ⟨jsRem_congr _, jsRem_nonneg _, fun h0 => jsRem_nonneg _ (add_nonneg hh.1 h0), jsRem_neg _⟩

theorem C22_hue_remainder_witness :
    (0 ≤ (350 : ℚ) ∧ (350 : ℚ) < 360) ∧
    (0 ≤ (20 : ℚ) → 0 ≤ hsvJitterHue 350 20 ∧ hsvJitterHue 350 20 < 360) :=
  ⟨by norm_num, (C22_hue_remainder 350 20 (by norm_num)).2.2.1⟩

/-- Counterexample to claim C22 as stated: a pure red pixel has hue `0`, and with
`hShift = -20` the hue handed to `hsvToRgb` is `-20`, outside `[0, 360)`;
`hsvToRgb` then returns black. -/
theorem C22_hue_remainder_counterexample :
    (rgbToHsv 1 0 0).h = 0 ∧ hsvJitterHue 0 (-20) = -20 ∧
    ¬ (0 ≤ hsvJitterHue 0 (-20) ∧ hsvJitterHue 0 (-20) < 360) ∧
    hsvToRgb (-20) 1 1 = { r := 0, g := 0, b := 0 } := by
  have e : hsvJitterHue 0 (-20) = -20 := by
    unfold hsvJitterHue jsRem
    norm_num
  refine ⟨by norm_num [rgbToHsv], e, ?_, ?_⟩
  · rw [e]; norm_num
  · have hf : ⌊(-20 : ℚ) / 60⌋ = -1 := by
      rw [Int.floor_eq_iff]; norm_num
    unfold hsvToRgb
    simp only [hf]
    have ht : Int.tmod (-1) 6 = -1 := rfl
    rw [ht]
    norm_num

/-- Claim C23, as the code has it: `brightness`, `contrast` and `rotate` use the
midpoint of their range, so the range inverted as `[high, low]` gives the same
output as `[low, high]`, for the same image and draws. -/
theorem C23_inverted_ranges (M : JsMath) (u : Nat → ℚ) (img : Image) (p : Param) (lo hi : ℚ) :
    applyAugmentation M u img "brightness" { p with factorRange := some (hi, lo) }
      = applyAugmentation M u img "brightness" { p with factorRange := some (lo, hi) } ∧
    applyAugmentation M u img "contrast" { p with factorRange := some (hi, lo) }
      = applyAugmentation M u img "contrast" { p with factorRange := some (lo, hi) } ∧
    applyAugmentation M u img "rotate" { p with angleRange := some (hi, lo) }
      = applyAugmentation M u img "rotate" { p with angleRange := some (lo, hi) } :=
  ⟨brightness_swap M u img p lo hi, contrast_swap M u img p lo hi, rotate_swap M u img p lo hi⟩

/-- Counterexample to claim C23 as stated: `intensity` on a one-pixel image
`(100, 100, 100, 255)` with the draw `0` returns `100` for the range `[1, 2]`
and `200` for the inverted range `[2, 1]`. -/
theorem C23_inverted_ranges_counterexample :
    (applyAugmentation sampleMath (fun _ => 0) ⟨1, 1, [100, 100, 100, 255]⟩ "intensity"
      { factor := some (1, 2) }).data = [100, 100, 100, 255] ∧
    (applyAugmentation sampleMath (fun _ => 0) ⟨1, 1, [100, 100, 100, 255]⟩ "intensity"
      { factor := some (2, 1) }).data = [200, 200, 200, 255] := by
  have n : ∀ k : ℕ, k < 2 ^ 53 → toDouble (k : ℚ) = k := toDouble_natCast
  have f1 : fadd 1 (fmul 0 (fsub 2 1)) = 1 := by
    unfold fadd fmul
    rw [zero_mul, toDouble_zero, add_zero, toDouble_one]
  have f2 : fadd 2 (fmul 0 (fsub 1 2)) = 2 := by
    unfold fadd fmul
    rw [zero_mul, toDouble_zero, add_zero]
    simpa using n 2 (by norm_num)
  have v1 : fmul ((100 : ℕ) : ℚ) 1 = 100 := by
    unfold fmul
    rw [mul_one]
    simpa using n 100 (by norm_num)
  have v2 : fmul ((100 : ℕ) : ℚ) 2 = 200 := by
    unfold fmul
    rw [show ((100 : ℕ) : ℚ) * 2 = ((200 : ℕ) : ℚ) from by norm_num]
    simpa using n 200 (by norm_num)
  constructor
  · rw [intensity_one_pixel _ _ _ _ _ _ _ 1 2 rfl, f1]
    simp only [intensityBody, store, rd, intensityValue, List.getD_cons_zero, List.getD_cons_succ,
      List.set_cons_zero, List.set_cons_succ, v1]
    norm_num [clampMaxMin, toUint8Clamp, v1]
    all_goals rfl
  · rw [intensity_one_pixel _ _ _ _ _ _ _ 2 1 rfl, f2]
    simp only [intensityBody, store, rd, intensityValue, List.getD_cons_zero, List.getD_cons_succ,
      List.set_cons_zero, List.set_cons_succ, v2]
    norm_num [clampMaxMin, toUint8Clamp, v2]
    all_goals rfl

/-- Claim C24: for every image (buffer of `width * height * 4` bytes) and
strength, `edgeEnhance` leaves every byte of the pixels of the first and last
row and column unchanged, and sets each R, G, B byte of every interior pixel to
`clamp(orig + L * strength)` stored as a byte, the product and the sum being
those of binary64 arithmetic, where `L` is the sum over the 3 x 3 neighbourhood
in the input weighted by the kernel, that is
`4 * centre - up - down - left - right`; an image with `width < 3` or
`height < 3` is returned unchanged. -/
theorem C24_edgeEnhance_pixels (M : JsMath) (u : Nat → ℚ) (img : Image) (param : Param)
    (hl : img.data.length = img.width * img.height * 4) :
    (∀ x y c, x < img.width → y < img.height → c < 4 →
      (x = 0 ∨ x + 1 = img.width ∨ y = 0 ∨ y + 1 = img.height) →
      (applyAugmentation M u img "edgeEnhance" param).data.getD ((y * img.width + x) * 4 + c) 0
        = img.data.getD ((y * img.width + x) * 4 + c) 0) ∧
    (∀ x y c, 1 ≤ x → x + 1 < img.width → 1 ≤ y → y + 1 < img.height → c < 3 →
      (applyAugmentation M u img "edgeEnhance" param).data.getD ((y * img.width + x) * 4 + c) 0
        = toUint8Clamp (clampMaxMin
            (fadd ((img.data.getD ((y * img.width + x) * 4 + c) 0 : Nat) : ℚ)
              (fmul ((convolve img.width img.data x y c : ℤ) : ℚ) param.strength))) ∧
      convolve img.width img.data x y c =
        4 * (img.data.getD ((y * img.width + x) * 4 + c) 0 : ℤ)
          - (img.data.getD (((y - 1) * img.width + x) * 4 + c) 0 : ℤ)
          - (img.data.getD (((y + 1) * img.width + x) * 4 + c) 0 : ℤ)
          - (img.data.getD ((y * img.width + (x - 1)) * 4 + c) 0 : ℤ)
          - (img.data.getD ((y * img.width + (x + 1)) * 4 + c) 0 : ℤ)) ∧
    (img.width < 3 ∨ img.height < 3 →
      (applyAugmentation M u img "edgeEnhance" param).data = img.data) := by
  rw [edgeEnhance_data M u img param hl]
  obtain ⟨hlen, hin, hout⟩ :=
    edgeLoop_regions param.strength img.width img.height img.data img.data
  refine ⟨?_, ?_, ?_⟩
  · intro x y c hx hy hc hborder
    apply hout
    rintro yy hyy ⟨xx, hxx, hq, _⟩
    have hk4 : ((y * img.width + x) * 4 + c) / 4 = y * img.width + x := by omega
    rw [hk4] at hq
    obtain ⟨h1, h2⟩ := cell_unique img.width x y (xx + 1) (yy + 1) hx (by omega) hq
    omega
  · intro x y c hx1 hx2 hy1 hy2 hc
    refine ⟨?_, convolve_eq _ _ _ _ _⟩
    have hk4 : ((y * img.width + x) * 4 + c) / 4 = y * img.width + x := by omega
    have hkm : ((y * img.width + x) * 4 + c) % 4 = c := by omega
    have hklt : (y * img.width + x) * 4 + c < img.data.length := by
      rw [hl]
      have h1 : y * img.width + x < (y + 1) * img.width := by
        rw [Nat.succ_mul]; omega
      have h2 : (y + 1) * img.width ≤ img.height * img.width :=
        Nat.mul_le_mul_right _ (by omega)
      have h3 : img.width * img.height = img.height * img.width := Nat.mul_comm _ _
      omega
    rw [hin _ hklt ⟨y - 1, by omega, x - 1, by omega, by
      rw [hk4]
      have e1 : y - 1 + 1 = y := by omega
      have e2 : x - 1 + 1 = x := by omega
      rw [e1, e2], by omega⟩]
    rw [hk4, hkm, cell_mod _ _ _ (by omega), cell_div _ _ _ (by omega)]
    rfl
  · intro hsmall
    apply ext_getD _ _ hlen
    intro k _
    apply hout
    rintro yy hyy ⟨xx, hxx, _, _⟩
    omega

theorem C24_edgeEnhance_pixels_witness :
    (⟨3, 3, [10, 10, 10, 255, 43, 43, 43, 255, 10, 10, 10, 255,
             43, 43, 43, 255, 32, 32, 32, 255, 44, 44, 44, 255,
             10, 10, 10, 255, 43, 43, 43, 255, 10, 10, 10, 255]⟩ : Image).data.length = 3 * 3 * 4 ∧
    (applyAugmentation sampleMath (fun _ => 0)
      ⟨3, 3, [10, 10, 10, 255, 43, 43, 43, 255, 10, 10, 10, 255,
              43, 43, 43, 255, 32, 32, 32, 255, 44, 44, 44, 255,
              10, 10, 10, 255, 43, 43, 43, 255, 10, 10, 10, 255]⟩ "edgeEnhance"
      { strength := toDouble (7 / 10) }).data.getD ((1 * 3 + 1) * 4 + 0) 0
      = 1 :=
  ⟨by decide,
    (((C24_edgeEnhance_pixels sampleMath (fun _ => 0)
      ⟨3, 3, [10, 10, 10, 255, 43, 43, 43, 255, 10, 10, 10, 255,
              43, 43, 43, 255, 32, 32, 32, 255, 44, 44, 44, 255,
              10, 10, 10, 255, 43, 43, 43, 255, 10, 10, 10, 255]⟩
      { strength := toDouble (7 / 10) }
      (by decide)).2.1 1 1 0 (by decide) (by decide) (by decide) (by decide) (by decide)).1).trans
      edge_sample_value⟩

/-- Claim C25, as the code has it: whenever `erase` fills a rectangle, for every
parameter value, every value `Math.sqrt` returns and draws in `[0, 1)`, the
rectangle handed to `fillRect` lies inside the canvas (`0 ≤ x`,
`x + width ≤ canvas width`, `0 ≤ y`, `y + height ≤ canvas height`); its height
is the value of `Math.sqrt(area * aspect)` and its width is `area / height`, for
the drawn `area` and `aspect`. -/
theorem C25_erase_rectangle (M : JsMath) (u : Nat → ℚ) (cv : Canvas) (img : Image)
    (param : Param) (x y w h : ℚ) (hu : ∀ k, 0 ≤ u k ∧ u k < 1)
    (hrect : eraseRect M u cv.width cv.height param = some (x, y, w, h)) :
    caseErase M u cv img param = .done ((cv.drawImage img 0 0).fillRectBlack x y w h) ∧
    (0 ≤ x ∧ x + w ≤ (cv.width : ℚ) ∧ 0 ≤ y ∧ y + h ≤ (cv.height : ℚ)) ∧
    h = M.sqrt ((cv.width : ℚ) * (cv.height : ℚ) * (param.sl + u 1 * (param.sh - param.sl))
        * (param.r1 + u 2 * (1 / param.r1 - param.r1))) ∧
    w = (cv.width : ℚ) * (cv.height : ℚ) * (param.sl + u 1 * (param.sh - param.sl)) / h := by
  obtain ⟨hin, hh, hw, _, _⟩ := eraseRect_inside M u cv.width cv.height param x y w h hu hrect
  exact ⟨by rw [caseErase_eq_rect, hrect], hin, hh, hw⟩

theorem C25_erase_rectangle_witness :
    (∀ k, 0 ≤ eraseDraws k ∧ eraseDraws k < 1) ∧
    eraseRect rootMath eraseDraws (Canvas.create 100 100).width (Canvas.create 100 100).height
      eraseDefaults
      = some (1 / 2 * (100 - 3050 / sqrtSample), 1 / 2 * (100 - sqrtSample), 3050 / sqrtSample,
          sqrtSample) ∧
    (0 ≤ 1 / 2 * (100 - 3050 / sqrtSample) ∧
      1 / 2 * (100 - 3050 / sqrtSample) + 3050 / sqrtSample
        ≤ ((Canvas.create 100 100).width : ℚ) ∧
      0 ≤ 1 / 2 * (100 - sqrtSample) ∧
      1 / 2 * (100 - sqrtSample) + sqrtSample ≤ ((Canvas.create 100 100).height : ℚ)) :=
  ⟨eraseDraws_range, eraseRect_sample,
    (C25_erase_rectangle rootMath eraseDraws (Canvas.create 100 100)
      ⟨100, 100, List.replicate 40000 0⟩ eraseDefaults _ _ _ _ eraseDraws_range
      eraseRect_sample).2.1⟩

/-- Counterexample to claim C25 as stated: on a canvas of `100` x `100` pixels,
with the default parameters (`0 < sl ≤ sh`, `0 < r1 ≤ 1`), the area draw `3 / 4`
and the aspect draw `1 / 2`, the drawn aspect ratio is `109 / 60` and the
argument of `Math.sqrt` is `33245 / 6`; with the binary64 root a rectangle is
filled whose height / width is not `109 / 60`, and whatever `Math.sqrt` returns
no filled rectangle has height / width equal to `109 / 60`. -/
theorem C25_erase_rectangle_counterexample :
    (0 < eraseDefaults.sl ∧ eraseDefaults.sl ≤ eraseDefaults.sh) ∧
    (0 < eraseDefaults.r1 ∧ eraseDefaults.r1 ≤ 1) ∧
    (∀ k, 0 ≤ eraseDraws k ∧ eraseDraws k < 1) ∧
    eraseDefaults.r1 + eraseDraws 2 * (1 / eraseDefaults.r1 - eraseDefaults.r1) = 109 / 60 ∧
    eraseRect rootMath eraseDraws 100 100 eraseDefaults
      = some (1 / 2 * (100 - 3050 / sqrtSample), 1 / 2 * (100 - sqrtSample), 3050 / sqrtSample,
          sqrtSample) ∧
    sqrtSample / (3050 / sqrtSample) ≠ 109 / 60 ∧
    ¬ ∃ (M : JsMath) (x y w h : ℚ),
      eraseRect M eraseDraws 100 100 eraseDefaults = some (x, y, w, h) ∧ h / w = 109 / 60 := by
  have f := eraseDefaults_fields
  refine ⟨by rw [f.2.1, f.2.2.1]; norm_num, by rw [f.2.2.2]; norm_num, eraseDraws_range, ?_,
    eraseRect_sample, ?_, ?_⟩
  · have e2 : eraseDraws 2 = 1 / 2 := rfl
    rw [f.2.2.2, e2]; norm_num
  · exact eraseRect_ratio_sample rootMath _ _ _ _ eraseRect_sample
  · rintro ⟨M, x, y, w, h, hrect, hq⟩
    exact eraseRect_ratio_sample M x y w h hrect hq

/-- Claim C26: for every image (buffer of `width * height * 4` bytes), amplitudes
and draws `u1`, `u2`, `u3`, the output of `colorJitter` equals applying to each
R, G, B byte first the brightness step `clamp(v * (1 + (2*u1 - 1) * brightness))`
stored as a byte, then the contrast step `clamp(w * c + 128 * (1 - c))` with
`c = 1 + (2*u2 - 1) * contrast`, every operation being that of binary64
arithmetic and alpha kept; the output does not depend on the saturation
amplitude or on `u3`. -/
theorem C26_colorJitter_refines (M : JsMath) (u : Nat → ℚ) (img : Image) (param : Param)
    (hl : img.data.length = img.width * img.height * 4) :
    (applyAugmentation M u img "colorJitter" param).data
      = colorJitterSpec param.brightness param.contrast (u 0) (u 1) img.data ∧
    (∀ (s : ℚ) (u' : Nat → ℚ), u' 0 = u 0 → u' 1 = u 1 →
      applyAugmentation M u' img "colorJitter" { param with saturation := s }
        = applyAugmentation M u img "colorJitter" param) :=
  ⟨colorJitter_data M u img param hl,
    fun _ u' h0 h1 => colorJitter_reads M M u u' img param _ rfl rfl h0 h1⟩

theorem C26_colorJitter_refines_witness :
    (⟨1, 1, [13, 100, 200, 128]⟩ : Image).data.length = 1 * 1 * 4 ∧
    (applyAugmentation sampleMath (fun k => if k = 0 then 0 else 3 / 4)
      ⟨1, 1, [13, 100, 200, 128]⟩ "colorJitter"
      { brightness := 0, contrast := toDouble (2 / 10), saturation := toDouble (2 / 10) }).data
      = [1, 97, 207, 128] :=
  ⟨by decide,
    (C26_colorJitter_refines sampleMath (fun k => if k = 0 then 0 else 3 / 4)
      ⟨1, 1, [13, 100, 200, 128]⟩
      { brightness := 0, contrast := toDouble (2 / 10), saturation := toDouble (2 / 10) }
      (by decide)).1.trans colorJitterSpec_sample⟩

/-- Claim C27: for a list of `n` distinct blocks, the shuffle loop of
`patchShuffle` (for `i` from `n - 1` down to `1`, swap positions `i` and
`j_i = floor(u_i * (i + 1))`, which lies in `0..i`) always returns an ordering
of the blocks, and every ordering is produced by exactly one sequence of swap
indices: draws in `[0, 1)` produce the ordering exactly when their swap indices
are that sequence, and some draws do. -/
theorem C27_shuffle_bijection (ps : List Patch) (hnd : ps.Nodup) :
    (∀ u : Nat → ℚ, (∀ k, 0 ≤ u k ∧ u k < 1) →
      (shufflePatches u ps).Perm ps ∧
      ∀ t, t < ps.length - 1 → swapIndex (u t) (ps.length - 1 - t) ≤ ps.length - 1 - t) ∧
    (∀ q : List Patch, q.Perm ps →
      ∃ js : Nat → Nat, (∀ t, t < ps.length - 1 → js t ≤ ps.length - 1 - t) ∧
        (∀ u : Nat → ℚ, (∀ k, 0 ≤ u k ∧ u k < 1) →
          (shufflePatches u ps = q ↔
            ∀ t, t < ps.length - 1 → swapIndex (u t) (ps.length - 1 - t) = js t)) ∧
        (∃ u : Nat → ℚ, (∀ k, 0 ≤ u k ∧ u k < 1) ∧ shufflePatches u ps = q)) := by
  constructor
  · intro u hu
    exact ⟨shufflePatches_perm u ps hu, fun t _ => swapIndex_le _ _ (hu t)⟩
  · intro q hq
    obtain ⟨js, hv, hs, huniq⟩ := shuffleWith_bijective ps.length ps rfl hnd q hq
    have hiff : ∀ u : Nat → ℚ, (∀ k, 0 ≤ u k ∧ u k < 1) →
        (shufflePatches u ps = q ↔
          ∀ t, t < ps.length - 1 → swapIndex (u t) (ps.length - 1 - t) = js t) := by
      intro u hu
      rw [shufflePatches_eq_shuffleWith]
      constructor
      · intro h t ht
        exact huniq (fun t => swapIndex (u t) (ps.length - 1 - t))
          (fun t _ => swapIndex_le _ _ (hu t)) h t ht
      · intro h
        rw [shuffleWith_congr _ js ps h]
        exact hs
    refine ⟨js, hv, hiff, ?_⟩
    have hu0 : ∀ k,
        0 ≤ (js k : ℚ) / (((ps.length - 1 - k : Nat) : ℚ) + 1)
          * (if k < ps.length - 1 then 1 else 0) ∧
        (js k : ℚ) / (((ps.length - 1 - k : Nat) : ℚ) + 1)
          * (if k < ps.length - 1 then 1 else 0) < 1 := by
      intro k
      by_cases hk : k < ps.length - 1
      · rw [if_pos hk, mul_one]
        exact (swapIndex_div (js k) (ps.length - 1 - k) (hv k hk)).1
      · rw [if_neg hk, mul_zero]
        norm_num
    refine ⟨fun k => (js k : ℚ) / (((ps.length - 1 - k : Nat) : ℚ) + 1)
      * (if k < ps.length - 1 then 1 else 0), hu0, ?_⟩
    rw [hiff _ hu0]
    intro t ht
    simp only [if_pos ht, mul_one]
    exact (swapIndex_div (js t) (ps.length - 1 - t) (hv t ht)).2

theorem C27_shuffle_bijection_witness :
    ([⟨[], 0, 0⟩, ⟨[], 0, 1⟩, ⟨[], 0, 2⟩] : List Patch).Nodup ∧
    ∃ u : Nat → ℚ, (∀ k, 0 ≤ u k ∧ u k < 1) ∧
      shufflePatches u [⟨[], 0, 0⟩, ⟨[], 0, 1⟩, ⟨[], 0, 2⟩]
        = [⟨[], 0, 2⟩, ⟨[], 0, 0⟩, ⟨[], 0, 1⟩] := by
  refine ⟨by decide, ?_⟩
  obtain ⟨_, _, _, h⟩ := (C27_shuffle_bijection [⟨[], 0, 0⟩, ⟨[], 0, 1⟩, ⟨[], 0, 2⟩]
    (by decide)).2 [⟨[], 0, 2⟩, ⟨[], 0, 0⟩, ⟨[], 0, 1⟩] (by decide)
  exact h

/-- Claim C28: for every image (buffer of `width * height * 4` bytes), every
draw and every parameter object that holds the range fields the operator reads,
`brightness`, `contrast`, `noise`, `colorJitter`, `waveNoise`, `fancyPca`,
`hsvJitter`, `intensity`, `edgeEnhance` and `randomHsv` return every alpha byte
equal to its input value. -/
theorem C28_alpha_preserved (M : JsMath) (u : Nat → ℚ) (img : Image) (augId : String)
    (param : Param) (hl : img.data.length = img.width * img.height * 4)
    (hop : augId ∈ ["brightness", "contrast", "noise", "colorJitter", "waveNoise", "fancyPca",
      "hsvJitter", "intensity", "edgeEnhance", "randomHsv"])
    (hfr : augId = "brightness" ∨ augId = "contrast" → param.factorRange ≠ none)
    (hsv : augId = "hsvJitter" → param.sScale ≠ none ∧ param.vScale ≠ none)
    (hfa : augId = "intensity" → param.factor ≠ none)
    (hrh : augId = "randomHsv" →
      param.hRange ≠ none ∧ param.sRange ≠ none ∧ param.vRange ≠ none) :
    ∀ k, k % 4 = 3 →
      (applyAugmentation M u img augId param).data.getD k 0 = img.data.getD k 0 := by
  intro k hk
  obtain ⟨c, hc⟩ := pixelOps_done M u (Canvas.create img.width img.height) img augId param hop
    hfr hsv hfa hrh
  have happ : applyAugmentation M u img augId param = c := by
    unfold applyAugmentation
    rw [hc]
  rw [happ]
  exact pixelOps_keep_alpha M u img augId param c hl hop hc k hk

theorem C28_alpha_preserved_witness :
    (⟨1, 1, [10, 20, 30, 100]⟩ : Image).data.length = 1 * 1 * 4 ∧
    "intensity" ∈ ["brightness", "contrast", "noise", "colorJitter", "waveNoise", "fancyPca",
      "hsvJitter", "intensity", "edgeEnhance", "randomHsv"] ∧
    (toParam ((initialParams "intensity").getD emptyConfig)).factor ≠ none ∧
    (applyAugmentation sampleMath (fun _ => 1 / 2) ⟨1, 1, [10, 20, 30, 100]⟩ "intensity"
      (toParam ((initialParams "intensity").getD emptyConfig))).data.getD 3 0 = 100 :=
  ⟨by decide, by decide, initialParams_ranges.2.2.2.2.1,
    C28_alpha_preserved sampleMath (fun _ => 1 / 2) ⟨1, 1, [10, 20, 30, 100]⟩ "intensity"
      (toParam ((initialParams "intensity").getD emptyConfig)) (by decide) (by decide)
      (fun h => absurd h (by decide)) (fun h => absurd h (by decide))
      (fun _ => initialParams_ranges.2.2.2.2.1) (fun h => absurd h (by decide)) 3 rfl⟩

/-- Claim C29: starting from the empty selection, after any sequence of toggles
the selection contains no id twice; a toggle of `id` flips whether `id` is
selected, appends a newly selected `id` at the end, and leaves the membership
and the relative order of every other id unchanged. -/
theorem C29_toggle_selection :
    (∀ ids : List String, (selectionAfter ids).Nodup) ∧
    (∀ (prev : List String) (id : String), id ∈ toggleAugmentation prev id ↔ id ∉ prev) ∧
    (∀ (prev : List String) (id : String), id ∉ prev → toggleAugmentation prev id = prev ++ [id]) ∧
    (∀ (prev : List String) (id other : String), other ≠ id →
      (other ∈ toggleAugmentation prev id ↔ other ∈ prev)) ∧
    (∀ (prev : List String) (id : String),
      (toggleAugmentation prev id).filter (fun item => item ≠ id)
        = prev.filter (fun item => item ≠ id)) := by
  refine ⟨selectionAfter_nodup, toggleAugmentation_mem_self, ?_, toggleAugmentation_mem_other,
    toggleAugmentation_others⟩
  intro prev id h
  unfold toggleAugmentation
  rw [if_neg h]

/-- Claim C30: if the input files have pairwise distinct names and the selected
operator ids are pairwise distinct catalog ids, then for the results a run of
`handleProcess` publishes, the archive paths (folder `operatorId`, filename
`operatorId_originalName`) that `handleDownloadAll` hands to the archive writer
are pairwise distinct, and they are exactly the paths of the results. -/
theorem C30_archive_paths_distinct (env : Env) (files : List FileIn) (selected : List String)
    (rs : List BatchResult) (hn : (files.map (fun f => f.name)).Nodup) (hs : selected.Nodup)
    (_hcat : ∀ a ∈ selected, a ∈ catalogIds)
    (hrun : (handleProcess env files selected).published = some rs) :
    ∃ folders, handleDownloadAll true rs = some folders ∧
      (archivePaths folders).Nodup ∧
      (rs.map pathOf).Nodup ∧
      (∀ p, p ∈ archivePaths folders ↔ ∃ r ∈ rs, pathOf r = p) := by
  have hkeys : (rs.map (fun r => (r.originalName, r.augId))).Nodup := by
    unfold handleProcess at hrun
    split at hrun
    · cases hrun
    · cases hfin : processFiles env (files.length * selected.length) selected files
          { newResults := [], completedTasks := 0, progressLog := [0], started := 0 } with
      | alerted => rw [hfin] at hrun; cases hrun
      | pending s => rw [hfin] at hrun; cases hrun
      | finished s =>
        rw [hfin] at hrun
        have hrs : s.newResults = rs := by
          have : some s.newResults = some rs := hrun
          injection this
        obtain ⟨l, hl, hk⟩ := processFiles_keys env _ selected files _ s hfin
        rw [← hrs, hk]
        simp only [List.map_nil, List.nil_append]
        exact (taskPairs_nodup files selected hn hs).sublist hl
  have hp := map_pathOf_nodup rs hkeys
  refine ⟨(groupResults rs).map (fun e =>
    ArchiveFolder.mk e.1 (e.2.map (fun r => (e.1 ++ "_" ++ r.originalName, r.blob)))),
    by simp only [handleDownloadAll, if_true], ?_, hp, ?_⟩
  · exact archivePaths_nodup rs _ (by simp only [handleDownloadAll, if_true]) hp
  · exact archivePaths_mem rs _ (by simp only [handleDownloadAll, if_true])

theorem C30_archive_paths_distinct_witness :
    (([⟨"a.png", some ⟨1, 1, [1, 2, 3, 255]⟩⟩, ⟨"b.png", some ⟨1, 1, [4, 5, 6, 255]⟩⟩] :
      List FileIn).map (fun f => f.name)).Nodup ∧
    (["hflip", "blur"] : List String).Nodup ∧
    ∃ rs, (handleProcess sampleEnv
        [⟨"a.png", some ⟨1, 1, [1, 2, 3, 255]⟩⟩, ⟨"b.png", some ⟨1, 1, [4, 5, 6, 255]⟩⟩]
        ["hflip", "blur"]).published = some rs ∧
      rs.map (fun r => (r.originalName, r.augId))
        = [("a.png", "hflip"), ("a.png", "blur"), ("b.png", "hflip"), ("b.png", "blur")] ∧
      ∃ folders, handleDownloadAll true rs = some folders ∧ (archivePaths folders).Nodup := by
  obtain ⟨s, hrun, hkeys, _⟩ := handleProcess_spec sampleEnv
    [⟨"a.png", some ⟨1, 1, [1, 2, 3, 255]⟩⟩, ⟨"b.png", some ⟨1, 1, [4, 5, 6, 255]⟩⟩]
    ["hflip", "blur"] (by simp) (by simp) (by simp) (fun _ => rfl)
  have hpub : (handleProcess sampleEnv
      [⟨"a.png", some ⟨1, 1, [1, 2, 3, 255]⟩⟩, ⟨"b.png", some ⟨1, 1, [4, 5, 6, 255]⟩⟩]
      ["hflip", "blur"]).published = some s.newResults := by rw [hrun]; rfl
  refine ⟨by simp, by simp, s.newResults, hpub, hkeys, ?_⟩
  exact (C30_archive_paths_distinct sampleEnv
    [⟨"a.png", some ⟨1, 1, [1, 2, 3, 255]⟩⟩, ⟨"b.png", some ⟨1, 1, [4, 5, 6, 255]⟩⟩]
    ["hflip", "blur"] s.newResults (by simp) (by simp) (by simp [catalogIds]) hpub).imp
    (fun _ h => ⟨h.1, h.2.1⟩)

end ImageAug
